import Mathlib

/-! Cuboid prediction: part structure and relation trainer.

A shallow embedding of `MeshCuboidStructure.cpp` and `MeshCuboidTrainer.cpp`.

* Real numbers (`Real`, `double`) are rationals `ℚ`. The matrix computations of the
  trainer are exact. The methods of the similarity transform, where `reset_transformation`
  tests and asserts computed values for equality, take the rounding of the arithmetic
  as a parameter `fl`: exact arithmetic is `fl = id`, and `round_double` is the rounding
  of IEEE 754 binary64.
* `assert(...)` is a failure: a function that can trip an assertion returns
  `Option`, and `none` stands for the violated assertion.
* Pointers to heap objects are replaced by the objects themselves; `delete`
  has no counterpart.
* The unsigned integer types `Label`, `LabelIndex`, `FaceIndex` and
  `SamplePointIndex` are `Nat`.
* Text files are given as the list of lines that successive `std::getline`
  calls on the file stream produce.
-/

namespace CuboidPrediction

/-! ## Data model -/

/-- The 3-vector type behind `MyMesh::Point` and `MyMesh::Normal`. -/
structure Vec3 where
  x : ℚ
  y : ℚ
  z : ℚ
deriving DecidableEq, Repr

namespace Vec3

/-- The constructor `MyMesh::Point(c)`: all three coordinates equal to `c`. -/
def splat (c : ℚ) : Vec3 := ⟨c, c, c⟩

/-- Componentwise sum, `p + q`. -/
def add (p q : Vec3) : Vec3 := ⟨p.x + q.x, p.y + q.y, p.z + q.z⟩

/-- Product with a scalar on the right, `p * s`. -/
def mul (p : Vec3) (s : ℚ) : Vec3 := ⟨p.x * s, p.y * s, p.z * s⟩

/-- Unary minus, `-p`. -/
def neg (p : Vec3) : Vec3 := ⟨-p.x, -p.y, -p.z⟩

/-- A function applied to each coordinate. -/
def map (f : ℚ → ℚ) (p : Vec3) : Vec3 := ⟨f p.x, f p.y, f p.z⟩

end Vec3

/-! ## Floating-point arithmetic -/

/-- A positive rational `m` brought into the range `2^52 ≤ m < 2^53` of a binary64
significand by doubling or halving, together with the exponent `e` of the last place:
the value is `m · 2^e` throughout. The exponent does not go below `-1074`, the last
place of the subnormal numbers. `fuel` bounds the number of steps. -/
def normalize_significand : Nat → ℚ → Int → ℚ × Int
  | 0, m, e => (m, e)
  | fuel + 1, m, e =>
    if m < 4503599627370496 then
      if -1074 < e then normalize_significand fuel (m * 2) (e - 1) else (m, e)
    else if 9007199254740992 ≤ m then normalize_significand fuel (m / 2) (e + 1)
    else (m, e)

/-- The integer nearest to a non-negative rational, a tie going to the even one. -/
def round_half_even (m : ℚ) : Int :=
  let n : Int := m.num / m.den
  let r : Int := m.num % m.den
  if 2 * r < m.den then n
  else if (m.den : Int) < 2 * r then n + 1
  else if n % 2 = 0 then n else n + 1

/-- The value `n · 2^e` for an integer exponent. -/
def scale_by_power_of_two (n : Int) (e : Int) : ℚ :=
  if 0 ≤ e then (n : ℚ) * ((2 ^ e.toNat : Nat) : ℚ) else (n : ℚ) / ((2 ^ (-e).toNat : Nat) : ℚ)

/-- Modelled from the spec: the type `Real` is declared in a header that is not among
the sources; the spec has it a `double`. The binary64 number that an arithmetic
operation with the exact result `q` stores: `q` rounded to 53 significant bits (less
for subnormal numbers), to nearest, ties to even. Overflow to infinity is not
modelled: a result beyond the largest finite number is rounded like any other. -/
def round_double (q : ℚ) : ℚ :=
  if q = 0 then 0
  else
    let r := normalize_significand 2200 |q| 0
    let v := scale_by_power_of_two (round_half_even r.1) r.2
    if 0 < q then v else -v

/-- Modelled from the spec: `MeshSamplePoint` is declared in a header that is
not among the sources. A surface sample with its source face, barycentric
coordinates, position and per-label confidence vector. -/
structure MeshSamplePoint where
  corr_fid_ : Nat
  bary_coord_ : Vec3
  point_ : Vec3
  label_index_confidence_ : List ℚ := []
deriving DecidableEq, Repr

/-- Modelled from the spec: `MeshCuboid` is declared in a header that is not
among the sources. Only what the structure code reads is kept: the label
index, the value `get_bbox_volume()` returns, the corners and centre, and the
assigned sample points (as positions in the structure's sample point list). -/
structure MeshCuboid where
  label_index_ : Nat
  bbox_volume_ : ℚ := 0
  bbox_corners_ : List Vec3 := []
  bbox_center_ : Vec3 := Vec3.splat 0
  sample_points_ : List Nat := []
deriving DecidableEq, Repr

/-- Accessor `MeshCuboid::get_label_index`. -/
def MeshCuboid.get_label_index (c : MeshCuboid) : Nat := c.label_index_

/-- Accessor `MeshCuboid::get_bbox_volume`. -/
def MeshCuboid.get_bbox_volume (c : MeshCuboid) : ℚ := c.bbox_volume_

/-- The member variables of `MeshCuboidStructure` (the mesh pointer apart). -/
structure MeshCuboidStructure where
  sample_points_ : List MeshSamplePoint := []
  labels_ : List Nat := []
  label_names_ : List String := []
  label_symmetries_ : List (List Nat) := []
  label_cuboids_ : List (List MeshCuboid) := []
  query_label_index_ : Nat := 0
  translation_ : Vec3 := Vec3.splat 0
  scale_ : ℚ := 1
deriving DecidableEq, Repr

namespace MeshCuboidStructure

/-- Inline accessor `num_labels()`: the size of `labels_`. -/
def num_labels (st : MeshCuboidStructure) : Nat := st.labels_.length

/-- Inline accessor `num_sample_points()`. -/
def num_sample_points (st : MeshCuboidStructure) : Nat := st.sample_points_.length

/-! ## The similarity transform -/

/-- Method `MeshCuboidStructure::translate`; `fl` is the rounding of the arithmetic of
`Real`. -/
def translate (fl : ℚ → ℚ) (st : MeshCuboidStructure) (v : Vec3) : MeshCuboidStructure :=
  { st with
    sample_points_ :=
      st.sample_points_.map fun sp => { sp with point_ := (sp.point_.add v).map fl }
    translation_ := (st.translation_.add v).map fl }

/-- Method `MeshCuboidStructure::scale`; `none` when `assert(_scale > 0)` fails. `fl` is
the rounding of the arithmetic of `Real`. -/
def scale (fl : ℚ → ℚ) (st : MeshCuboidStructure) (s : ℚ) : Option MeshCuboidStructure :=
  if 0 < s then
    some { st with
      sample_points_ :=
        st.sample_points_.map fun sp => { sp with point_ := (sp.point_.mul s).map fl }
      scale_ := fl (st.scale_ * s)
      translation_ := (st.translation_.mul s).map fl }
  else none

/-- Method `MeshCuboidStructure::reset_transformation`, its two closing assertions
included: `none` when `assert(translation_ == MyMesh::Point(0.0))` or
`assert(scale_ == 1.0)` fails, or the assertion of the call of `scale`. The quotient
`1.0 / scale_` is rounded by `fl` like every other result; the unary minus is exact. -/
def reset_transformation (fl : ℚ → ℚ) (st : MeshCuboidStructure) :
    Option MeshCuboidStructure :=
  let undone : Option MeshCuboidStructure :=
    if st.translation_ ≠ Vec3.splat 0 ∨ st.scale_ ≠ 1 then
      (st.scale fl (fl (1 / st.scale_))).map fun st1 => st1.translate fl st1.translation_.neg
    else some st
  undone.bind fun st2 =>
    if st2.translation_ = Vec3.splat 0 then
      if st2.scale_ = 1 then some st2 else none
    else none

/-- One call of the transform interface. -/
inductive TransformCall where
  | scale (s : ℚ)
  | translate (v : Vec3)
deriving DecidableEq, Repr

/-- Run one transform call. -/
def call (fl : ℚ → ℚ) (st : MeshCuboidStructure) : TransformCall → Option MeshCuboidStructure
  | .scale s => st.scale fl s
  | .translate v => some (st.translate fl v)

/-- Run a finite sequence of transform calls, first to last. -/
def calls (fl : ℚ → ℚ) (st : MeshCuboidStructure) :
    List TransformCall → Option MeshCuboidStructure
  | [] => some st
  | c :: cs => (st.call fl c).bind fun st1 => st1.calls fl cs

/-- The precondition of a call: a scale factor is positive. -/
def TransformCall.Admissible : TransformCall → Prop
  | .scale s => 0 < s
  | .translate _ => True

instance (c : TransformCall) : Decidable c.Admissible := by
  cases c <;> unfold TransformCall.Admissible <;> infer_instance

/-- A structure in the identity transform with two sample points. -/
def demoIdentity : MeshCuboidStructure :=
  { sample_points_ :=
      [{ corr_fid_ := 0, bary_coord_ := ⟨1, 0, 0⟩, point_ := ⟨1, 2, 3⟩ },
       { corr_fid_ := 4, bary_coord_ := ⟨0, 1, 0⟩, point_ := ⟨-1, 0, 5⟩ }] }

/-- The calls `scale(7)`, `scale(7)`: the composed scale is `49`. -/
def demoScaleCalls : List TransformCall := [.scale 7, .scale 7]

/-- The sequence `reset_transformation()`, `scale(S)`, `translate(T)` with the composed
scale `S` and translation `T` of the state it starts from. -/
def reset_then_reapply (fl : ℚ → ℚ) (st : MeshCuboidStructure) : Option MeshCuboidStructure :=
  (st.reset_transformation fl).bind fun r =>
    (r.scale fl st.scale_).map fun r1 => r1.translate fl st.translation_

end MeshCuboidStructure

/-! ## Reading text -/

/-- The call `std::getline(stream, token, delim)` on a string stream whose eof bit is not
set, the unread characters being the argument. Returns the token, the characters
left unread, and the eof bit: the characters up to the first delimiter are
extracted and the delimiter is dropped; when there is no delimiter everything is
extracted and the eof bit is set. -/
def getline (delim : Char) : List Char → List Char × List Char × Bool
  | [] => ([], [], true)
  | c :: cs =>
    if c = delim then ([], cs, false)
    else
      let r := getline delim cs
      (c :: r.1, r.2.1, r.2.2)

/-- The loop `while (!strstr.eof()) { std::getline(strstr, token, delim); ... }`
over a fresh stream on the given characters: the tokens it reads, in order. -/
def read_all_tokens (delim : Char) : Nat → List Char → List String
  | 0, _ => []
  | fuel + 1, cs =>
    let r := getline delim cs
    if r.2.2 then [String.mk r.1] else String.mk r.1 :: read_all_tokens delim fuel r.2.1

/-- The tokens of a whole line: `read_all_tokens` with as many steps as the line
can need (each step but the last consumes a delimiter). -/
def line_tokens (delim : Char) (buffer : String) : List String :=
  read_all_tokens delim (buffer.data.length + 1) buffer.data

/-- The loop `for (i = 0; i < num_tokens; ++i) { if (strstr.eof()) error;
std::getline(strstr, tokens[i], delim); }`: `none` is the error exit. -/
def read_fixed_tokens (delim : Char) : Nat → List Char → Bool → Option (List String)
  | 0, _, _ => some []
  | n + 1, cs, eof =>
    if eof then none
    else
      let r := getline delim cs
      (read_fixed_tokens delim n r.2.1 r.2.2).map fun ts => String.mk r.1 :: ts

namespace MeshCuboidStructure

/-! ## Labels -/

/-- Method `MeshCuboidStructure::clear_cuboids`. -/
def clear_cuboids (st : MeshCuboidStructure) : MeshCuboidStructure :=
  { st with label_cuboids_ := [] }

/-- Method `MeshCuboidStructure::clear_labels`. -/
def clear_labels (st : MeshCuboidStructure) : MeshCuboidStructure :=
  { st with labels_ := [], label_names_ := [], label_symmetries_ := [], query_label_index_ := 0 }

/-- The reading loop of `load_labels`: the lines still to be read, the counter
`new_label` and the structure. The result is `false` at a format error, with the
structure as it stands at that point. -/
def load_labels_loop : List String → Nat → MeshCuboidStructure → Bool × MeshCuboidStructure
  | [], _, st => (true, st)
  | buffer :: rest, new_label, st =>
    if buffer = "" then (true, st)
    else
      match read_fixed_tokens ' ' 3 buffer.data false with
      | none => (false, st)
      | some tokens =>
        if tokens.getD 1 "" ≠ "pnts" ∨ tokens.getD 2 "" ≠ "1" then (false, st)
        else
          load_labels_loop rest (new_label + 1)
            { st with
              labels_ := st.labels_ ++ [new_label]
              label_names_ := st.label_names_ ++ [tokens.getD 0 ""]
              label_symmetries_ := st.label_symmetries_ ++ [[]] }

/-- Method `MeshCuboidStructure::load_labels`. The file is `none` when it cannot be
opened, and otherwise its lines. -/
def load_labels (st : MeshCuboidStructure) (file : Option (List String)) :
    Bool × MeshCuboidStructure :=
  match file with
  | none => (false, st)
  | some lines =>
    let r := load_labels_loop lines 0 st.clear_cuboids.clear_labels
    if r.1 then (true, { r.2 with query_label_index_ := r.2.num_labels })
    else (false, r.2)

/-- Method `MeshCuboidStructure::get_label`; `none` when the assertion fails. -/
def get_label (st : MeshCuboidStructure) (label_index : Nat) : Option Nat :=
  if label_index < st.num_labels then st.labels_[label_index]? else none

/-- The search loop of `get_label_index(const std::string)` from `label_index` on,
with `fuel` indices left to visit. -/
def get_label_index_loop (names : List String) (label_name : String) :
    Nat → Nat → Option Nat
  | 0, _ => none
  | fuel + 1, label_index =>
    if names[label_index]? = some label_name then some label_index
    else get_label_index_loop names label_name fuel (label_index + 1)

/-- Method `MeshCuboidStructure::get_label_index(const std::string)`; `none` when an
assertion fails (the sizes differ, or the name is not found). -/
def get_label_index (st : MeshCuboidStructure) (label_name : String) : Option Nat :=
  if st.label_names_.length = st.num_labels then
    get_label_index_loop st.label_names_ label_name st.num_labels 0
  else none

/-- The names a labels file defines, in file order: the first token of every
line before the first empty line. -/
def file_label_names (lines : List String) : List String :=
  (lines.takeWhile fun buffer => decide (buffer ≠ "")).map fun buffer =>
    String.mk (getline ' ' buffer.data).1

/-- A labels file with two lines of the same name. -/
def demoDuplicateLabels : List String := ["leg pnts 1", "leg pnts 1", ""]

/-- A labels file with pairwise distinct names. -/
def demoLabels : List String := ["seat pnts 1", "leg pnts 1", "back pnts 1", ""]

end MeshCuboidStructure

namespace MeshCuboidStructure

/-! ## Label symmetries -/

/-- The token loop of one line of `load_label_symmetries`: every token is looked
up with `get_label_index` and the index is appended to `label_symmetry`; `none`
when an assertion fails. -/
def read_label_symmetry (st : MeshCuboidStructure) : List String → Option (List Nat)
  | [] => some []
  | token :: rest =>
    match st.get_label_index token with
    | none => none
    | some label_index =>
      if label_index < st.num_labels then
        (read_label_symmetry st rest).map fun ls => label_index :: ls
      else none

/-- The statement `label_symmetries_[label_index].push_back(n_label_index)`. -/
def push_symmetry (syms : List (List Nat)) (label_index n_label_index : Nat) :
    List (List Nat) :=
  syms.set label_index (syms.getD label_index [] ++ [n_label_index])

/-- The inner loop over `jt` for a fixed `label_index`. -/
def add_symmetries_of (label_index : Nat) (label_symmetry : List Nat)
    (syms : List (List Nat)) : List (List Nat) :=
  label_symmetry.foldl
    (fun acc n_label_index =>
      if n_label_index ≠ label_index then push_symmetry acc label_index n_label_index
      else acc)
    syms

/-- The two nested loops over `label_symmetry` that record every ordered pair of
different indices of one line. -/
def add_line_symmetries (label_symmetry : List Nat) (syms : List (List Nat)) :
    List (List Nat) :=
  label_symmetry.foldl (fun acc label_index => add_symmetries_of label_index label_symmetry acc)
    syms

/-- The reading loop of `load_label_symmetries`; `none` when an assertion fails. -/
def load_label_symmetries_loop :
    List String → MeshCuboidStructure → Option MeshCuboidStructure
  | [], st => some st
  | buffer :: rest, st =>
    if buffer = "" then some st
    else
      match st.read_label_symmetry (line_tokens ' ' buffer) with
      | none => none
      | some label_symmetry =>
        load_label_symmetries_loop rest
          { st with
            label_symmetries_ := add_line_symmetries label_symmetry st.label_symmetries_ }

/-- Method `MeshCuboidStructure::load_label_symmetries`. The file is `none` when it
cannot be opened; the result is `none` when an assertion fails. -/
def load_label_symmetries (st : MeshCuboidStructure) (file : Option (List String)) :
    Option (Bool × MeshCuboidStructure) :=
  match file with
  | none => some (false, st)
  | some lines =>
    (load_label_symmetries_loop lines
      { st with label_symmetries_ := List.replicate st.num_labels [] }).map
      fun st1 => (true, st1)

/-- The lines of a file that a reading loop with the test `buffer == ""` visits:
those before the first empty line. -/
def lines_read (lines : List String) : List String :=
  lines.takeWhile fun buffer => decide (buffer ≠ "")

/-- The labels a line names: the indices of its tokens that are label names. -/
def line_labels (st : MeshCuboidStructure) (buffer : String) : List Nat :=
  (line_tokens ' ' buffer).filterMap st.get_label_index

/-- A structure with the three labels `a`, `b`, `c` and a fourth label `d`. -/
def demoFourLabels : MeshCuboidStructure :=
  { labels_ := [0, 1, 2, 3], label_names_ := ["a", "b", "c", "d"],
    label_symmetries_ := [[], [], [], []], query_label_index_ := 4 }

/-- A symmetry file with the single group `a b c`. -/
def demoSymmetryFile : List String := ["a b c", ""]

end MeshCuboidStructure

namespace MeshCuboidStructure

/-! ## Removing symmetric cuboids -/

/-- The loop `is_label_visited[*it] = true` over a symmetry list; a write outside
the array is a failure. -/
def mark_visited : List Nat → List Bool → Option (List Bool)
  | [], is_label_visited => some is_label_visited
  | i :: rest, is_label_visited =>
    if i < is_label_visited.length then mark_visited rest (is_label_visited.set i true)
    else none

/-- The loop of `remove_symmetric_cuboids` over `label_index`, with `count`
labels still to visit. -/
def remove_symmetric_cuboids_loop (label_symmetries : List (List Nat)) :
    Nat → Nat → List Bool → List (List MeshCuboid) → Option (List (List MeshCuboid))
  | 0, _, _, label_cuboids => some label_cuboids
  | count + 1, label_index, is_label_visited, label_cuboids =>
    if is_label_visited.getD label_index false then
      remove_symmetric_cuboids_loop label_symmetries count (label_index + 1) is_label_visited
        (label_cuboids.set label_index [])
    else
      match mark_visited (label_symmetries.getD label_index [])
          (is_label_visited.set label_index true) with
      | none => none
      | some is_label_visited1 =>
        remove_symmetric_cuboids_loop label_symmetries count (label_index + 1)
          is_label_visited1 label_cuboids

/-- Method `MeshCuboidStructure::remove_symmetric_cuboids`; `none` when an assertion
fails or the visited array is written outside its bounds. -/
def remove_symmetric_cuboids (st : MeshCuboidStructure) : Option MeshCuboidStructure :=
  if st.label_symmetries_.length = st.num_labels then
    if st.label_cuboids_.length = st.num_labels then
      (remove_symmetric_cuboids_loop st.label_symmetries_ st.num_labels 0
        (List.replicate st.num_labels false) st.label_cuboids_).map
        fun label_cuboids => { st with label_cuboids_ := label_cuboids }
    else none
  else none

/-- Every index in a symmetry list is a label index. -/
def SymmetriesInRange (st : MeshCuboidStructure) : Prop :=
  ∀ l ∈ st.label_symmetries_, ∀ m ∈ l, m < st.num_labels

instance (st : MeshCuboidStructure) : Decidable st.SymmetriesInRange := by
  unfold SymmetriesInRange; infer_instance

/-- Labels `A` and `B` are symmetric to each other and to no other label: each is
the only entry of the other's symmetry list, and no third label lists either. -/
def SymmetricPair (st : MeshCuboidStructure) (A B : Nat) : Prop :=
  B ∈ st.label_symmetries_.getD A [] ∧ A ∈ st.label_symmetries_.getD B [] ∧
  (∀ m ∈ st.label_symmetries_.getD A [], m = B) ∧
  (∀ m ∈ st.label_symmetries_.getD B [], m = A) ∧
  ∀ C < st.num_labels, C ≠ A → C ≠ B →
    A ∉ st.label_symmetries_.getD C [] ∧ B ∉ st.label_symmetries_.getD C []

instance (st : MeshCuboidStructure) (A B : Nat) : Decidable (st.SymmetricPair A B) := by
  unfold SymmetricPair; infer_instance

/-- Four labels with cuboids; labels 1 and 3 are symmetric to each other, labels
0 and 2 to no label. -/
def demoSymmetricStructure : MeshCuboidStructure :=
  { labels_ := [0, 1, 2, 3], label_names_ := ["a", "b", "c", "d"],
    label_symmetries_ := [[], [3], [], [1]],
    label_cuboids_ :=
      [[{ label_index_ := 0, bbox_volume_ := 1 }],
       [{ label_index_ := 1, bbox_volume_ := 2 }, { label_index_ := 1, bbox_volume_ := 5 }],
       [{ label_index_ := 2, bbox_volume_ := 3 }],
       [{ label_index_ := 3, bbox_volume_ := 4 }]],
    query_label_index_ := 4 }

end MeshCuboidStructure

namespace MeshCuboidStructure

/-! ## The largest cuboid of each label -/

/-- The scan of one label's cuboids for the largest volume, carrying `max_volume`
and `max_volume_label_cuboid` (`none` for `NULL`); the result is `none` when a
cuboid's label index is not `label_index` (the assertion in the loop). -/
def find_max_volume (label_index : Nat) :
    List MeshCuboid → ℚ → Option MeshCuboid → Option (ℚ × Option MeshCuboid)
  | [], max_volume, max_volume_label_cuboid => some (max_volume, max_volume_label_cuboid)
  | label_cuboid :: rest, max_volume, max_volume_label_cuboid =>
    if label_cuboid.get_label_index = label_index then
      if label_cuboid.get_bbox_volume > max_volume then
        find_max_volume label_index rest label_cuboid.get_bbox_volume (some label_cuboid)
      else find_max_volume label_index rest max_volume max_volume_label_cuboid
    else none

/-- The loop of `find_the_largest_label_cuboids` over `label_index`, with `count`
labels still to visit. -/
def find_the_largest_label_cuboids_loop :
    Nat → Nat → List (List MeshCuboid) → Option (List (List MeshCuboid))
  | 0, _, label_cuboids => some label_cuboids
  | count + 1, label_index, label_cuboids =>
    if (label_cuboids.getD label_index []).length ≤ 1 then
      find_the_largest_label_cuboids_loop count (label_index + 1) label_cuboids
    else
      match find_max_volume label_index (label_cuboids.getD label_index []) (-1) none with
      | some (_, some max_volume_label_cuboid) =>
        find_the_largest_label_cuboids_loop count (label_index + 1)
          (label_cuboids.set label_index [max_volume_label_cuboid])
      | _ => none

/-- Method `MeshCuboidStructure::find_the_largest_label_cuboids`; `none` when an
assertion fails. -/
def find_the_largest_label_cuboids (st : MeshCuboidStructure) : Option MeshCuboidStructure :=
  if st.label_cuboids_.length = st.num_labels then
    (find_the_largest_label_cuboids_loop st.num_labels 0 st.label_cuboids_).map
      fun label_cuboids => { st with label_cuboids_ := label_cuboids }
  else none

/-- Every cuboid stored for a label carries that label's index and has a
non-negative volume. -/
def CuboidsWellFormed (label_cuboids : List (List MeshCuboid)) : Prop :=
  ∀ k : Nat, ∀ c ∈ label_cuboids.getD k [], c.get_label_index = k ∧ 0 ≤ c.get_bbox_volume

/-- The cuboids of a list have pairwise distinct volumes. -/
def DistinctVolumes (cuboids : List MeshCuboid) : Prop :=
  cuboids.Pairwise fun c d => c.get_bbox_volume ≠ d.get_bbox_volume

/-- What one label's list looks like before and after: an empty list stays
empty, and a non-empty one is cut down to a single original cuboid whose volume
bounds all the original volumes. -/
def LargestKept (before after : List MeshCuboid) : Prop :=
  (before = [] → after = []) ∧
  (before ≠ [] → ∃ c, after = [c] ∧ c ∈ before ∧
    ∀ d ∈ before, d.get_bbox_volume ≤ c.get_bbox_volume)

/-- Three labels: the first with three candidate cuboids of volumes 2, 7 and 5,
the second with none, the third with one. -/
def demoCandidates : MeshCuboidStructure :=
  { labels_ := [0, 1, 2], label_names_ := ["a", "b", "c"],
    label_symmetries_ := [[], [], []],
    label_cuboids_ :=
      [[{ label_index_ := 0, bbox_volume_ := 2 }, { label_index_ := 0, bbox_volume_ := 7 },
        { label_index_ := 0, bbox_volume_ := 5 }],
       [],
       [{ label_index_ := 2, bbox_volume_ := 3 }]],
    query_label_index_ := 3 }

end MeshCuboidStructure

/-! ## The relation trainer -/

/-- Modelled from the spec: `MeshCuboidFeatures` is declared in a header that is
not among the sources. A feature record is a vector of numbers, each of which may
be the not-a-number marker (`none`). -/
structure MeshCuboidFeatures where
  features_ : List (Option ℚ)
deriving DecidableEq, Repr

/-- Modelled from the spec: `MeshCuboidFeatures::has_nan`, "a feature record is
missing if it contains a not-a-number marker". -/
def MeshCuboidFeatures.has_nan (f : MeshCuboidFeatures) : Bool :=
  f.features_.any fun v => v.isNone

/-- Modelled from the spec: `MeshCuboidTransformation` is declared in a header
that is not among the sources. It is "an opaque operator mapping a foreign feature
vector into a canonical local frame", kept as the map
`get_transformed_features` applies. -/
structure MeshCuboidTransformation where
  get_transformed_features : MeshCuboidFeatures → List ℚ

/-- The member variables of `MeshCuboidTrainer`. -/
structure MeshCuboidTrainer where
  object_list_ : List String := []
  feature_list_ : List (List MeshCuboidFeatures) := []
  transformation_list_ : List (List MeshCuboidTransformation) := []

namespace MeshCuboidTrainer

/-- The statement `_cooccurrence_labels[label_index_1].push_back(label_index_2)`. -/
def push_cooccurrence (cooccurrence_labels : List (List Nat)) (label_index_1 label_index_2 : Nat) :
    List (List Nat) :=
  cooccurrence_labels.set label_index_1
    (cooccurrence_labels.getD label_index_1 [] ++ [label_index_2])

/-- The `while (true)` loop of `get_label_cooccurrences` that walks two feature
lists in lockstep until either ends and counts, in `num_objects`, the positions
at which neither record has a NaN. -/
def count_objects : List MeshCuboidFeatures → List MeshCuboidFeatures → Nat → Nat
  | f_1 :: rest_1, f_2 :: rest_2, num_objects =>
    let has_values : Bool := !f_1.has_nan && !f_2.has_nan
    count_objects rest_1 rest_2 (if has_values then num_objects + 1 else num_objects)
  | _, _, num_objects => num_objects

/-- The loop of `get_label_cooccurrences` over `label_index_2` for a fixed
`label_index_1`, with `count` labels still to visit; `none` when one of the two
size assertions fails. -/
def cooccurrences_of (t : MeshCuboidTrainer) (label_index_1 : Nat) :
    Nat → Nat → List (List Nat) → Option (List (List Nat))
  | 0, _, cooccurrence_labels => some cooccurrence_labels
  | count + 1, label_index_2, cooccurrence_labels =>
    if label_index_1 = label_index_2 then
      cooccurrences_of t label_index_1 count (label_index_2 + 1) cooccurrence_labels
    else if t.object_list_.length = (t.feature_list_.getD label_index_1 []).length then
      if t.object_list_.length = (t.feature_list_.getD label_index_2 []).length then
        let num_objects := count_objects (t.feature_list_.getD label_index_1 [])
          (t.feature_list_.getD label_index_2 []) 0
        if num_objects > 0 then
          cooccurrences_of t label_index_1 count (label_index_2 + 1)
            (push_cooccurrence cooccurrence_labels label_index_1 label_index_2)
        else cooccurrences_of t label_index_1 count (label_index_2 + 1) cooccurrence_labels
      else none
    else none

/-- The loop of `get_label_cooccurrences` over `label_index_1`, with `count`
labels still to visit. -/
def cooccurrences_from (t : MeshCuboidTrainer) :
    Nat → Nat → List (List Nat) → Option (List (List Nat))
  | 0, _, cooccurrence_labels => some cooccurrence_labels
  | count + 1, label_index_1, cooccurrence_labels =>
    match cooccurrences_of t label_index_1 t.feature_list_.length 0 cooccurrence_labels with
    | none => none
    | some cooccurrence_labels1 =>
      cooccurrences_from t count (label_index_1 + 1) cooccurrence_labels1

/-- Method `MeshCuboidTrainer::get_label_cooccurrences`; the output argument is the
result, and `none` stands for a failed assertion. -/
def get_label_cooccurrences (t : MeshCuboidTrainer) : Option (List (List Nat)) :=
  if t.transformation_list_.length = t.feature_list_.length then
    cooccurrences_from t t.feature_list_.length 0 (List.replicate t.feature_list_.length [])
  else none

/-- The loop `is_label_cooccurred[neighbor_label_index] = true` over the
co-occurrence list of the current given label, each entry asserted to be below
`num_labels`. -/
def mark_cooccurred (num_labels : Nat) : List Nat → List Bool → Option (List Bool)
  | [], is_label_cooccurred => some is_label_cooccurred
  | neighbor_label_index :: rest, is_label_cooccurred =>
    if neighbor_label_index < num_labels then
      mark_cooccurred num_labels rest (is_label_cooccurred.set neighbor_label_index true)
    else none

/-- The loop `if (!is_label_cooccurred[label_index]) is_label_missing[label_index]
= false` over `label_index`, with `count` labels still to visit. -/
def ignore_non_cooccurred (is_label_cooccurred : List Bool) :
    Nat → Nat → List Bool → List Bool
  | 0, _, is_label_missing => is_label_missing
  | count + 1, label_index, is_label_missing =>
    if !is_label_cooccurred.getD label_index false then
      ignore_non_cooccurred is_label_cooccurred count (label_index + 1)
        (is_label_missing.set label_index false)
    else
      ignore_non_cooccurred is_label_cooccurred count (label_index + 1) is_label_missing

/-- The loop of `get_missing_label_index_groups` over the given label indices. -/
def consider_given_labels (cooccurrence_labels : List (List Nat)) (num_labels : Nat) :
    List Nat → List Bool → Option (List Bool)
  | [], is_label_missing => some is_label_missing
  | curr_label_index :: rest, is_label_missing =>
    if curr_label_index < num_labels then
      match mark_cooccurred num_labels (cooccurrence_labels.getD curr_label_index [])
          ((List.replicate num_labels false).set curr_label_index true) with
      | none => none
      | some is_label_cooccurred =>
        consider_given_labels cooccurrence_labels num_labels rest
          ((ignore_non_cooccurred is_label_cooccurred num_labels 0 is_label_missing).set
            curr_label_index false)
    else none

/-- The seed search `for (; seed_label_index < num_labels; ++seed_label_index) if
(is_label_missing[seed_label_index]) break;`, with `count` labels still to visit. -/
def find_seed (is_label_missing : List Bool) : Nat → Nat → Nat
  | 0, seed_label_index => seed_label_index
  | count + 1, seed_label_index =>
    if is_label_missing.getD seed_label_index false then seed_label_index
    else find_seed is_label_missing count (seed_label_index + 1)

/-- The loop over the co-occurrence list of the label just taken off the queue:
every neighbour still flagged missing is put on the queue and unflagged. -/
def enqueue_neighbors (num_labels : Nat) :
    List Nat → List Nat → List Bool → Option (List Nat × List Bool)
  | [], queue, is_label_missing => some (queue, is_label_missing)
  | neighbor_label_index :: rest, queue, is_label_missing =>
    if neighbor_label_index < num_labels then
      if is_label_missing.getD neighbor_label_index false then
        enqueue_neighbors num_labels rest (queue ++ [neighbor_label_index])
          (is_label_missing.set neighbor_label_index false)
      else enqueue_neighbors num_labels rest queue is_label_missing
    else none

/-- The loop `while (!queue.empty())` of the clustering, run for at most `fuel`
passes; it returns the group collected and the flags. `none` is a failed
assertion or running out of fuel with a non-empty queue. -/
def collect_group (cooccurrence_labels : List (List Nat)) (num_labels : Nat) :
    Nat → List Nat → List Bool → List Nat → Option (List Nat × List Bool)
  | _, [], is_label_missing, missing_label_indices =>
    some (missing_label_indices, is_label_missing)
  | 0, _ :: _, _, _ => none
  | fuel + 1, curr_label_index :: queue, is_label_missing, missing_label_indices =>
    if curr_label_index < num_labels then
      match enqueue_neighbors num_labels (cooccurrence_labels.getD curr_label_index [])
          queue is_label_missing with
      | none => none
      | some (queue1, is_label_missing1) =>
        collect_group cooccurrence_labels num_labels fuel queue1 is_label_missing1
          (missing_label_indices ++ [curr_label_index])
    else none

/-- The outer `while (true)` loop of the clustering, run for at most `fuel` seeds;
`none` is a failed assertion or running out of fuel while a label is still
flagged. -/
def cluster_missing (cooccurrence_labels : List (List Nat)) (num_labels : Nat) :
    Nat → List Bool → List (List Nat) → Option (List (List Nat))
  | fuel, is_label_missing, missing_label_index_groups =>
    let seed_label_index := find_seed is_label_missing num_labels 0
    if seed_label_index = num_labels then some missing_label_index_groups
    else
      match fuel with
      | 0 => none
      | fuel1 + 1 =>
        match collect_group cooccurrence_labels num_labels num_labels [seed_label_index]
            (is_label_missing.set seed_label_index false) [] with
        | none => none
        | some (missing_label_indices, is_label_missing1) =>
          cluster_missing cooccurrence_labels num_labels fuel1 is_label_missing1
            (missing_label_index_groups ++ [missing_label_indices])

/-- Method `MeshCuboidTrainer::get_missing_label_index_groups`; the output argument is
the result. Both `while` loops get `num_labels` passes, which the theorems show to
be enough; `none` therefore stands for a failed assertion. -/
def get_missing_label_index_groups (t : MeshCuboidTrainer) (given_label_indices : List Nat) :
    Option (List (List Nat)) :=
  if t.transformation_list_.length = t.feature_list_.length then
    match t.get_label_cooccurrences with
    | none => none
    | some cooccurrence_labels =>
      if cooccurrence_labels.length = t.feature_list_.length then
        match consider_given_labels cooccurrence_labels t.feature_list_.length
            given_label_indices (List.replicate t.feature_list_.length true) with
        | none => none
        | some is_label_missing =>
          cluster_missing cooccurrence_labels t.feature_list_.length t.feature_list_.length
            is_label_missing []
      else none
  else none

/-- A feature record without NaN. -/
def present : MeshCuboidFeatures := { features_ := [some 1, some 2] }

/-- A feature record with a NaN. -/
def absent : MeshCuboidFeatures := { features_ := [some 1, none] }

/-- A transformation that returns the values of the record, NaN read as 0. -/
def demoTransformation : MeshCuboidTransformation :=
  { get_transformed_features := fun f => f.features_.map fun v => v.getD 0 }

/-- A corpus of two objects and four labels: the first object has labels 0 and
1, the second has labels 2 and 3. -/
def demoCorpus : MeshCuboidTrainer :=
  { object_list_ := ["chair1", "chair2"],
    feature_list_ := [[present, absent], [present, absent], [absent, present], [absent, present]],
    transformation_list_ := List.replicate 4 [demoTransformation, demoTransformation] }

end MeshCuboidTrainer

namespace MeshCuboidTrainer

/-- The size assertions of the trainer hold: one transformation list per label,
and every per-label feature list is as long as the object list. -/
def Aligned (t : MeshCuboidTrainer) : Prop :=
  t.transformation_list_.length = t.feature_list_.length ∧
  ∀ l ∈ t.feature_list_, t.object_list_.length = l.length

instance (t : MeshCuboidTrainer) : Decidable t.Aligned := by
  unfold Aligned; infer_instance

/-- The number of positions, present in both feature lists of labels `i` and `j`,
whose two records are NaN-free, as `get_label_cooccurrences` counts it. -/
def num_cooccurring (t : MeshCuboidTrainer) (i j : Nat) : Nat :=
  count_objects (t.feature_list_.getD i []) (t.feature_list_.getD j []) 0

end MeshCuboidTrainer

/-! ## The regularized inverse -/

/-- Modelled from the spec: `inverse()` of the Eigen library, which is not among
the sources, on a square matrix in exact arithmetic: the inverse of an invertible
matrix, computed as the adjugate divided by the determinant. -/
def eigen_inverse {n : Nat} (M : Matrix (Fin n) (Fin n) ℚ) : Matrix (Fin n) (Fin n) ℚ :=
  M.det⁻¹ • M.adjugate

/-- The function `regularized_inverse`: the inverse of `_mat + 1.0E-3 * Identity`. -/
def regularized_inverse {n : Nat} (mat : Matrix (Fin n) (Fin n) ℚ) :
    Matrix (Fin n) (Fin n) ℚ :=
  eigen_inverse (mat + (1 / 1000 : ℚ) • (1 : Matrix (Fin n) (Fin n) ℚ))

/-- The statement `cov = (centered_X.transpose() * centered_X) / num_objects` of
the trainer, for a matrix with `m` rows. -/
def covariance {m n : Nat} (centered_X : Matrix (Fin m) (Fin n) ℚ) :
    Matrix (Fin n) (Fin n) ℚ :=
  fun i j => (centered_X.transpose * centered_X) i j / (m : ℚ)

/-- A covariance-like matrix: symmetric and positive semidefinite. -/
def IsCovarianceLike {n : Nat} (S : Matrix (Fin n) (Fin n) ℚ) : Prop :=
  S.transpose = S ∧ ∀ x : Fin n → ℚ, 0 ≤ Matrix.dotProduct x (S.mulVec x)

/-- Two centred observations of two features. -/
def demoCentered : Matrix (Fin 2) (Fin 2) ℚ := !![1, 2; -1, -2]

namespace MeshCuboidStructure

/-! ## Symmetry classes -/

/-- Labels `a` and `b` are in one symmetry class: they are connected through the
symmetry relation, a step going from a label to one it lists or to one that
lists it. -/
def SymmetryConnected (st : MeshCuboidStructure) (a b : Nat) : Prop :=
  Relation.ReflTransGen
    (fun x y => y ∈ st.label_symmetries_.getD x [] ∨ x ∈ st.label_symmetries_.getD y []) a b

/-- The symmetry lists are symmetric: a label is listed by every label it lists. -/
def SymmetriesSymmetric (st : MeshCuboidStructure) : Prop :=
  ∀ a < st.num_labels, ∀ b ∈ st.label_symmetries_.getD a [],
    a ∈ st.label_symmetries_.getD b []

instance (st : MeshCuboidStructure) : Decidable st.SymmetriesSymmetric := by
  unfold SymmetriesSymmetric; infer_instance

/-- The symmetry lists are transitive: a label lists every other label that a
label it lists does. -/
def SymmetriesTransitive (st : MeshCuboidStructure) : Prop :=
  ∀ a < st.num_labels, ∀ b ∈ st.label_symmetries_.getD a [],
    ∀ c ∈ st.label_symmetries_.getD b [], c ≠ a → c ∈ st.label_symmetries_.getD a []

instance (st : MeshCuboidStructure) : Decidable st.SymmetriesTransitive := by
  unfold SymmetriesTransitive; infer_instance

/-- Four labels with one cuboid each and the symmetry lists of the file with the
lines `a b`, `b c`, `c d`: a chain 0 - 1 - 2 - 3. -/
def demoSymmetryChain : MeshCuboidStructure :=
  { labels_ := [0, 1, 2, 3], label_names_ := ["a", "b", "c", "d"],
    label_symmetries_ := [[1], [0, 2], [1, 3], [2]],
    label_cuboids_ :=
      [[{ label_index_ := 0, bbox_volume_ := 1 }], [{ label_index_ := 1, bbox_volume_ := 2 }],
       [{ label_index_ := 2, bbox_volume_ := 3 }], [{ label_index_ := 3, bbox_volume_ := 4 }]],
    query_label_index_ := 4 }

/-- Five labels with one cuboid each in the classes `{0, 2, 3}` and `{1, 4}`, as
the symmetry file with the lines `a c d` and `b e` gives them. -/
def demoSymmetryClasses : MeshCuboidStructure :=
  { labels_ := [0, 1, 2, 3, 4], label_names_ := ["a", "b", "c", "d", "e"],
    label_symmetries_ := [[2, 3], [4], [0, 3], [0, 2], [1]],
    label_cuboids_ :=
      [[{ label_index_ := 0, bbox_volume_ := 1 }], [{ label_index_ := 1, bbox_volume_ := 2 }],
       [{ label_index_ := 2, bbox_volume_ := 3 }], [{ label_index_ := 3, bbox_volume_ := 4 }],
       [{ label_index_ := 4, bbox_volume_ := 5 }]],
    query_label_index_ := 5 }

end MeshCuboidStructure

namespace MeshCuboidStructure

/-! ## The label of a sample point -/

/-- The loop of `get_sample_point_label_indices` over `label_index` for one sample
point, carrying `max_confidence` and `max_confidence_label_index`, with `count`
labels still to visit. -/
def max_confidence_label (label_index_confidence : List ℚ) : Nat → Nat → ℚ → Nat → Nat
  | 0, _, _, max_confidence_label_index => max_confidence_label_index
  | count + 1, label_index, max_confidence, max_confidence_label_index =>
    if label_index_confidence.getD label_index 0 > max_confidence then
      max_confidence_label label_index_confidence count (label_index + 1)
        (label_index_confidence.getD label_index 0) label_index
    else
      max_confidence_label label_index_confidence count (label_index + 1) max_confidence
        max_confidence_label_index

/-- The loop of `get_sample_point_label_indices` over the sample points; `none`
when a confidence vector does not have one entry per label (the assertion). The
parameter `real_max` is `std::numeric_limits<Real>::max()`. -/
def sample_point_label_indices_of (real_max : ℚ) (num_labels : Nat) :
    List MeshSamplePoint → Option (List Nat)
  | [] => some []
  | sample_point :: rest =>
    if sample_point.label_index_confidence_.length = num_labels then
      (sample_point_label_indices_of real_max num_labels rest).map fun indices =>
        max_confidence_label sample_point.label_index_confidence_ num_labels 0 (-real_max) 0
          :: indices
    else none

/-- Method `MeshCuboidStructure::get_sample_point_label_indices`. -/
def get_sample_point_label_indices (real_max : ℚ) (st : MeshCuboidStructure) :
    Option (List Nat) :=
  sample_point_label_indices_of real_max st.num_labels st.sample_points_

/-- Every confidence value is at least `-real_max`: it is in the range of the
number type. -/
def ConfidencesInRange (real_max : ℚ) (st : MeshCuboidStructure) : Prop :=
  ∀ sp ∈ st.sample_points_, ∀ c ∈ sp.label_index_confidence_, -real_max ≤ c

/-- Every sample point has one confidence value per label. -/
def ConfidencesSized (st : MeshCuboidStructure) : Prop :=
  ∀ sp ∈ st.sample_points_, sp.label_index_confidence_.length = st.num_labels

instance (st : MeshCuboidStructure) : Decidable st.ConfidencesSized := by
  unfold ConfidencesSized; infer_instance

/-- Three labels and four sample points with confidence vectors; the second point
has a tie between labels 0 and 2, the last one has equal confidences. -/
def demoConfidences : MeshCuboidStructure :=
  { labels_ := [0, 1, 2], label_names_ := ["a", "b", "c"],
    label_symmetries_ := [[], [], []],
    sample_points_ :=
      [{ corr_fid_ := 0, bary_coord_ := ⟨1, 0, 0⟩, point_ := ⟨0, 0, 0⟩,
         label_index_confidence_ := [1 / 10, 7 / 10, 2 / 10] },
       { corr_fid_ := 1, bary_coord_ := ⟨1, 0, 0⟩, point_ := ⟨1, 0, 0⟩,
         label_index_confidence_ := [4 / 10, 2 / 10, 4 / 10] },
       { corr_fid_ := 2, bary_coord_ := ⟨1, 0, 0⟩, point_ := ⟨0, 1, 0⟩,
         label_index_confidence_ := [0, 1 / 2, 1] },
       { corr_fid_ := 3, bary_coord_ := ⟨1, 0, 0⟩, point_ := ⟨0, 0, 1⟩,
         label_index_confidence_ := [0, 0, 0] }],
    query_label_index_ := 3 }

end MeshCuboidStructure

/-! ## Fitting one cuboid per label -/

/-- Modelled from the spec: what `compute_label_cuboids` uses of code that is not
among the sources. `param_confidence_tol` is the "fixed confidence tolerance";
`compute_bbox` is `MeshCuboid::compute_bbox`, which fits the box of a cuboid to
its sample points and reports failure (`none`) when they yield no valid cuboid;
`split_cuboid` is `MeshCuboid::split_cuboid`, and `object_diameter` is the value
`mesh_->get_object_diameter()` returns. -/
structure CuboidFitting where
  param_confidence_tol : ℚ
  compute_bbox : List MeshSamplePoint → MeshCuboid → Option MeshCuboid
  split_cuboid : ℚ → List MeshSamplePoint → MeshCuboid → List MeshCuboid
  object_diameter : ℚ

namespace MeshCuboidStructure

/-- The loop of `compute_label_cuboids` over the sample points for one label: the
positions of the points whose confidence for the label is at least the tolerance.
A confidence vector without an entry for the label is a failure (a read outside
the vector). -/
def label_sample_points (param_confidence_tol : ℚ) (label_index : Nat) :
    List MeshSamplePoint → Nat → Option (List Nat)
  | [], _ => some []
  | sample_point :: rest, sample_point_index =>
    match sample_point.label_index_confidence_[label_index]? with
    | none => none
    | some confidence =>
      (label_sample_points param_confidence_tol label_index rest (sample_point_index + 1)).map
        fun selected =>
          if confidence ≥ param_confidence_tol then sample_point_index :: selected
          else selected

/-- The loop of `compute_label_cuboids` over `label_index`, with `count` labels
still to visit: a new cuboid of the label receives the selected sample points and
is kept when `compute_bbox` succeeds. -/
def fit_label_cuboids_loop (fit : CuboidFitting) (sample_points : List MeshSamplePoint) :
    Nat → Nat → List (List MeshCuboid) → Option (List (List MeshCuboid))
  | 0, _, label_cuboids => some label_cuboids
  | count + 1, label_index, label_cuboids =>
    if label_cuboids.getD label_index [] = [] then
      match label_sample_points fit.param_confidence_tol label_index sample_points 0 with
      | none => none
      | some selected =>
        match fit.compute_bbox sample_points
            { label_index_ := label_index, sample_points_ := selected } with
        | none => fit_label_cuboids_loop fit sample_points count (label_index + 1) label_cuboids
        | some cuboid =>
          fit_label_cuboids_loop fit sample_points count (label_index + 1)
            (label_cuboids.set label_index (label_cuboids.getD label_index [] ++ [cuboid]))
    else none

/-- The part of `compute_label_cuboids` before the call of `split_label_cuboids`. -/
def fit_label_cuboids (fit : CuboidFitting) (st : MeshCuboidStructure) :
    Option MeshCuboidStructure :=
  (fit_label_cuboids_loop fit st.sample_points_ st.num_labels 0
    (List.replicate st.num_labels [])).map
    fun label_cuboids => { st with label_cuboids_ := label_cuboids }

/-- Method `MeshCuboidStructure::split_label_cuboids`: every cuboid of every label
is replaced by its sub-cuboids; `none` when the size assertion fails. -/
def split_label_cuboids (fit : CuboidFitting) (st : MeshCuboidStructure) :
    Option MeshCuboidStructure :=
  if st.label_cuboids_.length = st.num_labels then
    some { st with
      label_cuboids_ := st.label_cuboids_.map fun cuboids =>
        cuboids.flatMap fun cuboid => fit.split_cuboid fit.object_diameter st.sample_points_ cuboid }
  else none

/-- Method `MeshCuboidStructure::compute_label_cuboids`. -/
def compute_label_cuboids (fit : CuboidFitting) (st : MeshCuboidStructure) :
    Option MeshCuboidStructure :=
  ((st.fit_label_cuboids fit).bind fun st1 => st1.split_label_cuboids fit).map
    fun st2 => { st2 with query_label_index_ := st2.num_labels }

/-- The positions of the sample points whose confidence for label `i` is at least
the tolerance, in sample-point order. -/
def confident_points (param_confidence_tol : ℚ) (st : MeshCuboidStructure) (i : Nat) :
    List Nat :=
  ((st.sample_points_.enumFrom 0).filter fun entry =>
    decide (param_confidence_tol ≤ entry.2.label_index_confidence_.getD i 0)).map
    fun entry => entry.1

/-- A fitting that accepts a cuboid with at least two sample points and gives it
their number as volume, with tolerance 1/2 and no splitting. -/
def demoFitting : CuboidFitting :=
  { param_confidence_tol := 1 / 2,
    compute_bbox := fun _ cuboid =>
      if 2 ≤ cuboid.sample_points_.length then
        some { cuboid with bbox_volume_ := cuboid.sample_points_.length }
      else none,
    split_cuboid := fun _ _ cuboid => [cuboid],
    object_diameter := 1 }

/-- Two labels `seat` and `leg` and four sample points, two confident for each
label. -/
def demoSeatLeg : MeshCuboidStructure :=
  { labels_ := [0, 1], label_names_ := ["seat", "leg"], label_symmetries_ := [[], []],
    sample_points_ :=
      [{ corr_fid_ := 0, bary_coord_ := ⟨1, 0, 0⟩, point_ := ⟨0, 0, 0⟩,
         label_index_confidence_ := [1, 0] },
       { corr_fid_ := 1, bary_coord_ := ⟨1, 0, 0⟩, point_ := ⟨0, 0, 1⟩,
         label_index_confidence_ := [0, 1] },
       { corr_fid_ := 2, bary_coord_ := ⟨1, 0, 0⟩, point_ := ⟨1, 0, 0⟩,
         label_index_confidence_ := [9 / 10, 1 / 10] },
       { corr_fid_ := 3, bary_coord_ := ⟨1, 0, 0⟩, point_ := ⟨1, 0, 1⟩,
         label_index_confidence_ := [1 / 10, 9 / 10] }],
    query_label_index_ := 2 }

end MeshCuboidStructure

namespace MeshCuboidTrainer

/-! ## Connected components of the missing candidates -/

/-- Labels `a` and `b` are joined by a path of co-occurring labels that all
satisfy `P`. -/
def Joined (cooccurrence_labels : List (List Nat)) (P : Nat → Prop) (a b : Nat) : Prop :=
  Relation.ReflTransGen (fun x y => P x ∧ P y ∧ y ∈ cooccurrence_labels.getD x []) a b

/-- The state of the clustering between two seeds, for the candidate set `P`: the
groups found so far are non-empty, pairwise disjoint sets of unflagged candidates,
each connected and closed under co-occurrence among candidates, and every candidate
is flagged or in a group. -/
structure GroupsInvariant (cooccurrence_labels : List (List Nat)) (P : Nat → Prop)
    (is_label_missing : List Bool) (groups : List (List Nat)) : Prop where
  candidates : ∀ grp ∈ groups, ∀ k ∈ grp, P k ∧ ¬ is_label_missing.getD k false = true
  flagged : ∀ k : Nat, is_label_missing.getD k false = true → P k
  covered : ∀ k : Nat, P k → is_label_missing.getD k false = true ∨ ∃ grp ∈ groups, k ∈ grp
  nonempty : ∀ grp ∈ groups, grp ≠ []
  disjoint : groups.Pairwise List.Disjoint
  connected : ∀ grp ∈ groups, ∀ a ∈ grp, ∀ b ∈ grp, Joined cooccurrence_labels P a b
  closed : ∀ grp ∈ groups, ∀ a ∈ grp, ∀ b ∈ cooccurrence_labels.getD a [], P b → b ∈ grp

/-- The missing candidates for the given labels `G`: the labels that are not given
and lie in the co-occurrence list of every given label. -/
def MissingCandidate (cooccurrence_labels : List (List Nat)) (num_labels : Nat) (G : List Nat)
    (l : Nat) : Prop :=
  l < num_labels ∧ l ∉ G ∧ ∀ g ∈ G, l ∈ cooccurrence_labels.getD g []

/-- A corpus of three objects and five labels: labels 0 to 3 are on the first
object and label 4 joins label 0 on the second; labels 1 and 2 are together on the
third object. -/
def demoCorpusFive : MeshCuboidTrainer :=
  { object_list_ := ["chair1", "chair2", "chair3"],
    feature_list_ :=
      [[present, present, absent], [present, absent, present], [present, absent, present],
       [present, absent, absent], [absent, present, absent]],
    transformation_list_ :=
      List.replicate 5 [demoTransformation, demoTransformation, demoTransformation] }

end MeshCuboidTrainer

/-! ## Joint and conditional normal relations -/

/-- Modelled from the spec: `MeshCuboidFeatures::get_features`, the feature vector
of a record; a NaN entry reads as 0 (the trainer only reads NaN-free records). -/
def MeshCuboidFeatures.get_features (f : MeshCuboidFeatures) : List ℚ :=
  f.features_.map fun v => v.getD 0

/-- Modelled from the spec: `MeshCuboidJointNormalRelations` is declared in a
header that is not among the sources: "`mean: vector[2 * k_num_features]`,
`inv_cov: matrix[2k×2k]`". -/
structure MeshCuboidJointNormalRelations (d : Nat) where
  mean_ : Fin d → ℚ
  inv_cov_ : Matrix (Fin d) (Fin d) ℚ

/-- Modelled from the spec: `MeshCuboidCondNormalRelations` is declared in a header
that is not among the sources: "`mean_A: matrix`, `mean_b: vector`, `inv_cov:
matrix`", for `g` global feature values and `k` features. -/
structure MeshCuboidCondNormalRelations (g k : Nat) where
  mean_A_ : Matrix (Fin k) (Fin g) ℚ
  mean_b_ : Fin k → ℚ
  inv_cov_ : Matrix (Fin k) (Fin k) ℚ

/-- Modelled from the spec: `colwise().mean()` of the Eigen library: the mean of
every column of a matrix with `m` rows. -/
def colwise_mean {m d : Nat} (X : Matrix (Fin m) (Fin d) ℚ) : Fin d → ℚ :=
  fun c => (∑ r, X r c) / (m : ℚ)

/-- Modelled from the spec: `X.rowwise() - mean` of the Eigen library. -/
def rowwise_sub {m d : Nat} (X : Matrix (Fin m) (Fin d) ℚ) (mean : Fin d → ℚ) :
    Matrix (Fin m) (Fin d) ℚ :=
  fun r c => X r c - mean c

/-- The statement `X << X_1, X_2`: the two matrices side by side. The rows are
given as pairs, so that both matrices have one row per valid object. -/
def concat_columns (a b : Nat) (rows : List (List ℚ × List ℚ)) :
    Matrix (Fin rows.length) (Fin (a + b)) ℚ :=
  fun r => Fin.append (fun c : Fin a => ((rows.getD r ([], [])).1).getD c 0)
    (fun c : Fin b => ((rows.getD r ([], [])).2).getD c 0)

/-- The matrix `X_1` of the pairs of rows. -/
def left_columns (a : Nat) (rows : List (List ℚ × List ℚ)) :
    Matrix (Fin rows.length) (Fin a) ℚ :=
  fun r c => ((rows.getD r ([], [])).1).getD c 0

/-- The matrix `X_2` of the pairs of rows. -/
def right_columns (b : Nat) (rows : List (List ℚ × List ℚ)) :
    Matrix (Fin rows.length) (Fin b) ℚ :=
  fun r c => ((rows.getD r ([], [])).2).getD c 0

/-- The closing statements of the pair loop of `get_joint_normal_relations`: mean,
centred matrix, covariance and its regularized inverse, stored in the relation. -/
def fit_joint_normal (k : Nat) (rows : List (List ℚ × List ℚ)) :
    MeshCuboidJointNormalRelations (k + k) :=
  let X := concat_columns k k rows
  let mean := colwise_mean X
  let centered_X := rowwise_sub X mean
  let cov := covariance centered_X
  let inv_cov := regularized_inverse cov
  { mean_ := mean, inv_cov_ := inv_cov }

/-- The closing statements of the pair loop of `get_cond_normal_relations`. The
blocks `inv_cov.block(g, g, k, k)` and `inv_cov.block(g, 0, k, g)` are the
lower-right and lower-left blocks of the joint regularized inverse. -/
def fit_cond_normal (g k : Nat) (rows : List (List ℚ × List ℚ)) :
    MeshCuboidCondNormalRelations g k :=
  let mean_1 := colwise_mean (left_columns g rows)
  let mean_2 := colwise_mean (right_columns k rows)
  let X := concat_columns g k rows
  let mean := colwise_mean X
  let centered_X := rowwise_sub X mean
  let cov := covariance centered_X
  let inv_cov := regularized_inverse cov
  let inv_cov_22 : Matrix (Fin k) (Fin k) ℚ := fun a b => inv_cov (Fin.natAdd g a) (Fin.natAdd g b)
  let inv_cov_21 : Matrix (Fin k) (Fin g) ℚ :=
    fun a b => inv_cov (Fin.natAdd g a) (Fin.castAdd k b)
  let conditional_mean_A := regularized_inverse inv_cov_22 * inv_cov_21
  let conditional_mean_b : Fin k → ℚ := fun a => mean_2 a - (conditional_mean_A.mulVec mean_1) a
  { mean_A_ := conditional_mean_A, mean_b_ := conditional_mean_b, inv_cov_ := inv_cov_22 }

namespace MeshCuboidTrainer

/-- The loop over the ignored object list: whether the current object name is in
it. Without a list (`none`, the null pointer) nothing is ignored. The object is
`none` when the object iterator has run past the end of the object list, which the
size assertions exclude; no name matches then. -/
def is_ignored (ignored_object_list : Option (List String)) (object : Option String) : Bool :=
  match ignored_object_list with
  | none => false
  | some names => names.any fun name => decide (object = some name)

/-- The `while (true)` loop of `get_joint_normal_relations` and of
`get_cond_normal_relations` that walks the object list, the two feature lists and
the transformations in lockstep and keeps the objects that have values and are not
ignored. The entries kept are returned together, as the loop pushes them
together; the transformations walked are the pairs of the two lists in the joint
case and the first list in the conditional case. -/
def select_objects {α : Type} (ignored_object_list : Option (List String)) :
    List String → List MeshCuboidFeatures → List MeshCuboidFeatures → List α →
    List (MeshCuboidFeatures × MeshCuboidFeatures × α)
  | objects, f_1 :: rest_1, f_2 :: rest_2, t :: rest_t =>
    let has_values : Bool :=
      (!f_1.has_nan && !f_2.has_nan) && !is_ignored ignored_object_list objects.head?
    if has_values then
      (f_1, f_2, t) :: select_objects ignored_object_list objects.tail rest_1 rest_2 rest_t
    else select_objects ignored_object_list objects.tail rest_1 rest_2 rest_t
  | _, _, _, _ => []

/-- The loop of `get_joint_normal_relations` over the valid objects that fills the
rows of `X_1` and `X_2`: label 1's feature transformed by label 2's transformation
and label 2's feature transformed by label 1's; `none` when a transformed feature
does not have `k_num_features` entries (the assertion). -/
def joint_rows (k : Nat) :
    List (MeshCuboidFeatures × MeshCuboidFeatures ×
      MeshCuboidTransformation × MeshCuboidTransformation) →
    Option (List (List ℚ × List ℚ))
  | [] => some []
  | (feature_1, feature_2, transformation_1, transformation_2) :: rest =>
    let transformed_feature_1 := transformation_2.get_transformed_features feature_1
    let transformed_feature_2 := transformation_1.get_transformed_features feature_2
    if transformed_feature_1.length = k then
      if transformed_feature_2.length = k then
        (joint_rows k rest).map fun rows => (transformed_feature_1, transformed_feature_2) :: rows
      else none
    else none

/-- The loop of `get_cond_normal_relations` over the valid objects that fills the
rows of `X_1` and `X_2`: the last `g` values of label 1's feature (`bottomRows`)
and label 2's feature transformed by label 1's transformation; `none` when the
feature has fewer than `g` values or the transformed feature does not have
`k_num_features` entries. -/
def cond_rows (g k : Nat) :
    List (MeshCuboidFeatures × MeshCuboidFeatures × MeshCuboidTransformation) →
    Option (List (List ℚ × List ℚ))
  | [] => some []
  | (feature_1, feature_2, transformation_1) :: rest =>
    let transformed_feature_2 := transformation_1.get_transformed_features feature_2
    if g ≤ feature_1.get_features.length then
      if transformed_feature_2.length = k then
        (cond_rows g k rest).map fun rows =>
          (feature_1.get_features.drop (feature_1.get_features.length - g),
            transformed_feature_2) :: rows
      else none
    else none

/-- The four size assertions at the head of the pair loop. -/
def pair_sizes_ok (t : MeshCuboidTrainer) (label_index_1 label_index_2 : Nat) : Bool :=
  decide (t.object_list_.length = (t.feature_list_.getD label_index_1 []).length) &&
  decide (t.object_list_.length = (t.feature_list_.getD label_index_2 []).length) &&
  decide (t.object_list_.length = (t.transformation_list_.getD label_index_1 []).length) &&
  decide (t.object_list_.length = (t.transformation_list_.getD label_index_2 []).length)

/-- The valid objects of a label pair in `get_joint_normal_relations`. -/
def joint_valid_objects (t : MeshCuboidTrainer) (ignored_object_list : Option (List String))
    (label_index_1 label_index_2 : Nat) :
    List (MeshCuboidFeatures × MeshCuboidFeatures ×
      MeshCuboidTransformation × MeshCuboidTransformation) :=
  select_objects ignored_object_list t.object_list_ (t.feature_list_.getD label_index_1 [])
    (t.feature_list_.getD label_index_2 [])
    (List.zip (t.transformation_list_.getD label_index_1 [])
      (t.transformation_list_.getD label_index_2 []))

/-- The valid objects of a label pair in `get_cond_normal_relations`. -/
def cond_valid_objects (t : MeshCuboidTrainer) (ignored_object_list : Option (List String))
    (label_index_1 label_index_2 : Nat) :
    List (MeshCuboidFeatures × MeshCuboidFeatures × MeshCuboidTransformation) :=
  select_objects ignored_object_list t.object_list_ (t.feature_list_.getD label_index_1 [])
    (t.feature_list_.getD label_index_2 []) (t.transformation_list_.getD label_index_1 [])

/-- The body of the pair loop of `get_joint_normal_relations` for two different
labels: `none` is a failed assertion, `some none` the exit `if (num_objects == 0)
continue`, and `some (some r)` the relation stored. -/
def joint_pair (k : Nat) (t : MeshCuboidTrainer) (ignored_object_list : Option (List String))
    (label_index_1 label_index_2 : Nat) :
    Option (Option (MeshCuboidJointNormalRelations (k + k))) :=
  if t.pair_sizes_ok label_index_1 label_index_2 then
    if (t.joint_valid_objects ignored_object_list label_index_1 label_index_2).length = 0 then
      some none
    else
      (joint_rows k (t.joint_valid_objects ignored_object_list label_index_1 label_index_2)).map
        fun rows => some (fit_joint_normal k rows)
  else none

/-- The body of the pair loop of `get_cond_normal_relations` for two different
labels. -/
def cond_pair (g k : Nat) (t : MeshCuboidTrainer) (ignored_object_list : Option (List String))
    (label_index_1 label_index_2 : Nat) :
    Option (Option (MeshCuboidCondNormalRelations g k)) :=
  if t.pair_sizes_ok label_index_1 label_index_2 then
    if (t.cond_valid_objects ignored_object_list label_index_1 label_index_2).length = 0 then
      some none
    else
      (cond_rows g k (t.cond_valid_objects ignored_object_list label_index_1 label_index_2)).map
        fun rows => some (fit_cond_normal g k rows)
  else none

/-- The statement `_relations[label_index_1][label_index_2] = new ...`. -/
def set_relation {R : Type} (relations : List (List (Option R)))
    (label_index_1 label_index_2 : Nat) (r : R) : List (List (Option R)) :=
  relations.set label_index_1 ((relations.getD label_index_1 []).set label_index_2 (some r))

/-- The loop over `label_index_2` that both relation methods share, for a fixed
`label_index_1` and with `count` labels still to visit; `pair` is the body for two
different labels. -/
def relations_of {R : Type} (pair : Nat → Nat → Option (Option R)) (label_index_1 : Nat) :
    Nat → Nat → List (List (Option R)) → Option (List (List (Option R)))
  | 0, _, relations => some relations
  | count + 1, label_index_2, relations =>
    if label_index_1 = label_index_2 then
      relations_of pair label_index_1 count (label_index_2 + 1) relations
    else
      match pair label_index_1 label_index_2 with
      | none => none
      | some none => relations_of pair label_index_1 count (label_index_2 + 1) relations
      | some (some r) =>
        relations_of pair label_index_1 count (label_index_2 + 1)
          (set_relation relations label_index_1 label_index_2 r)

/-- The loop over `label_index_1` that both relation methods share. -/
def relations_from {R : Type} (pair : Nat → Nat → Option (Option R)) (num_labels : Nat) :
    Nat → Nat → List (List (Option R)) → Option (List (List (Option R)))
  | 0, _, relations => some relations
  | count + 1, label_index_1, relations =>
    match relations_of pair label_index_1 num_labels 0 relations with
    | none => none
    | some relations1 => relations_from pair num_labels count (label_index_1 + 1) relations1

/-- The relation matrix both methods build: `num_labels` rows of `num_labels` null
entries, then the two nested loops. -/
def relation_matrix {R : Type} (pair : Nat → Nat → Option (Option R)) (num_labels : Nat) :
    Option (List (List (Option R))) :=
  relations_from pair num_labels num_labels 0
    (List.replicate num_labels (List.replicate num_labels none))

/-- Method `MeshCuboidTrainer::get_joint_normal_relations`, with `k` for
`MeshCuboidFeatures::k_num_features`; the output argument is the result and `none`
a failed assertion. -/
def get_joint_normal_relations (k : Nat) (t : MeshCuboidTrainer)
    (ignored_object_list : Option (List String)) :
    Option (List (List (Option (MeshCuboidJointNormalRelations (k + k))))) :=
  if t.transformation_list_.length = t.feature_list_.length then
    relation_matrix (joint_pair k t ignored_object_list) t.feature_list_.length
  else none

/-- Method `MeshCuboidTrainer::get_cond_normal_relations`, with `g` for
`k_num_global_feature_values` and `k` for `k_num_features`. -/
def get_cond_normal_relations (g k : Nat) (t : MeshCuboidTrainer)
    (ignored_object_list : Option (List String)) :
    Option (List (List (Option (MeshCuboidCondNormalRelations g k)))) :=
  if t.transformation_list_.length = t.feature_list_.length then
    relation_matrix (cond_pair g k t ignored_object_list) t.feature_list_.length
  else none

end MeshCuboidTrainer

namespace MeshCuboidTrainer

/-- The transformation that leaves a feature vector as it is. -/
def identityTransformation : MeshCuboidTransformation :=
  { get_transformed_features := fun f => f.get_features }

/-- A feature record with the single value `v`. -/
def single (v : ℚ) : MeshCuboidFeatures := { features_ := [some v] }

/-- A corpus of three objects and two labels with one feature value each
(`k_num_features = 1`): on the first two objects both labels have the values 1 and
-1; on the third object label 1 is missing. -/
def demoCorpusValues : MeshCuboidTrainer :=
  { object_list_ := ["chair1", "chair2", "chair3"],
    feature_list_ :=
      [[single 1, single (-1), single 5], [single 1, single (-1), { features_ := [none] }]],
    transformation_list_ :=
      List.replicate 2 [identityTransformation, identityTransformation, identityTransformation] }

end MeshCuboidTrainer

namespace MeshCuboidTrainer

/-- The entry `_relations[label_index_1][label_index_2]` of a relation matrix
(`none` is the null pointer). -/
def relation_at {R : Type} (relations : List (List (Option R)))
    (label_index_1 label_index_2 : Nat) : Option R :=
  (relations.getD label_index_1 []).getD label_index_2 none

end MeshCuboidTrainer

/-- The empirical covariance as the spec writes it: `(1/n)·Σ (x − mean)(x − mean)ᵀ`
over the rows `x` of `X`. -/
def outer_product_covariance {m d : Nat} (X : Matrix (Fin m) (Fin d) ℚ) (mean : Fin d → ℚ) :
    Matrix (Fin d) (Fin d) ℚ :=
  fun a b => (∑ r, (X r a - mean a) * (X r b - mean b)) / (m : ℚ)

/-- The lower-right `k × k` block of a `(g + k) × (g + k)` matrix. -/
def lower_right_block (g k : Nat) (L : Matrix (Fin (g + k)) (Fin (g + k)) ℚ) :
    Matrix (Fin k) (Fin k) ℚ :=
  fun a b => L (Fin.natAdd g a) (Fin.natAdd g b)

/-- The lower-left `k × g` block of a `(g + k) × (g + k)` matrix. -/
def lower_left_block (g k : Nat) (L : Matrix (Fin (g + k)) (Fin (g + k)) ℚ) :
    Matrix (Fin k) (Fin g) ℚ :=
  fun a b => L (Fin.natAdd g a) (Fin.castAdd k b)

/-- The upper-left `g × g` block of a `(g + k) × (g + k)` matrix. -/
def upper_left_block (g k : Nat) (L : Matrix (Fin (g + k)) (Fin (g + k)) ℚ) :
    Matrix (Fin g) (Fin g) ℚ :=
  fun a b => L (Fin.castAdd k a) (Fin.castAdd k b)

/-- The textbook conditional mean of the spec, `mean2 + Σ21·Σ11⁻¹·(x1 − mean1)`, for
a joint Gaussian with mean `mean` and covariance `Sigma` over `g + k` values, the
first `g` being `X1` and the last `k` being `X2`. -/
def textbook_conditional_mean (g k : Nat) (mean : Fin (g + k) → ℚ)
    (Sigma : Matrix (Fin (g + k)) (Fin (g + k)) ℚ) (x1 : Fin g → ℚ) : Fin k → ℚ :=
  fun a => mean (Fin.natAdd g a) +
    ((lower_left_block g k Sigma * eigen_inverse (upper_left_block g k Sigma)).mulVec
      (fun b => x1 b - mean (Fin.castAdd k b))) a

namespace MeshCuboidTrainer

/-- The rows `[X_1 | X_2]` of the pair `(label_index_1, label_index_2)` in
`get_cond_normal_relations`: per selected object, the trailing
`k_num_global_feature_values` values of the first label's features and the second
label's features under the first label's transformation. -/
def cond_pair_rows (g : Nat) (t : MeshCuboidTrainer) (ignored_object_list : Option (List String))
    (label_index_1 label_index_2 : Nat) : List (List ℚ × List ℚ) :=
  (t.cond_valid_objects ignored_object_list label_index_1 label_index_2).map fun v =>
    (v.1.get_features.drop (v.1.get_features.length - g), v.2.2.get_transformed_features v.2.1)

/-- The value `mean_A·x1 + mean_b` of the relation stored for a pair of labels by
`get_cond_normal_relations`, at coordinate `a`; `none` when the call fails or the
entry is null. -/
def cond_prediction (g k : Nat) (t : MeshCuboidTrainer) (ignored_object_list : Option (List String))
    (label_index_1 label_index_2 : Nat) (x1 : Fin g → ℚ) (a : Fin k) : Option ℚ :=
  (t.get_cond_normal_relations g k ignored_object_list).bind fun rels =>
    (relation_at rels label_index_1 label_index_2).map fun rel =>
      (rel.mean_A_.mulVec x1) a + rel.mean_b_ a

end MeshCuboidTrainer

namespace MeshCuboidTrainer

/-- The per-label lists are aligned to the object list: one transformation list per
label, and every per-label feature list and transformation list has one entry per
object. -/
def FullyAligned (t : MeshCuboidTrainer) : Prop :=
  t.transformation_list_.length = t.feature_list_.length ∧
  (∀ l ∈ t.feature_list_, l.length = t.object_list_.length) ∧
  (∀ l ∈ t.transformation_list_, l.length = t.object_list_.length)

instance (t : MeshCuboidTrainer) : Decidable t.FullyAligned := by
  unfold FullyAligned; infer_instance

/-- Every feature record of the corpus has `k` values (`k_num_features`). -/
def FeaturesSized (k : Nat) (t : MeshCuboidTrainer) : Prop :=
  ∀ l ∈ t.feature_list_, ∀ f ∈ l, f.features_.length = k

instance (k : Nat) (t : MeshCuboidTrainer) : Decidable (t.FeaturesSized k) := by
  unfold FeaturesSized; infer_instance

/-- Every transformation of the corpus maps a feature record of `k` values to a
vector of `k` values. -/
def TransformsSized (k : Nat) (t : MeshCuboidTrainer) : Prop :=
  ∀ l ∈ t.transformation_list_, ∀ T ∈ l, ∀ f : MeshCuboidFeatures,
    f.features_.length = k → (T.get_transformed_features f).length = k

/-- Some object has both labels' feature records NaN-free and a name outside the ignore
list: a position `p` of the object list at which the two feature lists hold
NaN-free records and whose object name is not in the list (no list: no name is). -/
def HasValidObject (t : MeshCuboidTrainer) (ignored_object_list : Option (List String))
    (i j : Nat) : Prop :=
  ∃ (p : Nat) (o : String) (f1 f2 : MeshCuboidFeatures),
    t.object_list_[p]? = some o ∧ (t.feature_list_.getD i [])[p]? = some f1 ∧
    (t.feature_list_.getD j [])[p]? = some f2 ∧ f1.has_nan = false ∧ f2.has_nan = false ∧
    ∀ L, ignored_object_list = some L → o ∉ L

end MeshCuboidTrainer

namespace MeshCuboidTrainer

/-- A relation matrix has `num_labels` rows of `num_labels` entries, and its entry
`(i, j)` is null exactly when `i = j` or no object is valid for the pair. -/
def NullExactlyWithoutValidObject {R : Type} (t : MeshCuboidTrainer)
    (ignored_object_list : Option (List String)) (M : List (List (Option R))) : Prop :=
  M.length = t.feature_list_.length ∧
  (∀ i : Nat, i < t.feature_list_.length → (M.getD i []).length = t.feature_list_.length) ∧
  ∀ i j : Nat, i < t.feature_list_.length → j < t.feature_list_.length →
    (relation_at M i j = none ↔ (i = j ∨ ¬ t.HasValidObject ignored_object_list i j))

end MeshCuboidTrainer

namespace MeshCuboidTrainer

/-- The entries of a per-object list at the positions whose object name is not in
`L`; positions past the end of the object list have no object and are dropped. -/
def keep_positions {α : Type} (L : List String) : List String → List α → List α
  | o :: objects, x :: xs =>
    if o ∈ L then keep_positions L objects xs else x :: keep_positions L objects xs
  | _, _ => []

/-- The corpus obtained by deleting, from the object list and from every per-label
feature and transformation list, the positions whose object name is in `L`. -/
def delete_ignored (L : List String) (t : MeshCuboidTrainer) : MeshCuboidTrainer :=
  { object_list_ := t.object_list_.filter fun o => decide (o ∉ L),
    feature_list_ := t.feature_list_.map (keep_positions L t.object_list_),
    transformation_list_ := t.transformation_list_.map (keep_positions L t.object_list_) }

end MeshCuboidTrainer

/-! ## The mesh -/

/-- Modelled from the spec: `MyMesh` is declared in a header that is not among the
sources; the mesh is "a collaborator exposing `faces()`, `face_label(face_id)`,
`point(vertex)`, `scale()`, `translation()`, `object_diameter()`". Kept: the
label of every face (their number is `n_faces()`) and the values `get_scale()` and
`get_translation()` return. -/
structure MyMesh where
  face_label_ : List Nat := []
  scale_ : ℚ := 1
  translation_ : Vec3 := Vec3.splat 0
deriving DecidableEq, Repr

/-- Modelled from the spec: `MyMesh::n_faces`, the number of faces of the mesh. -/
def MyMesh.n_faces (mesh : MyMesh) : Nat := mesh.face_label_.length

namespace MeshCuboidStructure

/-! ## Scaling, statement by statement -/

/-- Method `MeshCuboidStructure::scale` with the structure it leaves behind: the
member variables at the moment the call ends, and whether the call returned
(`true`) or was aborted by `assert(_scale > 0)` (`false`). The assertion is the
first statement of the body. -/
def scale_state (fl : ℚ → ℚ) (st : MeshCuboidStructure) (s : ℚ) :
    MeshCuboidStructure × Bool :=
  if 0 < s then
    ({ st with
      sample_points_ :=
        st.sample_points_.map fun sp => { sp with point_ := (sp.point_.mul s).map fl }
      scale_ := fl (st.scale_ * s)
      translation_ := (st.translation_.mul s).map fl }, true)
  else (st, false)

/-! ## Occluded sample points -/

/-- The loop of `remove_occluded_sample_points` over the visible face indices, in
the iteration order of the set: `is_face_visible[fid] = true`, with
`assert(fid < num_faces)` as the failure. -/
def mark_face_visible : List Nat → List Bool → Option (List Bool)
  | [], is_face_visible => some is_face_visible
  | fid :: rest, is_face_visible =>
    if fid < is_face_visible.length then mark_face_visible rest (is_face_visible.set fid true)
    else none

/-- The loop of `remove_occluded_sample_points` over the sample points: a point
whose face is not visible is erased, the others stay in place. Reading
`is_face_visible` outside the array is a failure. -/
def erase_occluded (is_face_visible : List Bool) :
    List MeshSamplePoint → Option (List MeshSamplePoint)
  | [] => some []
  | sample_point :: rest =>
    match is_face_visible[sample_point.corr_fid_]? with
    | none => none
    | some visible =>
      (erase_occluded is_face_visible rest).map fun kept =>
        if visible then sample_point :: kept else kept

/-- Method `MeshCuboidStructure::remove_occluded_sample_points`; the set of visible
face indices is given by its elements in iteration order. The cuboids keep the
sample points they were given. -/
def remove_occluded_sample_points (mesh : MyMesh) (st : MeshCuboidStructure)
    (visible_face_indices : List Nat) : Option MeshCuboidStructure :=
  (mark_face_visible visible_face_indices (List.replicate mesh.n_faces false)).bind
    fun is_face_visible =>
      (erase_occluded is_face_visible st.sample_points_).map fun sample_points =>
        { st with sample_points_ := sample_points }

/-- A mesh with six faces, labelled 0, 0, 1, 1, 2, 2. -/
def demoMesh : MyMesh := { face_label_ := [0, 0, 1, 1, 2, 2] }

/-- Five sample points on the faces 4, 1, 3, 1 and 0. -/
def demoFacePoints : MeshCuboidStructure :=
  { labels_ := [0, 1, 2], label_names_ := ["a", "b", "c"], label_symmetries_ := [[], [], []],
    sample_points_ :=
      [{ corr_fid_ := 4, bary_coord_ := ⟨1, 0, 0⟩, point_ := ⟨0, 0, 0⟩ },
       { corr_fid_ := 1, bary_coord_ := ⟨0, 1, 0⟩, point_ := ⟨1, 0, 0⟩ },
       { corr_fid_ := 3, bary_coord_ := ⟨0, 0, 1⟩, point_ := ⟨0, 1, 0⟩ },
       { corr_fid_ := 1, bary_coord_ := ⟨1, 0, 0⟩, point_ := ⟨0, 0, 1⟩ },
       { corr_fid_ := 0, bary_coord_ := ⟨1, 0, 0⟩, point_ := ⟨2, 0, 1⟩ }],
    query_label_index_ := 3 }

/-! ## Labels of the mesh faces -/

/-- The search loop of `exist_label` from `label_index` on, with `count` indices
left to visit: the first index whose label is `label`, and `none` for the result
`false`. -/
def exist_label_loop (labels : List Nat) (label : Nat) : Nat → Nat → Option Nat
  | 0, _ => none
  | count + 1, label_index =>
    if labels[label_index]? = some label then some label_index
    else exist_label_loop labels label count (label_index + 1)

/-- Method `MeshCuboidStructure::exist_label`: `some label_index` is the result `true`
with the index stored through the pointer, `none` the result `false`. -/
def exist_label (st : MeshCuboidStructure) (label : Nat) : Option Nat :=
  exist_label_loop st.labels_ label st.num_labels 0

/-- The body of the loop of `apply_mesh_face_labels_to_sample_points` for one sample
point: its confidence vector becomes `num_labels` zeros with a one at the index of
its face's label. `none` when an assertion fails: the face index is not below the
face count, or the label of the face is not a label of the structure. -/
def apply_mesh_face_label (mesh : MyMesh) (st : MeshCuboidStructure)
    (sample_point : MeshSamplePoint) : Option MeshSamplePoint :=
  if sample_point.corr_fid_ < mesh.n_faces then
    match mesh.face_label_[sample_point.corr_fid_]? with
    | none => none
    | some label =>
      match st.exist_label label with
      | none => none
      | some label_index =>
        if label_index < st.num_labels then
          some { sample_point with
            label_index_confidence_ := (List.replicate st.num_labels 0).set label_index 1 }
        else none
  else none

/-- The loop of `apply_mesh_face_labels_to_sample_points` over the sample points. -/
def apply_mesh_face_labels_loop (mesh : MyMesh) (st : MeshCuboidStructure) :
    List MeshSamplePoint → Option (List MeshSamplePoint)
  | [] => some []
  | sample_point :: rest =>
    match apply_mesh_face_label mesh st sample_point with
    | none => none
    | some labelled =>
      (apply_mesh_face_labels_loop mesh st rest).map fun others => labelled :: others

/-- Method `MeshCuboidStructure::apply_mesh_face_labels_to_sample_points`; `none`
when an assertion fails. -/
def apply_mesh_face_labels_to_sample_points (mesh : MyMesh) (st : MeshCuboidStructure) :
    Option MeshCuboidStructure :=
  (apply_mesh_face_labels_loop mesh st st.sample_points_).map fun sample_points =>
    { st with sample_points_ := sample_points }

/-- Two labels and two sample points that are both fully confident for both
labels. -/
def demoOverlap : MeshCuboidStructure :=
  { labels_ := [0, 1], label_names_ := ["seat", "leg"], label_symmetries_ := [[], []],
    sample_points_ :=
      [{ corr_fid_ := 0, bary_coord_ := ⟨1, 0, 0⟩, point_ := ⟨0, 0, 0⟩,
         label_index_confidence_ := [1, 1] },
       { corr_fid_ := 1, bary_coord_ := ⟨1, 0, 0⟩, point_ := ⟨0, 0, 1⟩,
         label_index_confidence_ := [1, 1] }],
    query_label_index_ := 2 }

end MeshCuboidStructure

namespace MeshCuboidStructure

/-- Every sample point has at most one label for which its confidence is at least
the tolerance. -/
def SingleConfidentLabel (param_confidence_tol : ℚ) (st : MeshCuboidStructure) : Prop :=
  ∀ sp ∈ st.sample_points_, ∀ i < st.num_labels, ∀ j < st.num_labels, i ≠ j →
    param_confidence_tol ≤ sp.label_index_confidence_.getD i 0 →
    ¬ param_confidence_tol ≤ sp.label_index_confidence_.getD j 0

instance (param_confidence_tol : ℚ) (st : MeshCuboidStructure) :
    Decidable (st.SingleConfidentLabel param_confidence_tol) := by
  unfold SingleConfidentLabel; infer_instance

/-- A sample point whose confidence for each of two labels is `c`. -/
def demoTwoLabelPoint (c : ℚ) : MeshSamplePoint :=
  { corr_fid_ := 0, bary_coord_ := ⟨1, 0, 0⟩, point_ := ⟨0, 0, 0⟩,
    label_index_confidence_ := [c, c] }

end MeshCuboidStructure

namespace MeshCuboidStructure

/-! ## Format errors of a labels file -/

/-- A well-formed line of a labels file: not empty, with at least three
space-separated tokens of which the second is `pnts` and the third is `1`. -/
def LabelLineWellFormed (buffer : String) : Prop :=
  buffer ≠ "" ∧ 3 ≤ (line_tokens ' ' buffer).length ∧
  (line_tokens ' ' buffer).getD 1 "" = "pnts" ∧ (line_tokens ' ' buffer).getD 2 "" = "1"

instance (buffer : String) : Decidable (LabelLineWellFormed buffer) := by
  unfold LabelLineWellFormed; infer_instance

/-- A line with a format error: not empty, and with fewer than three space-separated
tokens or with second and third tokens that are not `pnts` and `1`. -/
def LabelFormatError (buffer : String) : Prop :=
  buffer ≠ "" ∧ ((line_tokens ' ' buffer).length < 3 ∨
    (line_tokens ' ' buffer).getD 1 "" ≠ "pnts" ∨ (line_tokens ' ' buffer).getD 2 "" ≠ "1")

instance (buffer : String) : Decidable (LabelFormatError buffer) := by
  unfold LabelFormatError; infer_instance

/-- The name a line of a labels file gives: its first space-separated token. -/
def label_line_name (buffer : String) : String := String.mk (getline ' ' buffer.data).1

end MeshCuboidStructure

namespace MeshCuboidStructure

/-- A labels file whose second line has a single token. -/
def demoBrokenLabels : List String := ["seat pnts 1", "leg", "back pnts 1", ""]

end MeshCuboidStructure

/-! ## Number conversions -/

/-- The C library conversions `atoi` and `atof` that the loaders call on tokens,
taken as parameters. -/
structure NumberConversions where
  atoi : String → Int
  atof : String → ℚ

/-- The value of the decimal digits at the head of a list of characters. -/
def leading_digits_value : List Char → Nat → Nat
  | [], acc => acc
  | c :: cs, acc =>
    if c.isDigit then leading_digits_value cs (acc * 10 + (c.toNat - '0'.toNat)) else acc

/-- The value of an optional minus sign followed by decimal digits. -/
def signed_digits_value : List Char → Int
  | '-' :: cs => -(leading_digits_value cs 0 : Int)
  | cs => (leading_digits_value cs 0 : Int)

/-- Conversions that read an optional minus sign and decimal digits, as `atoi` does
on such tokens and `atof` does on tokens without a fraction or exponent. -/
def demoConversions : NumberConversions :=
  { atoi := fun token => signed_digits_value token.data,
    atof := fun token => (signed_digits_value token.data : ℚ) }

namespace MeshCuboidStructure

/-! ## Loading sample point labels -/

/-- The loop of `load_sample_point_labels` over `label_index` for one line, with
`count` labels still to read: each token up to the next comma is converted and
stored at `label_index`. The result is `false` at the format error exit (the
stream is at its end before a value is read), with the vector as it stands. -/
def read_confidences (atof : String → ℚ) :
    Nat → Nat → List Char → Bool → List ℚ → Bool × List ℚ
  | 0, _, _, _, label_index_confidence => (true, label_index_confidence)
  | count + 1, label_index, cs, eof, label_index_confidence =>
    if eof then (false, label_index_confidence)
    else
      let r := getline ',' cs
      read_confidences atof count (label_index + 1) r.2.1 r.2.2
        (label_index_confidence.set label_index (atof (String.mk r.1)))

/-- The reading loop of `load_sample_point_labels`: the lines still to be read, the
counter `sample_point_index` and the structure. A line whose first space-separated
token starts with `@` is skipped; any other line gives the confidence vector of
the next sample point. The result is `false` at a format error, with the counter
and the structure as they stand at that point. (The test `strstr.eof()` on the
stream just made from the line is never true.) -/
def load_sample_point_labels_loop (atof : String → ℚ) :
    List String → Nat → MeshCuboidStructure → Bool × Nat × MeshCuboidStructure
  | [], sample_point_index, st => (true, sample_point_index, st)
  | buffer :: rest, sample_point_index, st =>
    match st.sample_points_[sample_point_index]? with
    | none => (true, sample_point_index, st)
    | some sample_point =>
      let token := String.mk (getline ' ' buffer.data).1
      if token = "@ATTRIBUTE" then load_sample_point_labels_loop atof rest sample_point_index st
      else if token.data.head? = some '@' then
        load_sample_point_labels_loop atof rest sample_point_index st
      else
        let r := read_confidences atof st.num_labels 0 buffer.data false
          (List.replicate st.num_labels 0)
        let st1 : MeshCuboidStructure :=
          { st with
            sample_points_ := st.sample_points_.set sample_point_index
              { sample_point with label_index_confidence_ := r.2 } }
        if r.1 then load_sample_point_labels_loop atof rest (sample_point_index + 1) st1
        else (false, sample_point_index, st1)

/-- Method `MeshCuboidStructure::load_sample_point_labels`. The file is `none` when
it cannot be opened, and otherwise its lines; the result is `none` when the
closing assertion `sample_point_index == num_sample_points()` fails. -/
def load_sample_point_labels (conv : NumberConversions) (st : MeshCuboidStructure)
    (file : Option (List String)) : Option (Bool × MeshCuboidStructure) :=
  if st.labels_.isEmpty then some (false, st)
  else if st.sample_points_.isEmpty then some (false, st)
  else
    match file with
    | none => some (false, st)
    | some lines =>
      let r := load_sample_point_labels_loop conv.atof lines 0 st
      if r.1 then
        if r.2.1 = r.2.2.num_sample_points then
          some (true, { r.2.2 with query_label_index_ := r.2.2.num_labels })
        else none
      else some (false, r.2.2)

/-- A sample point labels file for four points and two labels, with two header
lines. -/
def demoPointLabelsFile : List String :=
  ["@RELATION labels", "@ATTRIBUTE seat NUMERIC", "1,0", "0,1", "1,0", "0,1", ""]

/-- A structure with two labels and no sample points. -/
def demoNoPoints : MeshCuboidStructure :=
  { labels_ := [0, 1], label_names_ := ["seat", "leg"], label_symmetries_ := [[], []],
    query_label_index_ := 2 }

end MeshCuboidStructure

namespace MeshCuboidStructure

/-! ## Loading sample points -/

/-- Method `MeshCuboidStructure::clear_sample_points`. -/
def clear_sample_points (st : MeshCuboidStructure) : MeshCuboidStructure :=
  { st with sample_points_ := [], translation_ := Vec3.splat 0, scale_ := 1 }

/-- Method `MeshCuboidStructure::clear`. -/
def clear (st : MeshCuboidStructure) : MeshCuboidStructure :=
  st.clear_sample_points.clear_cuboids.clear_labels

/-- Method `MeshCuboidStructure::apply_mesh_transformation`; `none` when an assertion
of `reset_transformation` or of `scale` fails. -/
def apply_mesh_transformation (fl : ℚ → ℚ) (mesh : MyMesh) (st : MeshCuboidStructure) :
    Option MeshCuboidStructure :=
  (st.reset_transformation fl).bind fun st1 =>
    (st1.scale fl mesh.scale_).map fun st2 => st2.translate fl mesh.translation_

/-- A run of `count` statements `std::getline(strstr, token, ' '); v = atof(token.c_str());`
on the string stream of a line: the values read, in order. Once the stream is at
its end a further `std::getline` extracts nothing and leaves `token` as it is. -/
def read_values (atof : String → ℚ) : Nat → List Char → Bool → String → List ℚ
  | 0, _, _, _ => []
  | count + 1, cs, eof, token =>
    if eof then atof token :: read_values atof count cs eof token
    else
      let r := getline ' ' cs
      atof (String.mk r.1) :: read_values atof count r.2.1 r.2.2 (String.mk r.1)

/-- The first space-separated token of a line of a sample points file, which
holds the face index. -/
def face_id_token (buffer : String) : String := String.mk (getline ' ' buffer.data).1

/-- The statements of the loop body of `load_sample_points` that build the new
sample point of a line: the face index converted from the first token, and the
barycentric coordinates and the position from the six values read after it. -/
def sample_point_of_line (conv : NumberConversions) (buffer : String) : MeshSamplePoint :=
  let r := getline ' ' buffer.data
  let values := read_values conv.atof 6 r.2.1 r.2.2 (String.mk r.1)
  { corr_fid_ := (conv.atoi (face_id_token buffer)).toNat,
    bary_coord_ := ⟨values.getD 0 0, values.getD 1 0, values.getD 2 0⟩,
    point_ := ⟨values.getD 3 0, values.getD 4 0, values.getD 5 0⟩ }

/-- The reading loop of `load_sample_points`: the lines still to be read and the
sample points pushed so far. A line on which the stream is at its end after the
first token is skipped (`continue`); `none` when `assert(corr_fid >= 0)` fails. -/
def load_sample_points_loop (conv : NumberConversions) :
    List String → List MeshSamplePoint → Option (List MeshSamplePoint)
  | [], sample_points => some sample_points
  | buffer :: rest, sample_points =>
    if 0 ≤ conv.atoi (face_id_token buffer) then
      if (getline ' ' buffer.data).2.2 then load_sample_points_loop conv rest sample_points
      else load_sample_points_loop conv rest (sample_points ++ [sample_point_of_line conv buffer])
    else none

/-- Method `MeshCuboidStructure::load_sample_points`. The file is `none` when it
cannot be opened, and otherwise its lines; the result is `none` when an assertion
fails. -/
def load_sample_points (fl : ℚ → ℚ) (conv : NumberConversions) (mesh : MyMesh)
    (st : MeshCuboidStructure) (file : Option (List String)) :
    Option (Bool × MeshCuboidStructure) :=
  match file with
  | none => some (false, st)
  | some lines =>
    (load_sample_points_loop conv lines st.clear_sample_points.sample_points_).bind
      fun sample_points =>
        (apply_mesh_transformation fl mesh
          { st.clear_sample_points with sample_points_ := sample_points }).map
          fun st1 => (true, st1)

/-- The stream of a line is at its end after the first token: the line has no
space, it holds a face index and nothing else. -/
def only_face_id (buffer : String) : Bool := (getline ' ' buffer.data).2.2

/-- A sample points file with two full lines and, between them, a line that holds
only a face index. -/
def demoSamplePointsFile : List String := ["3 1 0 0 7 8 9", "5", "4 0 1 0 1 2 3", ""]

end MeshCuboidStructure

namespace MeshCuboidStructure

/-! ## Loading cuboids -/

/-- The corners that a run of coordinate values gives, three values per corner. -/
def corners_of_values : List ℚ → List Vec3
  | px :: py :: pz :: rest => ⟨px, py, pz⟩ :: corners_of_values rest
  | _ => []

/-- The statements of the loop body of `load_cuboids` that build the cuboid of a
line: 24 comma-separated values are read, with `assert(!strstr.eof())` before
each (`none` when one fails), the centre is the sum of the 8 corners divided by 8,
and `cuboidize` is called. Modelled from the spec: `MeshCuboid::cuboidize` is not
among the sources and is the parameter `cuboidize`. -/
def read_cuboid (conv : NumberConversions) (cuboidize : MeshCuboid → MeshCuboid)
    (label_index : Nat) (buffer : String) : Option MeshCuboid :=
  (read_fixed_tokens ',' 24 buffer.data false).map fun tokens =>
    let bbox_corners := corners_of_values (tokens.map conv.atof)
    let sum := bbox_corners.foldl Vec3.add (Vec3.splat 0)
    cuboidize
      { label_index_ := label_index, bbox_corners_ := bbox_corners,
        bbox_center_ := ⟨sum.x / 8, sum.y / 8, sum.z / 8⟩ }

/-- The reading loop of `load_cuboids`: the lines still to be read, the loop counter
`label_index` and the structure. An empty line is skipped with `continue`, which
still runs the increment `label_index++` of the `for` statement. -/
def load_cuboids_loop (conv : NumberConversions) (cuboidize : MeshCuboid → MeshCuboid) :
    List String → Nat → MeshCuboidStructure → Option MeshCuboidStructure
  | [], _, st => some st
  | buffer :: rest, label_index, st =>
    if buffer = "" then load_cuboids_loop conv cuboidize rest (label_index + 1) st
    else
      match read_cuboid conv cuboidize label_index buffer with
      | none => none
      | some new_cuboid =>
        load_cuboids_loop conv cuboidize rest (label_index + 1)
          { st with
            labels_ := st.labels_ ++ [label_index]
            label_cuboids_ := st.label_cuboids_ ++ [[new_cuboid]] }

/-- The sample points that `load_cuboids` creates on a face of the first cuboid: a
grid of 30 by 30 points between its corners 0, 1 and 2, each with face index 0 and
confidence 1 for label 0. -/
def grid_sample_points (num_labels : Nat) (cuboid : MeshCuboid) : List MeshSamplePoint :=
  let corner_0 := cuboid.bbox_corners_.getD 0 (Vec3.splat 0)
  let corner_1 := cuboid.bbox_corners_.getD 1 (Vec3.splat 0)
  let corner_2 := cuboid.bbox_corners_.getD 2 (Vec3.splat 0)
  let pz := corner_0.z
  let min_x := corner_0.x
  let max_x := corner_1.x
  let min_y := corner_0.y
  let max_y := corner_2.y
  (List.range 30).flatMap fun (i : Nat) =>
    (List.range 30).map fun (j : Nat) =>
      { corr_fid_ := 0, bary_coord_ := Vec3.splat 0,
        point_ := ⟨(max_x - min_x) / 29 * (i : ℚ) + min_x,
          (max_y - min_y) / 29 * (j : ℚ) + min_y, pz⟩,
        label_index_confidence_ := (List.replicate num_labels 0).set 0 1 }

/-- The block `if (num_labels() > 0) { ... }` of `load_cuboids`: the grid points are
appended to the sample points and given to the cuboid `label_cuboids_[0][0]`;
`none` when that cuboid does not exist. -/
def add_grid_sample_points (st : MeshCuboidStructure) : Option MeshCuboidStructure :=
  if 0 < st.num_labels then
    match (st.label_cuboids_.getD 0 [])[0]? with
    | none => none
    | some new_cuboid =>
      let grid := grid_sample_points st.num_labels new_cuboid
      some { st with
        sample_points_ := st.sample_points_ ++ grid
        label_cuboids_ := st.label_cuboids_.set 0
          ((st.label_cuboids_.getD 0 []).set 0
            { new_cuboid with
              sample_points_ :=
                new_cuboid.sample_points_ ++
                  List.range' st.sample_points_.length grid.length }) }
  else some st

/-- Method `MeshCuboidStructure::load_cuboids`. The file is `none` when it cannot be
opened, and otherwise its lines; the result is `none` when an assertion fails. -/
def load_cuboids (conv : NumberConversions) (cuboidize : MeshCuboid → MeshCuboid)
    (st : MeshCuboidStructure) (file : Option (List String)) :
    Option (Bool × MeshCuboidStructure) :=
  match file with
  | none => some (false, st)
  | some lines =>
    (load_cuboids_loop conv cuboidize lines 0 st.clear).bind fun st1 =>
      st1.add_grid_sample_points.map fun st2 =>
        (true, { st2 with query_label_index_ := st2.num_labels })

/-- A line of a cuboids file: the unit cube. -/
def demoCuboidLine : String := "0,0,0,1,0,0,0,1,0,1,1,0,0,0,1,1,0,1,0,1,1,1,1,1"

/-- A line of a cuboids file: a box of size 2 by 4 by 6. -/
def demoCuboidLine2 : String := "0,0,0,2,0,0,0,4,0,2,4,0,0,0,6,2,0,6,0,4,6,2,4,6"

/-- A cuboids file with two cuboid lines. -/
def demoCuboidsFile : List String := [demoCuboidLine, demoCuboidLine2, ""]

/-- A cuboids file with an empty line before its cuboid line. -/
def demoCuboidsFileBlank : List String := ["", demoCuboidLine, ""]

/-! ## Labels of the mesh faces, for cuboids -/

/-- The loop of `apply_mesh_face_labels_to_cuboids` over `part_list`: every cuboid is
pushed to the list of its label index; a label index outside the lists is a
failure (a write outside the vector). -/
def distribute_cuboids : List MeshCuboid → List (List MeshCuboid) →
    Option (List (List MeshCuboid))
  | [], label_cuboids => some label_cuboids
  | cuboid :: rest, label_cuboids =>
    if cuboid.get_label_index < label_cuboids.length then
      distribute_cuboids rest
        (label_cuboids.set cuboid.get_label_index
          (label_cuboids.getD cuboid.get_label_index [] ++ [cuboid]))
    else none

/-- Method `MeshCuboidStructure::apply_mesh_face_labels_to_cuboids`. Modelled from the
spec: `MeshCuboid::update_label_using_sample_points` is not among the sources and
is the parameter `update_label`, which sees the sample points. -/
def apply_mesh_face_labels_to_cuboids (mesh : MyMesh)
    (update_label : List MeshSamplePoint → MeshCuboid → MeshCuboid)
    (st : MeshCuboidStructure) : Option MeshCuboidStructure :=
  (st.apply_mesh_face_labels_to_sample_points mesh).bind fun st1 =>
    let part_list :=
      (st1.label_cuboids_.flatMap fun cuboids => cuboids).map (update_label st1.sample_points_)
    (distribute_cuboids part_list (List.replicate st1.num_labels [])).map fun label_cuboids =>
      { st1 with label_cuboids_ := label_cuboids, query_label_index_ := st1.num_labels }

end MeshCuboidStructure

namespace MeshCuboidStructure

/-- The five sample points of `demoFacePoints` with two cuboids, stored under labels
that are not the labels of their label indices. -/
def demoFaceCuboids : MeshCuboidStructure :=
  { demoFacePoints with
    label_cuboids_ :=
      [[{ label_index_ := 2, sample_points_ := [0] }], [],
       [{ label_index_ := 0, sample_points_ := [1, 3, 4] }]] }

end MeshCuboidStructure

/-- The upper-right `g × k` block of a `(g + k) × (g + k)` matrix. -/
def upper_right_block (g k : Nat) (L : Matrix (Fin (g + k)) (Fin (g + k)) ℚ) :
    Matrix (Fin g) (Fin k) ℚ :=
  fun a b => L (Fin.castAdd k a) (Fin.natAdd g b)

/-- The conditional covariance of `X2` given `X1` of a joint covariance `Sigma` over
`g + k` values, in the words of the spec: `Σ22 − Σ21·Σ11⁻¹·Σ12`. -/
def conditional_covariance (g k : Nat) (Sigma : Matrix (Fin (g + k)) (Fin (g + k)) ℚ) :
    Matrix (Fin k) (Fin k) ℚ :=
  lower_right_block g k Sigma -
    lower_left_block g k Sigma * eigen_inverse (upper_left_block g k Sigma) *
      upper_right_block g k Sigma

namespace MeshCuboidTrainer

/-- Modelled from the spec: what the relation loaders use of the world outside the
sources. `file_exists` is `QFileInfo::exists` on a file name (Qt), and `load_csv` is
`load_joint_normal_csv` / `load_cond_normal_csv` of the relation classes, whose code is
not among the sources: the relation object after the call on a file name, and the
result of the call (`false`: the file did not parse). -/
structure RelationFiles (R : Type) where
  file_exists : String → Bool
  load_csv : String → R × Bool

/-- The file name `load_joint_normal_relations` streams together for an ordered pair:
`_filename_prefix << label_index_1 << "_" << label_index_2 << ".csv"`. -/
def joint_relation_filename ( _filename_prefix : String) (label_index_1 label_index_2 : Nat) :
    String :=
  _filename_prefix ++ toString label_index_1 ++ "_" ++ toString label_index_2 ++ ".csv"

/-- The file name `load_cond_normal_relations` streams together for an ordered pair:
`std::string("") << label_index_1 << "_" << label_index_2 << ".csv"`; the parameter
`_filename_prefix` is not read. -/
def cond_relation_filename ( _filename_prefix : String) (label_index_1 label_index_2 : Nat) :
    String :=
  "" ++ toString label_index_1 ++ "_" ++ toString label_index_2 ++ ".csv"

/-- The loop `do { ... } while (std::cin.get() != '\n')` on the characters still to come
on standard input: the input left after the first newline, or `none` when the input
ends without one (at the end of input `get` keeps returning EOF and the loop goes on
for ever). -/
def wait_for_enter : List Char → Option (List Char)
  | [] => none
  | c :: rest => if c = '\n' then some rest else wait_for_enter rest

/-- The call `row.resize(n, NULL)` of `std::vector`: the first `n` entries, filled up
with null entries. -/
def resize_row {R : Type} (n : Nat) (row : List (Option R)) : List (Option R) :=
  row.take n ++ List.replicate (n - row.length) none

/-- The loop over `label_index_2` of both relation loaders, for a fixed `label_index_1`
and with `count` labels still to visit; `filename` builds the file name of a pair and
`console` is the standard input still to come. `none`: the loader waits for the Enter
key for ever. -/
def load_relations_of {R : Type} (files : RelationFiles R) (filename : Nat → Nat → String)
    (label_index_1 : Nat) :
    Nat → Nat → List (List (Option R)) → List Char →
      Option (List (List (Option R)) × List Char)
  | 0, _, relations, console => some (relations, console)
  | count + 1, label_index_2, relations, console =>
    if label_index_1 = label_index_2 then
      load_relations_of files filename label_index_1 count (label_index_2 + 1) relations console
    else if !files.file_exists (filename label_index_1 label_index_2) then
      load_relations_of files filename label_index_1 count (label_index_2 + 1) relations console
    else
      let loaded := files.load_csv (filename label_index_1 label_index_2)
      let relations1 := set_relation relations label_index_1 label_index_2 loaded.1
      if loaded.2 then
        load_relations_of files filename label_index_1 count (label_index_2 + 1) relations1
          console
      else
        match wait_for_enter console with
        | none => none
        | some console1 =>
          load_relations_of files filename label_index_1 count (label_index_2 + 1) relations1
            console1

/-- The loop over `label_index_1` of both relation loaders, with `count` labels still to
visit: the row of the label is resized to `_num_labels` null entries, then filled. -/
def load_relations_from {R : Type} (files : RelationFiles R) (filename : Nat → Nat → String)
    (_num_labels : Nat) :
    Nat → Nat → List (List (Option R)) → List Char →
      Option (List (List (Option R)) × List Char)
  | 0, _, relations, console => some (relations, console)
  | count + 1, label_index_1, relations, console =>
    let relations0 :=
      relations.set label_index_1 (resize_row _num_labels (relations.getD label_index_1 []))
    match load_relations_of files filename label_index_1 _num_labels 0 relations0 console with
    | none => none
    | some (relations1, console1) =>
      load_relations_from files filename _num_labels count (label_index_1 + 1) relations1
        console1

/-- The body both relation loaders share: the relations held in `_relations` are deleted
and the vector cleared and resized to `_num_labels` empty rows, then the pairs are
visited row by row. The result is the matrix and the standard input left over. -/
def load_relations {R : Type} (files : RelationFiles R) (filename : Nat → Nat → String)
    (_num_labels : Nat) (_relations : List (List (Option R))) (console : List Char) :
    Option (List (List (Option R)) × List Char) :=
  load_relations_from files filename _num_labels _num_labels 0
    ((_relations.take 0) ++ List.replicate _num_labels []) console

/-- The method `load_joint_normal_relations`. -/
def load_joint_normal_relations {R : Type} (files : RelationFiles R) (_num_labels : Nat)
    ( _filename_prefix : String) (_relations : List (List (Option R))) (console : List Char) :
    Option (List (List (Option R)) × List Char) :=
  load_relations files (joint_relation_filename _filename_prefix) _num_labels _relations console

/-- The method `load_cond_normal_relations`. -/
def load_cond_normal_relations {R : Type} (files : RelationFiles R) (_num_labels : Nat)
    ( _filename_prefix : String) (_relations : List (List (Option R))) (console : List Char) :
    Option (List (List (Option R)) × List Char) :=
  load_relations files (cond_relation_filename _filename_prefix) _num_labels _relations console

/-- A file system that holds the one relation file `rel_0_1.csv`; a relation object is
modelled by the name of the file it was read from, and every file parses. -/
def demoRelationFiles : RelationFiles String :=
  { file_exists := fun name => name == "rel_0_1.csv"
    load_csv := fun name => (name, true) }

/-- A file system that holds the relation files `rel_0_1.csv` and `0_1.csv`; a relation
object is modelled by the name of the file it was read from, and every file parses. -/
def demoBothRelationFiles : RelationFiles String :=
  { file_exists := fun name => name == "rel_0_1.csv" || name == "0_1.csv"
    load_csv := fun name => (name, true) }

/-- A file system that holds the one relation file `rel_0_1.csv`, which does not
parse. -/
def demoBrokenRelationFiles : RelationFiles String :=
  { file_exists := fun name => name == "rel_0_1.csv"
    load_csv := fun name => (name, false) }

end MeshCuboidTrainer

end CuboidPrediction

/-! # Theorems -/

namespace CuboidPrediction

namespace Vec3

theorem ext_iff' (p q : Vec3) : p = q ↔ p.x = q.x ∧ p.y = q.y ∧ p.z = q.z := by
  cases p; cases q; simp

theorem mul_inv_add_neg (p t : Vec3) (s : ℚ) (hs : s ≠ 0) :
    (((p.mul (1 / s)).add ((t.mul (1 / s)).neg)).mul s).add t = p := by
  cases p; cases t
  simp only [mul, add, neg, Vec3.mk.injEq]
  refine ⟨?_, ?_, ?_⟩ <;> field_simp

theorem add_neg_self (t : Vec3) : t.add t.neg = splat 0 := by
  cases t; simp [add, neg, splat]

@[simp]
theorem map_id (p : Vec3) : p.map id = p := rfl

end Vec3

namespace MeshCuboidStructure

/-- With exact arithmetic `scale` is the multiplication by the factor. -/
theorem scale_eq_some {st : MeshCuboidStructure} {s : ℚ} (hs : 0 < s) :
    st.scale id s = some { st with
      sample_points_ := st.sample_points_.map fun sp => { sp with point_ := sp.point_.mul s }
      scale_ := st.scale_ * s
      translation_ := st.translation_.mul s } := by
  simp [scale, hs]

/-- With exact arithmetic `translate` is the addition of the vector. -/
theorem translate_id (st : MeshCuboidStructure) (v : Vec3) :
    st.translate id v = { st with
      sample_points_ := st.sample_points_.map fun sp => { sp with point_ := sp.point_.add v }
      translation_ := st.translation_.add v } := by
  simp [translate]

/-- With exact arithmetic admissible calls keep the composed scale positive and never
fail. -/
theorem calls_scale_pos (cs : List TransformCall) :
    ∀ st : MeshCuboidStructure, 0 < st.scale_ → (∀ c ∈ cs, c.Admissible) →
      ∃ st1, st.calls id cs = some st1 ∧ 0 < st1.scale_ := by
  induction cs with
  | nil => intro st h _; exact ⟨st, rfl, h⟩
  | cons c cs ih =>
    intro st h hadm
    have hc : c.Admissible := hadm c (List.mem_cons_self _ _)
    have hcs : ∀ d ∈ cs, d.Admissible := fun d hd => hadm d (List.mem_cons_of_mem _ hd)
    cases c with
    | scale s =>
      have hs : 0 < s := hc
      obtain ⟨st1, h1, h2⟩ := ih { st with
        sample_points_ := st.sample_points_.map fun sp => { sp with point_ := sp.point_.mul s }
        scale_ := st.scale_ * s
        translation_ := st.translation_.mul s } (mul_pos h hs) hcs
      exact ⟨st1, by simp [calls, call, scale_eq_some hs, h1], h2⟩
    | translate v =>
      obtain ⟨st1, h1, h2⟩ := ih (st.translate id v) h hcs
      exact ⟨st1, by simp [calls, call, h1], h2⟩

theorem map_eq_self {α : Type} (l : List α) (g : α → α) (hg : ∀ a, g a = a) :
    l.map g = l := by
  conv_rhs => rw [← List.map_id l]
  apply List.map_congr_left
  intro a _
  simp [hg]

/-- Closed form of the reset from a state with a positive composed scale, with exact
arithmetic. -/
theorem reset_transformation_eq (st : MeshCuboidStructure) (h : 0 < st.scale_) :
    st.reset_transformation id = some { st with
      sample_points_ := st.sample_points_.map fun sp => { sp with
        point_ := (sp.point_.mul (1 / st.scale_)).add ((st.translation_.mul (1 / st.scale_)).neg) }
      scale_ := 1
      translation_ := Vec3.splat 0 } := by
  have hne : st.scale_ ≠ 0 := ne_of_gt h
  by_cases hid : st.translation_ ≠ Vec3.splat 0 ∨ st.scale_ ≠ 1
  · have hinv : (0 : ℚ) < 1 / st.scale_ := one_div_pos.mpr h
    simp only [reset_transformation, if_pos hid, id_eq, scale_eq_some hinv, Option.map_some',
      Option.some_bind, translate_id]
    rw [if_pos (Vec3.add_neg_self _), if_pos (by field_simp)]
    simp only [List.map_map, Option.some.injEq, mk.injEq, true_and, Vec3.add_neg_self]
    refine ⟨?_, by field_simp⟩
    apply List.map_congr_left
    intro p _
    rfl
  · push_neg at hid
    obtain ⟨ht, hs⟩ := hid
    simp only [reset_transformation, ht, hs, ne_eq, not_true_eq_false, or_self, if_false,
      Option.some_bind, if_true]
    cases st with
    | mk sp lb ln ls lc q t s =>
      simp only at ht hs
      subst ht hs
      simp only [Option.some.injEq, mk.injEq, true_and, and_true]
      refine (map_eq_self sp _ ?_).symm
      intro p
      obtain ⟨f, b, pt, c⟩ := p
      cases pt
      simp [Vec3.mul, Vec3.add, Vec3.neg, Vec3.splat]

/-- With exact arithmetic, from a state with a positive composed scale the reset
succeeds, ends in the identity transform, and re-applying the composed scale and
translation gives the state back. -/
theorem reset_of_scale_pos (st : MeshCuboidStructure) (h : 0 < st.scale_) :
    ∃ r, st.reset_transformation id = some r ∧ r.translation_ = Vec3.splat 0 ∧
      r.scale_ = 1 ∧
      ∃ r1, r.scale id st.scale_ = some r1 ∧ r1.translate id st.translation_ = st := by
  have hne : st.scale_ ≠ 0 := ne_of_gt h
  refine ⟨_, reset_transformation_eq st h, rfl, rfl, _, scale_eq_some h, ?_⟩
  cases st with
  | mk sp lb ln ls lc q t s =>
    simp only [translate_id, List.map_map, mk.injEq, true_and, and_true, one_mul]
    refine ⟨map_eq_self sp _ ?_, ?_⟩
    · intro p
      obtain ⟨f, b, pt, c⟩ := p
      simp only [Function.comp, MeshSamplePoint.mk.injEq, true_and, and_true]
      exact Vec3.mul_inv_add_neg pt t s hne
    · cases t
      simp [Vec3.mul, Vec3.add, Vec3.splat]

end MeshCuboidStructure

/-! ## Labels -/

theorem read_fixed_tokens_head (delim : Char) (n : Nat) (cs : List Char) (ts : List String)
    (h : read_fixed_tokens delim (n + 1) cs false = some ts) :
    ts.getD 0 "" = String.mk (getline delim cs).1 := by
  simp only [read_fixed_tokens, Bool.false_eq_true, if_false, Option.map_eq_some'] at h
  obtain ⟨ts1, _, rfl⟩ := h
  rfl

namespace MeshCuboidStructure

/-- What a successful reading loop leaves: the labels are numbered on from the
counter, the names are the first tokens of the lines read, and the symmetry lists
grow by empty lists; nothing else changes. -/
theorem load_labels_loop_true (lines : List String) :
    ∀ (new_label : Nat) (st st1 : MeshCuboidStructure),
      load_labels_loop lines new_label st = (true, st1) →
      st1.labels_ = st.labels_ ++ List.range' new_label (file_label_names lines).length ∧
      st1.label_names_ = st.label_names_ ++ file_label_names lines ∧
      st1.label_symmetries_ =
        st.label_symmetries_ ++ List.replicate (file_label_names lines).length [] ∧
      st1.label_cuboids_ = st.label_cuboids_ ∧ st1.sample_points_ = st.sample_points_ := by
  induction lines with
  | nil =>
    intro n st st1 h
    simp only [load_labels_loop, Prod.mk.injEq, true_and] at h
    subst h
    simp [file_label_names]
  | cons buffer rest ih =>
    intro n st st1 h
    by_cases hb : buffer = ""
    · simp only [load_labels_loop, hb, if_true, Prod.mk.injEq, true_and] at h
      subst h
      simp [file_label_names, hb]
    · simp only [load_labels_loop, hb, if_false] at h
      cases hr : read_fixed_tokens ' ' 3 buffer.data false with
      | none => simp [hr] at h
      | some tokens =>
        simp only [hr] at h
        split at h
        · simp at h
        · have hhead := read_fixed_tokens_head ' ' 2 buffer.data tokens hr
          obtain ⟨h1, h2, h3, h4, h5⟩ := ih _ _ _ h
          have hnames : file_label_names (buffer :: rest) =
              String.mk (getline ' ' buffer.data).1 :: file_label_names rest := by
            simp [file_label_names, hb]
          rw [hnames]
          refine ⟨?_, ?_, ?_, h4, h5⟩
          · rw [h1]; simp [List.range'_succ]
          · rw [h2, hhead]; simp
          · rw [h3]; simp [List.replicate_succ]

/-- The search loop returns the first position at or after `start` that holds the
name, as soon as some position within its reach holds it. -/
theorem get_label_index_loop_first (names : List String) (label_name : String) :
    ∀ (fuel start i : Nat), start ≤ i → i < start + fuel →
      names[i]? = some label_name →
      ∃ j, get_label_index_loop names label_name fuel start = some j ∧ start ≤ j ∧ j ≤ i ∧
        names[j]? = some label_name ∧
        ∀ k, start ≤ k → k < j → names[k]? ≠ some label_name := by
  intro fuel
  induction fuel with
  | zero => intro start i h1 h2 _; omega
  | succ fuel ih =>
    intro start i h1 h2 hi
    by_cases hs : names[start]? = some label_name
    · refine ⟨start, by simp [get_label_index_loop, hs], le_refl _, h1, hs, ?_⟩
      intro k hk1 hk2; omega
    · have hne : start ≠ i := fun e => hs (e ▸ hi)
      obtain ⟨j, hj, hj1, hj2, hj3, hj4⟩ := ih (start + 1) i (by omega) (by omega) hi
      refine ⟨j, by simp [get_label_index_loop, hs, hj], by omega, hj2, hj3, ?_⟩
      intro k hk1 hk2
      by_cases hk : k = start
      · rw [hk]; exact hs
      · exact hj4 k (by omega) hk2

/-- The state a successful `load_labels` leaves, read off the file. -/
theorem load_labels_true (st st1 : MeshCuboidStructure) (lines : List String)
    (h : st.load_labels (some lines) = (true, st1)) :
    st1.labels_ = List.range (file_label_names lines).length ∧
    st1.label_names_ = file_label_names lines ∧
    st1.label_symmetries_ = List.replicate (file_label_names lines).length [] ∧
    st1.label_cuboids_ = [] := by
  simp only [load_labels] at h
  split at h
  · rename_i htrue
    simp only [Prod.mk.injEq, true_and] at h
    have hloop : load_labels_loop lines 0 st.clear_cuboids.clear_labels =
        (true, (load_labels_loop lines 0 st.clear_cuboids.clear_labels).2) := by
      rw [← htrue]
    obtain ⟨h1, h2, h3, h4, _⟩ := load_labels_loop_true lines 0 _ _ hloop
    subst h
    refine ⟨?_, ?_, ?_, ?_⟩
    · rw [List.range_eq_range']; simpa [clear_labels, clear_cuboids] using h1
    · simpa [clear_labels, clear_cuboids] using h2
    · simpa [clear_labels, clear_cuboids] using h3
    · simpa [clear_labels, clear_cuboids] using h4
  · simp at h

end MeshCuboidStructure

/-! ## Label symmetries -/

namespace MeshCuboidStructure

theorem get_label_index_loop_some (names : List String) (label_name : String) :
    ∀ (fuel start j : Nat), get_label_index_loop names label_name fuel start = some j →
      start ≤ j ∧ j < start + fuel ∧ names[j]? = some label_name := by
  intro fuel
  induction fuel with
  | zero => intro start j h; simp [get_label_index_loop] at h
  | succ fuel ih =>
    intro start j h
    by_cases hs : names[start]? = some label_name
    · simp only [get_label_index_loop, hs, if_true, Option.some.injEq] at h
      subst h
      exact ⟨le_refl _, by omega, hs⟩
    · simp only [get_label_index_loop, hs, if_false] at h
      obtain ⟨h1, h2, h3⟩ := ih _ _ h
      exact ⟨by omega, by omega, h3⟩

theorem get_label_index_lt (st : MeshCuboidStructure) (name : String) (j : Nat)
    (h : st.get_label_index name = some j) : j < st.num_labels := by
  unfold get_label_index at h
  split at h
  · have := (get_label_index_loop_some _ _ _ _ _ h).2.1
    omega
  · cases h

theorem get_label_index_of_mem (st : MeshCuboidStructure) (name : String)
    (hsize : st.label_names_.length = st.num_labels) (h : name ∈ st.label_names_) :
    ∃ j : Nat, st.get_label_index name = some j := by
  obtain ⟨i, hi, hget⟩ := List.getElem_of_mem h
  have hi2 : st.label_names_[i]? = some name := by
    rw [List.getElem?_eq_getElem hi, hget]
  obtain ⟨j, hj, _⟩ := get_label_index_loop_first st.label_names_ name st.num_labels 0 i
    (Nat.zero_le _) (by omega) hi2
  exact ⟨j, by simp [get_label_index, hsize, hj]⟩

theorem get_label_index_congr (st base : MeshCuboidStructure)
    (hn : st.label_names_ = base.label_names_) (hl : st.labels_ = base.labels_) :
    st.get_label_index = base.get_label_index := by
  funext name
  simp [get_label_index, num_labels, hn, hl]

/-- When every token is a label name, the token loop succeeds and yields the
labels the line names, which are all below `num_labels`. -/
theorem read_label_symmetry_eq (st : MeshCuboidStructure)
    (hsize : st.label_names_.length = st.num_labels) (tokens : List String)
    (h : ∀ tok ∈ tokens, tok ∈ st.label_names_) :
    st.read_label_symmetry tokens = some (tokens.filterMap st.get_label_index) ∧
      ∀ l ∈ tokens.filterMap st.get_label_index, l < st.num_labels := by
  induction tokens with
  | nil => simp [read_label_symmetry]
  | cons tok rest ih =>
    obtain ⟨j, hj⟩ := get_label_index_of_mem st tok hsize (h tok (List.mem_cons_self _ _))
    have hlt := get_label_index_lt st tok j hj
    obtain ⟨ih1, ih2⟩ := ih fun t ht => h t (List.mem_cons_of_mem _ ht)
    refine ⟨?_, ?_⟩
    · simp [read_label_symmetry, hj, hlt, ih1, List.filterMap_cons]
    · intro l hl
      simp only [List.filterMap_cons, hj, List.mem_cons] at hl
      rcases hl with rfl | hl
      · exact hlt
      · exact ih2 l hl

theorem push_symmetry_length (syms : List (List Nat)) (a n : Nat) :
    (push_symmetry syms a n).length = syms.length := by
  simp [push_symmetry]

theorem mem_push_symmetry (syms : List (List Nat)) (a n : Nat) (ha : a < syms.length)
    (L m : Nat) :
    m ∈ (push_symmetry syms a n).getD L [] ↔ m ∈ syms.getD L [] ∨ (L = a ∧ m = n) := by
  by_cases hL : L = a
  · subst hL
    simp [push_symmetry, List.getD_eq_getElem?_getD, List.getElem?_set, ha]
  · have hne : ¬ a = L := fun e => hL e.symm
    simp [push_symmetry, List.getD_eq_getElem?_getD, List.getElem?_set, hL, hne]

theorem add_symmetries_of_spec (a : Nat) (ms : List Nat) :
    ∀ syms : List (List Nat), a < syms.length →
      (add_symmetries_of a ms syms).length = syms.length ∧
      ∀ L m : Nat, m ∈ (add_symmetries_of a ms syms).getD L [] ↔
        m ∈ syms.getD L [] ∨ (L = a ∧ m ∈ ms ∧ m ≠ a) := by
  induction ms with
  | nil => intro syms _; simp [add_symmetries_of]
  | cons n ms ih =>
    intro syms ha
    by_cases hn : n ≠ a
    · have hstep : add_symmetries_of a (n :: ms) syms =
          add_symmetries_of a ms (push_symmetry syms a n) := by
        simp [add_symmetries_of, hn]
      obtain ⟨h1, h2⟩ := ih (push_symmetry syms a n) (by rw [push_symmetry_length]; exact ha)
      rw [hstep]
      refine ⟨by rw [h1, push_symmetry_length], ?_⟩
      intro L m
      rw [h2, mem_push_symmetry syms a n ha]
      constructor
      · rintro ((h | ⟨h, rfl⟩) | ⟨h, h', h''⟩)
        · exact Or.inl h
        · exact Or.inr ⟨h, List.mem_cons_self _ _, hn⟩
        · exact Or.inr ⟨h, List.mem_cons_of_mem _ h', h''⟩
      · rintro (h | ⟨h, h', h''⟩)
        · exact Or.inl (Or.inl h)
        · rcases List.mem_cons.mp h' with rfl | h'
          · exact Or.inl (Or.inr ⟨h, rfl⟩)
          · exact Or.inr ⟨h, h', h''⟩
    · push_neg at hn
      have hstep : add_symmetries_of a (n :: ms) syms = add_symmetries_of a ms syms := by
        simp [add_symmetries_of, hn]
      obtain ⟨h1, h2⟩ := ih syms ha
      rw [hstep]
      refine ⟨h1, ?_⟩
      intro L m
      rw [h2]
      constructor
      · rintro (h | ⟨h, h', h''⟩)
        · exact Or.inl h
        · exact Or.inr ⟨h, List.mem_cons_of_mem _ h', h''⟩
      · rintro (h | ⟨h, h', h''⟩)
        · exact Or.inl h
        · rcases List.mem_cons.mp h' with rfl | h'
          · exact absurd hn h''
          · exact Or.inr ⟨h, h', h''⟩

theorem add_symmetries_outer_spec (ms : List Nat) (labels : List Nat) :
    ∀ syms : List (List Nat), (∀ a ∈ labels, a < syms.length) →
      (labels.foldl (fun acc a => add_symmetries_of a ms acc) syms).length = syms.length ∧
      ∀ L m : Nat,
        m ∈ (labels.foldl (fun acc a => add_symmetries_of a ms acc) syms).getD L [] ↔
          m ∈ syms.getD L [] ∨ (L ∈ labels ∧ m ∈ ms ∧ m ≠ L) := by
  induction labels with
  | nil => intro syms _; simp
  | cons a labels ih =>
    intro syms hlt
    have ha : a < syms.length := hlt a (List.mem_cons_self _ _)
    obtain ⟨h1, h2⟩ := add_symmetries_of_spec a ms syms ha
    obtain ⟨h3, h4⟩ := ih (add_symmetries_of a ms syms)
      (fun b hb => by rw [h1]; exact hlt b (List.mem_cons_of_mem _ hb))
    rw [List.foldl_cons]
    refine ⟨by rw [h3, h1], ?_⟩
    intro L m
    rw [h4, h2]
    constructor
    · rintro ((h | ⟨rfl, h', h''⟩) | ⟨h, h', h''⟩)
      · exact Or.inl h
      · exact Or.inr ⟨List.mem_cons_self _ _, h', h''⟩
      · exact Or.inr ⟨List.mem_cons_of_mem _ h, h', h''⟩
    · rintro (h | ⟨h, h', h''⟩)
      · exact Or.inl (Or.inl h)
      · rcases List.mem_cons.mp h with rfl | h
        · exact Or.inl (Or.inr ⟨rfl, h', h''⟩)
        · exact Or.inr ⟨h, h', h''⟩

/-- One line adds to the list of `L` exactly the other labels of the line, when
`L` is on the line. -/
theorem add_line_symmetries_spec (ls : List Nat) (syms : List (List Nat))
    (hlt : ∀ a ∈ ls, a < syms.length) :
    (add_line_symmetries ls syms).length = syms.length ∧
    ∀ L m : Nat, m ∈ (add_line_symmetries ls syms).getD L [] ↔
      m ∈ syms.getD L [] ∨ (L ∈ ls ∧ m ∈ ls ∧ m ≠ L) :=
  add_symmetries_outer_spec ls ls syms hlt

end MeshCuboidStructure

theorem getline_rest_length (delim : Char) (cs : List Char) :
    (getline delim cs).2.2 = false → (getline delim cs).2.1.length < cs.length := by
  induction cs with
  | nil => simp [getline]
  | cons c cs ih =>
    by_cases hc : c = delim
    · simp [getline, hc]
    · simp only [getline, hc, if_false, List.length_cons]
      intro h
      have := ih h
      omega

/-- The token loop never needs more steps than the line has characters, plus one:
any larger number of steps reads the same tokens. -/
theorem read_all_tokens_fuel (delim : Char) :
    ∀ (f1 f2 : Nat) (cs : List Char), cs.length < f1 → cs.length < f2 →
      read_all_tokens delim f1 cs = read_all_tokens delim f2 cs := by
  intro f1
  induction f1 with
  | zero => intro f2 cs h; omega
  | succ f1 ih =>
    intro f2 cs h1 h2
    cases f2 with
    | zero => omega
    | succ f2 =>
      simp only [read_all_tokens]
      cases he : (getline delim cs).2.2 with
      | true => simp
      | false =>
        have := getline_rest_length delim cs he
        simp only [Bool.false_eq_true, if_false]
        rw [ih f2 _ (by omega) (by omega)]

namespace MeshCuboidStructure

/-- The reading loop of `load_label_symmetries` on a file whose lines name only
labels: it succeeds, leaves labels and names alone, and each list gains exactly
the other labels of the lines its label is on. -/
theorem load_label_symmetries_loop_spec (base : MeshCuboidStructure)
    (hsize : base.label_names_.length = base.num_labels) (lines : List String) :
    ∀ st : MeshCuboidStructure, st.label_names_ = base.label_names_ →
      st.labels_ = base.labels_ → st.label_symmetries_.length = base.num_labels →
      (∀ buffer ∈ lines_read lines, ∀ tok ∈ line_tokens ' ' buffer,
        tok ∈ base.label_names_) →
      ∃ st1, load_label_symmetries_loop lines st = some st1 ∧
        st1.label_names_ = base.label_names_ ∧ st1.labels_ = base.labels_ ∧
        st1.label_symmetries_.length = base.num_labels ∧
        ∀ L m : Nat, m ∈ st1.label_symmetries_.getD L [] ↔
          m ∈ st.label_symmetries_.getD L [] ∨
            (m ≠ L ∧ ∃ buffer ∈ lines_read lines,
              L ∈ base.line_labels buffer ∧ m ∈ base.line_labels buffer) := by
  induction lines with
  | nil =>
    intro st hn hl hlen _
    exact ⟨st, rfl, hn, hl, hlen, by simp [lines_read]⟩
  | cons buffer rest ih =>
    intro st hn hl hlen hnamed
    by_cases hb : buffer = ""
    · exact ⟨st, by simp [load_label_symmetries_loop, hb], hn, hl, hlen,
        by simp [lines_read, hb]⟩
    · have hread : lines_read (buffer :: rest) = buffer :: lines_read rest := by
        simp [lines_read, hb]
      have hcongr := get_label_index_congr st base hn hl
      have hsize1 : st.label_names_.length = st.num_labels := by
        rw [hn, hsize]; simp [num_labels, hl]
      have hnum : st.num_labels = base.num_labels := by simp [num_labels, hl]
      obtain ⟨hrd, hlt⟩ := read_label_symmetry_eq st hsize1 (line_tokens ' ' buffer)
        (fun tok ht => by
          rw [hn]; exact hnamed buffer (by rw [hread]; exact List.mem_cons_self _ _) tok ht)
      rw [hcongr] at hrd hlt
      have hlabels : (line_tokens ' ' buffer).filterMap base.get_label_index =
          base.line_labels buffer := rfl
      rw [hlabels] at hrd hlt
      obtain ⟨hlen2, hmem⟩ := add_line_symmetries_spec (base.line_labels buffer)
        st.label_symmetries_ (fun a ha => by rw [hlen, ← hnum]; exact hlt a ha)
      obtain ⟨st1, h1, h2, h3, h4, h5⟩ := ih
        { st with label_symmetries_ :=
            add_line_symmetries (base.line_labels buffer) st.label_symmetries_ }
        hn hl (by rw [← hlen]; exact hlen2)
        (fun b hb' tok ht => hnamed b (by rw [hread]; exact List.mem_cons_of_mem _ hb') tok ht)
      refine ⟨st1, by simp [load_label_symmetries_loop, hb, hrd, h1], h2, h3, h4, ?_⟩
      intro L m
      rw [h5 L m, hmem L m, hread]
      constructor
      · rintro ((h | ⟨hL, hm, hne⟩) | ⟨hne, b, hb', hL, hm⟩)
        · exact Or.inl h
        · exact Or.inr ⟨hne, buffer, List.mem_cons_self _ _, hL, hm⟩
        · exact Or.inr ⟨hne, b, List.mem_cons_of_mem _ hb', hL, hm⟩
      · rintro (h | ⟨hne, b, hb', hL, hm⟩)
        · exact Or.inl (Or.inl h)
        · rcases List.mem_cons.mp hb' with rfl | hb'
          · exact Or.inl (Or.inr ⟨hL, hm, hne⟩)
          · exact Or.inr ⟨hne, b, hb', hL, hm⟩

end MeshCuboidStructure

/-! ## Removing symmetric cuboids -/

namespace MeshCuboidStructure

/-- Marking succeeds when every index is in range, keeps the array length, and
sets exactly the listed flags. -/
theorem mark_visited_spec (l : List Nat) :
    ∀ v : List Bool, (∀ m ∈ l, m < v.length) →
      ∃ v1, mark_visited l v = some v1 ∧ v1.length = v.length ∧
        ∀ k : Nat, v1.getD k false = true ↔ (v.getD k false = true ∨ k ∈ l) := by
  induction l with
  | nil => intro v _; exact ⟨v, rfl, rfl, by simp⟩
  | cons i rest ih =>
    intro v h
    have hi : i < v.length := h i (List.mem_cons_self _ _)
    obtain ⟨v1, h1, h2, h3⟩ := ih (v.set i true)
      (fun m hm => by rw [List.length_set]; exact h m (List.mem_cons_of_mem _ hm))
    refine ⟨v1, by simp [mark_visited, hi, h1], by rw [h2, List.length_set], ?_⟩
    intro k
    rw [h3 k]
    by_cases hk : k = i
    · subst hk
      simp [List.getD_eq_getElem?_getD, List.getElem?_set, hi]
    · have hne : ¬ i = k := fun e => hk e.symm
      simp [List.getD_eq_getElem?_getD, List.getElem?_set, hk, hne]

theorem remove_symmetric_cuboids_loop_step_visited (syms : List (List Nat)) (count i : Nat)
    (visited : List Bool) (cuboids : List (List MeshCuboid))
    (h : visited.getD i false = true) :
    remove_symmetric_cuboids_loop syms (count + 1) i visited cuboids =
      remove_symmetric_cuboids_loop syms count (i + 1) visited (cuboids.set i []) := by
  rw [remove_symmetric_cuboids_loop, if_pos h]

theorem remove_symmetric_cuboids_loop_step_fresh (syms : List (List Nat)) (count i : Nat)
    (visited v1 : List Bool) (cuboids : List (List MeshCuboid))
    (h : ¬ visited.getD i false = true)
    (hm : mark_visited (syms.getD i []) (visited.set i true) = some v1) :
    remove_symmetric_cuboids_loop syms (count + 1) i visited cuboids =
      remove_symmetric_cuboids_loop syms count (i + 1) v1 cuboids := by
  rw [remove_symmetric_cuboids_loop, if_neg h, hm]

/-- The loop from `i` on: it succeeds, leaves the slots below `i` alone and
empties every slot from `i` on whose label is already marked visited. -/
theorem remove_symmetric_cuboids_loop_visited (syms : List (List Nat)) (n : Nat)
    (hsyms : ∀ l ∈ syms, ∀ m ∈ l, m < n) :
    ∀ (count i : Nat) (visited : List Bool) (cuboids : List (List MeshCuboid)),
      i + count = n → visited.length = n → cuboids.length = n →
      ∃ out, remove_symmetric_cuboids_loop syms count i visited cuboids = some out ∧
        out.length = n ∧ (∀ k : Nat, k < i → out[k]? = cuboids[k]?) ∧
        ∀ k : Nat, i ≤ k → k < n → visited.getD k false = true → out[k]? = some [] := by
  intro count
  induction count with
  | zero =>
    intro i visited cuboids hi _ hc
    refine ⟨cuboids, rfl, hc, fun _ _ => rfl, ?_⟩
    intro k h1 h2; omega
  | succ count ih =>
    intro i visited cuboids hi hv hc
    by_cases hvis : visited.getD i false = true
    · obtain ⟨out, h1, h2, h3, h4⟩ := ih (i + 1) visited (cuboids.set i []) (by omega) hv
        (by rw [List.length_set]; exact hc)
      refine ⟨out, by rw [remove_symmetric_cuboids_loop_step_visited _ _ _ _ _ hvis, h1], h2, ?_, ?_⟩
      · intro k hk
        rw [h3 k (by omega), List.getElem?_set]
        have : ¬ i = k := by omega
        simp [this]
      · intro k hk1 hk2 hk3
        by_cases hki : k = i
        · subst hki
          rw [h3 k (by omega), List.getElem?_set]
          simp [hc, hk2]
        · exact h4 k (by omega) hk2 hk3
    · have hin : ∀ m ∈ syms.getD i [], m < (visited.set i true).length := by
        intro m hm
        rw [List.length_set, hv]
        by_cases hlt : i < syms.length
        · have hmem : syms.getD i [] ∈ syms := by
            rw [List.getD_eq_getElem _ _ hlt]; exact List.getElem_mem _
          exact hsyms _ hmem m hm
        · rw [List.getD_eq_default _ _ (by omega)] at hm
          cases hm
      obtain ⟨v1, hv1, hv2, hv3⟩ := mark_visited_spec _ _ hin
      obtain ⟨out, h1, h2, h3, h4⟩ := ih (i + 1) v1 cuboids (by omega)
        (by rw [hv2, List.length_set]; exact hv) hc
      refine ⟨out, by rw [remove_symmetric_cuboids_loop_step_fresh _ _ _ _ _ _ hvis hv1, h1], h2, ?_, ?_⟩
      · intro k hk
        exact h3 k (by omega)
      · intro k hk1 hk2 hk3
        have hki : k ≠ i := fun e => hvis (e ▸ hk3)
        refine h4 k (by omega) hk2 ((hv3 k).mpr (Or.inl ?_))
        have hne : ¬ i = k := fun e => hki e.symm
        simpa [List.getD_eq_getElem?_getD, List.getElem?_set, hne] using hk3

/-- The loop from `i ≤ A` on, when `A` is not yet marked, no label from `i` up to
`A` lists `A`, and `A` lists `B > A`: slot `A` is kept and slot `B` is emptied. -/
theorem remove_symmetric_cuboids_loop_pair (syms : List (List Nat)) (n A B : Nat)
    (hsyms : ∀ l ∈ syms, ∀ m ∈ l, m < n) (hAB : A < B) (hB : B < n)
    (hlist : B ∈ syms.getD A [])
    (hfree : ∀ C : Nat, C < A → A ∉ syms.getD C []) :
    ∀ (count i : Nat) (visited : List Bool) (cuboids : List (List MeshCuboid)),
      i + count = n → visited.length = n → cuboids.length = n → i ≤ A →
      visited.getD A false = false →
      ∃ out, remove_symmetric_cuboids_loop syms count i visited cuboids = some out ∧
        out.length = n ∧ out[A]? = cuboids[A]? ∧ out[B]? = some [] := by
  intro count
  induction count with
  | zero => intro i visited cuboids hi _ _ hiA _; omega
  | succ count ih =>
    intro i visited cuboids hi hv hc hiA hA
    have hin : ∀ m ∈ syms.getD i [], m < (visited.set i true).length := by
      intro m hm
      rw [List.length_set, hv]
      by_cases hlt : i < syms.length
      · have hmem : syms.getD i [] ∈ syms := by
          rw [List.getD_eq_getElem _ _ hlt]; exact List.getElem_mem _
        exact hsyms _ hmem m hm
      · rw [List.getD_eq_default _ _ (by omega)] at hm
        cases hm
    obtain ⟨v1, hv1, hv2, hv3⟩ := mark_visited_spec _ _ hin
    by_cases hiA' : i = A
    · subst hiA'
      have hvis : ¬ visited.getD i false = true := by rw [hA]; simp
      have hB1 : v1.getD B false = true := (hv3 B).mpr (Or.inr hlist)
      obtain ⟨out, h1, h2, h3, h4⟩ := remove_symmetric_cuboids_loop_visited syms n hsyms
        count (i + 1) v1 cuboids (by omega) (by rw [hv2, List.length_set]; exact hv) hc
      exact ⟨out, by rw [remove_symmetric_cuboids_loop_step_fresh _ _ _ _ _ _ hvis hv1, h1], h2,
        h3 i (by omega), h4 B (by omega) hB hB1⟩
    · have hlt : i < A := by omega
      by_cases hvis : visited.getD i false = true
      · obtain ⟨out, h1, h2, h3, h4⟩ := ih (i + 1) visited (cuboids.set i []) (by omega) hv
          (by rw [List.length_set]; exact hc) (by omega) hA
        refine ⟨out, by rw [remove_symmetric_cuboids_loop_step_visited _ _ _ _ _ hvis, h1], h2, ?_, h4⟩
        rw [h3, List.getElem?_set]
        simp [hiA']
      · have hA1 : v1.getD A false = false := by
          have hnot : ¬ (v1.getD A false = true) := by
            rw [hv3 A]
            rintro (h | h)
            · have hne : ¬ i = A := hiA'
              simp [List.getD_eq_getElem?_getD, List.getElem?_set, hne] at h
              simp [List.getD_eq_getElem?_getD, h] at hA
            · exact hfree i hlt h
          simpa using hnot
        obtain ⟨out, h1, h2, h3, h4⟩ := ih (i + 1) v1 cuboids (by omega)
          (by rw [hv2, List.length_set]; exact hv) hc (by omega) hA1
        exact ⟨out, by rw [remove_symmetric_cuboids_loop_step_fresh _ _ _ _ _ _ hvis hv1, h1], h2, h3, h4⟩

end MeshCuboidStructure

/-! ## The largest cuboid of each label -/

namespace MeshCuboidStructure

/-- What the scan returns: the running maximum only grows, bounds every volume
scanned, and the cuboid returned is either the one carried in (no larger volume
seen) or a scanned cuboid whose volume is the returned maximum. -/
theorem find_max_volume_result (L : Nat) (l : List MeshCuboid) :
    ∀ (mv : ℚ) (best : Option MeshCuboid) (r : ℚ × Option MeshCuboid),
      find_max_volume L l mv best = some r →
      mv ≤ r.1 ∧ (∀ c ∈ l, c.get_bbox_volume ≤ r.1) ∧
        (r = (mv, best) ∨ ∃ c ∈ l, r.2 = some c ∧ c.get_bbox_volume = r.1 ∧ mv < r.1) := by
  induction l with
  | nil =>
    intro mv best r h
    simp only [find_max_volume, Option.some.injEq] at h
    subst h
    exact ⟨le_refl _, by simp, Or.inl rfl⟩
  | cons c rest ih =>
    intro mv best r h
    by_cases hl : c.get_label_index = L
    · by_cases hv : c.get_bbox_volume > mv
      · rw [find_max_volume, if_pos hl, if_pos hv] at h
        obtain ⟨h1, h2, h3⟩ := ih _ _ _ h
        refine ⟨le_trans (le_of_lt hv) h1, ?_, Or.inr ?_⟩
        · intro d hd
          rcases List.mem_cons.mp hd with rfl | hd
          · exact h1
          · exact h2 d hd
        · rcases h3 with h3 | ⟨d, hd, hd1, hd2, hd3⟩
          · subst h3
            exact ⟨c, List.mem_cons_self _ _, rfl, rfl, hv⟩
          · exact ⟨d, List.mem_cons_of_mem _ hd, hd1, hd2, lt_trans hv hd3⟩
      · rw [find_max_volume, if_pos hl, if_neg hv] at h
        obtain ⟨h1, h2, h3⟩ := ih _ _ _ h
        refine ⟨h1, ?_, ?_⟩
        · intro d hd
          rcases List.mem_cons.mp hd with rfl | hd
          · exact le_trans (not_lt.mp hv) h1
          · exact h2 d hd
        · rcases h3 with h3 | ⟨d, hd, hd1, hd2, hd3⟩
          · exact Or.inl h3
          · exact Or.inr ⟨d, List.mem_cons_of_mem _ hd, hd1, hd2, hd3⟩
    · rw [find_max_volume, if_neg hl] at h
      cases h

theorem find_max_volume_some (L : Nat) (l : List MeshCuboid) :
    ∀ (mv : ℚ) (best : Option MeshCuboid), (∀ c ∈ l, c.get_label_index = L) →
      ∃ r, find_max_volume L l mv best = some r := by
  induction l with
  | nil => intro mv best _; exact ⟨_, rfl⟩
  | cons c rest ih =>
    intro mv best h
    have hl : c.get_label_index = L := h c (List.mem_cons_self _ _)
    have hrest : ∀ d ∈ rest, d.get_label_index = L := fun d hd =>
      h d (List.mem_cons_of_mem _ hd)
    by_cases hv : c.get_bbox_volume > mv
    · obtain ⟨r, hr⟩ := ih c.get_bbox_volume (some c) hrest
      exact ⟨r, by rw [find_max_volume, if_pos hl, if_pos hv, hr]⟩
    · obtain ⟨r, hr⟩ := ih mv best hrest
      exact ⟨r, by rw [find_max_volume, if_pos hl, if_neg hv, hr]⟩

theorem largestKept_of_length_le_one (l : List MeshCuboid) (h : l.length ≤ 1) :
    LargestKept l l := by
  refine ⟨fun e => e, fun hne => ?_⟩
  match l, h, hne with
  | [c], _, _ => exact ⟨c, rfl, List.mem_cons_self _ _, by simp⟩

/-- A run of the loop that returns: the list length is kept, slots outside the
visited range are untouched and every visited slot keeps its largest cuboid. -/
theorem find_the_largest_label_cuboids_loop_result :
    ∀ (count i : Nat) (lc out : List (List MeshCuboid)),
      find_the_largest_label_cuboids_loop count i lc = some out →
      out.length = lc.length ∧
      (∀ k : Nat, k < i ∨ i + count ≤ k → out[k]? = lc[k]?) ∧
      ∀ k : Nat, i ≤ k → k < i + count → k < lc.length →
        LargestKept (lc.getD k []) (out.getD k []) := by
  intro count
  induction count with
  | zero =>
    intro i lc out h
    simp only [find_the_largest_label_cuboids_loop, Option.some.injEq] at h
    subst h
    exact ⟨rfl, fun _ _ => rfl, fun k h1 h2 => by omega⟩
  | succ count ih =>
    intro i lc out h
    by_cases hle : (lc.getD i []).length ≤ 1
    · rw [find_the_largest_label_cuboids_loop, if_pos hle] at h
      obtain ⟨h1, h2, h3⟩ := ih _ _ _ h
      refine ⟨h1, fun k hk => h2 k (by omega), ?_⟩
      intro k hk1 hk2 hk3
      by_cases hki : k = i
      · subst hki
        have : out.getD k [] = lc.getD k [] := by
          simp only [List.getD_eq_getElem?_getD, h2 k (Or.inl (by omega))]
        rw [this]
        exact largestKept_of_length_le_one _ hle
      · exact h3 k (by omega) (by omega) hk3
    · rw [find_the_largest_label_cuboids_loop, if_neg hle] at h
      cases hfm : find_max_volume i (lc.getD i []) (-1) none with
      | none => rw [hfm] at h; simp at h
      | some r =>
        obtain ⟨mv, best⟩ := r
        cases best with
        | none => rw [hfm] at h; simp at h
        | some c =>
          rw [hfm] at h
          simp only at h
          obtain ⟨h1, h2, h3⟩ := ih _ _ _ h
          obtain ⟨_, g2, g3⟩ := find_max_volume_result i _ _ _ _ hfm
          have hc : c ∈ lc.getD i [] ∧ c.get_bbox_volume = mv := by
            rcases g3 with g3 | ⟨d, hd, hd1, hd2, _⟩
            · cases g3
            · simp only [Option.some.injEq] at hd1
              subst hd1
              exact ⟨hd, hd2⟩
          refine ⟨by rw [h1, List.length_set], ?_, ?_⟩
          · intro k hk
            rw [h2 k (by omega), List.getElem?_set]
            have : ¬ i = k := by omega
            simp [this]
          · intro k hk1 hk2 hk3
            by_cases hki : k = i
            · subst hki
              have hout : out.getD k [] = [c] := by
                simp only [List.getD_eq_getElem?_getD, h2 k (Or.inl (by omega)),
                  List.getElem?_set, hk3, if_true, Option.getD_some]
              rw [hout]
              refine ⟨fun e => ?_, fun _ => ⟨c, rfl, hc.1, fun d hd => ?_⟩⟩
              · rw [e] at hle; simp at hle
              · rw [hc.2]; exact g2 d hd
            · have hset : (lc.set i [c]).getD k [] = lc.getD k [] := by
                have : ¬ i = k := fun e => hki e.symm
                simp [List.getD_eq_getElem?_getD, List.getElem?_set, this]
              have := h3 k (by omega) (by omega) (by rw [List.length_set]; exact hk3)
              rw [hset] at this
              exact this

/-- On well-formed cuboid lists the loop returns. -/
theorem find_the_largest_label_cuboids_loop_some :
    ∀ (count i : Nat) (lc : List (List MeshCuboid)), CuboidsWellFormed lc →
      ∃ out, find_the_largest_label_cuboids_loop count i lc = some out := by
  intro count
  induction count with
  | zero => intro i lc _; exact ⟨lc, rfl⟩
  | succ count ih =>
    intro i lc hwf
    by_cases hle : (lc.getD i []).length ≤ 1
    · obtain ⟨out, h⟩ := ih (i + 1) lc hwf
      exact ⟨out, by rw [find_the_largest_label_cuboids_loop, if_pos hle, h]⟩
    · obtain ⟨r, hr⟩ := find_max_volume_some i (lc.getD i []) (-1) none
        (fun c hc => (hwf i c hc).1)
      obtain ⟨mv, best⟩ := r
      obtain ⟨_, g2, g3⟩ := find_max_volume_result i _ _ _ _ hr
      have hne : lc.getD i [] ≠ [] := by
        intro e; rw [e] at hle; simp at hle
      obtain ⟨d, hd⟩ := List.exists_mem_of_ne_nil _ hne
      have hpos : (-1 : ℚ) < mv := by
        have h0 := (hwf i d hd).2
        have h1 := g2 d hd
        simp only at h1
        linarith
      rcases g3 with g3 | ⟨c, hc, hc1, _, _⟩
      · simp only [Prod.mk.injEq] at g3
        linarith [g3.1]
      · simp only at hc1
        subst hc1
        have hwf1 : CuboidsWellFormed (lc.set i [c]) := by
          intro k e he
          by_cases hki : k = i
          · subst hki
            by_cases hlt : k < lc.length
            · have : (lc.set k [c]).getD k [] = [c] := by
                simp [List.getD_eq_getElem?_getD, List.getElem?_set, hlt]
              rw [this] at he
              rw [List.mem_singleton.mp he]
              exact hwf k c hc
            · rw [List.getD_eq_default _ _ (by rw [List.length_set]; omega)] at he
              cases he
          · have hset : (lc.set i [c]).getD k [] = lc.getD k [] := by
              have : ¬ i = k := fun e => hki e.symm
              simp [List.getD_eq_getElem?_getD, List.getElem?_set, this]
            rw [hset] at he
            exact hwf k e he
        obtain ⟨out, h⟩ := ih (i + 1) (lc.set i [c]) hwf1
        exact ⟨out, by rw [find_the_largest_label_cuboids_loop, if_neg hle, hr]; exact h⟩

end MeshCuboidStructure

namespace MeshCuboidStructure

theorem demoCandidates_wellFormed : CuboidsWellFormed demoCandidates.label_cuboids_ := by
  intro k c hc
  match k with
  | 0 =>
    simp only [demoCandidates, List.getD_cons_zero, List.mem_cons, List.mem_singleton,
      List.not_mem_nil, or_false] at hc
    rcases hc with rfl | rfl | rfl <;>
      simp [MeshCuboid.get_label_index, MeshCuboid.get_bbox_volume]
  | 1 => simp [demoCandidates] at hc
  | 2 =>
    simp only [demoCandidates, List.getD_cons_succ, List.getD_cons_zero,
      List.mem_singleton] at hc
    subst hc
    simp [MeshCuboid.get_label_index, MeshCuboid.get_bbox_volume]
  | k + 3 => simp [demoCandidates] at hc

end MeshCuboidStructure

/-! ## Label co-occurrences -/

namespace MeshCuboidTrainer

theorem count_objects_comm (l1 : List MeshCuboidFeatures) :
    ∀ (l2 : List MeshCuboidFeatures) (k : Nat),
      count_objects l1 l2 k = count_objects l2 l1 k := by
  induction l1 with
  | nil => intro l2 k; cases l2 <;> simp [count_objects]
  | cons f1 r1 ih =>
    intro l2 k
    cases l2 with
    | nil => simp [count_objects]
    | cons f2 r2 =>
      simp only [count_objects]
      rw [ih r2, Bool.and_comm]

theorem num_cooccurring_comm (t : MeshCuboidTrainer) (i j : Nat) :
    t.num_cooccurring i j = t.num_cooccurring j i :=
  count_objects_comm _ _ _

theorem push_cooccurrence_length (acc : List (List Nat)) (a n : Nat) :
    (push_cooccurrence acc a n).length = acc.length :=
  MeshCuboidStructure.push_symmetry_length acc a n

theorem mem_push_cooccurrence (acc : List (List Nat)) (a n : Nat) (ha : a < acc.length)
    (L m : Nat) :
    m ∈ (push_cooccurrence acc a n).getD L [] ↔ m ∈ acc.getD L [] ∨ (L = a ∧ m = n) :=
  MeshCuboidStructure.mem_push_symmetry acc a n ha L m

/-- A run of the inner loop that returns: the list of `i` gains exactly the
labels `m ≠ i` of the visited range that co-occur with `i`. -/
theorem cooccurrences_of_result (t : MeshCuboidTrainer) (i : Nat) :
    ∀ (count j : Nat) (acc out : List (List Nat)), i < acc.length →
      cooccurrences_of t i count j acc = some out →
      out.length = acc.length ∧
      ∀ L m : Nat, m ∈ out.getD L [] ↔
        m ∈ acc.getD L [] ∨
          (L = i ∧ j ≤ m ∧ m < j + count ∧ m ≠ i ∧ 0 < t.num_cooccurring i m) := by
  intro count
  induction count with
  | zero =>
    intro j acc out _ h
    simp only [cooccurrences_of, Option.some.injEq] at h
    subst h
    refine ⟨rfl, fun L m => ⟨Or.inl, ?_⟩⟩
    rintro (h | ⟨_, h1, h2, _⟩)
    · exact h
    · omega
  | succ count ih =>
    intro j acc out hi h
    by_cases hij : i = j
    · rw [cooccurrences_of, if_pos hij] at h
      obtain ⟨h1, h2⟩ := ih _ _ _ hi h
      refine ⟨h1, fun L m => ?_⟩
      rw [h2 L m]
      constructor
      · rintro (h | ⟨g1, g2, g3, g4, g5⟩)
        · exact Or.inl h
        · exact Or.inr ⟨g1, by omega, by omega, g4, g5⟩
      · rintro (h | ⟨g1, g2, g3, g4, g5⟩)
        · exact Or.inl h
        · exact Or.inr ⟨g1, by omega, by omega, g4, g5⟩
    · rw [cooccurrences_of, if_neg hij] at h
      split at h
      · split at h
        · by_cases hpos : count_objects (t.feature_list_.getD i [])
              (t.feature_list_.getD j []) 0 > 0
          · simp only [hpos, if_true] at h
            obtain ⟨h1, h2⟩ := ih _ _ _ (by rw [push_cooccurrence_length]; exact hi) h
            refine ⟨by rw [h1, push_cooccurrence_length], fun L m => ?_⟩
            rw [h2 L m, mem_push_cooccurrence acc i j hi]
            constructor
            · rintro ((h | ⟨g1, g2⟩) | ⟨g1, g2, g3, g4, g5⟩)
              · exact Or.inl h
              · subst g2
                exact Or.inr ⟨g1, le_refl _, by omega, fun e => hij e.symm, hpos⟩
              · exact Or.inr ⟨g1, by omega, by omega, g4, g5⟩
            · rintro (h | ⟨g1, g2, g3, g4, g5⟩)
              · exact Or.inl (Or.inl h)
              · by_cases hmj : m = j
                · exact Or.inl (Or.inr ⟨g1, hmj⟩)
                · exact Or.inr ⟨g1, by omega, by omega, g4, g5⟩
          · simp only [hpos, if_false] at h
            obtain ⟨h1, h2⟩ := ih _ _ _ hi h
            refine ⟨h1, fun L m => ?_⟩
            rw [h2 L m]
            constructor
            · rintro (h | ⟨g1, g2, g3, g4, g5⟩)
              · exact Or.inl h
              · exact Or.inr ⟨g1, by omega, by omega, g4, g5⟩
            · rintro (h | ⟨g1, g2, g3, g4, g5⟩)
              · exact Or.inl h
              · by_cases hmj : m = j
                · subst hmj
                  exact absurd g5 hpos
                · exact Or.inr ⟨g1, by omega, by omega, g4, g5⟩
        · cases h
      · cases h

/-- A run of the outer loop that returns: every visited label gains exactly the
other labels that co-occur with it. -/
theorem cooccurrences_from_result (t : MeshCuboidTrainer) :
    ∀ (count i : Nat) (acc out : List (List Nat)),
      i + count ≤ acc.length → acc.length = t.feature_list_.length →
      cooccurrences_from t count i acc = some out →
      out.length = acc.length ∧
      ∀ L m : Nat, m ∈ out.getD L [] ↔
        m ∈ acc.getD L [] ∨
          (i ≤ L ∧ L < i + count ∧ m < t.feature_list_.length ∧ m ≠ L ∧
            0 < t.num_cooccurring L m) := by
  intro count
  induction count with
  | zero =>
    intro i acc out _ _ h
    simp only [cooccurrences_from, Option.some.injEq] at h
    subst h
    refine ⟨rfl, fun L m => ⟨Or.inl, ?_⟩⟩
    rintro (h | ⟨h1, h2, _⟩)
    · exact h
    · omega
  | succ count ih =>
    intro i acc out hi hlen h
    rw [cooccurrences_from] at h
    cases hrow : cooccurrences_of t i t.feature_list_.length 0 acc with
    | none => rw [hrow] at h; cases h
    | some acc1 =>
      rw [hrow] at h
      simp only at h
      obtain ⟨r1, r2⟩ := cooccurrences_of_result t i _ _ _ _ (by omega) hrow
      obtain ⟨h1, h2⟩ := ih (i + 1) acc1 out (by omega) (by rw [r1, hlen]) h
      refine ⟨by rw [h1, r1], fun L m => ?_⟩
      rw [h2 L m, r2 L m]
      constructor
      · rintro ((h | ⟨g1, _, g3, g4, g5⟩) | ⟨g1, g2, g3, g4, g5⟩)
        · exact Or.inl h
        · subst g1
          exact Or.inr ⟨le_refl _, by omega, by omega, g4, g5⟩
        · exact Or.inr ⟨by omega, by omega, g3, g4, g5⟩
      · rintro (h | ⟨g1, g2, g3, g4, g5⟩)
        · exact Or.inl (Or.inl h)
        · by_cases hLi : L = i
          · subst hLi
            exact Or.inl (Or.inr ⟨rfl, Nat.zero_le _, by omega, g4, g5⟩)
          · exact Or.inr ⟨by omega, by omega, g3, g4, g5⟩

/-- What `get_label_cooccurrences` returns: one list per label, and `m` is in the
list of `L` exactly when both are labels, differ, and some object position has
both records NaN-free. -/
theorem get_label_cooccurrences_result (t : MeshCuboidTrainer) (c : List (List Nat))
    (h : t.get_label_cooccurrences = some c) :
    c.length = t.feature_list_.length ∧
    ∀ L m : Nat, m ∈ c.getD L [] ↔
      (L < t.feature_list_.length ∧ m < t.feature_list_.length ∧ m ≠ L ∧
        0 < t.num_cooccurring L m) := by
  unfold get_label_cooccurrences at h
  split at h
  · obtain ⟨h1, h2⟩ := cooccurrences_from_result t _ 0 _ c (by simp) (by simp) h
    refine ⟨by rw [h1]; simp, fun L m => ?_⟩
    rw [h2 L m]
    have hempty : m ∉ (List.replicate t.feature_list_.length ([] : List Nat)).getD L [] := by
      simp only [List.getD_eq_getElem?_getD, List.getElem?_replicate]
      split <;> simp
    constructor
    · rintro (h | ⟨_, g2, g3, g4, g5⟩)
      · exact absurd h hempty
      · exact ⟨by omega, g3, g4, g5⟩
    · rintro ⟨g1, g2, g3, g4⟩
      exact Or.inr ⟨Nat.zero_le _, by omega, g2, g3, g4⟩
  · cases h

theorem cooccurrences_of_some (t : MeshCuboidTrainer) (i : Nat)
    (hal : ∀ k : Nat, t.object_list_.length = (t.feature_list_.getD k []).length ∨
      t.feature_list_.length ≤ k) :
    ∀ (count j : Nat) (acc : List (List Nat)), i < t.feature_list_.length →
      j + count ≤ t.feature_list_.length →
      ∃ out, cooccurrences_of t i count j acc = some out := by
  intro count
  induction count with
  | zero => intro j acc _ _; exact ⟨acc, rfl⟩
  | succ count ih =>
    intro j acc hi hj
    have h1 : t.object_list_.length = (t.feature_list_.getD i []).length := by
      rcases hal i with h | h
      · exact h
      · omega
    have h2 : t.object_list_.length = (t.feature_list_.getD j []).length := by
      rcases hal j with h | h
      · exact h
      · omega
    by_cases hij : i = j
    · obtain ⟨out, ho⟩ := ih (j + 1) acc hi (by omega)
      exact ⟨out, by rw [cooccurrences_of, if_pos hij, ho]⟩
    · rw [cooccurrences_of, if_neg hij, if_pos h1, if_pos h2]
      simp only
      split
      · exact ih _ _ hi (by omega)
      · exact ih _ _ hi (by omega)

theorem cooccurrences_from_some (t : MeshCuboidTrainer)
    (hal : ∀ k : Nat, t.object_list_.length = (t.feature_list_.getD k []).length ∨
      t.feature_list_.length ≤ k) :
    ∀ (count i : Nat) (acc : List (List Nat)), i + count ≤ t.feature_list_.length →
      ∃ out, cooccurrences_from t count i acc = some out := by
  intro count
  induction count with
  | zero => intro i acc _; exact ⟨acc, rfl⟩
  | succ count ih =>
    intro i acc hi
    obtain ⟨acc1, h1⟩ := cooccurrences_of_some t i hal t.feature_list_.length 0 acc
      (by omega) (by omega)
    obtain ⟨out, h2⟩ := ih (i + 1) acc1 (by omega)
    exact ⟨out, by rw [cooccurrences_from, h1]; exact h2⟩

/-- On an aligned corpus `get_label_cooccurrences` trips no assertion. -/
theorem get_label_cooccurrences_some (t : MeshCuboidTrainer) (hal : t.Aligned) :
    ∃ c, t.get_label_cooccurrences = some c := by
  obtain ⟨h1, h2⟩ := hal
  have hal' : ∀ k : Nat, t.object_list_.length = (t.feature_list_.getD k []).length ∨
      t.feature_list_.length ≤ k := by
    intro k
    rcases Nat.lt_or_ge k t.feature_list_.length with hk | hk
    · left
      rw [List.getD_eq_getElem _ _ hk]
      exact h2 _ (List.getElem_mem _)
    · exact Or.inr hk
  obtain ⟨out, ho⟩ := cooccurrences_from_some t hal' t.feature_list_.length 0
    (List.replicate t.feature_list_.length []) (by omega)
  exact ⟨out, by rw [get_label_cooccurrences, if_pos h1, ho]⟩

end MeshCuboidTrainer

/-! ## The regularized inverse -/

theorem dotProduct_self_nonneg_rat {n : Nat} (x : Fin n → ℚ) :
    0 ≤ Matrix.dotProduct x x := by
  unfold Matrix.dotProduct
  exact Finset.sum_nonneg fun i _ => mul_self_nonneg (x i)

/-- The quadratic form of the regularized matrix. -/
theorem regularized_quadratic_form {n : Nat} (S : Matrix (Fin n) (Fin n) ℚ) (x : Fin n → ℚ) :
    Matrix.dotProduct x ((S + (1 / 1000 : ℚ) • (1 : Matrix (Fin n) (Fin n) ℚ)).mulVec x) =
      Matrix.dotProduct x (S.mulVec x) + 1 / 1000 * Matrix.dotProduct x x := by
  rw [Matrix.add_mulVec, Matrix.smul_mulVec_assoc, Matrix.one_mulVec, Matrix.dotProduct_add,
    Matrix.dotProduct_smul, smul_eq_mul]

/-- Regularization makes a covariance-like matrix invertible. -/
theorem regularized_det_ne_zero {n : Nat} (S : Matrix (Fin n) (Fin n) ℚ)
    (hS : IsCovarianceLike S) :
    (S + (1 / 1000 : ℚ) • (1 : Matrix (Fin n) (Fin n) ℚ)).det ≠ 0 := by
  intro hdet
  obtain ⟨v, hv, hmul⟩ := Matrix.exists_mulVec_eq_zero_iff.mpr hdet
  have hq := regularized_quadratic_form S v
  rw [hmul, Matrix.dotProduct_zero] at hq
  have h1 := hS.2 v
  have h2 := dotProduct_self_nonneg_rat v
  have h3 : Matrix.dotProduct v v = 0 := by linarith
  exact hv (Matrix.dotProduct_self_eq_zero.mp h3)

theorem eigen_inverse_mul {n : Nat} (M : Matrix (Fin n) (Fin n) ℚ) (h : M.det ≠ 0) :
    eigen_inverse M * M = 1 := by
  unfold eigen_inverse
  rw [Matrix.smul_mul, Matrix.adjugate_mul, smul_smul, inv_mul_cancel₀ h, one_smul]

theorem mul_eigen_inverse {n : Nat} (M : Matrix (Fin n) (Fin n) ℚ) (h : M.det ≠ 0) :
    M * eigen_inverse M = 1 := by
  unfold eigen_inverse
  rw [Matrix.mul_smul, Matrix.mul_adjugate, smul_smul, inv_mul_cancel₀ h, one_smul]

theorem covariance_isCovarianceLike {m n : Nat} (C : Matrix (Fin m) (Fin n) ℚ) :
    IsCovarianceLike (covariance C) := by
  have hcov : covariance C = (1 / (m : ℚ)) • (C.transpose * C) := by
    ext i j
    simp [covariance, div_eq_inv_mul]
  rw [hcov]
  refine ⟨?_, ?_⟩
  · rw [Matrix.transpose_smul, Matrix.transpose_mul, Matrix.transpose_transpose]
  · intro x
    rw [Matrix.smul_mulVec_assoc, Matrix.dotProduct_smul, smul_eq_mul, ← Matrix.mulVec_mulVec,
      Matrix.dotProduct_mulVec, Matrix.vecMul_transpose]
    exact mul_nonneg (by positivity) (dotProduct_self_nonneg_rat _)

theorem zero_isCovarianceLike (n : Nat) : IsCovarianceLike (0 : Matrix (Fin n) (Fin n) ℚ) := by
  refine ⟨Matrix.transpose_zero, fun x => ?_⟩
  simp

/-! ## Flag arrays -/

theorem flag_lt (m : List Bool) (k : Nat) (h : m.getD k false = true) : k < m.length := by
  by_contra hk
  rw [List.getD_eq_default _ _ (by omega)] at h
  cases h

theorem flag_set_false (m : List Bool) (k j : Nat) :
    (m.set j false).getD k false = true ↔ (m.getD k false = true ∧ k ≠ j) := by
  by_cases hkj : k = j
  · subst hkj
    by_cases hk : k < m.length
    · simp [List.getD_eq_getElem?_getD, List.getElem?_set, hk]
    · simp [List.getD_eq_getElem?_getD, List.getElem?_set, hk]
  · have hne : ¬ j = k := fun e => hkj e.symm
    simp [List.getD_eq_getElem?_getD, List.getElem?_set, hne, hkj]

theorem flag_set_true (m : List Bool) (k j : Nat) (hj : j < m.length) :
    (m.set j true).getD k false = true ↔ (m.getD k false = true ∨ k = j) := by
  by_cases hkj : k = j
  · subst hkj
    simp [List.getD_eq_getElem?_getD, List.getElem?_set, hj]
  · have hne : ¬ j = k := fun e => hkj e.symm
    simp [List.getD_eq_getElem?_getD, List.getElem?_set, hne, hkj]

theorem flag_replicate_true (n k : Nat) :
    (List.replicate n true).getD k false = true ↔ k < n := by
  simp only [List.getD_eq_getElem?_getD, List.getElem?_replicate]
  split <;> simp [*]

theorem flag_replicate_false (n k : Nat) :
    ¬ (List.replicate n false).getD k false = true := by
  simp only [List.getD_eq_getElem?_getD, List.getElem?_replicate]
  split <;> simp

/-- Clearing a set flag lowers the number of set flags by one. -/
theorem count_set_false (m : List Bool) :
    ∀ k : Nat, m.getD k false = true → (m.set k false).count true + 1 = m.count true := by
  induction m with
  | nil => intro k h; simp at h
  | cons b rest ih =>
    intro k h
    cases k with
    | zero =>
      simp only [List.getD_cons_zero] at h
      subst h
      simp
    | succ k =>
      simp only [List.getD_cons_succ] at h
      have := ih k h
      cases b <;> simp [List.count_cons] <;> omega

namespace MeshCuboidTrainer

/-! ## Missing label groups -/

theorem mark_cooccurred_spec (n : Nat) (l : List Nat) :
    ∀ v : List Bool, v.length = n → (∀ x ∈ l, x < n) →
      ∃ v1, mark_cooccurred n l v = some v1 ∧ v1.length = n ∧
        ∀ k : Nat, v1.getD k false = true ↔ (v.getD k false = true ∨ k ∈ l) := by
  induction l with
  | nil => intro v hv _; exact ⟨v, rfl, hv, by simp⟩
  | cons x rest ih =>
    intro v hv hl
    have hx : x < n := hl x (List.mem_cons_self _ _)
    obtain ⟨v1, h1, h2, h3⟩ := ih (v.set x true) (by rw [List.length_set]; exact hv)
      (fun y hy => hl y (List.mem_cons_of_mem _ hy))
    refine ⟨v1, by rw [mark_cooccurred, if_pos hx, h1], h2, fun k => ?_⟩
    rw [h3 k, flag_set_true v k x (by omega), List.mem_cons]
    tauto

theorem ignore_non_cooccurred_spec (cooccurred : List Bool) :
    ∀ (count i : Nat) (missing : List Bool),
      (ignore_non_cooccurred cooccurred count i missing).length = missing.length ∧
      ∀ k : Nat, (ignore_non_cooccurred cooccurred count i missing).getD k false = true ↔
        (missing.getD k false = true ∧
          (i ≤ k → k < i + count → cooccurred.getD k false = true)) := by
  intro count
  induction count with
  | zero =>
    intro i missing
    refine ⟨rfl, fun k => ?_⟩
    simp only [ignore_non_cooccurred]
    constructor
    · intro h; exact ⟨h, fun h1 h2 => by omega⟩
    · intro h; exact h.1
  | succ count ih =>
    intro i missing
    by_cases hc : cooccurred.getD i false = true
    · have hstep : ignore_non_cooccurred cooccurred (count + 1) i missing =
          ignore_non_cooccurred cooccurred count (i + 1) missing := by
        rw [ignore_non_cooccurred, hc]; rfl
      obtain ⟨h1, h2⟩ := ih (i + 1) missing
      rw [hstep]
      refine ⟨h1, fun k => ?_⟩
      rw [h2 k]
      constructor
      · rintro ⟨g1, g2⟩
        refine ⟨g1, fun a b => ?_⟩
        by_cases hki : k = i
        · subst hki; exact hc
        · exact g2 (by omega) (by omega)
      · rintro ⟨g1, g2⟩
        exact ⟨g1, fun a b => g2 (by omega) (by omega)⟩
    · have hstep : ignore_non_cooccurred cooccurred (count + 1) i missing =
          ignore_non_cooccurred cooccurred count (i + 1) (missing.set i false) := by
        have : cooccurred.getD i false = false := by simpa using hc
        rw [ignore_non_cooccurred, this]; rfl
      obtain ⟨h1, h2⟩ := ih (i + 1) (missing.set i false)
      rw [hstep]
      refine ⟨by rw [h1, List.length_set], fun k => ?_⟩
      rw [h2 k, flag_set_false]
      constructor
      · rintro ⟨⟨g1, g2⟩, g3⟩
        exact ⟨g1, fun a b => g3 (by omega) (by omega)⟩
      · rintro ⟨g1, g2⟩
        have hki : k ≠ i := by
          intro e
          subst e
          exact hc (g2 (le_refl _) (by omega))
        exact ⟨⟨g1, hki⟩, fun a b => g2 (by omega) (by omega)⟩

/-- The loop over the given labels: a label stays flagged exactly when it is none
of the given labels and lies in the co-occurrence list of every one of them. -/
theorem consider_given_labels_spec (cooc : List (List Nat)) (n : Nat)
    (hcooc : ∀ L x : Nat, x ∈ cooc.getD L [] → x < n) (given : List Nat) :
    ∀ missing : List Bool, missing.length = n → (∀ g ∈ given, g < n) →
      ∃ r, consider_given_labels cooc n given missing = some r ∧ r.length = n ∧
        ∀ k : Nat, r.getD k false = true ↔
          (missing.getD k false = true ∧ ∀ g ∈ given, k ≠ g ∧ k ∈ cooc.getD g []) := by
  induction given with
  | nil => intro missing hm _; exact ⟨missing, rfl, hm, by simp⟩
  | cons curr rest ih =>
    intro missing hm hg
    have hcurr : curr < n := hg curr (List.mem_cons_self _ _)
    obtain ⟨ic, hic1, hic2, hic3⟩ := mark_cooccurred_spec n (cooc.getD curr [])
      ((List.replicate n false).set curr true) (by simp) (fun x hx => hcooc curr x hx)
    obtain ⟨hig1, hig2⟩ := ignore_non_cooccurred_spec ic n 0 missing
    obtain ⟨r, hr1, hr2, hr3⟩ := ih
      ((ignore_non_cooccurred ic n 0 missing).set curr false)
      (by rw [List.length_set, hig1, hm]) (fun g hg' => hg g (List.mem_cons_of_mem _ hg'))
    refine ⟨r, by rw [consider_given_labels, if_pos hcurr, hic1]; exact hr1, hr2, fun k => ?_⟩
    rw [hr3 k, flag_set_false, hig2 k, hic3 k, flag_set_true _ k curr (by simp [hcurr])]
    constructor
    · rintro ⟨⟨⟨g1, g2⟩, g3⟩, g4⟩
      refine ⟨g1, ?_⟩
      intro g hg'
      rcases List.mem_cons.mp hg' with rfl | hg'
      · have hk : k < n := by rw [← hm]; exact flag_lt _ _ g1
        rcases g2 (Nat.zero_le _) (by omega) with (h | h) | h
        · exact absurd h (flag_replicate_false n k)
        · exact absurd h g3
        · exact ⟨g3, h⟩
      · exact g4 g hg'
    · rintro ⟨g1, g2⟩
      obtain ⟨g3, g4⟩ := g2 curr (List.mem_cons_self _ _)
      exact ⟨⟨⟨g1, fun _ _ => Or.inr g4⟩, g3⟩, fun g hg' => g2 g (List.mem_cons_of_mem _ hg')⟩

theorem find_seed_spec (m : List Bool) :
    ∀ count s : Nat, s ≤ find_seed m count s ∧ find_seed m count s ≤ s + count ∧
      (find_seed m count s < s + count → m.getD (find_seed m count s) false = true) ∧
      ∀ k : Nat, s ≤ k → k < find_seed m count s → ¬ m.getD k false = true := by
  intro count
  induction count with
  | zero =>
    intro s
    simp only [find_seed]
    exact ⟨le_refl _, by omega, fun h => by omega, fun k h1 h2 => by omega⟩
  | succ count ih =>
    intro s
    by_cases hs : m.getD s false = true
    · have : find_seed m (count + 1) s = s := by rw [find_seed, if_pos hs]
      rw [this]
      exact ⟨le_refl _, by omega, fun _ => hs, fun k h1 h2 => by omega⟩
    · have : find_seed m (count + 1) s = find_seed m count (s + 1) := by
        rw [find_seed, if_neg hs]
      rw [this]
      obtain ⟨h1, h2, h3, h4⟩ := ih (s + 1)
      refine ⟨by omega, by omega, fun h => h3 (by omega), fun k g1 g2 => ?_⟩
      by_cases hks : k = s
      · subst hks; exact hs
      · exact h4 k (by omega) g2

end MeshCuboidTrainer

namespace MeshCuboidTrainer

/-- Visiting the neighbours of a label: every neighbour still flagged moves from
the flags to the queue, so queue length plus set flags is unchanged. -/
theorem enqueue_neighbors_spec (n : Nat) (nbs : List Nat) :
    ∀ (q : List Nat) (m : List Bool), (∀ x ∈ nbs, x < n) →
      ∃ q1 m1, enqueue_neighbors n nbs q m = some (q1, m1) ∧ m1.length = m.length ∧
        q1.length + m1.count true = q.length + m.count true ∧
        m1.count true ≤ m.count true ∧
        (∀ k : Nat, m1.getD k false = true → m.getD k false = true) ∧
        ∀ k : Nat, k ∈ q1 ↔ (k ∈ q ∨ (m.getD k false = true ∧ ¬ m1.getD k false = true)) := by
  induction nbs with
  | nil =>
    intro q m _
    exact ⟨q, m, rfl, rfl, rfl, le_refl _, fun _ h => h, fun k => by tauto⟩
  | cons x rest ih =>
    intro q m hl
    have hx : x < n := hl x (List.mem_cons_self _ _)
    have hrest : ∀ y ∈ rest, y < n := fun y hy => hl y (List.mem_cons_of_mem _ hy)
    by_cases hf : m.getD x false = true
    · obtain ⟨q1, m1, h1, h2, h3, hle, h4, h5⟩ := ih (q ++ [x]) (m.set x false) hrest
      refine ⟨q1, m1, by rw [enqueue_neighbors, if_pos hx, if_pos hf, h1],
        by rw [h2, List.length_set], ?_, ?_, ?_, ?_⟩
      · have := count_set_false m x hf
        rw [h3, List.length_append, List.length_singleton]
        omega
      · have := count_set_false m x hf
        omega
      · intro k hk
        exact ((flag_set_false m k x).mp (h4 k hk)).1
      · intro k
        rw [h5 k, List.mem_append, List.mem_singleton, flag_set_false]
        constructor
        · rintro ((g | g) | ⟨⟨g1, g2⟩, g3⟩)
          · exact Or.inl g
          · subst g
            refine Or.inr ⟨hf, fun hk => ?_⟩
            exact ((flag_set_false m k k).mp (h4 k hk)).2 rfl
          · exact Or.inr ⟨g1, g3⟩
        · rintro (g | ⟨g1, g2⟩)
          · exact Or.inl (Or.inl g)
          · by_cases hkx : k = x
            · exact Or.inl (Or.inr hkx)
            · exact Or.inr ⟨⟨g1, hkx⟩, g2⟩
    · obtain ⟨q1, m1, h1, h2, h3, hle, h4, h5⟩ := ih q m hrest
      exact ⟨q1, m1, by rw [enqueue_neighbors, if_pos hx, if_neg hf, h1], h2, h3, hle, h4, h5⟩

/-- The queue loop with enough fuel: it returns, only clears flags, and the group
it returns consists of the labels already collected, the labels on the queue and
the labels whose flag it cleared. -/
theorem collect_group_spec (cooc : List (List Nat)) (n : Nat)
    (hcooc : ∀ L x : Nat, x ∈ cooc.getD L [] → x < n) :
    ∀ (fuel : Nat) (q : List Nat) (m : List Bool) (g : List Nat),
      q.length + m.count true ≤ fuel → m.length = n → (∀ x ∈ q, x < n) →
      ∃ g1 m1, collect_group cooc n fuel q m g = some (g1, m1) ∧ m1.length = n ∧
        m1.count true ≤ m.count true ∧
        (∀ k : Nat, m1.getD k false = true → m.getD k false = true) ∧
        ∀ k : Nat, k ∈ g1 ↔
          (k ∈ g ∨ k ∈ q ∨ (m.getD k false = true ∧ ¬ m1.getD k false = true)) := by
  intro fuel
  induction fuel with
  | zero =>
    intro q m g hf hm _
    have hq : q = [] := List.eq_nil_of_length_eq_zero (by omega)
    subst hq
    exact ⟨g, m, by rw [collect_group], hm, le_refl _, fun _ h => h, fun k => by simp⟩
  | succ fuel ih =>
    intro q m g hf hm hq
    cases q with
    | nil =>
      exact ⟨g, m, by rw [collect_group], hm, le_refl _, fun _ h => h, fun k => by simp⟩
    | cons curr q =>
      have hcurr : curr < n := hq curr (List.mem_cons_self _ _)
      obtain ⟨q1, m1, h1, h2, h3, hle, h4, h5⟩ :=
        enqueue_neighbors_spec n (cooc.getD curr []) q m (fun x hx => hcooc curr x hx)
      have hq1 : ∀ x ∈ q1, x < n := by
        intro x hx
        rcases (h5 x).mp hx with g' | ⟨g', _⟩
        · exact hq x (List.mem_cons_of_mem _ g')
        · rw [← hm]; exact flag_lt _ _ g'
      obtain ⟨g1, m2, k1, k2, k3, k4, k5⟩ := ih q1 m1 (g ++ [curr])
        (by simp only [List.length_cons] at hf; omega) (by rw [h2, hm]) hq1
      refine ⟨g1, m2, by rw [collect_group, if_pos hcurr, h1]; exact k1, k2,
        le_trans k3 hle, fun k hk => h4 k (k4 k hk), fun k => ?_⟩
      rw [k5 k, List.mem_append, List.mem_singleton, h5 k, List.mem_cons]
      have i1 := h4 k
      have i2 := k4 k
      tauto

theorem exists_group_append (groups : List (List Nat)) (g : List Nat) (k : Nat) :
    (∃ grp ∈ groups ++ [g], k ∈ grp) ↔ ((∃ grp ∈ groups, k ∈ grp) ∨ k ∈ g) := by
  constructor
  · rintro ⟨grp, hgrp, hk⟩
    rcases List.mem_append.mp hgrp with h | h
    · exact Or.inl ⟨grp, h, hk⟩
    · rw [List.mem_singleton.mp h] at hk
      exact Or.inr hk
  · rintro (⟨grp, hgrp, hk⟩ | hk)
    · exact ⟨grp, List.mem_append_left _ hgrp, hk⟩
    · exact ⟨g, List.mem_append_right _ (List.mem_singleton_self _), hk⟩

/-- The clustering loop with enough fuel: it returns, and the labels of its
groups are the labels of the groups it started with and the flagged labels. -/
theorem cluster_missing_spec (cooc : List (List Nat)) (n : Nat)
    (hcooc : ∀ L x : Nat, x ∈ cooc.getD L [] → x < n) :
    ∀ (fuel : Nat) (m : List Bool) (groups : List (List Nat)),
      m.count true ≤ fuel → m.length = n →
      ∃ out, cluster_missing cooc n fuel m groups = some out ∧
        ∀ k : Nat, (∃ grp ∈ out, k ∈ grp) ↔
          ((∃ grp ∈ groups, k ∈ grp) ∨ m.getD k false = true) := by
  intro fuel
  induction fuel with
  | zero =>
    intro m groups hf hm
    obtain ⟨_, s2, s3, s4⟩ := find_seed_spec m n 0
    by_cases hseed : find_seed m n 0 = n
    · refine ⟨groups, by rw [cluster_missing]; simp only [hseed, if_true], fun k => ?_⟩
      constructor
      · exact Or.inl
      · rintro (h | h)
        · exact h
        · exact absurd h (s4 k (Nat.zero_le _) (by rw [hseed, ← hm]; exact flag_lt _ _ h))
    · have hflag := s3 (by omega)
      have := count_set_false m _ hflag
      omega
  | succ fuel ih =>
    intro m groups hf hm
    obtain ⟨_, s2, s3, s4⟩ := find_seed_spec m n 0
    by_cases hseed : find_seed m n 0 = n
    · refine ⟨groups, by rw [cluster_missing]; simp only [hseed, if_true], fun k => ?_⟩
      constructor
      · exact Or.inl
      · rintro (h | h)
        · exact h
        · exact absurd h (s4 k (Nat.zero_le _) (by rw [hseed, ← hm]; exact flag_lt _ _ h))
    · have hlt : find_seed m n 0 < n := by omega
      have hflag := s3 (by omega)
      have hcount := count_set_false m _ hflag
      have hlen : m.count true ≤ n := by rw [← hm]; exact List.count_le_length _ _
      obtain ⟨g1, m1, c1, c2, c3, c4, c5⟩ := collect_group_spec cooc n hcooc n
        [find_seed m n 0] (m.set (find_seed m n 0) false) []
        (by simp only [List.length_singleton]; omega) (by rw [List.length_set, hm])
        (fun x hx => by rw [List.mem_singleton.mp hx]; exact hlt)
      obtain ⟨out, o1, o2⟩ := ih m1 (groups ++ [g1]) (by omega) c2
      refine ⟨out, ?_, fun k => ?_⟩
      · rw [cluster_missing]
        simp only [hseed, if_false, c1]
        exact o1
      · rw [o2 k, exists_group_append, c5 k, flag_set_false]
        have i1 := c4 k
        rw [flag_set_false] at i1
        simp only [List.not_mem_nil, List.mem_singleton, false_or]
        constructor
        · rintro ((h | h | ⟨⟨h, _⟩, _⟩) | h)
          · exact Or.inl h
          · rw [h]; exact Or.inr hflag
          · exact Or.inr h
          · exact Or.inr (i1 h).1
        · rintro (h | h)
          · exact Or.inl (Or.inl h)
          · by_cases hks : k = find_seed m n 0
            · exact Or.inl (Or.inr (Or.inl hks))
            · by_cases hk1 : m1.getD k false = true
              · exact Or.inr hk1
              · exact Or.inl (Or.inr (Or.inr ⟨⟨h, hks⟩, hk1⟩))

end MeshCuboidTrainer

namespace MeshCuboidTrainer

theorem get_label_cooccurrences_sizes (t : MeshCuboidTrainer) (c : List (List Nat))
    (h : t.get_label_cooccurrences = some c) :
    t.transformation_list_.length = t.feature_list_.length := by
  unfold get_label_cooccurrences at h
  split at h
  · assumption
  · cases h

/-- Once the co-occurrence lists are known, `get_missing_label_index_groups` is
the given-label loop followed by the clustering loop on them. -/
theorem get_missing_label_index_groups_eq (t : MeshCuboidTrainer) (c : List (List Nat))
    (given : List Nat) (h : t.get_label_cooccurrences = some c) :
    t.get_missing_label_index_groups given =
      (consider_given_labels c c.length given (List.replicate c.length true)).bind
        fun missing => cluster_missing c c.length c.length missing [] := by
  have hlen := (get_label_cooccurrences_result t c h).1
  have htr := get_label_cooccurrences_sizes t c h
  unfold get_missing_label_index_groups
  rw [if_pos htr, h]
  simp only [if_pos hlen]
  rw [← hlen]
  cases consider_given_labels c c.length given (List.replicate c.length true) <;> rfl

end MeshCuboidTrainer

/-! ## Co-occurrence as a shared object position -/

namespace MeshCuboidTrainer

/-- The lockstep count is positive exactly when it started positive or some
position present in both lists holds two NaN-free records. -/
theorem count_objects_pos (l1 : List MeshCuboidFeatures) :
    ∀ (l2 : List MeshCuboidFeatures) (k : Nat),
      0 < count_objects l1 l2 k ↔
        (0 < k ∨ ∃ (p : Nat) (f1 f2 : MeshCuboidFeatures), l1[p]? = some f1 ∧
          l2[p]? = some f2 ∧ f1.has_nan = false ∧ f2.has_nan = false) := by
  induction l1 with
  | nil =>
    intro l2 k
    cases l2 <;> simp [count_objects]
  | cons a r1 ih =>
    intro l2 k
    cases l2 with
    | nil => simp [count_objects]
    | cons b r2 =>
      simp only [count_objects]
      rw [ih r2]
      constructor
      · rintro (h | ⟨p, f1, f2, h1, h2, h3, h4⟩)
        · by_cases hv : (!a.has_nan && !b.has_nan) = true
          · simp only [Bool.and_eq_true, Bool.not_eq_true'] at hv
            exact Or.inr ⟨0, a, b, by simp, by simp, hv.1, hv.2⟩
          · rw [if_neg hv] at h
            exact Or.inl h
        · exact Or.inr ⟨p + 1, f1, f2, by simpa using h1, by simpa using h2, h3, h4⟩
      · rintro (h | ⟨p, f1, f2, h1, h2, h3, h4⟩)
        · left
          split <;> omega
        · cases p with
          | zero =>
            simp only [List.getElem?_cons_zero, Option.some.injEq] at h1 h2
            subst h1 h2
            left
            simp [h3, h4]
          | succ p =>
            exact Or.inr ⟨p, f1, f2, by simpa using h1, by simpa using h2, h3, h4⟩

theorem num_cooccurring_pos (t : MeshCuboidTrainer) (i j : Nat) :
    0 < t.num_cooccurring i j ↔
      ∃ (p : Nat) (f1 f2 : MeshCuboidFeatures), (t.feature_list_.getD i [])[p]? = some f1 ∧
        (t.feature_list_.getD j [])[p]? = some f2 ∧ f1.has_nan = false ∧ f2.has_nan = false := by
  unfold num_cooccurring
  rw [count_objects_pos]
  constructor
  · rintro (h | h)
    · omega
    · exact h
  · exact Or.inr

end MeshCuboidTrainer

/-! ## Symmetry classes -/

namespace MeshCuboidStructure

theorem mem_getD_lt {α : Type} (l : List (List α)) (a : Nat) (x : α)
    (h : x ∈ l.getD a []) : a < l.length := by
  by_contra hlt
  rw [List.getD_eq_default _ _ (by omega)] at h
  cases h

theorem mem_getD_mem {α : Type} (l : List (List α)) (a : Nat) (x : α)
    (h : x ∈ l.getD a []) : l.getD a [] ∈ l := by
  have hlt := mem_getD_lt l a x h
  rw [List.getD_eq_getElem _ _ hlt]
  exact List.getElem_mem _

/-- With symmetric and transitive symmetry lists, two connected labels are equal
or list each other. -/
theorem symmetryConnected_direct (st : MeshCuboidStructure)
    (hlen : st.label_symmetries_.length = st.num_labels)
    (hsym : st.SymmetriesSymmetric) (htrans : st.SymmetriesTransitive) (a b : Nat)
    (h : st.SymmetryConnected a b) :
    a = b ∨ b ∈ st.label_symmetries_.getD a [] := by
  induction h with
  | refl => exact Or.inl rfl
  | @tail c d _ hstep ih =>
    have hcd : d ∈ st.label_symmetries_.getD c [] := by
      rcases hstep with h1 | h1
      · exact h1
      · exact hsym d (by rw [← hlen]; exact mem_getD_lt _ _ _ h1) c h1
    rcases ih with rfl | ih
    · exact Or.inr hcd
    · by_cases hda : d = a
      · exact Or.inl hda.symm
      · exact Or.inr (htrans a (by rw [← hlen]; exact mem_getD_lt _ _ _ ih) c ih d hcd hda)

/-- The loop on transitive symmetry lists, started in a state in which exactly the
labels equal to or listed by a label below `i` are marked: every label from `i` on
that a lower label lists is emptied, and every other label keeps its cuboids. -/
theorem remove_symmetric_cuboids_loop_classes (syms : List (List Nat)) (n : Nat)
    (hrange : ∀ l ∈ syms, ∀ m ∈ l, m < n)
    (htrans : ∀ a : Nat, ∀ b ∈ syms.getD a [], ∀ c ∈ syms.getD b [], c ≠ a →
      c ∈ syms.getD a []) :
    ∀ (count i : Nat) (visited : List Bool) (cuboids : List (List MeshCuboid)),
      i + count = n → visited.length = n → cuboids.length = n →
      (∀ k : Nat, visited.getD k false = true ↔
        ∃ K : Nat, K < i ∧ (K = k ∨ k ∈ syms.getD K [])) →
      ∃ out, remove_symmetric_cuboids_loop syms count i visited cuboids = some out ∧
        out.length = n ∧ (∀ L : Nat, L < i → out[L]? = cuboids[L]?) ∧
        ∀ L : Nat, i ≤ L → L < n →
          ((∃ K : Nat, K < L ∧ L ∈ syms.getD K []) → out[L]? = some []) ∧
          ((∀ K : Nat, K < L → L ∉ syms.getD K []) → out[L]? = cuboids[L]?) := by
  intro count
  induction count with
  | zero =>
    intro i visited cuboids hi _ hc _
    exact ⟨cuboids, rfl, hc, fun _ _ => rfl, fun L h1 h2 => by omega⟩
  | succ count ih =>
    intro i visited cuboids hi hv hc hinv
    by_cases hvis : visited.getD i false = true
    · obtain ⟨K0, hK0, hK0i⟩ := (hinv i).mp hvis
      have hK0i' : i ∈ syms.getD K0 [] := by
        rcases hK0i with h | h
        · omega
        · exact h
      have hinv' : ∀ k : Nat, visited.getD k false = true ↔
          ∃ K : Nat, K < i + 1 ∧ (K = k ∨ k ∈ syms.getD K []) := by
        intro k
        rw [hinv k]
        constructor
        · rintro ⟨K, h1, h2⟩
          exact ⟨K, by omega, h2⟩
        · rintro ⟨K, h1, h2⟩
          by_cases hKi : K = i
          · subst hKi
            rcases h2 with h2 | h2
            · exact ⟨K0, hK0, Or.inr (h2 ▸ hK0i')⟩
            · by_cases hk : k = K0
              · exact ⟨K0, hK0, Or.inl hk.symm⟩
              · exact ⟨K0, hK0, Or.inr (htrans K0 K hK0i' k h2 hk)⟩
          · exact ⟨K, by omega, h2⟩
      obtain ⟨out, h1, h2, h3, h4⟩ := ih (i + 1) visited (cuboids.set i []) (by omega) hv
        (by rw [List.length_set]; exact hc) hinv'
      have hset : ∀ L : Nat, L ≠ i → (cuboids.set i [])[L]? = cuboids[L]? := by
        intro L hL
        rw [List.getElem?_set]
        have : ¬ i = L := fun e => hL e.symm
        simp [this]
      refine ⟨out, by rw [remove_symmetric_cuboids_loop_step_visited _ _ _ _ _ hvis, h1], h2,
        ?_, ?_⟩
      · intro L hL
        rw [h3 L (by omega), hset L (by omega)]
      · intro L hL1 hL2
        by_cases hLi : L = i
        · subst hLi
          have hempty : out[L]? = some [] := by
            rw [h3 L (by omega), List.getElem?_set]
            simp [hc, hL2]
          exact ⟨fun _ => hempty, fun hno => absurd hK0i' (hno K0 hK0)⟩
        · obtain ⟨g1, g2⟩ := h4 L (by omega) hL2
          exact ⟨g1, fun hno => by rw [g2 hno, hset L hLi]⟩
    · have hin : ∀ m ∈ syms.getD i [], m < (visited.set i true).length := by
        intro m hm
        rw [List.length_set, hv]
        exact hrange _ (mem_getD_mem syms i m hm) m hm
      obtain ⟨v1, hv1, hv2, hv3⟩ := mark_visited_spec _ _ hin
      have hinv' : ∀ k : Nat, v1.getD k false = true ↔
          ∃ K : Nat, K < i + 1 ∧ (K = k ∨ k ∈ syms.getD K []) := by
        intro k
        rw [hv3 k, flag_set_true visited k i (by omega), hinv k]
        constructor
        · rintro ((⟨K, g1, g2⟩ | g) | g)
          · exact ⟨K, by omega, g2⟩
          · exact ⟨i, by omega, Or.inl g.symm⟩
          · exact ⟨i, by omega, Or.inr g⟩
        · rintro ⟨K, g1, g2⟩
          by_cases hKi : K = i
          · subst hKi
            rcases g2 with g2 | g2
            · exact Or.inl (Or.inr g2.symm)
            · exact Or.inr g2
          · exact Or.inl (Or.inl ⟨K, by omega, g2⟩)
      obtain ⟨out, h1, h2, h3, h4⟩ := ih (i + 1) v1 cuboids (by omega)
        (by rw [hv2, List.length_set]; exact hv) hc hinv'
      refine ⟨out, by rw [remove_symmetric_cuboids_loop_step_fresh _ _ _ _ _ _ hvis hv1, h1],
        h2, fun L hL => h3 L (by omega), ?_⟩
      intro L hL1 hL2
      by_cases hLi : L = i
      · subst hLi
        refine ⟨?_, fun _ => h3 L (by omega)⟩
        rintro ⟨K, g1, g2⟩
        exact absurd ((hinv L).mpr ⟨K, g1, Or.inr g2⟩) hvis
      · exact h4 L (by omega) hL2

end MeshCuboidStructure

/-! ## The label of a sample point -/

namespace MeshCuboidStructure

/-- The arg-max loop: started with a candidate whose confidence is at least the
running maximum, which bounds the confidences already visited, it returns the
smallest index whose confidence is the largest. -/
theorem max_confidence_label_spec (conf : List ℚ) (n : Nat) :
    ∀ (count i : Nat) (mc : ℚ) (best : Nat), i + count = n → best < n →
      mc ≤ conf.getD best 0 → (∀ k : Nat, k < i → conf.getD k 0 ≤ mc) →
      (∀ k : Nat, k < best → conf.getD k 0 < conf.getD best 0) →
      max_confidence_label conf count i mc best < n ∧
      (∀ k : Nat, k < n →
        conf.getD k 0 ≤ conf.getD (max_confidence_label conf count i mc best) 0) ∧
      ∀ k : Nat, k < max_confidence_label conf count i mc best →
        conf.getD k 0 < conf.getD (max_confidence_label conf count i mc best) 0 := by
  intro count
  induction count with
  | zero =>
    intro i mc best hi hb h1 h2 h3
    simp only [max_confidence_label]
    exact ⟨hb, fun k hk => le_trans (h2 k (by omega)) h1, h3⟩
  | succ count ih =>
    intro i mc best hi hb h1 h2 h3
    by_cases hc : conf.getD i 0 > mc
    · rw [max_confidence_label, if_pos hc]
      refine ih (i + 1) _ i (by omega) (by omega) (le_refl _) ?_ ?_
      · intro k hk
        by_cases hki : k = i
        · rw [hki]
        · exact le_of_lt (lt_of_le_of_lt (h2 k (by omega)) hc)
      · intro k hk
        exact lt_of_le_of_lt (h2 k hk) hc
    · rw [max_confidence_label, if_neg hc]
      refine ih (i + 1) mc best (by omega) hb h1 ?_ h3
      intro k hk
      by_cases hki : k = i
      · rw [hki]; exact not_lt.mp hc
      · exact h2 k (by omega)

theorem sample_point_label_indices_of_spec (real_max : ℚ) (n : Nat) (hn : 1 ≤ n)
    (points : List MeshSamplePoint) :
    (∀ sp ∈ points, sp.label_index_confidence_.length = n) →
    (∀ sp ∈ points, ∀ c ∈ sp.label_index_confidence_, -real_max ≤ c) →
    ∃ r, sample_point_label_indices_of real_max n points = some r ∧
      r.length = points.length ∧
      ∀ (p : Nat) (sp : MeshSamplePoint), points[p]? = some sp →
        ∃ L : Nat, r[p]? = some L ∧ L < n ∧
          (∀ k : Nat, k < n → sp.label_index_confidence_.getD k 0 ≤
            sp.label_index_confidence_.getD L 0) ∧
          ∀ k : Nat, k < L → sp.label_index_confidence_.getD k 0 <
            sp.label_index_confidence_.getD L 0 := by
  induction points with
  | nil =>
    intro _ _
    exact ⟨[], rfl, rfl, fun p sp h => by simp at h⟩
  | cons sp0 rest ih =>
    intro hsize hrange
    obtain ⟨r, hr1, hr2, hr3⟩ := ih (fun sp h => hsize sp (List.mem_cons_of_mem _ h))
      (fun sp h => hrange sp (List.mem_cons_of_mem _ h))
    have hlen := hsize sp0 (List.mem_cons_self _ _)
    have h0 : -real_max ≤ sp0.label_index_confidence_.getD 0 0 := by
      have hlt : 0 < sp0.label_index_confidence_.length := by omega
      rw [List.getD_eq_getElem _ _ hlt]
      exact hrange sp0 (List.mem_cons_self _ _) _ (List.getElem_mem _)
    obtain ⟨g1, g2, g3⟩ := max_confidence_label_spec sp0.label_index_confidence_ n n 0
      (-real_max) 0 (by omega) (by omega) h0 (fun k hk => by omega) (fun k hk => by omega)
    refine ⟨_ :: r, by rw [sample_point_label_indices_of, if_pos hlen, hr1]; rfl,
      by simp [hr2], ?_⟩
    intro p sp hp
    cases p with
    | zero =>
      simp only [List.getElem?_cons_zero, Option.some.injEq] at hp
      subst hp
      exact ⟨_, by simp, g1, g2, g3⟩
    | succ p =>
      simp only [List.getElem?_cons_succ] at hp
      obtain ⟨L, hL, hL'⟩ := hr3 p sp hp
      exact ⟨L, by simpa using hL, hL'⟩

end MeshCuboidStructure

namespace MeshCuboidStructure

theorem demoConfidences_inRange : demoConfidences.ConfidencesInRange 1000 := by
  intro sp hsp c hc
  simp only [demoConfidences, List.mem_cons, List.mem_singleton, List.not_mem_nil,
    or_false] at hsp
  rcases hsp with rfl | rfl | rfl | rfl <;>
    simp only [List.mem_cons, List.mem_singleton, List.not_mem_nil, or_false] at hc <;>
    rcases hc with rfl | rfl | rfl <;> norm_num

end MeshCuboidStructure

/-! ## Fitting one cuboid per label -/

namespace MeshCuboidStructure

/-- The selection loop on points that all have a confidence for the label: the
positions, counted from `k`, of the points whose confidence reaches the tolerance. -/
theorem label_sample_points_eq (tol : ℚ) (i : Nat) (points : List MeshSamplePoint) :
    ∀ k : Nat, (∀ sp ∈ points, i < sp.label_index_confidence_.length) →
      label_sample_points tol i points k =
        some (((points.enumFrom k).filter fun entry =>
          decide (tol ≤ entry.2.label_index_confidence_.getD i 0)).map fun entry => entry.1) := by
  induction points with
  | nil => intro k _; rfl
  | cons sp rest ih =>
    intro k h
    have hlt := h sp (List.mem_cons_self _ _)
    have hget : sp.label_index_confidence_[i]? = some (sp.label_index_confidence_.getD i 0) := by
      rw [List.getD_eq_getElem _ _ hlt, List.getElem?_eq_getElem hlt]
    rw [label_sample_points, hget]
    simp only
    rw [ih (k + 1) fun sp' h' => h sp' (List.mem_cons_of_mem _ h')]
    simp only [Option.map_some', List.enumFrom_cons, List.filter_cons]
    by_cases hc : tol ≤ sp.label_index_confidence_.getD i 0
    · rw [if_pos hc, if_pos (by simpa using hc)]
      rfl
    · rw [if_neg hc, if_neg (by simpa using hc)]

theorem getD_congr {α : Type} (a b : List α) (L : Nat) (d : α) (h : a[L]? = b[L]?) :
    a.getD L d = b.getD L d := by
  simp only [List.getD_eq_getElem?_getD, h]

theorem getD_set_ne {α : Type} (l : List α) (i L : Nat) (x d : α) (h : L ≠ i) :
    (l.set i x).getD L d = l.getD L d := by
  apply getD_congr
  rw [List.getElem?_set]
  have : ¬ i = L := fun e => h e.symm
  simp [this]

theorem getD_set_eq {α : Type} (l : List α) (i : Nat) (x d : α) (h : i < l.length) :
    (l.set i x).getD i d = x := by
  simp [List.getD_eq_getElem?_getD, List.getElem?_set, h]

/-- The fitting loop from label `i` on, when the slots from `i` on are empty: it
succeeds, leaves the slots below `i` alone, and every slot from `i` on receives
the fitted cuboid of its label, if the fit succeeds. -/
theorem fit_label_cuboids_loop_spec (fit : CuboidFitting) (points : List MeshSamplePoint)
    (n : Nat) (hsize : ∀ sp ∈ points, sp.label_index_confidence_.length = n) :
    ∀ (count i : Nat) (lc : List (List MeshCuboid)), i + count = n → lc.length = n →
      (∀ L : Nat, i ≤ L → lc.getD L [] = []) →
      ∃ out, fit_label_cuboids_loop fit points count i lc = some out ∧ out.length = n ∧
        (∀ L : Nat, L < i → out[L]? = lc[L]?) ∧
        ∀ L : Nat, i ≤ L → L < n →
          out.getD L [] =
            (fit.compute_bbox points
              { label_index_ := L,
                sample_points_ :=
                  ((points.enumFrom 0).filter fun entry =>
                    decide (fit.param_confidence_tol ≤
                      entry.2.label_index_confidence_.getD L 0)).map
                    fun entry => entry.1 }).toList := by
  intro count
  induction count with
  | zero =>
    intro i lc hi hlen _
    exact ⟨lc, rfl, hlen, fun _ _ => rfl, fun L h1 h2 => by omega⟩
  | succ count ih =>
    intro i lc hi hlen hempty
    have hsel := label_sample_points_eq fit.param_confidence_tol i points 0
      (fun sp h => by rw [hsize sp h]; omega)
    have hi0 : lc.getD i [] = [] := hempty i (le_refl _)
    rw [fit_label_cuboids_loop, if_pos hi0, hsel]
    simp only
    cases hfit : fit.compute_bbox points
        { label_index_ := i,
          sample_points_ :=
            ((points.enumFrom 0).filter fun entry =>
              decide (fit.param_confidence_tol ≤
                entry.2.label_index_confidence_.getD i 0)).map fun entry => entry.1 } with
    | none =>
      obtain ⟨out, h1, h2, h3, h4⟩ := ih (i + 1) lc (by omega) hlen
        (fun L hL => hempty L (by omega))
      refine ⟨out, h1, h2, fun L hL => h3 L (by omega), ?_⟩
      intro L hL1 hL2
      by_cases hLi : L = i
      · subst hLi
        rw [hfit, getD_congr _ _ L [] (h3 L (by omega)), hi0]
        rfl
      · exact h4 L (by omega) hL2
    | some cuboid =>
      have hset : ∀ L : Nat, L ≠ i → (lc.set i (lc.getD i [] ++ [cuboid]))[L]? = lc[L]? := by
        intro L hL
        rw [List.getElem?_set]
        have : ¬ i = L := fun e => hL e.symm
        simp [this]
      obtain ⟨out, h1, h2, h3, h4⟩ := ih (i + 1) (lc.set i (lc.getD i [] ++ [cuboid]))
        (by omega) (by rw [List.length_set]; exact hlen)
        (fun L hL => by
          rw [getD_set_ne lc i L _ [] (by omega)]
          exact hempty L (by omega))
      refine ⟨out, h1, h2, fun L hL => by rw [h3 L (by omega), hset L (by omega)], ?_⟩
      intro L hL1 hL2
      by_cases hLi : L = i
      · subst hLi
        rw [hfit, getD_congr _ _ L [] (h3 L (by omega)),
          getD_set_eq lc L _ [] (by omega), hi0]
        rfl
      · exact h4 L (by omega) hL2

end MeshCuboidStructure

namespace MeshCuboidStructure

/-- The selected positions, counted from `k`: increasing, and exactly the
positions of the points whose confidence for the label reaches the tolerance. -/
theorem selected_positions_spec (tol : ℚ) (i : Nat) (points : List MeshSamplePoint) :
    ∀ k : Nat,
      (((points.enumFrom k).filter fun entry =>
          decide (tol ≤ entry.2.label_index_confidence_.getD i 0)).map
          fun entry => entry.1).Pairwise (fun a b => a < b) ∧
      ∀ p : Nat,
        p ∈ ((points.enumFrom k).filter fun entry =>
          decide (tol ≤ entry.2.label_index_confidence_.getD i 0)).map (fun entry => entry.1) ↔
        (k ≤ p ∧ ∃ sp : MeshSamplePoint, points[p - k]? = some sp ∧
          tol ≤ sp.label_index_confidence_.getD i 0) := by
  induction points with
  | nil => intro k; simp
  | cons sp0 rest ih =>
    intro k
    obtain ⟨h1, h2⟩ := ih (k + 1)
    have hshift : ∀ p : Nat, k + 1 ≤ p → (sp0 :: rest)[p - k]? = rest[p - (k + 1)]? := by
      intro p hp
      have : p - k = (p - (k + 1)) + 1 := by omega
      rw [this, List.getElem?_cons_succ]
    simp only [List.enumFrom_cons, List.filter_cons]
    by_cases hc : tol ≤ sp0.label_index_confidence_.getD i 0
    · rw [if_pos (by simpa using hc)]
      simp only [List.map_cons, List.pairwise_cons, List.mem_cons]
      refine ⟨⟨fun b hb => by have := ((h2 b).mp hb).1; omega, h1⟩, fun p => ?_⟩
      rw [h2 p]
      constructor
      · rintro (rfl | ⟨g1, sp, g2, g3⟩)
        · exact ⟨le_refl _, sp0, by simp, hc⟩
        · exact ⟨by omega, sp, by rw [hshift p g1]; exact g2, g3⟩
      · rintro ⟨g1, sp, g2, g3⟩
        by_cases hpk : p = k
        · exact Or.inl hpk
        · exact Or.inr ⟨by omega, sp, by rw [← hshift p (by omega)]; exact g2, g3⟩
    · rw [if_neg (by simpa using hc)]
      refine ⟨h1, fun p => ?_⟩
      rw [h2 p]
      constructor
      · rintro ⟨g1, sp, g2, g3⟩
        exact ⟨by omega, sp, by rw [hshift p g1]; exact g2, g3⟩
      · rintro ⟨g1, sp, g2, g3⟩
        by_cases hpk : p = k
        · subst hpk
          simp only [Nat.sub_self, List.getElem?_cons_zero, Option.some.injEq] at g2
          subst g2
          exact absurd g3 hc
        · exact ⟨by omega, sp, by rw [← hshift p (by omega)]; exact g2, g3⟩

end MeshCuboidStructure

/-! ## Connected components of the missing candidates -/

namespace MeshCuboidTrainer

/-- A run of the neighbour loop that returns: what is new on the queue is a
flagged neighbour, no neighbour is flagged afterwards, and flags are only
cleared. -/
theorem enqueue_neighbors_result (n : Nat) (nbs : List Nat) :
    ∀ (q : List Nat) (m : List Bool) (q1 : List Nat) (m1 : List Bool),
      enqueue_neighbors n nbs q m = some (q1, m1) →
      (∀ k ∈ q1, k ∈ q ∨ (k ∈ nbs ∧ m.getD k false = true)) ∧
      (∀ b ∈ nbs, ¬ m1.getD b false = true) ∧
      ∀ k : Nat, m1.getD k false = true → m.getD k false = true := by
  induction nbs with
  | nil =>
    intro q m q1 m1 h
    simp only [enqueue_neighbors, Option.some.injEq, Prod.mk.injEq] at h
    obtain ⟨rfl, rfl⟩ := h
    exact ⟨fun k hk => Or.inl hk, fun b hb => absurd hb (List.not_mem_nil b), fun _ h => h⟩
  | cons x rest ih =>
    intro q m q1 m1 h
    by_cases hx : x < n
    · by_cases hf : m.getD x false = true
      · rw [enqueue_neighbors, if_pos hx, if_pos hf] at h
        obtain ⟨h1, h2, h3⟩ := ih _ _ _ _ h
        refine ⟨?_, ?_, ?_⟩
        · intro k hk
          rcases h1 k hk with g | ⟨g1, g2⟩
          · rcases List.mem_append.mp g with g | g
            · exact Or.inl g
            · rw [List.mem_singleton.mp g]
              exact Or.inr ⟨List.mem_cons_self _ _, hf⟩
          · exact Or.inr ⟨List.mem_cons_of_mem _ g1, ((flag_set_false m k x).mp g2).1⟩
        · intro b hb
          rcases List.mem_cons.mp hb with rfl | hb
          · intro hb1
            exact ((flag_set_false m b b).mp (h3 b hb1)).2 rfl
          · exact h2 b hb
        · intro k hk
          exact ((flag_set_false m k x).mp (h3 k hk)).1
      · rw [enqueue_neighbors, if_pos hx, if_neg hf] at h
        obtain ⟨h1, h2, h3⟩ := ih _ _ _ _ h
        refine ⟨?_, ?_, h3⟩
        · intro k hk
          rcases h1 k hk with g | ⟨g1, g2⟩
          · exact Or.inl g
          · exact Or.inr ⟨List.mem_cons_of_mem _ g1, g2⟩
        · intro b hb
          rcases List.mem_cons.mp hb with rfl | hb
          · exact fun hb1 => hf (h3 b hb1)
          · exact h2 b hb
    · rw [enqueue_neighbors, if_neg hx] at h
      cases h

/-- A run of the queue loop that returns: flags are only cleared; every label the
run added to the group has no flagged neighbour left; and a property that holds
for the group and the queue and passes from a label to its flagged neighbours
holds for the whole group returned. -/
theorem collect_group_result (cooc : List (List Nat)) (n : Nat) (R : Nat → Prop) :
    ∀ (fuel : Nat) (q : List Nat) (m : List Bool) (g g1 : List Nat) (m1 : List Bool),
      collect_group cooc n fuel q m g = some (g1, m1) →
      (∀ k : Nat, m1.getD k false = true → m.getD k false = true) ∧
      (∀ a ∈ g1, a ∈ g ∨ ∀ b ∈ cooc.getD a [], ¬ m1.getD b false = true) ∧
      ((∀ a b : Nat, R a → b ∈ cooc.getD a [] → m.getD b false = true → R b) →
        (∀ a ∈ g, R a) → (∀ a ∈ q, R a) → ∀ a ∈ g1, R a) := by
  intro fuel
  induction fuel with
  | zero =>
    intro q m g g1 m1 h
    cases q with
    | nil =>
      rw [collect_group] at h
      simp only [Option.some.injEq, Prod.mk.injEq] at h
      obtain ⟨rfl, rfl⟩ := h
      exact ⟨fun _ h => h, fun a ha => Or.inl ha, fun _ hg _ => hg⟩
    | cons curr q =>
      rw [collect_group] at h
      cases h
  | succ fuel ih =>
    intro q m g g1 m1 h
    cases q with
    | nil =>
      rw [collect_group] at h
      simp only [Option.some.injEq, Prod.mk.injEq] at h
      obtain ⟨rfl, rfl⟩ := h
      exact ⟨fun _ h => h, fun a ha => Or.inl ha, fun _ hg _ => hg⟩
    | cons curr q =>
      by_cases hcurr : curr < n
      · rw [collect_group, if_pos hcurr] at h
        cases henq : enqueue_neighbors n (cooc.getD curr []) q m with
        | none => rw [henq] at h; cases h
        | some r =>
          obtain ⟨q', m'⟩ := r
          rw [henq] at h
          simp only at h
          obtain ⟨e1, e2, e3⟩ := enqueue_neighbors_result n _ _ _ _ _ henq
          obtain ⟨k1, k2, k3⟩ := ih _ _ _ _ _ h
          refine ⟨fun k hk => e3 k (k1 k hk), ?_, ?_⟩
          · intro a ha
            rcases k2 a ha with g' | g'
            · rcases List.mem_append.mp g' with g' | g'
              · exact Or.inl g'
              · rw [List.mem_singleton.mp g']
                exact Or.inr fun b hb hb1 => e2 b hb (k1 b hb1)
            · exact Or.inr g'
          · intro hR hg hq
            have hRcurr : R curr := hq curr (List.mem_cons_self _ _)
            refine k3 (fun a b ha hb hb1 => hR a b ha hb (e3 b hb1)) ?_ ?_
            · intro a ha
              rcases List.mem_append.mp ha with ha | ha
              · exact hg a ha
              · rw [List.mem_singleton.mp ha]; exact hRcurr
            · intro a ha
              rcases e1 a ha with g' | ⟨g1', g2'⟩
              · exact hq a (List.mem_cons_of_mem _ g')
              · exact hR curr a hRcurr g1' g2'
      · rw [collect_group, if_neg hcurr] at h
        cases h

theorem joined_symm (cooc : List (List Nat)) (P : Nat → Prop)
    (hsymm : ∀ a b : Nat, b ∈ cooc.getD a [] → a ∈ cooc.getD b []) (a b : Nat)
    (h : Joined cooc P a b) : Joined cooc P b a := by
  have hs : Symmetric fun x y : Nat => P x ∧ P y ∧ y ∈ cooc.getD x [] :=
    fun x y hxy => ⟨hxy.2.1, hxy.1, hsymm x y hxy.2.2⟩
  exact Relation.ReflTransGen.symmetric hs h

end MeshCuboidTrainer

namespace MeshCuboidTrainer

/-- One pass of the clustering loop keeps the invariant: the group collected from
a flagged seed is a new component. -/
theorem groupsInvariant_step (cooc : List (List Nat)) (n : Nat)
    (hcooc : ∀ L x : Nat, x ∈ cooc.getD L [] → x < n)
    (hsymm : ∀ a b : Nat, b ∈ cooc.getD a [] → a ∈ cooc.getD b [])
    (P : Nat → Prop) (m : List Bool) (groups : List (List Nat)) (seed : Nat)
    (g1 : List Nat) (m1 : List Bool) (hm : m.length = n)
    (hseed : m.getD seed false = true)
    (hcollect : collect_group cooc n n [seed] (m.set seed false) [] = some (g1, m1))
    (hinv : GroupsInvariant cooc P m groups) :
    GroupsInvariant cooc P m1 (groups ++ [g1]) := by
  have hlt : seed < n := by rw [← hm]; exact flag_lt _ _ hseed
  have hcount := count_set_false m seed hseed
  have hle : m.count true ≤ n := by rw [← hm]; exact List.count_le_length _ _
  obtain ⟨g1', m1', c1, _, _, _, c5⟩ := collect_group_spec cooc n hcooc n [seed]
    (m.set seed false) [] (by simp only [List.length_singleton]; omega)
    (by rw [List.length_set, hm]) (fun x hx => by rw [List.mem_singleton.mp hx]; exact hlt)
  rw [hcollect] at c1
  simp only [Option.some.injEq, Prod.mk.injEq] at c1
  obtain ⟨rfl, rfl⟩ := c1
  obtain ⟨r1, r2, r3⟩ := collect_group_result cooc n
    (fun a => P a ∧ Joined cooc P seed a) n [seed] (m.set seed false) [] g1 m1 hcollect
  have hmono : ∀ k : Nat, m1.getD k false = true → m.getD k false = true := fun k hk =>
    ((flag_set_false m k seed).mp (r1 k hk)).1
  have hmem : ∀ k : Nat, k ∈ g1 ↔
      (k = seed ∨ ((m.getD k false = true ∧ k ≠ seed) ∧ ¬ m1.getD k false = true)) := by
    intro k
    rw [c5 k, flag_set_false]
    simp
  have n1 : seed ∈ g1 := (hmem seed).mpr (Or.inl rfl)
  have n2 : ∀ a ∈ g1, m.getD a false = true := by
    intro a ha
    rcases (hmem a).mp ha with rfl | ⟨⟨h, _⟩, _⟩
    · exact hseed
    · exact h
  have n3 : ∀ a ∈ g1, ¬ m1.getD a false = true := by
    intro a ha
    rcases (hmem a).mp ha with rfl | ⟨_, h⟩
    · exact fun h => ((flag_set_false m a a).mp (r1 a h)).2 rfl
    · exact h
  have n4 : ∀ k : Nat, m.getD k false = true → k ∈ g1 ∨ m1.getD k false = true := by
    intro k hk
    by_cases hks : k = seed
    · exact Or.inl ((hmem k).mpr (Or.inl hks))
    · by_cases hk1 : m1.getD k false = true
      · exact Or.inr hk1
      · exact Or.inl ((hmem k).mpr (Or.inr ⟨⟨hk, hks⟩, hk1⟩))
  have n5 : ∀ a ∈ g1, ∀ b ∈ cooc.getD a [], ¬ m1.getD b false = true := by
    intro a ha
    rcases r2 a ha with h | h
    · cases h
    · exact h
  have n6 : ∀ a ∈ g1, P a ∧ Joined cooc P seed a := by
    refine r3 ?_ (fun a ha => by cases ha) ?_
    · intro a b ha hb hb1
      have hPb : P b := hinv.flagged b ((flag_set_false m b seed).mp hb1).1
      exact ⟨hPb, Relation.ReflTransGen.tail ha.2 ⟨ha.1, hPb, hb⟩⟩
    · intro a ha
      rw [List.mem_singleton.mp ha]
      exact ⟨hinv.flagged seed hseed, Relation.ReflTransGen.refl⟩
  refine ⟨?_, ?_, ?_, ?_, ?_, ?_, ?_⟩
  · intro grp hgrp k hk
    rcases List.mem_append.mp hgrp with h | h
    · exact ⟨(hinv.candidates grp h k hk).1, fun hk1 =>
        (hinv.candidates grp h k hk).2 (hmono k hk1)⟩
    · rw [List.mem_singleton.mp h] at hk
      exact ⟨(n6 k hk).1, n3 k hk⟩
  · exact fun k hk => hinv.flagged k (hmono k hk)
  · intro k hk
    rcases hinv.covered k hk with h | ⟨grp, hgrp, hkg⟩
    · rcases n4 k h with h' | h'
      · exact Or.inr ⟨g1, List.mem_append_right _ (List.mem_singleton_self _), h'⟩
      · exact Or.inl h'
    · exact Or.inr ⟨grp, List.mem_append_left _ hgrp, hkg⟩
  · intro grp hgrp
    rcases List.mem_append.mp hgrp with h | h
    · exact hinv.nonempty grp h
    · rw [List.mem_singleton.mp h]
      exact List.ne_nil_of_mem n1
  · rw [List.pairwise_append]
    refine ⟨hinv.disjoint, List.pairwise_singleton _ _, ?_⟩
    intro grp hgrp g hg
    rw [List.mem_singleton.mp hg]
    intro k hk1 hk2
    exact (hinv.candidates grp hgrp k hk1).2 (n2 k hk2)
  · intro grp hgrp a ha b hb
    rcases List.mem_append.mp hgrp with h | h
    · exact hinv.connected grp h a ha b hb
    · rw [List.mem_singleton.mp h] at ha hb
      exact Relation.ReflTransGen.trans (joined_symm cooc P hsymm _ _ (n6 a ha).2) (n6 b hb).2
  · intro grp hgrp a ha b hb hPb
    rcases List.mem_append.mp hgrp with h | h
    · exact hinv.closed grp h a ha b hb hPb
    · rw [List.mem_singleton.mp h] at ha ⊢
      rcases hinv.covered b hPb with hb1 | ⟨grp', hgrp', hbg⟩
      · rcases n4 b hb1 with h' | h'
        · exact h'
        · exact absurd h' (n5 a ha b hb)
      · have haP : P a := (n6 a ha).1
        have hag : a ∈ grp' := hinv.closed grp' hgrp' b hbg a (hsymm a b hb) haP
        exact absurd (n2 a ha) (hinv.candidates grp' hgrp' a hag).2

/-- A run of the clustering loop that returns keeps the invariant, and no label is
flagged at the end. -/
theorem cluster_missing_components (cooc : List (List Nat)) (n : Nat)
    (hcooc : ∀ L x : Nat, x ∈ cooc.getD L [] → x < n)
    (hsymm : ∀ a b : Nat, b ∈ cooc.getD a [] → a ∈ cooc.getD b [])
    (P : Nat → Prop) :
    ∀ (fuel : Nat) (m : List Bool) (groups out : List (List Nat)), m.length = n →
      cluster_missing cooc n fuel m groups = some out → GroupsInvariant cooc P m groups →
      GroupsInvariant cooc P (List.replicate n false) out := by
  have hdone : ∀ (m : List Bool) (groups : List (List Nat)), m.length = n →
      find_seed m n 0 = n → GroupsInvariant cooc P m groups →
      GroupsInvariant cooc P (List.replicate n false) groups := by
    intro m groups hm hseed hinv
    obtain ⟨_, _, _, s4⟩ := find_seed_spec m n 0
    have hnone : ∀ k : Nat, ¬ m.getD k false = true := fun k hk =>
      s4 k (Nat.zero_le _) (by rw [hseed, ← hm]; exact flag_lt _ _ hk) hk
    refine ⟨fun grp hgrp k hk => ⟨(hinv.candidates grp hgrp k hk).1, flag_replicate_false n k⟩,
      fun k hk => absurd hk (flag_replicate_false n k), ?_, hinv.nonempty, hinv.disjoint,
      hinv.connected, hinv.closed⟩
    intro k hk
    rcases hinv.covered k hk with h | h
    · exact absurd h (hnone k)
    · exact Or.inr h
  intro fuel
  induction fuel with
  | zero =>
    intro m groups out hm h hinv
    by_cases hseed : find_seed m n 0 = n
    · rw [cluster_missing] at h
      simp only [hseed, if_true, Option.some.injEq] at h
      subst h
      exact hdone m groups hm hseed hinv
    · rw [cluster_missing] at h
      simp only [hseed, if_false] at h
      cases h
  | succ fuel ih =>
    intro m groups out hm h hinv
    by_cases hseed : find_seed m n 0 = n
    · rw [cluster_missing] at h
      simp only [hseed, if_true, Option.some.injEq] at h
      subst h
      exact hdone m groups hm hseed hinv
    · obtain ⟨_, s2, s3, _⟩ := find_seed_spec m n 0
      have hflag := s3 (by omega)
      rw [cluster_missing] at h
      simp only [hseed, if_false] at h
      cases hcol : collect_group cooc n n [find_seed m n 0]
          (m.set (find_seed m n 0) false) [] with
      | none => rw [hcol] at h; cases h
      | some r =>
        obtain ⟨g1, m1⟩ := r
        rw [hcol] at h
        simp only at h
        have hstep := groupsInvariant_step cooc n hcooc hsymm P m groups _ g1 m1 hm hflag hcol
          hinv
        have hm1 : m1.length = n := by
          obtain ⟨g1', m1', c1, c2, _⟩ := collect_group_spec cooc n hcooc n
            [find_seed m n 0] (m.set (find_seed m n 0) false) []
            (by
              have := count_set_false m _ hflag
              have hle : m.count true ≤ n := by rw [← hm]; exact List.count_le_length _ _
              simp only [List.length_singleton]; omega)
            (by rw [List.length_set, hm])
            (fun x hx => by rw [List.mem_singleton.mp hx]; omega)
          rw [hcol] at c1
          simp only [Option.some.injEq, Prod.mk.injEq] at c1
          rw [c1.2]
          exact c2
        exact ih m1 (groups ++ [g1]) out hm1 h hstep

end MeshCuboidTrainer

/-! ## The relation matrix loops -/

namespace MeshCuboidTrainer

theorem set_relation_spec {R : Type} (rel : List (List (Option R))) (i j : Nat) (r : R)
    (hi : i < rel.length) (hj : j < (rel.getD i []).length) :
    (set_relation rel i j r).length = rel.length ∧
    (∀ a : Nat, ((set_relation rel i j r).getD a []).length = (rel.getD a []).length) ∧
    ∀ a b : Nat, relation_at (set_relation rel i j r) a b =
      if a = i ∧ b = j then some r else relation_at rel a b := by
  refine ⟨by simp [set_relation], ?_, ?_⟩
  · intro a
    by_cases hai : a = i
    · subst hai
      rw [set_relation, MeshCuboidStructure.getD_set_eq _ _ _ _ hi, List.length_set]
    · rw [set_relation, MeshCuboidStructure.getD_set_ne _ _ _ _ _ hai]
  · intro a b
    by_cases hai : a = i
    · subst hai
      rw [relation_at, set_relation, MeshCuboidStructure.getD_set_eq _ _ _ _ hi]
      by_cases hbj : b = j
      · subst hbj
        rw [MeshCuboidStructure.getD_set_eq _ _ _ _ hj]
        simp
      · rw [MeshCuboidStructure.getD_set_ne _ _ _ _ _ hbj]
        simp [hbj, relation_at]
    · rw [relation_at, set_relation, MeshCuboidStructure.getD_set_ne _ _ _ _ _ hai]
      simp [hai, relation_at]

/-- A run of the inner relation loop that returns: only the entries of row `i` in
the visited range change, and each of them, the diagonal apart, is what the pair
body returned. -/
theorem relations_of_result {R : Type} (pair : Nat → Nat → Option (Option R)) (i n : Nat) :
    ∀ (count j : Nat) (rel out : List (List (Option R))), i < rel.length →
      (rel.getD i []).length = n → j + count ≤ n →
      (∀ b : Nat, j ≤ b → relation_at rel i b = none) →
      relations_of pair i count j rel = some out →
      out.length = rel.length ∧
      (∀ a : Nat, (out.getD a []).length = (rel.getD a []).length) ∧
      (∀ a b : Nat, a ≠ i → relation_at out a b = relation_at rel a b) ∧
      (∀ b : Nat, b < j ∨ j + count ≤ b → relation_at out i b = relation_at rel i b) ∧
      ∀ b : Nat, j ≤ b → b < j + count →
        (b = i → relation_at out i b = none) ∧
        (b ≠ i → ∃ v, pair i b = some v ∧ relation_at out i b = v) := by
  intro count
  induction count with
  | zero =>
    intro j rel out _ _ _ _ h
    simp only [relations_of, Option.some.injEq] at h
    subst h
    exact ⟨rfl, fun _ => rfl, fun _ _ _ => rfl, fun _ _ => rfl, fun b h1 h2 => by omega⟩
  | succ count ih =>
    intro j rel out hi hrow hj hnone h
    by_cases hij : i = j
    · rw [relations_of, if_pos hij] at h
      obtain ⟨h1, h2, h3, h4, h5⟩ := ih (j + 1) rel out hi hrow (by omega)
        (fun b hb => hnone b (by omega)) h
      refine ⟨h1, h2, h3, fun b hb => h4 b (by omega), ?_⟩
      intro b hb1 hb2
      by_cases hbj : b = j
      · subst hbj
        refine ⟨fun _ => ?_, fun hne => absurd hij.symm hne⟩
        rw [h4 b (Or.inl (by omega))]
        exact hnone b (le_refl _)
      · exact h5 b (by omega) (by omega)
    · rw [relations_of, if_neg hij] at h
      cases hp : pair i j with
      | none => rw [hp] at h; cases h
      | some v =>
        rw [hp] at h
        cases v with
        | none =>
          simp only at h
          obtain ⟨h1, h2, h3, h4, h5⟩ := ih (j + 1) rel out hi hrow (by omega)
            (fun b hb => hnone b (by omega)) h
          refine ⟨h1, h2, h3, fun b hb => h4 b (by omega), ?_⟩
          intro b hb1 hb2
          by_cases hbj : b = j
          · subst hbj
            refine ⟨fun e => absurd e.symm hij, fun _ => ⟨none, hp, ?_⟩⟩
            rw [h4 b (Or.inl (by omega))]
            exact hnone b (le_refl _)
          · exact h5 b (by omega) (by omega)
        | some r =>
          simp only at h
          obtain ⟨s1, s2, s3⟩ := set_relation_spec rel i j r hi (by omega)
          obtain ⟨h1, h2, h3, h4, h5⟩ := ih (j + 1) (set_relation rel i j r) out
            (by rw [s1]; exact hi) (by rw [s2, hrow]) (by omega)
            (fun b hb => by
              rw [s3 i b, if_neg (by omega)]
              exact hnone b (by omega)) h
          refine ⟨by rw [h1, s1], fun a => by rw [h2 a, s2 a], ?_, ?_, ?_⟩
          · intro a b ha
            rw [h3 a b ha, s3 a b, if_neg (fun e => ha e.1)]
          · intro b hb
            rw [h4 b (by omega), s3 i b, if_neg (by omega)]
          · intro b hb1 hb2
            by_cases hbj : b = j
            · subst hbj
              refine ⟨fun e => absurd e.symm hij, fun _ => ⟨some r, hp, ?_⟩⟩
              rw [h4 b (Or.inl (by omega)), s3 i b, if_pos ⟨rfl, rfl⟩]
            · exact h5 b (by omega) (by omega)

/-- A run of the outer relation loop that returns. -/
theorem relations_from_result {R : Type} (pair : Nat → Nat → Option (Option R)) (n : Nat) :
    ∀ (count i : Nat) (rel out : List (List (Option R))), rel.length = n →
      (∀ a : Nat, a < n → (rel.getD a []).length = n) → i + count ≤ n →
      (∀ a b : Nat, i ≤ a → relation_at rel a b = none) →
      relations_from pair n count i rel = some out →
      out.length = n ∧
      (∀ a : Nat, a < n → (out.getD a []).length = n) ∧
      (∀ a b : Nat, a < i ∨ i + count ≤ a → relation_at out a b = relation_at rel a b) ∧
      ∀ a b : Nat, i ≤ a → a < i + count → b < n →
        (b = a → relation_at out a b = none) ∧
        (b ≠ a → ∃ v, pair a b = some v ∧ relation_at out a b = v) := by
  intro count
  induction count with
  | zero =>
    intro i rel out hlen hrows _ _ h
    simp only [relations_from, Option.some.injEq] at h
    subst h
    exact ⟨hlen, hrows, fun _ _ _ => rfl, fun a b h1 h2 => by omega⟩
  | succ count ih =>
    intro i rel out hlen hrows hi hnone h
    rw [relations_from] at h
    cases hrow : relations_of pair i n 0 rel with
    | none => rw [hrow] at h; cases h
    | some rel1 =>
      rw [hrow] at h
      simp only at h
      obtain ⟨r1, r2, r3, r4, r5⟩ := relations_of_result pair i n n 0 rel rel1 (by omega)
        (hrows i (by omega)) (by omega) (fun b _ => hnone i b (le_refl _)) hrow
      obtain ⟨h1, h2, h3, h4⟩ := ih (i + 1) rel1 out (by rw [r1, hlen])
        (fun a ha => by rw [r2 a]; exact hrows a ha) (by omega)
        (fun a b ha => by rw [r3 a b (by omega)]; exact hnone a b (by omega)) h
      refine ⟨h1, h2, ?_, ?_⟩
      · intro a b ha
        rw [h3 a b (by omega), r3 a b (by omega)]
      · intro a b ha1 ha2 hb
        by_cases hai : a = i
        · subst hai
          rw [h3 a b (Or.inl (by omega))]
          exact r5 b (Nat.zero_le _) (by omega)
        · exact h4 a b (by omega) (by omega) hb

/-- What a relation matrix that is returned holds: `n` rows of `n` entries, null
on the diagonal and the result of the pair body elsewhere. -/
theorem relation_matrix_result {R : Type} (pair : Nat → Nat → Option (Option R)) (n : Nat)
    (M : List (List (Option R))) (h : relation_matrix pair n = some M) :
    M.length = n ∧ (∀ a : Nat, a < n → (M.getD a []).length = n) ∧
    ∀ a b : Nat, a < n → b < n →
      (b = a → relation_at M a b = none) ∧
      (b ≠ a → ∃ v, pair a b = some v ∧ relation_at M a b = v) := by
  have hrows : ∀ a : Nat, a < n →
      ((List.replicate n (List.replicate n (none : Option R))).getD a []).length = n := by
    intro a ha
    simp [List.getD_eq_getElem?_getD, List.getElem?_replicate, ha]
  have hnone : ∀ a b : Nat,
      relation_at (List.replicate n (List.replicate n (none : Option R))) a b = none := by
    intro a b
    simp only [relation_at, List.getD_eq_getElem?_getD, List.getElem?_replicate]
    split
    · simp only [Option.getD_some, List.getElem?_replicate]
      split <;> rfl
    · rfl
  obtain ⟨h1, h2, _, h4⟩ := relations_from_result pair n n 0 _ M (by simp) hrows (by omega)
    (fun a b _ => hnone a b) h
  exact ⟨h1, h2, fun a b ha hb => h4 a b (Nat.zero_le _) (by omega) hb⟩

theorem relations_of_some {R : Type} (pair : Nat → Nat → Option (Option R)) (i : Nat) :
    ∀ (count j : Nat) (rel : List (List (Option R))),
      (∀ b : Nat, j ≤ b → b < j + count → b ≠ i → ∃ v, pair i b = some v) →
      ∃ out, relations_of pair i count j rel = some out := by
  intro count
  induction count with
  | zero => intro j rel _; exact ⟨rel, rfl⟩
  | succ count ih =>
    intro j rel hp
    by_cases hij : i = j
    · obtain ⟨out, ho⟩ := ih (j + 1) rel (fun b h1 h2 h3 => hp b (by omega) (by omega) h3)
      exact ⟨out, by rw [relations_of, if_pos hij, ho]⟩
    · obtain ⟨v, hv⟩ := hp j (le_refl _) (by omega) (fun e => hij e.symm)
      cases v with
      | none =>
        obtain ⟨out, ho⟩ := ih (j + 1) rel (fun b h1 h2 h3 => hp b (by omega) (by omega) h3)
        exact ⟨out, by rw [relations_of, if_neg hij, hv]; exact ho⟩
      | some r =>
        obtain ⟨out, ho⟩ := ih (j + 1) (set_relation rel i j r)
          (fun b h1 h2 h3 => hp b (by omega) (by omega) h3)
        exact ⟨out, by rw [relations_of, if_neg hij, hv]; exact ho⟩

theorem relations_from_some {R : Type} (pair : Nat → Nat → Option (Option R)) (n : Nat) :
    ∀ (count i : Nat) (rel : List (List (Option R))), i + count ≤ n →
      (∀ a b : Nat, a < n → b < n → b ≠ a → ∃ v, pair a b = some v) →
      ∃ out, relations_from pair n count i rel = some out := by
  intro count
  induction count with
  | zero => intro i rel _ _; exact ⟨rel, rfl⟩
  | succ count ih =>
    intro i rel hi hp
    obtain ⟨rel1, h1⟩ := relations_of_some pair i n 0 rel
      (fun b _ hb hne => hp i b (by omega) (by omega) hne)
    obtain ⟨out, h2⟩ := ih (i + 1) rel1 (by omega) hp
    exact ⟨out, by rw [relations_from, h1]; exact h2⟩

/-- The relation matrix is returned when the pair body fails on no pair of
different labels. -/
theorem relation_matrix_some {R : Type} (pair : Nat → Nat → Option (Option R)) (n : Nat)
    (hp : ∀ a b : Nat, a < n → b < n → b ≠ a → ∃ v, pair a b = some v) :
    ∃ M, relation_matrix pair n = some M :=
  relations_from_some pair n n 0 _ (by omega) hp

theorem relations_of_congr {R : Type} (pair1 pair2 : Nat → Nat → Option (Option R))
    (i : Nat) :
    ∀ (count j : Nat) (rel : List (List (Option R))),
      (∀ b : Nat, b < j + count → pair1 i b = pair2 i b) →
      relations_of pair1 i count j rel = relations_of pair2 i count j rel := by
  intro count
  induction count with
  | zero => intro j rel _; rfl
  | succ count ih =>
    intro j rel hp
    by_cases hij : i = j
    · rw [relations_of, relations_of, if_pos hij, if_pos hij]
      exact ih (j + 1) rel fun b hb => hp b (by omega)
    · rw [relations_of, relations_of, if_neg hij, if_neg hij, hp j (by omega)]
      cases pair2 i j with
      | none => rfl
      | some v =>
        cases v with
        | none => exact ih (j + 1) rel fun b hb => hp b (by omega)
        | some r => exact ih (j + 1) _ fun b hb => hp b (by omega)

theorem relations_from_congr {R : Type} (pair1 pair2 : Nat → Nat → Option (Option R))
    (n : Nat) :
    ∀ (count i : Nat) (rel : List (List (Option R))),
      (∀ a b : Nat, a < i + count → b < n → pair1 a b = pair2 a b) →
      relations_from pair1 n count i rel = relations_from pair2 n count i rel := by
  intro count
  induction count with
  | zero => intro i rel _; rfl
  | succ count ih =>
    intro i rel hp
    rw [relations_from, relations_from,
      relations_of_congr pair1 pair2 i n 0 rel fun b hb => hp i b (by omega) (by omega)]
    cases relations_of pair2 i n 0 rel with
    | none => rfl
    | some rel1 => exact ih (i + 1) rel1 fun a b ha hb => hp a b (by omega) hb

/-- Two pair bodies that agree on all pairs of labels give the same matrix. -/
theorem relation_matrix_congr {R : Type} (pair1 pair2 : Nat → Nat → Option (Option R))
    (n : Nat) (hp : ∀ a b : Nat, a < n → b < n → pair1 a b = pair2 a b) :
    relation_matrix pair1 n = relation_matrix pair2 n :=
  relations_from_congr pair1 pair2 n n 0 _ fun a b ha hb => hp a b (by omega) hb

end MeshCuboidTrainer

/-! ## The joint normal relation -/

theorem covariance_rowwise_sub {m d : Nat} (X : Matrix (Fin m) (Fin d) ℚ) (mean : Fin d → ℚ) :
    covariance (rowwise_sub X mean) = outer_product_covariance X mean := by
  ext a b
  simp [covariance, outer_product_covariance, rowwise_sub, Matrix.mul_apply]

/-- The regularized inverse of a trainer covariance is a two-sided inverse of the
regularized covariance. -/
theorem regularized_inverse_covariance {m d : Nat} (C : Matrix (Fin m) (Fin d) ℚ) :
    regularized_inverse (covariance C) *
        (covariance C + (1 / 1000 : ℚ) • (1 : Matrix (Fin d) (Fin d) ℚ)) = 1 ∧
    (covariance C + (1 / 1000 : ℚ) • (1 : Matrix (Fin d) (Fin d) ℚ)) *
        regularized_inverse (covariance C) = 1 :=
  ⟨eigen_inverse_mul _ (regularized_det_ne_zero _ (covariance_isCovarianceLike C)),
    mul_eigen_inverse _ (regularized_det_ne_zero _ (covariance_isCovarianceLike C))⟩

namespace MeshCuboidTrainer

/-- The entry of a returned joint relation matrix for two different labels with a
valid object: the relation fitted to the rows of the valid objects. -/
theorem get_joint_normal_relations_entry (k : Nat) (t : MeshCuboidTrainer)
    (ignored : Option (List String))
    (rels : List (List (Option (MeshCuboidJointNormalRelations (k + k)))))
    (hret : t.get_joint_normal_relations k ignored = some rels) (i j : Nat)
    (hi : i < t.feature_list_.length) (hj : j < t.feature_list_.length) (hij : i ≠ j) :
    t.pair_sizes_ok i j = true ∧
    ((t.joint_valid_objects ignored i j).length = 0 → relation_at rels i j = none) ∧
    ((t.joint_valid_objects ignored i j).length ≠ 0 →
      ∃ rows, joint_rows k (t.joint_valid_objects ignored i j) = some rows ∧
        relation_at rels i j = some (fit_joint_normal k rows)) := by
  unfold get_joint_normal_relations at hret
  split at hret
  · obtain ⟨_, _, h3⟩ := relation_matrix_result _ _ _ hret
    obtain ⟨v, hv1, hv2⟩ := (h3 i j hi hj).2 (fun e => hij e.symm)
    unfold joint_pair at hv1
    split at hv1
    · rename_i hsizes
      refine ⟨hsizes, ?_, ?_⟩
      · intro h0
        rw [if_pos h0] at hv1
        rw [hv2, ← Option.some.inj hv1]
      · intro h0
        rw [if_neg h0] at hv1
        simp only [Option.map_eq_some'] at hv1
        obtain ⟨rows, h1, h2⟩ := hv1
        exact ⟨rows, h1, by rw [hv2, ← h2]⟩
    · cases hv1
  · cases hret

end MeshCuboidTrainer

/-! ## The conditional normal relation -/

namespace MeshCuboidTrainer

theorem cond_rows_eq (g k : Nat) :
    ∀ (sel : List (MeshCuboidFeatures × MeshCuboidFeatures × MeshCuboidTransformation))
      (rows : List (List ℚ × List ℚ)), cond_rows g k sel = some rows →
      rows = sel.map fun v =>
        (v.1.get_features.drop (v.1.get_features.length - g),
          v.2.2.get_transformed_features v.2.1) := by
  intro sel
  induction sel with
  | nil =>
    intro rows h
    simp only [cond_rows, Option.some.injEq] at h
    subst h
    rfl
  | cons v rest ih =>
    intro rows h
    obtain ⟨f1, f2, t1⟩ := v
    simp only [cond_rows] at h
    split at h
    · split at h
      · simp only [Option.map_eq_some'] at h
        obtain ⟨rows', h1, rfl⟩ := h
        rw [ih rows' h1]
        rfl
      · cases h
    · cases h

/-- The entry of a returned conditional relation matrix for two different labels. -/
theorem get_cond_normal_relations_entry (g k : Nat) (t : MeshCuboidTrainer)
    (ignored : Option (List String))
    (rels : List (List (Option (MeshCuboidCondNormalRelations g k))))
    (hret : t.get_cond_normal_relations g k ignored = some rels) (i j : Nat)
    (hi : i < t.feature_list_.length) (hj : j < t.feature_list_.length) (hij : i ≠ j) :
    t.pair_sizes_ok i j = true ∧
    ((t.cond_valid_objects ignored i j).length = 0 → relation_at rels i j = none) ∧
    ((t.cond_valid_objects ignored i j).length ≠ 0 →
      ∃ rows, cond_rows g k (t.cond_valid_objects ignored i j) = some rows ∧
        relation_at rels i j = some (fit_cond_normal g k rows)) := by
  unfold get_cond_normal_relations at hret
  split at hret
  · obtain ⟨_, _, h3⟩ := relation_matrix_result _ _ _ hret
    obtain ⟨v, hv1, hv2⟩ := (h3 i j hi hj).2 (fun e => hij e.symm)
    unfold cond_pair at hv1
    split at hv1
    · rename_i hsizes
      refine ⟨hsizes, ?_, ?_⟩
      · intro h0
        rw [if_pos h0] at hv1
        rw [hv2, ← Option.some.inj hv1]
      · intro h0
        rw [if_neg h0] at hv1
        simp only [Option.map_eq_some'] at hv1
        obtain ⟨rows, h1, h2⟩ := hv1
        exact ⟨rows, h1, by rw [hv2, ← h2]⟩
    · cases hv1
  · cases hret

end MeshCuboidTrainer

theorem colwise_mean_concat_left (a b : Nat) (rows : List (List ℚ × List ℚ)) (c : Fin a) :
    colwise_mean (concat_columns a b rows) (Fin.castAdd b c) =
      colwise_mean (left_columns a rows) c := by
  simp [colwise_mean, concat_columns, left_columns, Fin.append_left]

theorem colwise_mean_concat_right (a b : Nat) (rows : List (List ℚ × List ℚ)) (c : Fin b) :
    colwise_mean (concat_columns a b rows) (Fin.natAdd a c) =
      colwise_mean (right_columns b rows) c := by
  simp [colwise_mean, concat_columns, right_columns, Fin.append_right]

/-! ## Null entries of the relation matrices -/

namespace MeshCuboidTrainer

theorem is_ignored_eq_false (ignored : Option (List String)) (o : String) :
    is_ignored ignored (some o) = false ↔ ∀ L, ignored = some L → o ∉ L := by
  cases ignored with
  | none => simp [is_ignored]
  | some names =>
    simp only [is_ignored, List.any_eq_false, decide_eq_true_eq, Option.some.injEq]
    constructor
    · intro h L hL hmem
      cases hL
      exact h o hmem rfl
    · intro h x hx hox
      subst hox
      exact h names rfl hx

theorem select_objects_ne_nil {α : Type} (ignored : Option (List String)) :
    ∀ (objs : List String) (l1 l2 : List MeshCuboidFeatures) (ts : List α),
      l1.length = objs.length → l2.length = objs.length → ts.length = objs.length →
      (select_objects ignored objs l1 l2 ts ≠ [] ↔
        ∃ (p : Nat) (o : String) (f1 f2 : MeshCuboidFeatures),
          objs[p]? = some o ∧ l1[p]? = some f1 ∧ l2[p]? = some f2 ∧
          f1.has_nan = false ∧ f2.has_nan = false ∧ is_ignored ignored (some o) = false) := by
  intro objs
  induction objs with
  | nil =>
    intro l1 l2 ts h1 h2 h3
    cases l1 with
    | nil =>
      constructor
      · intro h
        exact absurd (by simp [select_objects]) h
      · rintro ⟨p, o, f1, f2, ho, _⟩
        simp at ho
    | cons _ _ => simp at h1
  | cons o objs ih =>
    intro l1 l2 ts h1 h2 h3
    cases l1 with
    | nil => simp at h1
    | cons a r1 =>
    cases l2 with
    | nil => simp at h2
    | cons b r2 =>
    cases ts with
    | nil => simp at h3
    | cons c rt =>
    simp only [List.length_cons, Nat.add_right_cancel_iff] at h1 h2 h3
    have ih1 := ih r1 r2 rt h1 h2 h3
    rw [select_objects]
    simp only [List.head?_cons, List.tail_cons]
    constructor
    · intro h
      by_cases hv : ((!a.has_nan && !b.has_nan) && !is_ignored ignored (some o)) = true
      · simp only [Bool.and_eq_true, Bool.not_eq_true'] at hv
        exact ⟨0, o, a, b, by simp, by simp, by simp, hv.1.1, hv.1.2, hv.2⟩
      · rw [if_neg hv] at h
        obtain ⟨p, o1, f1, f2, hp1, hp2, hp3, hp⟩ := ih1.1 h
        exact ⟨p + 1, o1, f1, f2, by simpa using hp1, by simpa using hp2, by simpa using hp3, hp⟩
    · rintro ⟨p, o1, f1, f2, ho, hf1, hf2, hn1, hn2, hig⟩
      cases p with
      | zero =>
        simp only [List.getElem?_cons_zero, Option.some.injEq] at ho hf1 hf2
        subst ho hf1 hf2
        rw [if_pos (by simp [hn1, hn2, hig])]
        exact List.cons_ne_nil _ _
      | succ p =>
        simp only [List.getElem?_cons_succ] at ho hf1 hf2
        have hrest := ih1.2 ⟨p, o1, f1, f2, ho, hf1, hf2, hn1, hn2, hig⟩
        split
        · exact List.cons_ne_nil _ _
        · exact hrest

theorem select_objects_mem {α : Type} (ignored : Option (List String)) :
    ∀ (objs : List String) (l1 l2 : List MeshCuboidFeatures) (ts : List α)
      (v : MeshCuboidFeatures × MeshCuboidFeatures × α),
      v ∈ select_objects ignored objs l1 l2 ts → v.1 ∈ l1 ∧ v.2.1 ∈ l2 ∧ v.2.2 ∈ ts := by
  intro objs l1
  induction l1 generalizing objs with
  | nil =>
    intro l2 ts v hv
    simp [select_objects] at hv
  | cons a r1 ih =>
    intro l2 ts v hv
    cases l2 with
    | nil => simp [select_objects] at hv
    | cons b r2 =>
    cases ts with
    | nil => simp [select_objects] at hv
    | cons c rt =>
    rw [select_objects] at hv
    split at hv
    · rcases List.mem_cons.1 hv with h | h
      · subst h
        exact ⟨List.mem_cons_self _ _, List.mem_cons_self _ _, List.mem_cons_self _ _⟩
      · obtain ⟨h1, h2, h3⟩ := ih _ _ _ _ h
        exact ⟨List.mem_cons_of_mem _ h1, List.mem_cons_of_mem _ h2, List.mem_cons_of_mem _ h3⟩
    · obtain ⟨h1, h2, h3⟩ := ih _ _ _ _ hv
      exact ⟨List.mem_cons_of_mem _ h1, List.mem_cons_of_mem _ h2, List.mem_cons_of_mem _ h3⟩

theorem getD_mem_of_lt {α : Type} (l : List α) (i : Nat) (d : α) (h : i < l.length) :
    l.getD i d ∈ l := by
  rw [List.getD_eq_getElem?_getD, List.getElem?_eq_getElem h]
  exact List.getElem_mem h

theorem fullyAligned_pair_sizes_ok (t : MeshCuboidTrainer) (hal : t.FullyAligned) (i j : Nat)
    (hi : i < t.feature_list_.length) (hj : j < t.feature_list_.length) :
    t.pair_sizes_ok i j = true := by
  obtain ⟨h0, hf, ht⟩ := hal
  have h1 := hf _ (getD_mem_of_lt t.feature_list_ i [] hi)
  have h2 := hf _ (getD_mem_of_lt t.feature_list_ j [] hj)
  have h3 := ht _ (getD_mem_of_lt t.transformation_list_ i [] (by omega))
  have h4 := ht _ (getD_mem_of_lt t.transformation_list_ j [] (by omega))
  unfold pair_sizes_ok
  rw [h1, h2, h3, h4]
  simp

theorem joint_valid_objects_ne_nil (t : MeshCuboidTrainer) (hal : t.FullyAligned)
    (ignored : Option (List String)) (i j : Nat)
    (hi : i < t.feature_list_.length) (hj : j < t.feature_list_.length) :
    t.joint_valid_objects ignored i j ≠ [] ↔ t.HasValidObject ignored i j := by
  obtain ⟨h0, hf, ht⟩ := hal
  have h1 := hf _ (getD_mem_of_lt t.feature_list_ i [] hi)
  have h2 := hf _ (getD_mem_of_lt t.feature_list_ j [] hj)
  have h3 := ht _ (getD_mem_of_lt t.transformation_list_ i [] (by omega))
  have h4 := ht _ (getD_mem_of_lt t.transformation_list_ j [] (by omega))
  unfold joint_valid_objects HasValidObject
  rw [select_objects_ne_nil ignored _ _ _ _ h1 h2 (by rw [List.length_zip, h3, h4, Nat.min_self])]
  simp only [is_ignored_eq_false]

theorem cond_valid_objects_ne_nil (t : MeshCuboidTrainer) (hal : t.FullyAligned)
    (ignored : Option (List String)) (i j : Nat)
    (hi : i < t.feature_list_.length) (hj : j < t.feature_list_.length) :
    t.cond_valid_objects ignored i j ≠ [] ↔ t.HasValidObject ignored i j := by
  obtain ⟨h0, hf, ht⟩ := hal
  have h1 := hf _ (getD_mem_of_lt t.feature_list_ i [] hi)
  have h2 := hf _ (getD_mem_of_lt t.feature_list_ j [] hj)
  have h3 := ht _ (getD_mem_of_lt t.transformation_list_ i [] (by omega))
  unfold cond_valid_objects HasValidObject
  rw [select_objects_ne_nil ignored _ _ _ _ h1 h2 h3]
  simp only [is_ignored_eq_false]

theorem joint_rows_some (k : Nat) :
    ∀ sel : List (MeshCuboidFeatures × MeshCuboidFeatures ×
        MeshCuboidTransformation × MeshCuboidTransformation),
      (∀ v ∈ sel, (v.2.2.2.get_transformed_features v.1).length = k ∧
        (v.2.2.1.get_transformed_features v.2.1).length = k) →
      ∃ rows, joint_rows k sel = some rows := by
  intro sel
  induction sel with
  | nil => intro _; exact ⟨[], rfl⟩
  | cons v rest ih =>
    intro h
    obtain ⟨f1, f2, t1, t2⟩ := v
    obtain ⟨rows, hrows⟩ := ih fun w hw => h w (List.mem_cons_of_mem _ hw)
    have hv := h (f1, f2, t1, t2) (List.mem_cons_self _ _)
    simp only [joint_rows]
    rw [if_pos hv.1, if_pos hv.2, hrows]
    exact ⟨_, rfl⟩

theorem cond_rows_some (g k : Nat) :
    ∀ sel : List (MeshCuboidFeatures × MeshCuboidFeatures × MeshCuboidTransformation),
      (∀ v ∈ sel, g ≤ v.1.get_features.length ∧
        (v.2.2.get_transformed_features v.2.1).length = k) →
      ∃ rows, cond_rows g k sel = some rows := by
  intro sel
  induction sel with
  | nil => intro _; exact ⟨[], rfl⟩
  | cons v rest ih =>
    intro h
    obtain ⟨f1, f2, t1⟩ := v
    obtain ⟨rows, hrows⟩ := ih fun w hw => h w (List.mem_cons_of_mem _ hw)
    have hv := h (f1, f2, t1) (List.mem_cons_self _ _)
    simp only [cond_rows]
    rw [if_pos hv.1, if_pos hv.2, hrows]
    exact ⟨_, rfl⟩

end MeshCuboidTrainer

namespace MeshCuboidTrainer

theorem joint_pair_of_no_valid_object (k : Nat) (t : MeshCuboidTrainer) (hal : t.FullyAligned)
    (ignored : Option (List String)) (i j : Nat)
    (hi : i < t.feature_list_.length) (hj : j < t.feature_list_.length)
    (hno : ¬ t.HasValidObject ignored i j) : t.joint_pair k ignored i j = some none := by
  have hnil : t.joint_valid_objects ignored i j = [] :=
    Classical.not_not.1 fun h => hno ((joint_valid_objects_ne_nil t hal ignored i j hi hj).1 h)
  unfold joint_pair
  rw [if_pos (fullyAligned_pair_sizes_ok t hal i j hi hj), if_pos (by rw [hnil]; rfl)]

theorem cond_pair_of_no_valid_object (g k : Nat) (t : MeshCuboidTrainer) (hal : t.FullyAligned)
    (ignored : Option (List String)) (i j : Nat)
    (hi : i < t.feature_list_.length) (hj : j < t.feature_list_.length)
    (hno : ¬ t.HasValidObject ignored i j) : t.cond_pair g k ignored i j = some none := by
  have hnil : t.cond_valid_objects ignored i j = [] :=
    Classical.not_not.1 fun h => hno ((cond_valid_objects_ne_nil t hal ignored i j hi hj).1 h)
  unfold cond_pair
  rw [if_pos (fullyAligned_pair_sizes_ok t hal i j hi hj), if_pos (by rw [hnil]; rfl)]

theorem joint_pair_some (k : Nat) (t : MeshCuboidTrainer) (hal : t.FullyAligned)
    (hfs : t.FeaturesSized k) (hts : t.TransformsSized k)
    (ignored : Option (List String)) (i j : Nat)
    (hi : i < t.feature_list_.length) (hj : j < t.feature_list_.length) :
    ∃ v, t.joint_pair k ignored i j = some v := by
  unfold joint_pair
  rw [if_pos (fullyAligned_pair_sizes_ok t hal i j hi hj)]
  split
  · exact ⟨none, rfl⟩
  · have hrows : ∃ rows, joint_rows k (t.joint_valid_objects ignored i j) = some rows := by
      apply joint_rows_some
      intro v hv
      obtain ⟨h1, h2, h3⟩ := select_objects_mem ignored _ _ _ _ v hv
      have hz := List.of_mem_zip (show (v.2.2.1, v.2.2.2) ∈ _ from h3)
      have hti := getD_mem_of_lt t.transformation_list_ i [] (by rw [hal.1]; exact hi)
      have htj := getD_mem_of_lt t.transformation_list_ j [] (by rw [hal.1]; exact hj)
      exact ⟨hts _ htj _ hz.2 _ (hfs _ (getD_mem_of_lt t.feature_list_ i [] hi) _ h1),
        hts _ hti _ hz.1 _ (hfs _ (getD_mem_of_lt t.feature_list_ j [] hj) _ h2)⟩
    obtain ⟨rows, hrows⟩ := hrows
    rw [hrows]
    exact ⟨_, rfl⟩

theorem cond_pair_some (g k : Nat) (hg : g ≤ k) (t : MeshCuboidTrainer) (hal : t.FullyAligned)
    (hfs : t.FeaturesSized k) (hts : t.TransformsSized k)
    (ignored : Option (List String)) (i j : Nat)
    (hi : i < t.feature_list_.length) (hj : j < t.feature_list_.length) :
    ∃ v, t.cond_pair g k ignored i j = some v := by
  unfold cond_pair
  rw [if_pos (fullyAligned_pair_sizes_ok t hal i j hi hj)]
  split
  · exact ⟨none, rfl⟩
  · have hrows : ∃ rows, cond_rows g k (t.cond_valid_objects ignored i j) = some rows := by
      apply cond_rows_some
      intro v hv
      obtain ⟨h1, h2, h3⟩ := select_objects_mem ignored _ _ _ _ v hv
      have hti := getD_mem_of_lt t.transformation_list_ i [] (by rw [hal.1]; exact hi)
      have hlen := hfs _ (getD_mem_of_lt t.feature_list_ i [] hi) _ h1
      refine ⟨?_, hts _ hti _ h3 _ (hfs _ (getD_mem_of_lt t.feature_list_ j [] hj) _ h2)⟩
      rw [MeshCuboidFeatures.get_features, List.length_map, hlen]
      exact hg
    obtain ⟨rows, hrows⟩ := hrows
    rw [hrows]
    exact ⟨_, rfl⟩

theorem joint_null_exactly (k : Nat) (t : MeshCuboidTrainer) (hal : t.FullyAligned)
    (ignored : Option (List String))
    (M : List (List (Option (MeshCuboidJointNormalRelations (k + k)))))
    (hret : t.get_joint_normal_relations k ignored = some M) :
    t.NullExactlyWithoutValidObject ignored M := by
  have hentry := get_joint_normal_relations_entry k t ignored M hret
  unfold get_joint_normal_relations at hret
  rw [if_pos hal.1] at hret
  obtain ⟨h1, h2, h3⟩ := relation_matrix_result _ _ _ hret
  refine ⟨h1, h2, fun i j hi hj => ?_⟩
  by_cases hij : i = j
  · subst hij
    exact ⟨fun _ => Or.inl rfl, fun _ => (h3 i i hi hi).1 rfl⟩
  · obtain ⟨_, hzero, hpos⟩ := hentry i j hi hj hij
    have hiff := joint_valid_objects_ne_nil t hal ignored i j hi hj
    constructor
    · intro hnone
      refine Or.inr fun hvalid => ?_
      have hne := hiff.2 hvalid
      obtain ⟨rows, _, hsome⟩ := hpos (fun h0 => hne (List.length_eq_zero.1 h0))
      rw [hsome] at hnone
      cases hnone
    · intro h
      rcases h with h | h
      · exact absurd h hij
      · apply hzero
        apply List.length_eq_zero.2
        exact Classical.not_not.1 fun hne => h (hiff.1 hne)

theorem cond_null_exactly (g k : Nat) (t : MeshCuboidTrainer) (hal : t.FullyAligned)
    (ignored : Option (List String))
    (M : List (List (Option (MeshCuboidCondNormalRelations g k))))
    (hret : t.get_cond_normal_relations g k ignored = some M) :
    t.NullExactlyWithoutValidObject ignored M := by
  have hentry := get_cond_normal_relations_entry g k t ignored M hret
  unfold get_cond_normal_relations at hret
  rw [if_pos hal.1] at hret
  obtain ⟨h1, h2, h3⟩ := relation_matrix_result _ _ _ hret
  refine ⟨h1, h2, fun i j hi hj => ?_⟩
  by_cases hij : i = j
  · subst hij
    exact ⟨fun _ => Or.inl rfl, fun _ => (h3 i i hi hi).1 rfl⟩
  · obtain ⟨_, hzero, hpos⟩ := hentry i j hi hj hij
    have hiff := cond_valid_objects_ne_nil t hal ignored i j hi hj
    constructor
    · intro hnone
      refine Or.inr fun hvalid => ?_
      have hne := hiff.2 hvalid
      obtain ⟨rows, _, hsome⟩ := hpos (fun h0 => hne (List.length_eq_zero.1 h0))
      rw [hsome] at hnone
      cases hnone
    · intro h
      rcases h with h | h
      · exact absurd h hij
      · apply hzero
        apply List.length_eq_zero.2
        exact Classical.not_not.1 fun hne => h (hiff.1 hne)

theorem get_joint_normal_relations_some (k : Nat) (t : MeshCuboidTrainer)
    (hal : t.FullyAligned) (hfs : t.FeaturesSized k) (hts : t.TransformsSized k)
    (ignored : Option (List String)) :
    ∃ M, t.get_joint_normal_relations k ignored = some M := by
  unfold get_joint_normal_relations
  rw [if_pos hal.1]
  exact relation_matrix_some _ _ fun a b ha hb _ =>
    joint_pair_some k t hal hfs hts ignored a b ha hb

theorem get_cond_normal_relations_some (g k : Nat) (hg : g ≤ k) (t : MeshCuboidTrainer)
    (hal : t.FullyAligned) (hfs : t.FeaturesSized k) (hts : t.TransformsSized k)
    (ignored : Option (List String)) :
    ∃ M, t.get_cond_normal_relations g k ignored = some M := by
  unfold get_cond_normal_relations
  rw [if_pos hal.1]
  exact relation_matrix_some _ _ fun a b ha hb _ =>
    cond_pair_some g k hg t hal hfs hts ignored a b ha hb

end MeshCuboidTrainer

namespace MeshCuboidTrainer

theorem demoCorpusValues_transformsSized : demoCorpusValues.TransformsSized 1 := by
  intro l hl T hT f hf
  have hl1 : l = [identityTransformation, identityTransformation, identityTransformation] := by
    simpa [demoCorpusValues] using hl
  subst hl1
  have hT1 : T = identityTransformation := by simpa using hT
  subst hT1
  simpa [identityTransformation, MeshCuboidFeatures.get_features] using hf

end MeshCuboidTrainer

/-! ## The ignore list as a deletion of objects -/

namespace MeshCuboidTrainer

theorem keep_positions_nil {α : Type} (L : List String) (objs : List String) :
    keep_positions L objs ([] : List α) = [] := by
  cases objs <;> rfl

theorem keep_positions_length {α : Type} (L : List String) :
    ∀ (objs : List String) (l : List α), l.length = objs.length →
      (keep_positions L objs l).length = (objs.filter fun o => decide (o ∉ L)).length := by
  intro objs
  induction objs with
  | nil =>
    intro l _
    cases l <;> rfl
  | cons o objs ih =>
    intro l hl
    cases l with
    | nil => simp at hl
    | cons x xs =>
      simp only [List.length_cons, Nat.add_right_cancel_iff] at hl
      by_cases ho : o ∈ L
      · rw [keep_positions, if_pos ho, List.filter_cons_of_neg (by simpa using ho)]
        exact ih xs hl
      · rw [keep_positions, if_neg ho, List.filter_cons_of_pos (by simpa using ho)]
        simp only [List.length_cons, Nat.add_right_cancel_iff]
        exact ih xs hl

theorem keep_positions_zip {α β : Type} (L : List String) :
    ∀ (objs : List String) (l1 : List α) (l2 : List β),
      keep_positions L objs (List.zip l1 l2) =
        List.zip (keep_positions L objs l1) (keep_positions L objs l2) := by
  intro objs
  induction objs with
  | nil =>
    intro l1 l2
    cases l1 <;> cases l2 <;> rfl
  | cons o objs ih =>
    intro l1 l2
    cases l1 with
    | nil => simp [keep_positions]
    | cons x xs =>
      cases l2 with
      | nil => simp [keep_positions]
      | cons y ys =>
        by_cases ho : o ∈ L
        · simp only [List.zip_cons_cons, keep_positions, if_pos ho]
          exact ih xs ys
        · simp only [List.zip_cons_cons, keep_positions, if_neg ho]
          exact congrArg _ (ih xs ys)

theorem select_objects_none_objects {α : Type} (objs1 objs2 : List String) :
    ∀ (l1 l2 : List MeshCuboidFeatures) (ts : List α),
      select_objects none objs1 l1 l2 ts = select_objects none objs2 l1 l2 ts := by
  intro l1
  induction l1 generalizing objs1 objs2 with
  | nil => intro l2 ts; simp [select_objects]
  | cons a r1 ih =>
    intro l2 ts
    cases l2 with
    | nil => simp [select_objects]
    | cons b r2 =>
      cases ts with
      | nil => simp [select_objects]
      | cons c rt =>
        rw [select_objects, select_objects]
        simp only [is_ignored]
        rw [ih objs1.tail objs2.tail r2 rt]

theorem select_objects_delete {α : Type} (L : List String) (objs0 : List String) :
    ∀ (objs : List String) (l1 l2 : List MeshCuboidFeatures) (ts : List α),
      l1.length = objs.length → l2.length = objs.length → ts.length = objs.length →
      select_objects (some L) objs l1 l2 ts =
        select_objects none objs0 (keep_positions L objs l1) (keep_positions L objs l2)
          (keep_positions L objs ts) := by
  intro objs
  induction objs generalizing objs0 with
  | nil =>
    intro l1 l2 ts h1 h2 h3
    cases l1 with
    | nil => simp [select_objects, keep_positions]
    | cons _ _ => simp at h1
  | cons o objs ih =>
    intro l1 l2 ts h1 h2 h3
    cases l1 with
    | nil => simp at h1
    | cons a r1 =>
    cases l2 with
    | nil => simp at h2
    | cons b r2 =>
    cases ts with
    | nil => simp at h3
    | cons c rt =>
    simp only [List.length_cons, Nat.add_right_cancel_iff] at h1 h2 h3
    by_cases ho : o ∈ L
    · have hig : is_ignored (some L) (some o) = true := by
        simp only [is_ignored, List.any_eq_true, decide_eq_true_eq, Option.some.injEq]
        exact ⟨o, ho, rfl⟩
      rw [select_objects]
      simp only [List.head?_cons, List.tail_cons, hig, Bool.not_true, Bool.and_false,
        Bool.false_eq_true, if_false, keep_positions, if_pos ho]
      exact ih objs0 r1 r2 rt h1 h2 h3
    · have hig : is_ignored (some L) (some o) = false :=
        (is_ignored_eq_false (some L) o).2 fun L1 hL1 => by cases hL1; exact ho
      rw [select_objects]
      simp only [List.head?_cons, List.tail_cons, hig, keep_positions, if_neg ho]
      rw [select_objects]
      simp only [is_ignored]
      rw [ih objs0.tail r1 r2 rt h1 h2 h3]

theorem getD_map_keep_positions {α : Type} (L : List String) (objs : List String)
    (ls : List (List α)) (i : Nat) :
    (ls.map (keep_positions L objs)).getD i [] = keep_positions L objs (ls.getD i []) := by
  simp only [List.getD_eq_getElem?_getD, List.getElem?_map]
  cases ls[i]? with
  | none => simp [keep_positions_nil]
  | some l => rfl

theorem delete_ignored_fullyAligned (L : List String) (t : MeshCuboidTrainer)
    (hal : t.FullyAligned) : (t.delete_ignored L).FullyAligned := by
  obtain ⟨h0, hf, ht⟩ := hal
  refine ⟨by simp [delete_ignored, h0], ?_, ?_⟩
  · intro l hl
    simp only [delete_ignored, List.mem_map] at hl
    obtain ⟨l0, hl0, rfl⟩ := hl
    exact keep_positions_length L _ l0 (hf l0 hl0)
  · intro l hl
    simp only [delete_ignored, List.mem_map] at hl
    obtain ⟨l0, hl0, rfl⟩ := hl
    exact keep_positions_length L _ l0 (ht l0 hl0)

theorem delete_ignored_num_labels (L : List String) (t : MeshCuboidTrainer) :
    (t.delete_ignored L).feature_list_.length = t.feature_list_.length := by
  simp [delete_ignored]

theorem joint_valid_objects_delete (L : List String) (t : MeshCuboidTrainer)
    (hal : t.FullyAligned) (i j : Nat)
    (hi : i < t.feature_list_.length) (hj : j < t.feature_list_.length) :
    t.joint_valid_objects (some L) i j = (t.delete_ignored L).joint_valid_objects none i j := by
  obtain ⟨h0, hf, ht⟩ := hal
  have h1 := hf _ (getD_mem_of_lt t.feature_list_ i [] hi)
  have h2 := hf _ (getD_mem_of_lt t.feature_list_ j [] hj)
  have h3 := ht _ (getD_mem_of_lt t.transformation_list_ i [] (by omega))
  have h4 := ht _ (getD_mem_of_lt t.transformation_list_ j [] (by omega))
  unfold joint_valid_objects
  simp only [delete_ignored, getD_map_keep_positions]
  rw [← keep_positions_zip]
  exact select_objects_delete L _ _ _ _ _ h1 h2
    (by rw [List.length_zip, h3, h4, Nat.min_self])

theorem cond_valid_objects_delete (L : List String) (t : MeshCuboidTrainer)
    (hal : t.FullyAligned) (i j : Nat)
    (hi : i < t.feature_list_.length) (hj : j < t.feature_list_.length) :
    t.cond_valid_objects (some L) i j = (t.delete_ignored L).cond_valid_objects none i j := by
  obtain ⟨h0, hf, ht⟩ := hal
  have h1 := hf _ (getD_mem_of_lt t.feature_list_ i [] hi)
  have h2 := hf _ (getD_mem_of_lt t.feature_list_ j [] hj)
  have h3 := ht _ (getD_mem_of_lt t.transformation_list_ i [] (by omega))
  unfold cond_valid_objects
  simp only [delete_ignored, getD_map_keep_positions]
  exact select_objects_delete L _ _ _ _ _ h1 h2 h3

theorem get_joint_normal_relations_delete (k : Nat) (t : MeshCuboidTrainer)
    (L : List String) (hal : t.FullyAligned) :
    t.get_joint_normal_relations k (some L) =
      (t.delete_ignored L).get_joint_normal_relations k none := by
  have hal1 := delete_ignored_fullyAligned L t hal
  unfold get_joint_normal_relations
  rw [if_pos hal.1, if_pos hal1.1, delete_ignored_num_labels]
  apply relation_matrix_congr
  intro a b ha hb
  unfold joint_pair
  rw [if_pos (fullyAligned_pair_sizes_ok t hal a b ha hb),
    if_pos (fullyAligned_pair_sizes_ok _ hal1 a b
      (by rw [delete_ignored_num_labels]; exact ha) (by rw [delete_ignored_num_labels]; exact hb)),
    joint_valid_objects_delete L t hal a b ha hb]

theorem get_cond_normal_relations_delete (g k : Nat) (t : MeshCuboidTrainer)
    (L : List String) (hal : t.FullyAligned) :
    t.get_cond_normal_relations g k (some L) =
      (t.delete_ignored L).get_cond_normal_relations g k none := by
  have hal1 := delete_ignored_fullyAligned L t hal
  unfold get_cond_normal_relations
  rw [if_pos hal.1, if_pos hal1.1, delete_ignored_num_labels]
  apply relation_matrix_congr
  intro a b ha hb
  unfold cond_pair
  rw [if_pos (fullyAligned_pair_sizes_ok t hal a b ha hb),
    if_pos (fullyAligned_pair_sizes_ok _ hal1 a b
      (by rw [delete_ignored_num_labels]; exact ha) (by rw [delete_ignored_num_labels]; exact hb)),
    cond_valid_objects_delete L t hal a b ha hb]

end MeshCuboidTrainer

/-! ## Occluded sample points -/

namespace MeshCuboidStructure

theorem scale_of_scale_state (fl : ℚ → ℚ) (st : MeshCuboidStructure) (s : ℚ) :
    st.scale fl s =
      if (st.scale_state fl s).2 = true then some (st.scale_state fl s).1 else none := by
  by_cases hs : 0 < s
  · simp [scale, scale_state, hs]
  · simp [scale, scale_state, hs]

theorem mark_face_visible_spec (l : List Nat) :
    ∀ v : List Bool, (∀ m ∈ l, m < v.length) →
      ∃ v1, mark_face_visible l v = some v1 ∧ v1.length = v.length ∧
        ∀ k : Nat, v1.getD k false = true ↔ (v.getD k false = true ∨ k ∈ l) := by
  induction l with
  | nil => intro v _; exact ⟨v, rfl, rfl, by simp⟩
  | cons i rest ih =>
    intro v h
    have hi : i < v.length := h i (List.mem_cons_self _ _)
    obtain ⟨v1, h1, h2, h3⟩ := ih (v.set i true)
      (fun m hm => by rw [List.length_set]; exact h m (List.mem_cons_of_mem _ hm))
    refine ⟨v1, by simp [mark_face_visible, hi, h1], by rw [h2, List.length_set], ?_⟩
    intro k
    rw [h3 k, flag_set_true v k i hi, List.mem_cons]
    constructor
    · rintro ((h | h) | h)
      · exact Or.inl h
      · exact Or.inr (Or.inl h)
      · exact Or.inr (Or.inr h)
    · rintro (h | h | h)
      · exact Or.inl (Or.inl h)
      · exact Or.inl (Or.inr h)
      · exact Or.inr h

theorem erase_occluded_spec (v : List Bool) (P : Nat → Prop) [DecidablePred P]
    (hv : ∀ k : Nat, k < v.length → (v.getD k false = true ↔ P k)) :
    ∀ points : List MeshSamplePoint, (∀ sp ∈ points, sp.corr_fid_ < v.length) →
      erase_occluded v points = some (points.filter fun sp => decide (P sp.corr_fid_)) := by
  intro points
  induction points with
  | nil => intro _; rfl
  | cons sp rest ih =>
    intro h
    have hlt := h sp (List.mem_cons_self _ _)
    have hget : v[sp.corr_fid_]? = some (v.getD sp.corr_fid_ false) := by
      rw [List.getD_eq_getElem _ _ hlt, List.getElem?_eq_getElem hlt]
    rw [erase_occluded, hget]
    simp only
    rw [ih fun sp1 h1 => h sp1 (List.mem_cons_of_mem _ h1)]
    simp only [Option.map_some', Option.some.injEq]
    by_cases hp : P sp.corr_fid_
    · rw [if_pos ((hv _ hlt).2 hp), List.filter_cons_of_pos (by simpa using hp)]
    · rw [if_neg (fun e => hp ((hv _ hlt).1 e)), List.filter_cons_of_neg (by simpa using hp)]

end MeshCuboidStructure

/-! ## Labels of the mesh faces -/

namespace MeshCuboidStructure

theorem exist_label_loop_first (labels : List Nat) (label : Nat) :
    ∀ (count start i : Nat), start ≤ i → i < start + count → labels[i]? = some label →
      ∃ j, exist_label_loop labels label count start = some j := by
  intro count
  induction count with
  | zero => intro start i h1 h2 _; omega
  | succ count ih =>
    intro start i h1 h2 hi
    by_cases hs : labels[start]? = some label
    · exact ⟨start, by simp [exist_label_loop, hs]⟩
    · have hne : start ≠ i := fun e => hs (e ▸ hi)
      obtain ⟨j, hj⟩ := ih (start + 1) i (by omega) (by omega) hi
      exact ⟨j, by simp [exist_label_loop, hs, hj]⟩

theorem exist_label_loop_some (labels : List Nat) (label : Nat) :
    ∀ (count start j : Nat), exist_label_loop labels label count start = some j →
      start ≤ j ∧ j < start + count ∧ labels[j]? = some label ∧
      ∀ k : Nat, start ≤ k → k < j → labels[k]? ≠ some label := by
  intro count
  induction count with
  | zero => intro start j h; simp [exist_label_loop] at h
  | succ count ih =>
    intro start j h
    by_cases hs : labels[start]? = some label
    · simp only [exist_label_loop, hs, if_true, Option.some.injEq] at h
      subst h
      exact ⟨le_refl _, by omega, hs, fun k h1 h2 => by omega⟩
    · simp only [exist_label_loop, hs, if_false] at h
      obtain ⟨h1, h2, h3, h4⟩ := ih (start + 1) j h
      refine ⟨by omega, by omega, h3, fun k hk1 hk2 => ?_⟩
      by_cases hk : k = start
      · rw [hk]; exact hs
      · exact h4 k (by omega) hk2

theorem exist_label_of_mem (st : MeshCuboidStructure) (label : Nat) (h : label ∈ st.labels_) :
    ∃ j, st.exist_label label = some j := by
  obtain ⟨i, hi, hget⟩ := List.getElem_of_mem h
  exact exist_label_loop_first st.labels_ label st.num_labels 0 i (Nat.zero_le _)
    (by simpa [num_labels] using hi) (by rw [List.getElem?_eq_getElem hi, hget])

theorem one_hot_length (n i : Nat) : ((List.replicate n (0 : ℚ)).set i 1).length = n := by
  simp

theorem one_hot_at (n i : Nat) (h : i < n) :
    ((List.replicate n (0 : ℚ)).set i 1).getD i 0 = 1 :=
  getD_set_eq _ _ _ _ (by simpa using h)

theorem one_hot_off (n i k : Nat) (h : k ≠ i) :
    ((List.replicate n (0 : ℚ)).set i 1).getD k 0 = 0 := by
  rw [getD_set_ne _ _ _ _ _ h]
  simp only [List.getD_eq_getElem?_getD, List.getElem?_replicate]
  split <;> rfl

theorem one_hot_mem (n i : Nat) (c : ℚ) (h : c ∈ (List.replicate n (0 : ℚ)).set i 1) :
    c = 0 ∨ c = 1 := by
  rcases List.mem_or_eq_of_mem_set h with h1 | h1
  · exact Or.inl (List.eq_of_mem_replicate h1)
  · exact Or.inr h1

/-- What the body of the labelling loop returns for one sample point. -/
theorem apply_mesh_face_label_some (mesh : MyMesh) (st : MeshCuboidStructure)
    (sp sp1 : MeshSamplePoint) (h : apply_mesh_face_label mesh st sp = some sp1) :
    ∃ label idx : Nat, mesh.face_label_[sp.corr_fid_]? = some label ∧
      st.exist_label label = some idx ∧ idx < st.num_labels ∧
      sp1 = { sp with
        label_index_confidence_ := (List.replicate st.num_labels 0).set idx 1 } := by
  unfold apply_mesh_face_label at h
  split at h
  · split at h
    · cases h
    · rename_i label hlabel
      split at h
      · cases h
      · rename_i idx hidx
        split at h
        · rename_i hlt
          exact ⟨label, idx, hlabel, hidx, hlt, (Option.some.inj h).symm⟩
        · cases h
  · cases h

theorem apply_mesh_face_label_of_mem (mesh : MyMesh) (st : MeshCuboidStructure)
    (sp : MeshSamplePoint) (label : Nat) (hface : mesh.face_label_[sp.corr_fid_]? = some label)
    (hmem : label ∈ st.labels_) : ∃ sp1, apply_mesh_face_label mesh st sp = some sp1 := by
  obtain ⟨j, hj⟩ := exist_label_of_mem st label hmem
  have hlt : j < st.num_labels := by
    have := (exist_label_loop_some _ _ _ _ _ hj).2.1
    omega
  have hfid : sp.corr_fid_ < mesh.n_faces := by
    rcases Nat.lt_or_ge sp.corr_fid_ mesh.face_label_.length with h | h
    · exact h
    · rw [List.getElem?_eq_none h] at hface
      cases hface
  unfold apply_mesh_face_label
  rw [if_pos hfid, hface]
  simp only [hj, if_pos hlt]
  exact ⟨_, rfl⟩

theorem apply_mesh_face_labels_loop_spec (mesh : MyMesh) (st : MeshCuboidStructure) :
    ∀ (points out : List MeshSamplePoint),
      apply_mesh_face_labels_loop mesh st points = some out →
      out.length = points.length ∧
      (∀ (p : Nat) (sp : MeshSamplePoint), points[p]? = some sp →
        ∃ sp1, out[p]? = some sp1 ∧ apply_mesh_face_label mesh st sp = some sp1) ∧
      ∀ sp1 ∈ out, ∃ sp ∈ points, apply_mesh_face_label mesh st sp = some sp1 := by
  intro points
  induction points with
  | nil =>
    intro out h
    simp only [apply_mesh_face_labels_loop, Option.some.injEq] at h
    subst h
    exact ⟨rfl, fun p sp hp => by simp at hp, fun sp1 h1 => by simp at h1⟩
  | cons sp0 rest ih =>
    intro out h
    rw [apply_mesh_face_labels_loop] at h
    split at h
    · cases h
    · rename_i labelled hlabelled
      simp only [Option.map_eq_some'] at h
      obtain ⟨others, hothers, rfl⟩ := h
      obtain ⟨h1, h2, h3⟩ := ih others hothers
      refine ⟨by simp [h1], fun p sp hp => ?_, fun sp1 hsp1 => ?_⟩
      · cases p with
        | zero =>
          simp only [List.getElem?_cons_zero, Option.some.injEq] at hp
          subst hp
          exact ⟨labelled, by simp, hlabelled⟩
        | succ p =>
          simp only [List.getElem?_cons_succ] at hp ⊢
          exact h2 p sp hp
      · rcases List.mem_cons.1 hsp1 with e | hmem
        · subst e
          exact ⟨sp0, List.mem_cons_self _ _, hlabelled⟩
        · obtain ⟨sp, hsp, happ⟩ := h3 sp1 hmem
          exact ⟨sp, List.mem_cons_of_mem _ hsp, happ⟩

theorem apply_mesh_face_labels_loop_some (mesh : MyMesh) (st : MeshCuboidStructure) :
    ∀ points : List MeshSamplePoint,
      (∀ sp ∈ points, ∃ sp1, apply_mesh_face_label mesh st sp = some sp1) →
      ∃ out, apply_mesh_face_labels_loop mesh st points = some out := by
  intro points
  induction points with
  | nil => intro _; exact ⟨[], rfl⟩
  | cons sp0 rest ih =>
    intro h
    obtain ⟨sp1, h1⟩ := h sp0 (List.mem_cons_self _ _)
    obtain ⟨out, hout⟩ := ih fun sp hsp => h sp (List.mem_cons_of_mem _ hsp)
    exact ⟨sp1 :: out, by rw [apply_mesh_face_labels_loop, h1]; simp [hout]⟩

end MeshCuboidStructure

/-! ## Format errors of a labels file -/

theorem read_fixed_tokens_eof (delim : Char) (n : Nat) (cs : List Char) :
    read_fixed_tokens delim n cs true = if n = 0 then some [] else none := by
  cases n <;> simp [read_fixed_tokens]

/-- The fixed-count token loop reads the first `n` tokens of the line, and fails
exactly when the line has fewer than `n` tokens. -/
theorem read_fixed_tokens_eq (delim : Char) :
    ∀ (n fuel : Nat) (cs : List Char), cs.length < fuel →
      read_fixed_tokens delim n cs false =
        if n ≤ (read_all_tokens delim fuel cs).length then
          some ((read_all_tokens delim fuel cs).take n)
        else none := by
  intro n
  induction n with
  | zero => intro fuel cs _; simp [read_fixed_tokens]
  | succ n ih =>
    intro fuel cs hfuel
    cases fuel with
    | zero => omega
    | succ fuel =>
      simp only [read_fixed_tokens, Bool.false_eq_true, if_false, read_all_tokens]
      cases he : (getline delim cs).2.2 with
      | true =>
        rw [read_fixed_tokens_eof]
        cases n with
        | zero => simp
        | succ n => simp
      | false =>
        have hrest := getline_rest_length delim cs he
        rw [ih fuel (getline delim cs).2.1 (by omega)]
        simp only [Bool.false_eq_true, if_false, List.length_cons, Nat.add_le_add_iff_right,
          List.take_succ_cons]
        split <;> rfl

namespace MeshCuboidStructure

theorem read_label_tokens (buffer : String) :
    read_fixed_tokens ' ' 3 buffer.data false =
      if 3 ≤ (line_tokens ' ' buffer).length then some ((line_tokens ' ' buffer).take 3)
      else none :=
  read_fixed_tokens_eq ' ' 3 (buffer.data.length + 1) buffer.data (Nat.lt_succ_self _)

theorem getD_take {α : Type} (l : List α) (n i : Nat) (d : α) (h : i < n) :
    (l.take n).getD i d = l.getD i d := by
  simp [List.getD_eq_getElem?_getD, List.getElem?_take, h]

theorem load_labels_loop_well_formed (buffer : String) (rest : List String) (new_label : Nat)
    (st : MeshCuboidStructure) (h : LabelLineWellFormed buffer) :
    load_labels_loop (buffer :: rest) new_label st =
      load_labels_loop rest (new_label + 1)
        { st with
          labels_ := st.labels_ ++ [new_label]
          label_names_ := st.label_names_ ++ [label_line_name buffer]
          label_symmetries_ := st.label_symmetries_ ++ [[]] } := by
  obtain ⟨h0, h3, h1, h2⟩ := h
  have hname : ((line_tokens ' ' buffer).take 3).getD 0 "" = label_line_name buffer :=
    read_fixed_tokens_head ' ' 2 buffer.data _ (by rw [read_label_tokens, if_pos h3])
  rw [load_labels_loop, if_neg h0, read_label_tokens, if_pos h3]
  simp only
  rw [getD_take _ _ _ _ (by omega), getD_take _ _ _ _ (by omega), h1, h2, hname]
  simp

theorem load_labels_loop_format_error (buffer : String) (rest : List String) (new_label : Nat)
    (st : MeshCuboidStructure) (h : LabelFormatError buffer) :
    load_labels_loop (buffer :: rest) new_label st = (false, st) := by
  obtain ⟨h0, herr⟩ := h
  rw [load_labels_loop, if_neg h0, read_label_tokens]
  by_cases h3 : 3 ≤ (line_tokens ' ' buffer).length
  · rw [if_pos h3]
    simp only
    rw [getD_take _ _ _ _ (by omega), getD_take _ _ _ _ (by omega)]
    rcases herr with h | h | h
    · omega
    · rw [if_pos (Or.inl h)]
    · rw [if_pos (Or.inr h)]
  · rw [if_neg h3]

/-- The reading loop on well-formed lines followed by a line with a format error:
the result is `false`, and the labels of the well-formed lines stay. -/
theorem load_labels_loop_abort (good : List String) (bad : String) (rest : List String)
    (hbad : LabelFormatError bad) :
    ∀ (new_label : Nat) (st : MeshCuboidStructure),
      (∀ buffer ∈ good, LabelLineWellFormed buffer) →
      load_labels_loop (good ++ bad :: rest) new_label st =
        (false, { st with
          labels_ := st.labels_ ++ List.range' new_label good.length
          label_names_ := st.label_names_ ++ good.map label_line_name
          label_symmetries_ := st.label_symmetries_ ++ List.replicate good.length [] }) := by
  induction good with
  | nil =>
    intro n st _
    rw [List.nil_append, load_labels_loop_format_error bad rest n st hbad]
    simp
  | cons buffer good ih =>
    intro n st hgood
    rw [List.cons_append, load_labels_loop_well_formed buffer _ n st
      (hgood buffer (List.mem_cons_self _ _)),
      ih (n + 1) _ fun b hb => hgood b (List.mem_cons_of_mem _ hb)]
    simp [List.range'_succ, List.replicate_succ]

end MeshCuboidStructure

/-! ## Loading sample points -/

theorem getline_eof_iff (delim : Char) (cs : List Char) :
    (getline delim cs).2.2 = true ↔ delim ∉ cs := by
  induction cs with
  | nil => simp [getline]
  | cons c cs ih =>
    by_cases hc : c = delim
    · simp [getline, hc]
    · have hne : ¬ delim = c := fun e => hc e.symm
      simp only [getline, hc, if_false, List.mem_cons, not_or]
      rw [ih]
      exact ⟨fun h => ⟨hne, h⟩, fun h => h.2⟩

namespace MeshCuboidStructure

theorem reset_transformation_identity (fl : ℚ → ℚ) (st : MeshCuboidStructure)
    (ht : st.translation_ = Vec3.splat 0) (hs : st.scale_ = 1) :
    st.reset_transformation fl = some st := by
  unfold reset_transformation
  rw [if_neg (by rw [ht, hs]; simp)]
  simp [ht, hs]

theorem load_sample_points_loop_spec (conv : NumberConversions) :
    ∀ (lines : List String) (sample_points : List MeshSamplePoint),
      (∀ buffer ∈ lines, 0 ≤ conv.atoi (face_id_token buffer)) →
      load_sample_points_loop conv lines sample_points =
        some (sample_points ++
          (lines.filter fun buffer => !only_face_id buffer).map (sample_point_of_line conv)) := by
  intro lines
  induction lines with
  | nil => intro pts _; simp [load_sample_points_loop]
  | cons buffer rest ih =>
    intro pts h
    have h0 := h buffer (List.mem_cons_self _ _)
    have hrest := fun b hb => h b (List.mem_cons_of_mem _ hb)
    rw [load_sample_points_loop, if_pos h0]
    cases he : (getline ' ' buffer.data).2.2 with
    | true =>
      rw [if_pos rfl, ih pts hrest, List.filter_cons_of_neg (by simp [only_face_id, he])]
    | false =>
      rw [if_neg (by simp), ih _ hrest, List.filter_cons_of_pos (by simp [only_face_id, he])]
      simp

theorem load_sample_points_eq (fl : ℚ → ℚ) (conv : NumberConversions) (mesh : MyMesh)
    (st : MeshCuboidStructure) (lines : List String) (hscale : 0 < mesh.scale_)
    (hfid : ∀ buffer ∈ lines, 0 ≤ conv.atoi (face_id_token buffer)) :
    st.load_sample_points fl conv mesh (some lines) =
      some (true, { st with
        sample_points_ :=
          ((lines.filter fun buffer => !only_face_id buffer).map
            (sample_point_of_line conv)).map fun sp =>
              { sp with
                point_ := (((sp.point_.mul mesh.scale_).map fl).add mesh.translation_).map fl }
        scale_ := fl (1 * mesh.scale_)
        translation_ :=
          ((((Vec3.splat 0).mul mesh.scale_).map fl).add mesh.translation_).map fl }) := by
  simp only [load_sample_points, clear_sample_points,
    load_sample_points_loop_spec conv lines [] hfid, List.nil_append, Option.some_bind,
    apply_mesh_transformation]
  rw [reset_transformation_identity fl _ rfl rfl]
  simp only [Option.some_bind, scale, if_pos hscale, Option.map_some', translate, List.map_map]
  simp only [Option.some.injEq, Prod.mk.injEq, true_and, mk.injEq, and_true]
  apply List.map_congr_left
  intro sp _
  rfl

end MeshCuboidStructure

/-! ## Sizes of the per-label collections -/

namespace MeshCuboidStructure

theorem load_labels_loop_cuboids (lines : List String) :
    ∀ (new_label : Nat) (st : MeshCuboidStructure),
      (load_labels_loop lines new_label st).2.label_cuboids_ = st.label_cuboids_ := by
  induction lines with
  | nil => intro n st; rfl
  | cons buffer rest ih =>
    intro n st
    rw [load_labels_loop]
    split
    · rfl
    · split
      · rfl
      · split
        · rfl
        · rw [ih]

theorem load_labels_cuboids (st : MeshCuboidStructure) (lines : List String) :
    (st.load_labels (some lines)).2.label_cuboids_ = [] := by
  simp only [load_labels]
  split
  · show (load_labels_loop lines 0 st.clear_cuboids.clear_labels).2.label_cuboids_ = []
    rw [load_labels_loop_cuboids]
    rfl
  · show (load_labels_loop lines 0 st.clear_cuboids.clear_labels).2.label_cuboids_ = []
    rw [load_labels_loop_cuboids]
    rfl

theorem add_symmetries_of_length (a : Nat) (ms : List Nat) :
    ∀ syms : List (List Nat), (add_symmetries_of a ms syms).length = syms.length := by
  induction ms with
  | nil => intro syms; rfl
  | cons n ms ih =>
    intro syms
    have hstep : add_symmetries_of a (n :: ms) syms =
        add_symmetries_of a ms (if n ≠ a then push_symmetry syms a n else syms) := by
      simp [add_symmetries_of]
    rw [hstep, ih]
    split
    · exact push_symmetry_length _ _ _
    · rfl

theorem add_line_symmetries_length (ls : List Nat) (syms : List (List Nat)) :
    (add_line_symmetries ls syms).length = syms.length := by
  unfold add_line_symmetries
  generalize ls = ms at *
  suffices h : ∀ (labels : List Nat) (s : List (List Nat)),
      (labels.foldl (fun acc a => add_symmetries_of a ms acc) s).length = s.length from
    h ms syms
  intro labels
  induction labels with
  | nil => intro s; rfl
  | cons a labels ih =>
    intro s
    rw [List.foldl_cons, ih, add_symmetries_of_length]

theorem load_label_symmetries_loop_sizes (lines : List String) :
    ∀ st st1 : MeshCuboidStructure, load_label_symmetries_loop lines st = some st1 →
      st1.label_symmetries_.length = st.label_symmetries_.length ∧
      st1.labels_ = st.labels_ ∧ st1.label_names_ = st.label_names_ ∧
      st1.label_cuboids_ = st.label_cuboids_ := by
  induction lines with
  | nil =>
    intro st st1 h
    simp only [load_label_symmetries_loop, Option.some.injEq] at h
    subst h
    exact ⟨rfl, rfl, rfl, rfl⟩
  | cons buffer rest ih =>
    intro st st1 h
    rw [load_label_symmetries_loop] at h
    split at h
    · cases h
      exact ⟨rfl, rfl, rfl, rfl⟩
    · split at h
      · cases h
      · obtain ⟨h1, h2, h3, h4⟩ := ih _ _ h
        exact ⟨by rw [h1]; exact add_line_symmetries_length _ _, h2, h3, h4⟩

theorem load_cuboids_loop_sizes (conv : NumberConversions)
    (cuboidize : MeshCuboid → MeshCuboid) (lines : List String) :
    ∀ (label_index : Nat) (st st1 : MeshCuboidStructure),
      load_cuboids_loop conv cuboidize lines label_index st = some st1 →
      st1.labels_.length + st.label_cuboids_.length =
        st1.label_cuboids_.length + st.labels_.length ∧
      st1.label_names_ = st.label_names_ ∧ st1.label_symmetries_ = st.label_symmetries_ ∧
      st1.sample_points_ = st.sample_points_ := by
  induction lines with
  | nil =>
    intro k st st1 h
    simp only [load_cuboids_loop, Option.some.injEq] at h
    subst h
    exact ⟨Nat.add_comm _ _, rfl, rfl, rfl⟩
  | cons buffer rest ih =>
    intro k st st1 h
    rw [load_cuboids_loop] at h
    split at h
    · exact ih _ _ _ h
    · split at h
      · cases h
      · obtain ⟨h1, h2, h3, h4⟩ := ih _ _ _ h
        simp only [List.length_append, List.length_singleton] at h1
        exact ⟨by omega, h2, h3, h4⟩

theorem add_grid_sample_points_sizes (st st1 : MeshCuboidStructure)
    (h : st.add_grid_sample_points = some st1) :
    st1.labels_ = st.labels_ ∧ st1.label_cuboids_.length = st.label_cuboids_.length ∧
    st1.label_names_ = st.label_names_ ∧ st1.label_symmetries_ = st.label_symmetries_ := by
  unfold add_grid_sample_points at h
  split at h
  · split at h
    · cases h
    · cases h
      exact ⟨rfl, by simp, rfl, rfl⟩
  · cases h
    exact ⟨rfl, rfl, rfl, rfl⟩

theorem load_cuboids_sizes (conv : NumberConversions) (cuboidize : MeshCuboid → MeshCuboid)
    (st st1 : MeshCuboidStructure) (file : Option (List String))
    (h : st.load_cuboids conv cuboidize file = some (true, st1)) :
    st1.label_cuboids_.length = st1.num_labels ∧ st1.label_names_ = [] ∧
    st1.label_symmetries_ = [] := by
  cases file with
  | none => simp [load_cuboids] at h
  | some lines =>
    simp only [load_cuboids, Option.bind_eq_some, Option.map_eq_some', Prod.mk.injEq,
      true_and] at h
    obtain ⟨st2, hloop, st3, hgrid, rfl⟩ := h
    obtain ⟨h1, h2, h3, _⟩ := load_cuboids_loop_sizes conv cuboidize lines 0 _ _ hloop
    obtain ⟨g1, g2, g3, g4⟩ := add_grid_sample_points_sizes st2 st3 hgrid
    simp only [clear, clear_labels, clear_cuboids, clear_sample_points, List.length_nil,
      Nat.add_zero] at h1 h2 h3
    refine ⟨?_, ?_, ?_⟩
    · show st3.label_cuboids_.length = st3.labels_.length
      rw [g2, g1]
      omega
    · show st3.label_names_ = []
      rw [g3, h2]
    · show st3.label_symmetries_ = []
      rw [g4, h3]

theorem distribute_cuboids_length :
    ∀ (cuboids : List MeshCuboid) (lc out : List (List MeshCuboid)),
      distribute_cuboids cuboids lc = some out → out.length = lc.length := by
  intro cuboids
  induction cuboids with
  | nil =>
    intro lc out h
    simp only [distribute_cuboids, Option.some.injEq] at h
    rw [← h]
  | cons c rest ih =>
    intro lc out h
    rw [distribute_cuboids] at h
    split at h
    · rw [ih _ _ h, List.length_set]
    · cases h

end MeshCuboidStructure

/-! ## Positions under the composed transform -/

namespace Vec3

end Vec3

namespace MeshCuboidStructure

end MeshCuboidStructure

/-! ## The grid points of `load_cuboids` -/

namespace MeshCuboidStructure

theorem length_flatMap_of_length {α β : Type} (f : α → List β) (c : Nat)
    (h : ∀ a, (f a).length = c) : ∀ l : List α, (l.flatMap f).length = l.length * c := by
  intro l
  induction l with
  | nil => simp
  | cons a l ih =>
    rw [List.flatMap_cons, List.length_append, ih, h, List.length_cons, Nat.succ_mul]
    omega

theorem grid_sample_points_length (n : Nat) (c : MeshCuboid) :
    (grid_sample_points n c).length = 900 := by
  unfold grid_sample_points
  rw [length_flatMap_of_length _ 30 (fun i => by rw [List.length_map, List.length_range]),
    List.length_range]

theorem grid_sample_points_confidence (n : Nat) (c : MeshCuboid) :
    ∀ sp ∈ grid_sample_points n c,
      sp.label_index_confidence_ = (List.replicate n 0).set 0 1 ∧ sp.corr_fid_ = 0 := by
  intro sp hsp
  simp only [grid_sample_points, List.mem_flatMap, List.mem_map] at hsp
  obtain ⟨i, _, j, _, rfl⟩ := hsp
  exact ⟨rfl, rfl⟩

theorem load_cuboids_loop_labels (conv : NumberConversions)
    (cuboidize : MeshCuboid → MeshCuboid) (lines : List String) :
    ∀ (label_index : Nat) (st st1 : MeshCuboidStructure),
      load_cuboids_loop conv cuboidize lines label_index st = some st1 →
      st1.labels_.length =
        st.labels_.length + (lines.filter fun buffer => decide (buffer ≠ "")).length := by
  induction lines with
  | nil =>
    intro k st st1 h
    simp only [load_cuboids_loop, Option.some.injEq] at h
    subst h
    rfl
  | cons buffer rest ih =>
    intro k st st1 h
    rw [load_cuboids_loop] at h
    split at h
    · rename_i hb
      rw [ih _ _ _ h, List.filter_cons_of_neg (by simpa using hb)]
    · rename_i hb
      split at h
      · cases h
      · rw [ih _ _ _ h, List.filter_cons_of_pos (by simpa using hb)]
        simp only [List.length_append, List.length_singleton, List.length_cons, List.length_nil]
        omega

end MeshCuboidStructure

/-! ## Relations and co-occurrence -/

namespace MeshCuboidTrainer

theorem fullyAligned_aligned (t : MeshCuboidTrainer) (hal : t.FullyAligned) : t.Aligned :=
  ⟨hal.1, fun l hl => (hal.2.1 l hl).symm⟩

/-- Without an ignore list, a pair of labels of an aligned corpus has a valid object
exactly when the lockstep count of `get_label_cooccurrences` is positive. -/
theorem hasValidObject_none_iff (t : MeshCuboidTrainer) (hal : t.FullyAligned) (i j : Nat)
    (hi : i < t.feature_list_.length) :
    t.HasValidObject none i j ↔ 0 < t.num_cooccurring i j := by
  rw [num_cooccurring_pos]
  constructor
  · rintro ⟨p, o, f1, f2, _, h1, h2, h3, h4, _⟩
    exact ⟨p, f1, f2, h1, h2, h3, h4⟩
  · rintro ⟨p, f1, f2, h1, h2, h3, h4⟩
    have hlen := hal.2.1 _ (getD_mem_of_lt t.feature_list_ i [] hi)
    have hp : p < t.object_list_.length := by
      rw [← hlen]
      rcases Nat.lt_or_ge p (t.feature_list_.getD i []).length with h | h
      · exact h
      · rw [List.getElem?_eq_none h] at h1
        cases h1
    exact ⟨p, t.object_list_[p], f1, f2, List.getElem?_eq_getElem hp, h1, h2, h3, h4,
      fun L hL => by cases hL⟩

theorem nonnull_iff_cooccurring {R : Type} (t : MeshCuboidTrainer) (hal : t.FullyAligned)
    (M : List (List (Option R))) (c : List (List Nat))
    (hM : t.NullExactlyWithoutValidObject none M) (hc : t.get_label_cooccurrences = some c)
    (i j : Nat) (hi : i < t.feature_list_.length) (hj : j < t.feature_list_.length) :
    relation_at M i j ≠ none ↔ j ∈ c.getD i [] := by
  obtain ⟨_, hmem⟩ := get_label_cooccurrences_result t c hc
  rw [hmem i j, ← hasValidObject_none_iff t hal i j hi, Ne, (hM.2.2 i j hi hj)]
  constructor
  · intro h
    have h1 : ¬ i = j := fun e => h (Or.inl e)
    have h2 : t.HasValidObject none i j := Classical.not_not.1 fun e => h (Or.inr e)
    exact ⟨hi, hj, fun e => h1 e.symm, h2⟩
  · rintro ⟨_, _, h3, h4⟩ h
    rcases h with h | h
    · exact h3 h.symm
    · exact h h4

end MeshCuboidTrainer

/-! ## The conditional precision -/

theorem lower_blocks_mul (g k : Nat) (L S : Matrix (Fin (g + k)) (Fin (g + k)) ℚ)
    (h : L * S = 1) :
    lower_left_block g k L * upper_left_block g k S +
        lower_right_block g k L * lower_left_block g k S = 0 ∧
    lower_left_block g k L * upper_right_block g k S +
        lower_right_block g k L * lower_right_block g k S = 1 := by
  constructor
  · ext a b
    have hab := congrFun (congrFun h (Fin.natAdd g a)) (Fin.castAdd k b)
    rw [Matrix.mul_apply, Fin.sum_univ_add] at hab
    have hne : Fin.natAdd g a ≠ Fin.castAdd k b := by
      intro e
      have := congrArg Fin.val e
      simp only [Fin.coe_natAdd, Fin.coe_castAdd] at this
      omega
    rw [Matrix.one_apply_ne hne] at hab
    simp only [Matrix.add_apply, Matrix.mul_apply, Matrix.zero_apply, lower_left_block,
      upper_left_block, lower_right_block]
    exact hab
  · ext a b
    have hab := congrFun (congrFun h (Fin.natAdd g a)) (Fin.natAdd g b)
    rw [Matrix.mul_apply, Fin.sum_univ_add] at hab
    simp only [Matrix.add_apply, Matrix.mul_apply, lower_left_block, upper_right_block,
      lower_right_block]
    rw [hab, Matrix.one_apply, Matrix.one_apply]
    by_cases e : a = b
    · rw [if_pos e, if_pos (by rw [e])]
    · have hne : Fin.natAdd g a ≠ Fin.natAdd g b := by
        intro e1
        have := congrArg Fin.val e1
        simp only [Fin.coe_natAdd] at this
        exact e (Fin.ext (by omega))
      rw [if_neg e, if_neg hne]

/-- The lower-right block of the inverse of a block matrix with an invertible
upper-left block is a left inverse of the Schur complement of that block. -/
theorem lower_right_block_mul_conditional_covariance (g k : Nat)
    (L S : Matrix (Fin (g + k)) (Fin (g + k)) ℚ) (h : L * S = 1)
    (hdet : (upper_left_block g k S).det ≠ 0) :
    lower_right_block g k L * conditional_covariance g k S = 1 := by
  obtain ⟨h1, h2⟩ := lower_blocks_mul g k L S h
  have hinv := mul_eigen_inverse (upper_left_block g k S) hdet
  have h21 : lower_left_block g k L =
      -(lower_right_block g k L * lower_left_block g k S *
        eigen_inverse (upper_left_block g k S)) := by
    have e1 : lower_left_block g k L * upper_left_block g k S =
        -(lower_right_block g k L * lower_left_block g k S) := eq_neg_of_add_eq_zero_left h1
    calc lower_left_block g k L
        = lower_left_block g k L * (upper_left_block g k S *
            eigen_inverse (upper_left_block g k S)) := by rw [hinv, Matrix.mul_one]
      _ = lower_left_block g k L * upper_left_block g k S *
            eigen_inverse (upper_left_block g k S) := by rw [Matrix.mul_assoc]
      _ = -(lower_right_block g k L * lower_left_block g k S *
            eigen_inverse (upper_left_block g k S)) := by rw [e1, Matrix.neg_mul]
  unfold conditional_covariance
  rw [Matrix.mul_sub, ← h2]
  conv_rhs => rw [h21]
  rw [Matrix.neg_mul, sub_eq_add_neg, add_comm]
  simp only [Matrix.mul_assoc]

theorem upper_left_block_covariance {m : Nat} (g k : Nat)
    (C : Matrix (Fin m) (Fin (g + k)) ℚ) :
    upper_left_block g k (covariance C) =
      covariance (fun r c => C r (Fin.castAdd k c) : Matrix (Fin m) (Fin g) ℚ) := by
  ext a b
  simp [upper_left_block, covariance, Matrix.mul_apply]

theorem upper_left_block_regularized (g k : Nat) (S : Matrix (Fin (g + k)) (Fin (g + k)) ℚ) :
    upper_left_block g k (S + (1 / 1000 : ℚ) • (1 : Matrix (Fin (g + k)) (Fin (g + k)) ℚ)) =
      upper_left_block g k S + (1 / 1000 : ℚ) • (1 : Matrix (Fin g) (Fin g) ℚ) := by
  ext a b
  simp only [upper_left_block, Matrix.add_apply, Matrix.smul_apply, Matrix.one_apply,
    smul_eq_mul]
  by_cases e : a = b
  · rw [if_pos e, if_pos (by rw [e])]
  · rw [if_neg e, if_neg (fun e1 => e (Fin.castAdd_injective g k e1))]

/-- The stored conditional precision times the conditional covariance of the
regularized empirical covariance is the identity. -/
theorem conditional_precision_covariance {m : Nat} (g k : Nat)
    (C : Matrix (Fin m) (Fin (g + k)) ℚ) :
    lower_right_block g k (regularized_inverse (covariance C)) *
      conditional_covariance g k
        (covariance C + (1 / 1000 : ℚ) • (1 : Matrix (Fin (g + k)) (Fin (g + k)) ℚ)) = 1 := by
  apply lower_right_block_mul_conditional_covariance g k _ _
    (regularized_inverse_covariance C).1
  rw [upper_left_block_regularized, upper_left_block_covariance]
  exact regularized_det_ne_zero _ (covariance_isCovarianceLike _)

/-! ## Termination of the clustering -/

theorem count_true_eq_zero (m : List Bool) (h : ∀ k : Nat, ¬ m.getD k false = true) :
    m.count true = 0 := by
  rw [List.count_eq_zero]
  intro hmem
  obtain ⟨k, hk, hget⟩ := List.getElem_of_mem hmem
  exact h k (by rw [List.getD_eq_getElem _ _ hk, hget])

namespace MeshCuboidTrainer

/-- A run of the neighbour loop that returns: the labels collected and queued stay
pairwise different and unflagged, and every label put on the queue gives up its
flag, so queue length plus set flags is unchanged. -/
theorem enqueue_neighbors_nodup (n : Nat) (nbs : List Nat) :
    ∀ (p q : List Nat) (m : List Bool) (q1 : List Nat) (m1 : List Bool),
      enqueue_neighbors n nbs q m = some (q1, m1) → (p ++ q).Nodup →
      (∀ k ∈ p ++ q, ¬ m.getD k false = true) →
      (p ++ q1).Nodup ∧ (∀ k ∈ p ++ q1, ¬ m1.getD k false = true) ∧
      q1.length + m1.count true = q.length + m.count true ∧ q.length ≤ q1.length ∧
      m1.length = m.length := by
  induction nbs with
  | nil =>
    intro p q m q1 m1 h hnd hfl
    simp only [enqueue_neighbors, Option.some.injEq, Prod.mk.injEq] at h
    obtain ⟨rfl, rfl⟩ := h
    exact ⟨hnd, hfl, rfl, le_refl _, rfl⟩
  | cons x rest ih =>
    intro p q m q1 m1 h hnd hfl
    by_cases hx : x < n
    · by_cases hf : m.getD x false = true
      · rw [enqueue_neighbors, if_pos hx, if_pos hf] at h
        have hxnot : x ∉ p ++ q := fun hmem => hfl x hmem hf
        have hnd1 : (p ++ (q ++ [x])).Nodup := by
          rw [← List.append_assoc]
          exact List.nodup_append.2 ⟨hnd, List.nodup_singleton x, fun k hk hk1 => by
            rw [List.mem_singleton.1 hk1] at hk
            exact hxnot hk⟩
        have hfl1 : ∀ k ∈ p ++ (q ++ [x]), ¬ (m.set x false).getD k false = true := by
          intro k hk hflag
          obtain ⟨g1, g2⟩ := (flag_set_false m k x).1 hflag
          rw [← List.append_assoc] at hk
          rcases List.mem_append.1 hk with hk1 | hk1
          · exact hfl k hk1 g1
          · exact g2 (List.mem_singleton.1 hk1)
        obtain ⟨r1, r2, r3, r4, r5⟩ := ih p (q ++ [x]) (m.set x false) q1 m1 h hnd1 hfl1
        have hcount := count_set_false m x hf
        simp only [List.length_append, List.length_singleton] at r3 r4
        exact ⟨r1, r2, by omega, by omega, by rw [r5, List.length_set]⟩
      · rw [enqueue_neighbors, if_pos hx, if_neg hf] at h
        exact ih p q m q1 m1 h hnd hfl
    · rw [enqueue_neighbors, if_neg hx] at h
      cases h

/-- A run of the queue loop that returns: the group is free of repetitions and of
flagged labels, and every label it gained beyond those collected and queued at the
start gave up its flag. -/
theorem collect_group_nodup (cooc : List (List Nat)) (n : Nat) :
    ∀ (fuel : Nat) (q : List Nat) (m : List Bool) (g g1 : List Nat) (m1 : List Bool),
      collect_group cooc n fuel q m g = some (g1, m1) → (g ++ q).Nodup →
      (∀ k ∈ g ++ q, ¬ m.getD k false = true) →
      g1.Nodup ∧ (∀ k ∈ g1, ¬ m1.getD k false = true) ∧
      g1.length + m1.count true = g.length + q.length + m.count true ∧
      g.length + q.length ≤ g1.length ∧ m1.length = m.length := by
  intro fuel
  induction fuel with
  | zero =>
    intro q m g g1 m1 h hnd hfl
    cases q with
    | nil =>
      rw [collect_group] at h
      simp only [Option.some.injEq, Prod.mk.injEq] at h
      obtain ⟨rfl, rfl⟩ := h
      rw [List.append_nil] at hnd hfl
      exact ⟨hnd, hfl, by simp, by simp, rfl⟩
    | cons curr q =>
      rw [collect_group] at h
      cases h
  | succ fuel ih =>
    intro q m g g1 m1 h hnd hfl
    cases q with
    | nil =>
      rw [collect_group] at h
      simp only [Option.some.injEq, Prod.mk.injEq] at h
      obtain ⟨rfl, rfl⟩ := h
      rw [List.append_nil] at hnd hfl
      exact ⟨hnd, hfl, by simp, by simp, rfl⟩
    | cons curr q =>
      rw [collect_group] at h
      split at h
      · split at h
        · cases h
        · rename_i q1 m2 henq
          have hassoc : (g ++ [curr]) ++ q = g ++ curr :: q := by
            rw [List.append_assoc]
            rfl
          obtain ⟨e1, e2, e3, e4, e5⟩ := enqueue_neighbors_nodup n _ (g ++ [curr]) q m q1 m2
            henq (by rw [hassoc]; exact hnd) (by rw [hassoc]; exact hfl)
          obtain ⟨r1, r2, r3, r4, r5⟩ := ih q1 m2 (g ++ [curr]) g1 m1 h e1 e2
          simp only [List.length_append, List.length_singleton, List.length_cons,
            List.length_nil] at r3 r4 e3 e4 ⊢
          exact ⟨r1, r2, by omega, by omega, by rw [r5, e5]⟩
      · cases h

/-- One pass of the clustering loop, from a flagged seed: it clears at least one
flag, and the group it collects has as many labels as flags were cleared. -/
theorem collect_group_pass (cooc : List (List Nat)) (n fuel : Nat) (m : List Bool)
    (seed : Nat) (g1 : List Nat) (m1 : List Bool) (hseed : m.getD seed false = true)
    (h : collect_group cooc n fuel [seed] (m.set seed false) [] = some (g1, m1)) :
    g1.Nodup ∧ (∀ k ∈ g1, ¬ m1.getD k false = true) ∧ (∀ k ∈ g1, m.getD k false = true) ∧
    g1.length + m1.count true = m.count true ∧ 1 ≤ g1.length ∧
    m1.count true < m.count true ∧ m1.length = m.length ∧
    ∀ k : Nat, m1.getD k false = true → m.getD k false = true := by
  obtain ⟨r1, r2, r3, r4, r5⟩ := collect_group_nodup cooc n fuel [seed] (m.set seed false) []
    g1 m1 h (by simp) (fun k hk hflag => by
      rw [List.nil_append, List.mem_singleton] at hk
      exact ((flag_set_false m k seed).1 hflag).2 hk)
  obtain ⟨c1, _, c3⟩ := collect_group_result cooc n (fun a => m.getD a false = true) fuel
    [seed] (m.set seed false) [] g1 m1 h
  have hmono : ∀ k : Nat, m1.getD k false = true → m.getD k false = true := fun k hk =>
    ((flag_set_false m k seed).1 (c1 k hk)).1
  have hfrom : ∀ k ∈ g1, m.getD k false = true :=
    c3 (fun a b _ _ hb => ((flag_set_false m b seed).1 hb).1)
      (fun a ha => absurd ha (List.not_mem_nil a))
      (fun a ha => by rw [List.mem_singleton.1 ha]; exact hseed)
  have hcount := count_set_false m seed hseed
  simp only [List.length_nil, List.length_singleton] at r3 r4
  exact ⟨r1, r2, hfrom, by omega, by omega, by omega, by rw [r5, List.length_set], hmono⟩

/-- A run of the clustering loop that returns: the groups contain no label twice,
and they gain exactly as many labels as flags were set. -/
theorem cluster_missing_nodup (cooc : List (List Nat)) (n : Nat) :
    ∀ (fuel : Nat) (m : List Bool) (groups out : List (List Nat)),
      cluster_missing cooc n fuel m groups = some out → m.length = n →
      groups.flatten.Nodup → (∀ k ∈ groups.flatten, ¬ m.getD k false = true) →
      (∀ grp ∈ groups, grp ≠ []) →
      out.flatten.Nodup ∧ out.flatten.length = groups.flatten.length + m.count true ∧
      ∀ grp ∈ out, grp ≠ [] := by
  have hdone : ∀ (m : List Bool), m.length = n → find_seed m n 0 = n → m.count true = 0 := by
    intro m hm hseed
    obtain ⟨_, _, _, s4⟩ := find_seed_spec m n 0
    exact count_true_eq_zero m fun k hk =>
      s4 k (Nat.zero_le _) (by rw [hseed, ← hm]; exact flag_lt _ _ hk) hk
  intro fuel
  induction fuel with
  | zero =>
    intro m groups out h hm hnd hfl hne
    rw [cluster_missing] at h
    by_cases hseed : find_seed m n 0 = n
    · simp only [hseed, if_true, Option.some.injEq] at h
      subst h
      exact ⟨hnd, by rw [hdone m hm hseed]; rfl, hne⟩
    · simp only [hseed, if_false] at h
      cases h
  | succ fuel ih =>
    intro m groups out h hm hnd hfl hne
    rw [cluster_missing] at h
    by_cases hseed : find_seed m n 0 = n
    · simp only [hseed, if_true, Option.some.injEq] at h
      subst h
      exact ⟨hnd, by rw [hdone m hm hseed]; rfl, hne⟩
    · simp only [hseed, if_false] at h
      obtain ⟨_, s2, s3, _⟩ := find_seed_spec m n 0
      have hflag : m.getD (find_seed m n 0) false = true := s3 (by omega)
      split at h
      · cases h
      · rename_i g1 m1 hcollect
        obtain ⟨p1, p2, p3, p4, p5, _, p7, p8⟩ :=
          collect_group_pass cooc n n m _ g1 m1 hflag hcollect
        have hflat : (groups ++ [g1]).flatten = groups.flatten ++ g1 := by
          rw [List.flatten_append]
          simp
        obtain ⟨r1, r2, r3⟩ := ih m1 (groups ++ [g1]) out h (by rw [p7, hm])
          (by
            rw [hflat]
            exact List.nodup_append.2 ⟨hnd, p1, fun k hk hk1 => hfl k hk (p3 k hk1)⟩)
          (by
            rw [hflat]
            intro k hk
            rcases List.mem_append.1 hk with hk1 | hk1
            · exact fun hflag1 => hfl k hk1 (p8 k hflag1)
            · exact p2 k hk1)
          (by
            intro grp hgrp
            rcases List.mem_append.1 hgrp with hg | hg
            · exact hne grp hg
            · rw [List.mem_singleton.1 hg]
              intro e
              rw [e] at p5
              simp at p5)
        refine ⟨r1, ?_, r3⟩
        rw [r2, hflat, List.length_append]
        omega

end MeshCuboidTrainer

namespace MeshCuboidTrainer

theorem consider_given_labels_length (cooc : List (List Nat)) (n : Nat) (given : List Nat) :
    ∀ missing out : List Bool, consider_given_labels cooc n given missing = some out →
      out.length = missing.length := by
  induction given with
  | nil =>
    intro missing out h
    simp only [consider_given_labels, Option.some.injEq] at h
    rw [← h]
  | cons curr rest ih =>
    intro missing out h
    rw [consider_given_labels] at h
    split at h
    · split at h
      · cases h
      · rw [ih _ _ h, List.length_set, (ignore_non_cooccurred_spec _ _ _ _).1]
    · cases h

/-- Every result of `get_missing_label_index_groups`: non-empty groups without a
repeated label, of at most `num_labels` labels together. -/
theorem get_missing_label_index_groups_result (t : MeshCuboidTrainer) (G : List Nat)
    (groups : List (List Nat)) (h : t.get_missing_label_index_groups G = some groups) :
    groups.flatten.Nodup ∧ groups.flatten.length ≤ t.feature_list_.length ∧
    ∀ grp ∈ groups, grp ≠ [] := by
  have hc : ∃ c, t.get_label_cooccurrences = some c := by
    unfold get_missing_label_index_groups at h
    split at h
    · split at h
      · cases h
      · rename_i c hc
        exact ⟨c, hc⟩
    · cases h
  obtain ⟨c, hc⟩ := hc
  have hlen := (get_label_cooccurrences_result t c hc).1
  rw [get_missing_label_index_groups_eq t c G hc] at h
  simp only [Option.bind_eq_some] at h
  obtain ⟨missing, hmissing, hcluster⟩ := h
  have hm : missing.length = c.length := by
    rw [consider_given_labels_length c c.length G _ _ hmissing, List.length_replicate]
  obtain ⟨n1, n2, n3⟩ := cluster_missing_nodup c c.length c.length missing [] groups
    hcluster hm (by simp) (fun k hk => by simp at hk) (fun grp hgrp => by cases hgrp)
  refine ⟨n1, ?_, n3⟩
  rw [n2, ← hlen, ← hm]
  simp only [List.flatten_nil, List.length_nil, Nat.zero_add]
  exact List.count_le_length _ _

end MeshCuboidTrainer

/-! ## The relation loaders -/

namespace MeshCuboidTrainer

/-- The vector is cleared before it is resized: the relations held before the call do
not enter the result. -/
theorem load_relations_discards {R : Type} (files : RelationFiles R)
    (filename : Nat → Nat → String) (n : Nat) (before : List (List (Option R)))
    (con : List Char) :
    load_relations files filename n before con = load_relations files filename n [] con := by
  simp only [load_relations, List.take_zero, List.nil_append]

/-- The loop over `label_index_2` for a row of the matrix: a result leaves the other rows
and the sizes alone, and sets the entries of the visited labels other than
`label_index_1` whose file exists. -/
theorem load_relations_of_result {R : Type} (files : RelationFiles R)
    (filename : Nat → Nat → String) (i : Nat) :
    ∀ (count j : Nat) (rel : List (List (Option R))) (con : List Char)
      (out : List (List (Option R))) (con1 : List Char), i < rel.length →
      j + count ≤ (rel.getD i []).length →
      load_relations_of files filename i count j rel con = some (out, con1) →
      out.length = rel.length ∧
      (∀ a : Nat, (out.getD a []).length = (rel.getD a []).length) ∧
      (∀ a b : Nat, a ≠ i → relation_at out a b = relation_at rel a b) ∧
      ∀ b : Nat, relation_at out i b =
        if j ≤ b ∧ b < j + count ∧ b ≠ i ∧ files.file_exists (filename i b) = true then
          some (files.load_csv (filename i b)).1
        else relation_at rel i b := by
  intro count
  induction count with
  | zero =>
    intro j rel con out con1 _ _ h
    simp only [load_relations_of, Option.some.injEq, Prod.mk.injEq] at h
    obtain ⟨h1, _⟩ := h
    subst h1
    refine ⟨rfl, fun _ => rfl, fun _ _ _ => rfl, fun b => ?_⟩
    rw [if_neg]
    rintro ⟨h1, h2, _⟩
    omega
  | succ count ih =>
    intro j rel con out con1 hi hj h
    have hskip : ¬ (j ≠ i ∧ files.file_exists (filename i j) = true) →
        load_relations_of files filename i count (j + 1) rel con = some (out, con1) →
        out.length = rel.length ∧
        (∀ a : Nat, (out.getD a []).length = (rel.getD a []).length) ∧
        (∀ a b : Nat, a ≠ i → relation_at out a b = relation_at rel a b) ∧
        ∀ b : Nat, relation_at out i b =
          if j ≤ b ∧ b < j + (count + 1) ∧ b ≠ i ∧ files.file_exists (filename i b) = true then
            some (files.load_csv (filename i b)).1
          else relation_at rel i b := by
      intro hno h1
      obtain ⟨o1, o2, o3, o4⟩ := ih (j + 1) rel con out con1 hi (by omega) h1
      refine ⟨o1, o2, o3, fun b => ?_⟩
      rw [o4 b]
      by_cases hb : b = j
      · subst hb
        rw [if_neg, if_neg]
        · rintro ⟨_, _, h3, h4⟩
          exact hno ⟨h3, h4⟩
        · rintro ⟨h3, _⟩
          omega
      · apply if_congr _ rfl rfl
        constructor
        · rintro ⟨h1, h2, h3, h4⟩
          exact ⟨by omega, by omega, h3, h4⟩
        · rintro ⟨h1, h2, h3, h4⟩
          exact ⟨by omega, by omega, h3, h4⟩
    rw [load_relations_of] at h
    by_cases hij : i = j
    · rw [if_pos hij] at h
      exact hskip (fun hh => hh.1 hij.symm) h
    · rw [if_neg hij] at h
      cases hex : files.file_exists (filename i j) with
      | false =>
        rw [hex] at h
        simp only [Bool.not_false, if_true] at h
        exact hskip (fun hh => by rw [hex] at hh; exact Bool.false_ne_true hh.2) h
      | true =>
        rw [hex] at h
        simp only [Bool.not_true, Bool.false_eq_true, if_false] at h
        obtain ⟨s1, s2, s3⟩ := set_relation_spec rel i j (files.load_csv (filename i j)).1 hi
          (by omega)
        have hrest : load_relations_of files filename i count (j + 1)
            (set_relation rel i j (files.load_csv (filename i j)).1) con = some (out, con1) ∨
            ∃ con0, load_relations_of files filename i count (j + 1)
              (set_relation rel i j (files.load_csv (filename i j)).1) con0 =
                some (out, con1) := by
          cases hld : (files.load_csv (filename i j)).2 with
          | true =>
            rw [hld] at h
            simp only [if_true] at h
            exact Or.inl h
          | false =>
            rw [hld] at h
            simp only [Bool.false_eq_true, if_false] at h
            cases hw : wait_for_enter con with
            | none => rw [hw] at h; cases h
            | some con0 =>
              rw [hw] at h
              exact Or.inr ⟨con0, h⟩
        have hrest1 : ∃ con0, load_relations_of files filename i count (j + 1)
            (set_relation rel i j (files.load_csv (filename i j)).1) con0 =
              some (out, con1) := by
          rcases hrest with h1 | h1
          · exact ⟨con, h1⟩
          · exact h1
        obtain ⟨con0, h1⟩ := hrest1
        obtain ⟨o1, o2, o3, o4⟩ := ih (j + 1) _ con0 out con1 (by rw [s1]; exact hi)
          (by rw [s2 i]; omega) h1
        refine ⟨o1.trans s1, fun a => (o2 a).trans (s2 a), fun a b ha => ?_, fun b => ?_⟩
        · rw [o3 a b ha, s3 a b, if_neg (fun hh => ha hh.1)]
        · rw [o4 b, s3 i b]
          by_cases hb : b = j
          · subst hb
            rw [if_neg, if_pos ⟨rfl, rfl⟩, if_pos ⟨Nat.le_refl _, by omega, fun e => hij e.symm, hex⟩]
            rintro ⟨h3, _⟩
            omega
          · rw [if_neg (show ¬ (i = i ∧ b = j) from fun hh => hb hh.2)]
            apply if_congr _ rfl rfl
            constructor
            · rintro ⟨h1, h2, h3, h4⟩
              exact ⟨by omega, by omega, h3, h4⟩
            · rintro ⟨h1, h2, h3, h4⟩
              exact ⟨by omega, by omega, h3, h4⟩

/-- A row that was resized from an empty row holds null entries only. -/
theorem resize_row_nil {R : Type} (n : Nat) (row : List (Option R)) (h : row.length = 0) :
    resize_row n row = List.replicate n none := by
  rw [List.length_eq_zero] at h
  subst h
  simp [resize_row]

theorem relation_at_replicate_none {R : Type} (rel : List (List (Option R))) (n a b : Nat)
    (h : rel.getD a [] = List.replicate n none) : relation_at rel a b = none := by
  rw [relation_at, h, List.getD_eq_getElem?_getD, List.getElem?_replicate]
  split <;> rfl

/-- The loop over `label_index_1`: a result has `n` rows, leaves the rows outside the
visited range alone, and every visited row has `n` entries, of which exactly those of
a different label whose file exists are set. -/
theorem load_relations_from_result {R : Type} (files : RelationFiles R)
    (filename : Nat → Nat → String) (n : Nat) :
    ∀ (count i : Nat) (rel : List (List (Option R))) (con : List Char)
      (out : List (List (Option R))) (con1 : List Char), rel.length = n → i + count ≤ n →
      (∀ a : Nat, i ≤ a → (rel.getD a []).length = 0) →
      load_relations_from files filename n count i rel con = some (out, con1) →
      out.length = n ∧
      (∀ a : Nat, a < i ∨ i + count ≤ a →
        (out.getD a []).length = (rel.getD a []).length ∧
        ∀ b : Nat, relation_at out a b = relation_at rel a b) ∧
      ∀ a : Nat, i ≤ a → a < i + count →
        (out.getD a []).length = n ∧
        ∀ b : Nat, relation_at out a b =
          if b < n ∧ b ≠ a ∧ files.file_exists (filename a b) = true then
            some (files.load_csv (filename a b)).1
          else none := by
  intro count
  induction count with
  | zero =>
    intro i rel con out con1 hlen _ _ h
    simp only [load_relations_from, Option.some.injEq, Prod.mk.injEq] at h
    obtain ⟨h1, _⟩ := h
    subst h1
    exact ⟨hlen, fun _ _ => ⟨rfl, fun _ => rfl⟩, fun a h1 h2 => by omega⟩
  | succ count ih =>
    intro i rel con out con1 hlen hic hrows h
    rw [load_relations_from] at h
    have hi : i < rel.length := by omega
    have hrow : resize_row n (rel.getD i []) = List.replicate n none :=
      resize_row_nil n _ (hrows i (Nat.le_refl _))
    rw [hrow] at h
    have hrow0 : (rel.set i (List.replicate n none)).getD i [] = List.replicate n none :=
      MeshCuboidStructure.getD_set_eq _ _ _ _ hi
    cases hin : load_relations_of files filename i n 0 (rel.set i (List.replicate n none))
        con with
    | none => rw [hin] at h; cases h
    | some r =>
      obtain ⟨rel1, con0⟩ := r
      rw [hin] at h
      simp only at h
      obtain ⟨p1, p2, p3, p4⟩ := load_relations_of_result files filename i n 0 _ con rel1 con0
        (by rw [List.length_set]; exact hi)
        (by rw [hrow0, List.length_replicate]; omega) hin
      rw [List.length_set] at p1
      have hother : ∀ a : Nat, a ≠ i →
          (rel1.getD a []).length = (rel.getD a []).length ∧
          ∀ b : Nat, relation_at rel1 a b = relation_at rel a b := by
        intro a ha
        refine ⟨?_, fun b => ?_⟩
        · rw [p2 a, MeshCuboidStructure.getD_set_ne _ _ _ _ _ ha]
        · rw [p3 a b ha, relation_at, relation_at,
            MeshCuboidStructure.getD_set_ne _ _ _ _ _ ha]
      obtain ⟨q1, q2, q3⟩ := ih (i + 1) rel1 con0 out con1 (by omega) (by omega)
        (fun a ha => by rw [(hother a (by omega)).1]; exact hrows a (by omega)) h
      refine ⟨q1, fun a ha => ?_, fun a h1 h2 => ?_⟩
      · obtain ⟨r1, r2⟩ := q2 a (by omega)
        obtain ⟨t1, t2⟩ := hother a (by omega)
        exact ⟨r1.trans t1, fun b => (r2 b).trans (t2 b)⟩
      · by_cases hai : a = i
        · subst hai
          obtain ⟨r1, r2⟩ := q2 a (Or.inl (Nat.lt_succ_self _))
          refine ⟨?_, fun b => ?_⟩
          · rw [r1, p2 a, hrow0, List.length_replicate]
          · rw [r2 b, p4 b, relation_at_replicate_none _ n a b hrow0]
            apply if_congr _ rfl rfl
            constructor
            · rintro ⟨_, h4, h5, h6⟩
              exact ⟨by omega, h5, h6⟩
            · rintro ⟨h4, h5, h6⟩
              exact ⟨Nat.zero_le _, by omega, h5, h6⟩
        · exact q3 a (by omega) (by omega)

/-- What both relation loaders return: an `n × n` matrix whose entry `(i, j)` is set,
to the object `load_csv` leaves, exactly when `i ≠ j` and the file the loader names
for the pair exists. -/
theorem load_relations_result {R : Type} (files : RelationFiles R)
    (filename : Nat → Nat → String) (n : Nat) (before out : List (List (Option R)))
    (con con1 : List Char)
    (h : load_relations files filename n before con = some (out, con1)) :
    out.length = n ∧
    ∀ i : Nat, i < n →
      (out.getD i []).length = n ∧
      ∀ j : Nat, relation_at out i j =
        if j < n ∧ j ≠ i ∧ files.file_exists (filename i j) = true then
          some (files.load_csv (filename i j)).1
        else none := by
  rw [load_relations, List.take_zero, List.nil_append] at h
  obtain ⟨q1, _, q3⟩ := load_relations_from_result files filename n n 0 _ con out con1
    (List.length_replicate _ _) (by omega)
    (fun a _ => by
      rw [List.getD_eq_getElem?_getD, List.getElem?_replicate]
      split <;> rfl) h
  exact ⟨q1, fun i hi => q3 i (Nat.zero_le _) (by omega)⟩

/-- When every relation file that exists parses, the row loop returns and reads nothing
from standard input. -/
theorem load_relations_of_returns {R : Type} (files : RelationFiles R)
    (filename : Nat → Nat → String) (i : Nat)
    (hparse : ∀ j : Nat, files.file_exists (filename i j) = true →
      (files.load_csv (filename i j)).2 = true) :
    ∀ (count j : Nat) (rel : List (List (Option R))) (con : List Char),
      ∃ out, load_relations_of files filename i count j rel con = some (out, con) := by
  intro count
  induction count with
  | zero => intro j rel con; exact ⟨rel, rfl⟩
  | succ count ih =>
    intro j rel con
    rw [load_relations_of]
    by_cases hij : i = j
    · rw [if_pos hij]; exact ih _ _ _
    · rw [if_neg hij]
      cases hex : files.file_exists (filename i j) with
      | false =>
        simp only [Bool.not_false, if_true]
        exact ih _ _ _
      | true =>
        simp only [Bool.not_true, Bool.false_eq_true, if_false, hparse j hex, if_true]
        exact ih _ _ _

/-- When every relation file that exists parses, both relation loaders return and read
nothing from standard input. -/
theorem load_relations_returns {R : Type} (files : RelationFiles R)
    (filename : Nat → Nat → String) (n : Nat) (before : List (List (Option R)))
    (con : List Char)
    (hparse : ∀ i j : Nat, files.file_exists (filename i j) = true →
      (files.load_csv (filename i j)).2 = true) :
    ∃ out, load_relations files filename n before con = some (out, con) := by
  have hfrom : ∀ (count i : Nat) (rel : List (List (Option R))),
      ∃ out, load_relations_from files filename n count i rel con = some (out, con) := by
    intro count
    induction count with
    | zero => intro i rel; exact ⟨rel, rfl⟩
    | succ count ih =>
      intro i rel
      rw [load_relations_from]
      obtain ⟨rel1, h1⟩ := load_relations_of_returns files filename i (hparse i) n 0
        (rel.set i (resize_row n (rel.getD i []))) con
      rw [h1]
      exact ih _ _
  exact hfrom n 0 _

end MeshCuboidTrainer

/-! ## The reset with exact arithmetic -/

namespace MeshCuboidStructure

/-- With exact arithmetic, from an identity-transform state and after any finite
sequence of `scale(s)` calls with `s > 0` and `translate(v)` calls,
`reset_transformation()` returns without tripping either closing assertion, and ends
with `translation_ == 0` and `scale_ == 1`. -/
theorem reset_transformation_exact (st0 : MeshCuboidStructure)
    (cs : List TransformCall) (hs : st0.scale_ = 1) (_ht : st0.translation_ = Vec3.splat 0)
    (hadm : ∀ c ∈ cs, c.Admissible) :
    ∃ st r, st0.calls id cs = some st ∧ st.reset_transformation id = some r ∧
      r.translation_ = Vec3.splat 0 ∧ r.scale_ = 1 := by
  obtain ⟨st, hst, hpos⟩ := calls_scale_pos cs st0 (by rw [hs]; exact one_pos) hadm
  obtain ⟨r, hr, h0, h1, _⟩ := reset_of_scale_pos st hpos
  exact ⟨st, r, hst, hr, h0, h1⟩

/-- With exact arithmetic, from an identity-transform state and after any finite
sequence of `scale(s)` calls with `s > 0` and `translate(v)` calls, the sequence
`reset_transformation()`, `scale` with the composed scale, `translate` with the
composed translation gives back the same state: the same sample point positions and
the same composed scale and translation. -/
theorem reset_then_reapply_exact (st0 : MeshCuboidStructure) (cs : List TransformCall)
    (hs : st0.scale_ = 1) (_ht : st0.translation_ = Vec3.splat 0)
    (hadm : ∀ c ∈ cs, c.Admissible) :
    ∃ st, st0.calls id cs = some st ∧ st.reset_then_reapply id = some st := by
  obtain ⟨st, hst, hpos⟩ := calls_scale_pos cs st0 (by rw [hs]; exact one_pos) hadm
  obtain ⟨r, hr, _, _, r1, hr1, hback⟩ := reset_of_scale_pos st hpos
  refine ⟨st, hst, ?_⟩
  rw [reset_then_reapply, hr, Option.some_bind, hr1, Option.map_some', hback]

end MeshCuboidStructure

/-! ## Claims -/

section Claims

open MeshCuboidStructure

/-- C1 (the code at the failing input): from the identity transform with two sample
points, the calls `scale(7)`, `scale(7)` in binary64 arithmetic give the composed
scale `49`, the translation `0` and the positions `(49, 98, 147)`, `(-49, 0, 245)`.
The sequence `reset_transformation()`, `scale(49)`, `translate(0)` then does not
return: `reset_transformation` calls `scale(1.0 / 49)`, which leaves
`scale_ = 1 - 2⁻⁵³`, and its `assert(scale_ == 1.0)` fails. With exact arithmetic
the same sequence returns the state it started from, after every sequence of calls
with positive factors. -/
theorem reset_then_reapply_aborts_in_double :
    (demoIdentity.calls round_double demoScaleCalls).map
      (fun st => (st.scale_, st.translation_, st.sample_points_.map fun sp => sp.point_)) =
      some (49, Vec3.splat 0, [⟨49, 98, 147⟩, ⟨-49, 0, 245⟩]) ∧
    (∀ c ∈ demoScaleCalls, c.Admissible) ∧
    (demoIdentity.calls round_double demoScaleCalls).bind (reset_then_reapply round_double) =
      none ∧
    (demoIdentity.calls id demoScaleCalls).bind (reset_then_reapply id) =
      demoIdentity.calls id demoScaleCalls ∧
    ∀ (st0 : MeshCuboidStructure) (cs : List TransformCall), st0.scale_ = 1 →
      st0.translation_ = Vec3.splat 0 → (∀ c ∈ cs, c.Admissible) →
      ∃ st, st0.calls id cs = some st ∧ st.reset_then_reapply id = some st := by
  refine ⟨by decide!, by decide, by decide!, by decide!, fun st0 cs hs ht hadm => ?_⟩
  exact reset_then_reapply_exact st0 cs hs ht hadm

/-- C2 (the code at the failing input): from the identity transform, the calls
`scale(7)`, `scale(7)` in binary64 arithmetic give the composed scale `49` and the
translation `0`. `reset_transformation()` then calls `scale(1.0 / 49)`: the quotient
is rounded to `5882252574524729 / 2⁵⁸`, the product `49 · (1.0 / 49)` to
`1 - 2⁻⁵³`, so the call ends with `translation_ == 0` and `scale_ ≠ 1`, and
`assert(scale_ == 1.0)` fails. After the single call `scale(3)` the same arithmetic
gives `3 · (1.0 / 3) = 1` and the call returns the identity transform. With exact
arithmetic the call returns the identity transform after every sequence of calls
with positive factors. -/
theorem reset_transformation_assertion_fails_in_double :
    (demoIdentity.calls round_double demoScaleCalls).map
      (fun st => (st.scale_, st.translation_)) = some (49, Vec3.splat 0) ∧
    round_double (1 / 49) = 5882252574524729 / 288230376151711744 ∧
    round_double (49 * round_double (1 / 49)) = 9007199254740991 / 9007199254740992 ∧
    ((demoIdentity.calls round_double demoScaleCalls).bind fun st =>
      (st.scale round_double (round_double (1 / st.scale_))).map fun st1 =>
        ((st1.translate round_double st1.translation_.neg).scale_,
          (st1.translate round_double st1.translation_.neg).translation_)) =
      some (9007199254740991 / 9007199254740992, Vec3.splat 0) ∧
    (demoIdentity.calls round_double demoScaleCalls).bind (reset_transformation round_double) =
      none ∧
    ((demoIdentity.calls round_double [.scale 3]).bind (reset_transformation round_double)).map
      (fun st => (st.scale_, st.translation_)) = some (1, Vec3.splat 0) ∧
    ∀ (st0 : MeshCuboidStructure) (cs : List TransformCall), st0.scale_ = 1 →
      st0.translation_ = Vec3.splat 0 → (∀ c ∈ cs, c.Admissible) →
      ∃ st r, st0.calls id cs = some st ∧ st.reset_transformation id = some r ∧
        r.translation_ = Vec3.splat 0 ∧ r.scale_ = 1 := by
  refine ⟨by decide!, by decide!, by decide!, by decide!, by decide!, by decide!,
    fun st0 cs hs ht hadm => ?_⟩
  exact reset_transformation_exact st0 cs hs ht hadm

/-- C3 (amended): for every labels file that `load_labels` accepts, with names
`n_0 .. n_{k-1}` in file order: `num_labels() = k`, `get_label(i) = i` for every
`i < k`, and `get_label_index(n_i)` is the smallest `j` with `n_j = n_i`; it is
`i` itself when the names in the file are pairwise distinct. -/
theorem load_labels_indices (st st1 : MeshCuboidStructure) (lines : List String)
    (h : st.load_labels (some lines) = (true, st1)) :
    st1.num_labels = (file_label_names lines).length ∧
    ∀ (i : Nat) (name : String), (file_label_names lines)[i]? = some name →
      st1.get_label i = some i ∧
      ∃ j : Nat, st1.get_label_index name = some j ∧ j ≤ i ∧
        (file_label_names lines)[j]? = some name ∧
        (∀ k, k < j → (file_label_names lines)[k]? ≠ some name) ∧
        ((file_label_names lines).Nodup → j = i) := by
  obtain ⟨hl, hn, _, _⟩ := load_labels_true st st1 lines h
  have hnum : st1.num_labels = (file_label_names lines).length := by
    simp [num_labels, hl]
  refine ⟨hnum, ?_⟩
  intro i name hi
  have hlt : i < (file_label_names lines).length := by
    rcases Nat.lt_or_ge i (file_label_names lines).length with hlt | hge
    · exact hlt
    · rw [List.getElem?_eq_none hge] at hi; cases hi
  refine ⟨?_, ?_⟩
  · simp [get_label, hnum, hlt, hl, List.getElem?_range]
  · obtain ⟨j, hj, _, hj2, hj3, hj4⟩ :=
      get_label_index_loop_first (file_label_names lines) name
        (file_label_names lines).length 0 i (Nat.zero_le _) (by omega) hi
    refine ⟨j, ?_, hj2, hj3, fun k hk => hj4 k (Nat.zero_le _) hk, ?_⟩
    · simp [get_label_index, hn, hnum, hj]
    · intro hnd
      exact List.getElem?_inj (by omega) hnd (hj3.trans hi.symm)

theorem load_labels_indices_witness :
    (MeshCuboidStructure.load_labels {} (some demoLabels) =
      (true, (MeshCuboidStructure.load_labels {} (some demoLabels)).2)) ∧
    (MeshCuboidStructure.load_labels {} (some demoLabels)).2.num_labels =
      (file_label_names demoLabels).length ∧
    ∀ (i : Nat) (name : String), (file_label_names demoLabels)[i]? = some name →
      (MeshCuboidStructure.load_labels {} (some demoLabels)).2.get_label i = some i ∧
      ∃ j : Nat, (MeshCuboidStructure.load_labels {} (some demoLabels)).2.get_label_index name
          = some j ∧ j ≤ i ∧
        (file_label_names demoLabels)[j]? = some name ∧
        (∀ k, k < j → (file_label_names demoLabels)[k]? ≠ some name) ∧
        ((file_label_names demoLabels).Nodup → j = i) :=
  ⟨by decide, load_labels_indices {} _ demoLabels (by decide)⟩

/-- C3 (counterexample): a labels file with the name `leg` on both of its lines
is accepted; its second name `n_1 = leg` has file order 1, yet
`get_label_index("leg")` is 0. -/
theorem load_labels_duplicate_name_index :
    (MeshCuboidStructure.load_labels {} (some demoDuplicateLabels)).1 = true ∧
    (file_label_names demoDuplicateLabels)[1]? = some "leg" ∧
    (MeshCuboidStructure.load_labels {} (some demoDuplicateLabels)).2.get_label_index "leg"
      = some 0 ∧
    (MeshCuboidStructure.load_labels {} (some demoDuplicateLabels)).2.get_label_index "leg"
      ≠ some 1 := by
  decide

/-- C4: for every symmetry file whose lines name only loaded labels (every token
of every line read is a label name), `load_label_symmetries` succeeds, and
afterwards the symmetry list of each label `L`, viewed as a set, is exactly the
set of labels other than `L` that share a line with `L`; in particular no label
is listed as symmetric to itself. A label is on a line when `get_label_index`
of one of the line's tokens is that label. -/
theorem load_label_symmetries_closure (st : MeshCuboidStructure) (lines : List String)
    (hsize : st.label_names_.length = st.num_labels)
    (hnamed : ∀ buffer ∈ lines_read lines, ∀ tok ∈ line_tokens ' ' buffer,
      tok ∈ st.label_names_) :
    ∃ st1, st.load_label_symmetries (some lines) = some (true, st1) ∧
      st1.label_symmetries_.length = st.num_labels ∧
      (∀ L m : Nat, m ∈ st1.label_symmetries_.getD L [] ↔
        (m ≠ L ∧ ∃ buffer ∈ lines_read lines,
          L ∈ st.line_labels buffer ∧ m ∈ st.line_labels buffer)) ∧
      ∀ L : Nat, L ∉ st1.label_symmetries_.getD L [] := by
  obtain ⟨st1, h1, _, _, h4, h5⟩ := load_label_symmetries_loop_spec st hsize lines
    { st with label_symmetries_ := List.replicate st.num_labels [] } rfl rfl
    (by simp) hnamed
  have hempty : ∀ L m : Nat, m ∉ (List.replicate st.num_labels ([] : List Nat)).getD L [] := by
    intro L m
    simp only [List.getD_eq_getElem?_getD, List.getElem?_replicate]
    split <;> simp
  have hiff : ∀ L m : Nat, m ∈ st1.label_symmetries_.getD L [] ↔
      (m ≠ L ∧ ∃ buffer ∈ lines_read lines,
        L ∈ st.line_labels buffer ∧ m ∈ st.line_labels buffer) := by
    intro L m
    rw [h5 L m]
    constructor
    · rintro (h | h)
      · exact absurd h (hempty L m)
      · exact h
    · exact Or.inr
  refine ⟨st1, by simp [load_label_symmetries, h1], h4, hiff, ?_⟩
  intro L hL
  exact ((hiff L L).mp hL).1 rfl

theorem load_label_symmetries_closure_witness :
    demoFourLabels.label_names_.length = demoFourLabels.num_labels ∧
    (∀ buffer ∈ lines_read demoSymmetryFile, ∀ tok ∈ line_tokens ' ' buffer,
      tok ∈ demoFourLabels.label_names_) ∧
    (demoFourLabels.load_label_symmetries (some demoSymmetryFile)).map
      (fun r => r.2.label_symmetries_) = some [[1, 2], [0, 2], [0, 1], []] ∧
    ∃ st1, demoFourLabels.load_label_symmetries (some demoSymmetryFile) = some (true, st1) ∧
      st1.label_symmetries_.length = demoFourLabels.num_labels ∧
      (∀ L m : Nat, m ∈ st1.label_symmetries_.getD L [] ↔
        (m ≠ L ∧ ∃ buffer ∈ lines_read demoSymmetryFile,
          L ∈ demoFourLabels.line_labels buffer ∧ m ∈ demoFourLabels.line_labels buffer)) ∧
      ∀ L : Nat, L ∉ st1.label_symmetries_.getD L [] :=
  ⟨by decide, by decide, by decide,
    load_label_symmetries_closure demoFourLabels demoSymmetryFile (by decide) (by decide)⟩

/-- C5: in every structure (with one symmetry list and one cuboid list per label,
and only label indices in the symmetry lists) in which two labels `A < B` are
symmetric to each other and to no other label, `remove_symmetric_cuboids`
succeeds, leaves the cuboid list of `A` unchanged and makes the cuboid list of
`B` empty. -/
theorem remove_symmetric_cuboids_pair (st : MeshCuboidStructure) (A B : Nat)
    (hsym : st.label_symmetries_.length = st.num_labels)
    (hcub : st.label_cuboids_.length = st.num_labels)
    (hrange : st.SymmetriesInRange)
    (hAB : A < B) (hB : B < st.num_labels) (hpair : st.SymmetricPair A B) :
    ∃ st1, st.remove_symmetric_cuboids = some st1 ∧
      st1.label_cuboids_.length = st.num_labels ∧
      st1.label_cuboids_[A]? = st.label_cuboids_[A]? ∧
      st1.label_cuboids_[B]? = some [] := by
  obtain ⟨hBA, _, _, _, hother⟩ := hpair
  have hfree : ∀ C : Nat, C < A → A ∉ st.label_symmetries_.getD C [] := fun C hC =>
    (hother C (by omega) (by omega) (by omega)).1
  obtain ⟨out, h1, h2, h3, h4⟩ := remove_symmetric_cuboids_loop_pair st.label_symmetries_
    st.num_labels A B hrange hAB hB hBA hfree st.num_labels 0
    (List.replicate st.num_labels false) st.label_cuboids_ (by omega) (by simp) hcub
    (Nat.zero_le _)
    (by simp only [List.getD_eq_getElem?_getD, List.getElem?_replicate]; split <;> rfl)
  exact ⟨{ st with label_cuboids_ := out },
    by simp [remove_symmetric_cuboids, hsym, hcub, h1], h2, h3, h4⟩

theorem remove_symmetric_cuboids_pair_witness :
    demoSymmetricStructure.label_symmetries_.length = demoSymmetricStructure.num_labels ∧
    demoSymmetricStructure.label_cuboids_.length = demoSymmetricStructure.num_labels ∧
    demoSymmetricStructure.SymmetriesInRange ∧ 1 < 3 ∧ 3 < demoSymmetricStructure.num_labels ∧
    demoSymmetricStructure.SymmetricPair 1 3 ∧
    ∃ st1, demoSymmetricStructure.remove_symmetric_cuboids = some st1 ∧
      st1.label_cuboids_.length = demoSymmetricStructure.num_labels ∧
      st1.label_cuboids_[1]? = demoSymmetricStructure.label_cuboids_[1]? ∧
      st1.label_cuboids_[3]? = some [] :=
  ⟨by decide, by decide, by decide, by decide, by decide, by decide,
    remove_symmetric_cuboids_pair demoSymmetricStructure 1 3 (by decide) (by decide)
      (by decide) (by decide) (by decide) (by decide)⟩

/-- C6: in every structure with one cuboid list per label whose cuboids carry
their label's index and have non-negative volumes, `find_the_largest_label_cuboids`
succeeds, and for every label whose candidate list holds `N ≥ 1` cuboids with
pairwise distinct volumes exactly one cuboid remains, it is one of the original
`N`, and its volume is the maximum of the original volumes (every other original
cuboid has a strictly smaller volume); a label with no candidate cuboid still has
none. -/
theorem find_the_largest_label_cuboids_keeps_max (st : MeshCuboidStructure)
    (hlen : st.label_cuboids_.length = st.num_labels)
    (hwf : CuboidsWellFormed st.label_cuboids_) :
    ∃ st1, st.find_the_largest_label_cuboids = some st1 ∧
      st1.label_cuboids_.length = st.num_labels ∧
      ∀ L : Nat, L < st.num_labels →
        (st.label_cuboids_.getD L [] = [] → st1.label_cuboids_.getD L [] = []) ∧
        (st.label_cuboids_.getD L [] ≠ [] → DistinctVolumes (st.label_cuboids_.getD L []) →
          ∃ c, st1.label_cuboids_.getD L [] = [c] ∧ c ∈ st.label_cuboids_.getD L [] ∧
            (∀ d ∈ st.label_cuboids_.getD L [], d.get_bbox_volume ≤ c.get_bbox_volume) ∧
            ∀ d ∈ st.label_cuboids_.getD L [], d ≠ c →
              d.get_bbox_volume < c.get_bbox_volume) := by
  obtain ⟨out, hout⟩ := find_the_largest_label_cuboids_loop_some st.num_labels 0 _ hwf
  obtain ⟨h1, _, h3⟩ := find_the_largest_label_cuboids_loop_result _ _ _ _ hout
  refine ⟨{ st with label_cuboids_ := out },
    by simp [find_the_largest_label_cuboids, hlen, hout], by rw [h1, hlen], ?_⟩
  intro L hL
  obtain ⟨k1, k2⟩ := h3 L (Nat.zero_le _) (by omega) (by omega)
  refine ⟨k1, ?_⟩
  intro hne hdist
  obtain ⟨c, hc1, hc2, hc3⟩ := k2 hne
  refine ⟨c, hc1, hc2, hc3, ?_⟩
  intro d hd hdc
  have hsymm : Symmetric fun c d : MeshCuboid => c.get_bbox_volume ≠ d.get_bbox_volume :=
    fun _ _ h => h.symm
  exact lt_of_le_of_ne (hc3 d hd) (List.Pairwise.forall hsymm hdist hd hc2 hdc)

theorem find_the_largest_label_cuboids_keeps_max_witness :
    demoCandidates.label_cuboids_.length = demoCandidates.num_labels ∧
    CuboidsWellFormed demoCandidates.label_cuboids_ ∧
    demoCandidates.find_the_largest_label_cuboids.map
      (fun st1 => st1.label_cuboids_.map fun l => l.map fun c => c.get_bbox_volume) =
      some [[7], [], [3]] ∧
    ∃ st1, demoCandidates.find_the_largest_label_cuboids = some st1 ∧
      st1.label_cuboids_.length = demoCandidates.num_labels ∧
      ∀ L : Nat, L < demoCandidates.num_labels →
        (demoCandidates.label_cuboids_.getD L [] = [] → st1.label_cuboids_.getD L [] = []) ∧
        (demoCandidates.label_cuboids_.getD L [] ≠ [] →
          DistinctVolumes (demoCandidates.label_cuboids_.getD L []) →
          ∃ c, st1.label_cuboids_.getD L [] = [c] ∧
            c ∈ demoCandidates.label_cuboids_.getD L [] ∧
            (∀ d ∈ demoCandidates.label_cuboids_.getD L [],
              d.get_bbox_volume ≤ c.get_bbox_volume) ∧
            ∀ d ∈ demoCandidates.label_cuboids_.getD L [], d ≠ c →
              d.get_bbox_volume < c.get_bbox_volume) :=
  ⟨by decide, demoCandidates_wellFormed, by decide!,
    find_the_largest_label_cuboids_keeps_max demoCandidates (by decide)
      demoCandidates_wellFormed⟩

open MeshCuboidTrainer

/-- C7: for every trainer state, whenever `get_label_cooccurrences` returns its
lists (which it does on every corpus whose size assertions hold), for all labels
`i ≠ j`, `j` appears in `i`'s list if and only if `i` appears in `j`'s list. -/
theorem get_label_cooccurrences_symmetric (t : MeshCuboidTrainer) :
    (t.Aligned → ∃ c, t.get_label_cooccurrences = some c) ∧
    ∀ c, t.get_label_cooccurrences = some c →
      ∀ i j : Nat, i ≠ j → (j ∈ c.getD i [] ↔ i ∈ c.getD j []) := by
  refine ⟨get_label_cooccurrences_some t, ?_⟩
  intro c h i j hij
  obtain ⟨_, hmem⟩ := get_label_cooccurrences_result t c h
  rw [hmem i j, hmem j i, num_cooccurring_comm t i j]
  constructor
  · rintro ⟨h1, h2, h3, h4⟩
    exact ⟨h2, h1, hij, h4⟩
  · rintro ⟨h1, h2, h3, h4⟩
    exact ⟨h2, h1, fun e => hij e.symm, h4⟩

theorem get_label_cooccurrences_symmetric_witness :
    demoCorpus.Aligned ∧
    demoCorpus.get_label_cooccurrences = some [[1], [0], [3], [2]] ∧
    ∀ i j : Nat, i ≠ j →
      (j ∈ [[1], [0], [3], [2]].getD i [] ↔ i ∈ [[1], [0], [3], [2]].getD j []) :=
  ⟨by decide, by decide,
    (get_label_cooccurrences_symmetric demoCorpus).2 [[1], [0], [3], [2]] (by decide)⟩

/-- C8: for every size `n` (in particular every `n ≥ 1`) and every symmetric
positive-semidefinite `n × n` matrix `S`, the matrix `S + 1e-3·I` is invertible and
`regularized_inverse(S)·(S + 1e-3·I) = I` (and likewise on the other side); every
empirical covariance `(CᵀC)/m` the trainer builds and the all-zero matrix are such
matrices, and for the all-zero matrix the result is `1000·I`. -/
theorem regularized_inverse_is_inverse (n : Nat) :
    (∀ S : Matrix (Fin n) (Fin n) ℚ, IsCovarianceLike S →
      (S + (1 / 1000 : ℚ) • (1 : Matrix (Fin n) (Fin n) ℚ)).det ≠ 0 ∧
      regularized_inverse S * (S + (1 / 1000 : ℚ) • (1 : Matrix (Fin n) (Fin n) ℚ)) = 1 ∧
      (S + (1 / 1000 : ℚ) • (1 : Matrix (Fin n) (Fin n) ℚ)) * regularized_inverse S = 1) ∧
    (∀ (m : Nat) (C : Matrix (Fin m) (Fin n) ℚ), IsCovarianceLike (covariance C)) ∧
    IsCovarianceLike (0 : Matrix (Fin n) (Fin n) ℚ) ∧
    regularized_inverse (0 : Matrix (Fin n) (Fin n) ℚ) =
      (1000 : ℚ) • (1 : Matrix (Fin n) (Fin n) ℚ) := by
  have hmain : ∀ S : Matrix (Fin n) (Fin n) ℚ, IsCovarianceLike S →
      (S + (1 / 1000 : ℚ) • (1 : Matrix (Fin n) (Fin n) ℚ)).det ≠ 0 ∧
      regularized_inverse S * (S + (1 / 1000 : ℚ) • (1 : Matrix (Fin n) (Fin n) ℚ)) = 1 ∧
      (S + (1 / 1000 : ℚ) • (1 : Matrix (Fin n) (Fin n) ℚ)) * regularized_inverse S = 1 :=
    fun S hS => ⟨regularized_det_ne_zero S hS,
      eigen_inverse_mul _ (regularized_det_ne_zero S hS),
      mul_eigen_inverse _ (regularized_det_ne_zero S hS)⟩
  refine ⟨hmain, fun m C => covariance_isCovarianceLike C, zero_isCovarianceLike n, ?_⟩
  have h := (hmain 0 (zero_isCovarianceLike n)).2.1
  rw [zero_add, Matrix.mul_smul, Matrix.mul_one] at h
  calc regularized_inverse (0 : Matrix (Fin n) (Fin n) ℚ)
      = (1000 : ℚ) • ((1 / 1000 : ℚ) • regularized_inverse (0 : Matrix (Fin n) (Fin n) ℚ)) := by
        rw [smul_smul]; norm_num
    _ = (1000 : ℚ) • (1 : Matrix (Fin n) (Fin n) ℚ) := by rw [h]

theorem regularized_inverse_is_inverse_witness :
    IsCovarianceLike (covariance demoCentered) ∧
    covariance demoCentered = !![1, 2; 2, 4] ∧
    regularized_inverse (covariance demoCentered) =
      !![(4001000 : ℚ) / 5001, -(2000000 : ℚ) / 5001;
         -(2000000 : ℚ) / 5001, (1001000 : ℚ) / 5001] ∧
    regularized_inverse (covariance demoCentered) *
      (covariance demoCentered + (1 / 1000 : ℚ) • (1 : Matrix (Fin 2) (Fin 2) ℚ)) = 1 :=
  ⟨((regularized_inverse_is_inverse 2).2.1 2 demoCentered), by decide!, by decide!,
    ((regularized_inverse_is_inverse 2).1 (covariance demoCentered)
      ((regularized_inverse_is_inverse 2).2.1 2 demoCentered)).2.1⟩

/-- C9 (amended): on every 4-label corpus in which label 0 co-occurs only with
label 1, and labels 2 and 3 co-occur with each other but never with 0 or 1 (so
that the co-occurrence lists are `[1]`, `[0]`, `[3]`, `[2]`),
`get_missing_label_index_groups` with given labels `{0}` outputs exactly one
group, and that group is `{1}`. -/
theorem missing_groups_four_label_scenario (t : MeshCuboidTrainer)
    (hc : t.get_label_cooccurrences = some [[1], [0], [3], [2]]) :
    t.get_missing_label_index_groups [0] = some [[1]] := by
  rw [get_missing_label_index_groups_eq t _ [0] hc]
  decide

theorem missing_groups_four_label_scenario_witness :
    demoCorpus.get_label_cooccurrences = some [[1], [0], [3], [2]] ∧
    demoCorpus.get_missing_label_index_groups [0] = some [[1]] :=
  ⟨by decide, missing_groups_four_label_scenario demoCorpus (by decide)⟩

/-- C9 (counterexample): a corpus of four labels with the co-occurrence pattern of
the scenario, on which the output for the given labels `{0}` is `[{1}]` and so is
not `[{2, 3}]`. -/
theorem missing_groups_scenario_not_two_three :
    demoCorpus.feature_list_.length = 4 ∧
    demoCorpus.get_label_cooccurrences = some [[1], [0], [3], [2]] ∧
    demoCorpus.get_missing_label_index_groups [0] = some [[1]] ∧
    demoCorpus.get_missing_label_index_groups [0] ≠ some [[2, 3]] := by
  decide

/-- C10: for every corpus on which `get_label_cooccurrences` returns and every
given-label list `G` with all entries below `num_labels`,
`get_missing_label_index_groups` returns, and the set of labels that appear in
some output group is exactly the set of labels `l` that are not in `G` and lie in
the co-occurrence list of every `g` in `G`; when `G` is empty it is the set of all
labels. -/
theorem missing_groups_cover_candidates (t : MeshCuboidTrainer) (c : List (List Nat))
    (G : List Nat) (hc : t.get_label_cooccurrences = some c)
    (hG : ∀ g ∈ G, g < t.feature_list_.length) :
    ∃ groups, t.get_missing_label_index_groups G = some groups ∧
      (∀ l : Nat, (∃ grp ∈ groups, l ∈ grp) ↔
        (l < t.feature_list_.length ∧ l ∉ G ∧ ∀ g ∈ G, l ∈ c.getD g [])) ∧
      (G = [] → ∀ l : Nat, (∃ grp ∈ groups, l ∈ grp) ↔ l < t.feature_list_.length) := by
  obtain ⟨hlen, hmem⟩ := get_label_cooccurrences_result t c hc
  have hcooc : ∀ L x : Nat, x ∈ c.getD L [] → x < c.length := by
    intro L x hx
    rw [hlen]
    exact ((hmem L x).mp hx).2.1
  obtain ⟨missing, m1, m2, m3⟩ := consider_given_labels_spec c c.length hcooc G
    (List.replicate c.length true) (by simp) (fun g hg => by rw [hlen]; exact hG g hg)
  obtain ⟨groups, g1, g2⟩ := cluster_missing_spec c c.length hcooc c.length missing []
    (by rw [← m2]; exact List.count_le_length _ _) m2
  have hiff : ∀ l : Nat, (∃ grp ∈ groups, l ∈ grp) ↔
      (l < t.feature_list_.length ∧ l ∉ G ∧ ∀ g ∈ G, l ∈ c.getD g []) := by
    intro l
    rw [g2 l, m3 l, flag_replicate_true, hlen]
    constructor
    · rintro (⟨grp, hgrp, _⟩ | ⟨h1, h2⟩)
      · cases hgrp
      · exact ⟨h1, fun hl => (h2 l hl).1 rfl, fun g hg => (h2 g hg).2⟩
    · rintro ⟨h1, h2, h3⟩
      exact Or.inr ⟨h1, fun g hg => ⟨fun e => h2 (e ▸ hg), h3 g hg⟩⟩
  refine ⟨groups, ?_, hiff, ?_⟩
  · rw [get_missing_label_index_groups_eq t c G hc, m1]
    exact g1
  · intro hnil l
    rw [hiff l, hnil]
    simp

theorem missing_groups_cover_candidates_witness :
    demoCorpus.get_label_cooccurrences = some [[1], [0], [3], [2]] ∧
    (∀ g ∈ [2], g < demoCorpus.feature_list_.length) ∧
    demoCorpus.get_missing_label_index_groups [2] = some [[3]] ∧
    ∃ groups, demoCorpus.get_missing_label_index_groups [2] = some groups ∧
      (∀ l : Nat, (∃ grp ∈ groups, l ∈ grp) ↔
        (l < demoCorpus.feature_list_.length ∧ l ∉ [2] ∧
          ∀ g ∈ [2], l ∈ [[1], [0], [3], [2]].getD g [])) ∧
      (([2] : List Nat) = [] →
        ∀ l : Nat, (∃ grp ∈ groups, l ∈ grp) ↔ l < demoCorpus.feature_list_.length) :=
  ⟨by decide, by decide, by decide,
    missing_groups_cover_candidates demoCorpus [[1], [0], [3], [2]] [2] (by decide)
      (by decide)⟩

/-- C12: for every corpus, whenever `get_label_cooccurrences` returns its lists
(which it does on every corpus whose size assertions hold), the output has exactly
one list per label, no label appears in its own list, and for every pair of
labels `i ≠ j`, `j` is in `i`'s list if and only if there is an object position,
present in both labels' feature lists, at which neither label `i`'s nor label
`j`'s feature record contains a NaN. -/
theorem get_label_cooccurrences_iff_shared_object (t : MeshCuboidTrainer) :
    (t.Aligned → ∃ c, t.get_label_cooccurrences = some c) ∧
    ∀ c, t.get_label_cooccurrences = some c →
      c.length = t.feature_list_.length ∧
      (∀ i : Nat, i ∉ c.getD i []) ∧
      ∀ i j : Nat, i < t.feature_list_.length → j < t.feature_list_.length → i ≠ j →
        (j ∈ c.getD i [] ↔
          ∃ (p : Nat) (f1 f2 : MeshCuboidFeatures),
            (t.feature_list_.getD i [])[p]? = some f1 ∧
            (t.feature_list_.getD j [])[p]? = some f2 ∧
            f1.has_nan = false ∧ f2.has_nan = false) := by
  refine ⟨get_label_cooccurrences_some t, ?_⟩
  intro c h
  obtain ⟨hlen, hmem⟩ := get_label_cooccurrences_result t c h
  refine ⟨hlen, fun i hi => ((hmem i i).mp hi).2.2.1 rfl, ?_⟩
  intro i j hi hj hij
  rw [hmem i j, num_cooccurring_pos]
  constructor
  · rintro ⟨_, _, _, h4⟩
    exact h4
  · intro h4
    exact ⟨hi, hj, fun e => hij e.symm, h4⟩

theorem get_label_cooccurrences_iff_shared_object_witness :
    demoCorpus.Aligned ∧
    demoCorpus.get_label_cooccurrences = some [[1], [0], [3], [2]] ∧
    [[1], [0], [3], [2]].length = demoCorpus.feature_list_.length ∧
    (∀ i : Nat, i ∉ [[1], [0], [3], [2]].getD i []) ∧
    ∀ i j : Nat, i < demoCorpus.feature_list_.length → j < demoCorpus.feature_list_.length →
      i ≠ j →
      (j ∈ [[1], [0], [3], [2]].getD i [] ↔
        ∃ (p : Nat) (f1 f2 : MeshCuboidFeatures),
          (demoCorpus.feature_list_.getD i [])[p]? = some f1 ∧
          (demoCorpus.feature_list_.getD j [])[p]? = some f2 ∧
          f1.has_nan = false ∧ f2.has_nan = false) :=
  ⟨by decide, by decide,
    (get_label_cooccurrences_iff_shared_object demoCorpus).2 [[1], [0], [3], [2]] (by decide)⟩

/-- C20 (amended): for every symmetry relation over the labels that is symmetric
and transitive (each label lists every other member of its class), in a structure
with one symmetry list and one cuboid list per label, `remove_symmetric_cuboids`
succeeds and at most one label of each symmetry class still has cuboids, the
lowest-indexed member: every label connected to a lower-indexed label has an empty
cuboid list afterwards, and the lowest-indexed member of a class keeps its list
unchanged. -/
theorem remove_symmetric_cuboids_classes (st : MeshCuboidStructure)
    (hsymlen : st.label_symmetries_.length = st.num_labels)
    (hcub : st.label_cuboids_.length = st.num_labels)
    (hrange : st.SymmetriesInRange) (hsym : st.SymmetriesSymmetric)
    (htrans : st.SymmetriesTransitive) :
    ∃ st1, st.remove_symmetric_cuboids = some st1 ∧
      st1.label_cuboids_.length = st.num_labels ∧
      (∀ A B : Nat, A < st.num_labels → st.SymmetryConnected A B → A < B →
        st1.label_cuboids_[B]? = some []) ∧
      ∀ A : Nat, A < st.num_labels → (∀ B : Nat, st.SymmetryConnected A B → A ≤ B) →
        st1.label_cuboids_[A]? = st.label_cuboids_[A]? := by
  have htrans' : ∀ a : Nat, ∀ b ∈ st.label_symmetries_.getD a [],
      ∀ c ∈ st.label_symmetries_.getD b [], c ≠ a → c ∈ st.label_symmetries_.getD a [] :=
    fun a b hb c hc hca =>
      htrans a (by rw [← hsymlen]; exact mem_getD_lt _ _ _ hb) b hb c hc hca
  obtain ⟨out, h1, h2, _, h4⟩ := remove_symmetric_cuboids_loop_classes st.label_symmetries_
    st.num_labels hrange htrans' st.num_labels 0 (List.replicate st.num_labels false)
    st.label_cuboids_ (by omega) (by simp) hcub
    (fun k => by
      constructor
      · intro h; exact absurd h (flag_replicate_false _ k)
      · rintro ⟨K, hK, _⟩; omega)
  refine ⟨{ st with label_cuboids_ := out },
    by simp [remove_symmetric_cuboids, hsymlen, hcub, h1], h2, ?_, ?_⟩
  · intro A B hA hconn hAB
    have hdirect : B ∈ st.label_symmetries_.getD A [] := by
      rcases symmetryConnected_direct st hsymlen hsym htrans A B hconn with h | h
      · omega
      · exact h
    have hB : B < st.num_labels := hrange _ (mem_getD_mem _ A B hdirect) B hdirect
    exact (h4 B (Nat.zero_le _) hB).1 ⟨A, hAB, hdirect⟩
  · intro A hA hlow
    refine (h4 A (Nat.zero_le _) hA).2 ?_
    intro K hK hmem
    have := hlow K (Relation.ReflTransGen.single (Or.inr hmem))
    omega

theorem remove_symmetric_cuboids_classes_witness :
    demoSymmetryClasses.label_symmetries_.length = demoSymmetryClasses.num_labels ∧
    demoSymmetryClasses.label_cuboids_.length = demoSymmetryClasses.num_labels ∧
    demoSymmetryClasses.SymmetriesInRange ∧ demoSymmetryClasses.SymmetriesSymmetric ∧
    demoSymmetryClasses.SymmetriesTransitive ∧
    demoSymmetryClasses.remove_symmetric_cuboids.map
      (fun st1 => st1.label_cuboids_.map fun l => l.length) = some [1, 1, 0, 0, 0] ∧
    ∃ st1, demoSymmetryClasses.remove_symmetric_cuboids = some st1 ∧
      st1.label_cuboids_.length = demoSymmetryClasses.num_labels ∧
      (∀ A B : Nat, A < demoSymmetryClasses.num_labels →
        demoSymmetryClasses.SymmetryConnected A B → A < B →
        st1.label_cuboids_[B]? = some []) ∧
      ∀ A : Nat, A < demoSymmetryClasses.num_labels →
        (∀ B : Nat, demoSymmetryClasses.SymmetryConnected A B → A ≤ B) →
        st1.label_cuboids_[A]? = demoSymmetryClasses.label_cuboids_[A]? :=
  ⟨by decide, by decide, by decide, by decide, by decide, by decide,
    remove_symmetric_cuboids_classes demoSymmetryClasses (by decide) (by decide) (by decide)
      (by decide) (by decide)⟩

/-- C20 (counterexample): with the symmetry lists of the chain 0 - 1 - 2 - 3 (the
lists `load_label_symmetries` builds from the lines `a b`, `b c`, `c d`), labels 0
and 2 are in one symmetry class, yet after `remove_symmetric_cuboids` both still
have their cuboid, and label 2 is not the lowest-indexed member of the class. -/
theorem remove_symmetric_cuboids_chain_keeps_two :
    (demoFourLabels.load_label_symmetries (some ["a b", "b c", "c d"])).map
      (fun r => r.2.label_symmetries_) = some demoSymmetryChain.label_symmetries_ ∧
    demoSymmetryChain.SymmetryConnected 0 2 ∧
    demoSymmetryChain.remove_symmetric_cuboids.map
      (fun st1 => st1.label_cuboids_.map fun l => l.length) = some [1, 0, 1, 0] :=
  ⟨by decide,
    Relation.ReflTransGen.tail
      (Relation.ReflTransGen.single
        (Or.inl (show 1 ∈ demoSymmetryChain.label_symmetries_.getD 0 [] by decide)))
      (Or.inl (show 2 ∈ demoSymmetryChain.label_symmetries_.getD 1 [] by decide)),
    by decide⟩

/-- C19: for every structure with `num_labels ≥ 1` in which every sample point has
a confidence vector of length `num_labels` (with values in the range of the number
type, at least `-real_max`), `get_sample_point_label_indices` returns one entry
per sample point, in order, and the entry for a point is the smallest label index
whose confidence is the maximum of that point's confidence vector. -/
theorem get_sample_point_label_indices_argmax (real_max : ℚ) (st : MeshCuboidStructure)
    (hn : 1 ≤ st.num_labels) (hsize : st.ConfidencesSized)
    (hrange : st.ConfidencesInRange real_max) :
    ∃ r, st.get_sample_point_label_indices real_max = some r ∧
      r.length = st.num_sample_points ∧
      ∀ (p : Nat) (sp : MeshSamplePoint), st.sample_points_[p]? = some sp →
        ∃ L : Nat, r[p]? = some L ∧ L < st.num_labels ∧
          (∀ k : Nat, k < st.num_labels → sp.label_index_confidence_.getD k 0 ≤
            sp.label_index_confidence_.getD L 0) ∧
          ∀ k : Nat, k < L → sp.label_index_confidence_.getD k 0 <
            sp.label_index_confidence_.getD L 0 :=
  sample_point_label_indices_of_spec real_max st.num_labels hn st.sample_points_ hsize hrange

theorem get_sample_point_label_indices_argmax_witness :
    1 ≤ demoConfidences.num_labels ∧ demoConfidences.ConfidencesSized ∧
    demoConfidences.ConfidencesInRange 1000 ∧
    demoConfidences.get_sample_point_label_indices 1000 = some [1, 0, 2, 0] ∧
    ∃ r, demoConfidences.get_sample_point_label_indices 1000 = some r ∧
      r.length = demoConfidences.num_sample_points ∧
      ∀ (p : Nat) (sp : MeshSamplePoint), demoConfidences.sample_points_[p]? = some sp →
        ∃ L : Nat, r[p]? = some L ∧ L < demoConfidences.num_labels ∧
          (∀ k : Nat, k < demoConfidences.num_labels →
            sp.label_index_confidence_.getD k 0 ≤ sp.label_index_confidence_.getD L 0) ∧
          ∀ k : Nat, k < L → sp.label_index_confidence_.getD k 0 <
            sp.label_index_confidence_.getD L 0 :=
  ⟨by decide, by decide, demoConfidences_inRange, by decide!,
    get_sample_point_label_indices_argmax 1000 demoConfidences (by decide) (by decide)
      demoConfidences_inRange⟩

/-- C18: in every structure whose sample points have one confidence value per
label, the part of `compute_label_cuboids` before the splitting step succeeds and
leaves exactly `num_labels` slots; the cuboid handed to label `i`'s bounding-box
fit carries exactly the sample points whose confidence for label `i` is at least
`param_confidence_tol`, in sample-point order; and label `i` then holds that one
cuboid if the fit succeeds and none if it fails. `compute_label_cuboids` is this
state followed by the splitting step. -/
theorem compute_label_cuboids_fits_confident_points (fit : CuboidFitting)
    (st : MeshCuboidStructure) (hsize : st.ConfidencesSized) :
    ∃ st1, st.fit_label_cuboids fit = some st1 ∧
      st1.label_cuboids_.length = st.num_labels ∧
      (∀ i : Nat, i < st.num_labels →
        st1.label_cuboids_.getD i [] =
          (fit.compute_bbox st.sample_points_
            { label_index_ := i,
              sample_points_ := st.confident_points fit.param_confidence_tol i }).toList) ∧
      (∀ i : Nat,
        (st.confident_points fit.param_confidence_tol i).Pairwise (fun a b => a < b) ∧
        ∀ p : Nat, p ∈ st.confident_points fit.param_confidence_tol i ↔
          ∃ sp : MeshSamplePoint, st.sample_points_[p]? = some sp ∧
            fit.param_confidence_tol ≤ sp.label_index_confidence_.getD i 0) ∧
      st.compute_label_cuboids fit =
        (st1.split_label_cuboids fit).map
          fun st2 => { st2 with query_label_index_ := st2.num_labels } := by
  obtain ⟨out, h1, h2, _, h4⟩ := fit_label_cuboids_loop_spec fit st.sample_points_
    st.num_labels hsize st.num_labels 0 (List.replicate st.num_labels []) (by omega) (by simp)
    (fun L _ => by
      simp only [List.getD_eq_getElem?_getD, List.getElem?_replicate]
      split <;> rfl)
  refine ⟨{ st with label_cuboids_ := out }, by simp [fit_label_cuboids, h1], h2,
    fun i hi => h4 i (Nat.zero_le _) hi, ?_, by simp [compute_label_cuboids, fit_label_cuboids, h1]⟩
  intro i
  obtain ⟨g1, g2⟩ := selected_positions_spec fit.param_confidence_tol i st.sample_points_ 0
  refine ⟨g1, fun p => ?_⟩
  have := g2 p
  simp only [Nat.zero_le, Nat.sub_zero, true_and] at this
  exact this

theorem compute_label_cuboids_fits_confident_points_witness :
    demoSeatLeg.ConfidencesSized ∧
    (demoSeatLeg.fit_label_cuboids demoFitting).map
      (fun st1 => st1.label_cuboids_.map fun l => l.map fun c => c.sample_points_) =
      some [[[0, 2]], [[1, 3]]] ∧
    ∃ st1, demoSeatLeg.fit_label_cuboids demoFitting = some st1 ∧
      st1.label_cuboids_.length = demoSeatLeg.num_labels ∧
      (∀ i : Nat, i < demoSeatLeg.num_labels →
        st1.label_cuboids_.getD i [] =
          (demoFitting.compute_bbox demoSeatLeg.sample_points_
            { label_index_ := i,
              sample_points_ :=
                demoSeatLeg.confident_points demoFitting.param_confidence_tol i }).toList) ∧
      (∀ i : Nat,
        (demoSeatLeg.confident_points demoFitting.param_confidence_tol i).Pairwise
          (fun a b => a < b) ∧
        ∀ p : Nat, p ∈ demoSeatLeg.confident_points demoFitting.param_confidence_tol i ↔
          ∃ sp : MeshSamplePoint, demoSeatLeg.sample_points_[p]? = some sp ∧
            demoFitting.param_confidence_tol ≤ sp.label_index_confidence_.getD i 0) ∧
      demoSeatLeg.compute_label_cuboids demoFitting =
        (st1.split_label_cuboids demoFitting).map
          fun st2 => { st2 with query_label_index_ := st2.num_labels } :=
  ⟨by decide, by decide!,
    compute_label_cuboids_fits_confident_points demoFitting demoSeatLeg (by decide)⟩

/-- C11: for every corpus on which `get_label_cooccurrences` returns and every
given-label list with entries below `num_labels`, the groups output by
`get_missing_label_index_groups` are exactly the connected components of the
co-occurrence graph restricted to the missing-candidate set: the groups are
non-empty, pairwise disjoint and cover the candidate set, any two labels of one
group are joined by a path of co-occurring candidate labels, and no label of one
group co-occurs with a label of another group. -/
theorem missing_groups_are_components (t : MeshCuboidTrainer) (c : List (List Nat))
    (G : List Nat) (hc : t.get_label_cooccurrences = some c)
    (hG : ∀ g ∈ G, g < t.feature_list_.length) :
    ∃ groups, t.get_missing_label_index_groups G = some groups ∧
      (∀ grp ∈ groups, grp ≠ []) ∧
      groups.Pairwise List.Disjoint ∧
      (∀ l : Nat, (∃ grp ∈ groups, l ∈ grp) ↔ MissingCandidate c t.feature_list_.length G l) ∧
      (∀ grp ∈ groups, ∀ a ∈ grp, ∀ b ∈ grp,
        Joined c (MissingCandidate c t.feature_list_.length G) a b) ∧
      ∀ g1 ∈ groups, ∀ g2 ∈ groups, g1 ≠ g2 → ∀ a ∈ g1, ∀ b ∈ g2, b ∉ c.getD a [] := by
  obtain ⟨hlen, hmem⟩ := get_label_cooccurrences_result t c hc
  have hcooc : ∀ L x : Nat, x ∈ c.getD L [] → x < c.length := by
    intro L x hx
    rw [hlen]
    exact ((hmem L x).mp hx).2.1
  have hsymm : ∀ a b : Nat, b ∈ c.getD a [] → a ∈ c.getD b [] := by
    intro a b hb
    obtain ⟨h1, h2, h3, h4⟩ := (hmem a b).mp hb
    exact (hmem b a).mpr ⟨h2, h1, fun e => h3 e.symm, by rw [num_cooccurring_comm]; exact h4⟩
  obtain ⟨missing, m1, m2, m3⟩ := consider_given_labels_spec c c.length hcooc G
    (List.replicate c.length true) (by simp) (fun g hg => by rw [hlen]; exact hG g hg)
  obtain ⟨groups, g1, _⟩ := cluster_missing_spec c c.length hcooc c.length missing []
    (by rw [← m2]; exact List.count_le_length _ _) m2
  have hflag : ∀ k : Nat, missing.getD k false = true ↔
      MissingCandidate c t.feature_list_.length G k := by
    intro k
    rw [m3 k, flag_replicate_true, hlen]
    constructor
    · rintro ⟨h1, h2⟩
      exact ⟨h1, fun hk => (h2 k hk).1 rfl, fun g hg => (h2 g hg).2⟩
    · rintro ⟨h1, h2, h3⟩
      exact ⟨h1, fun g hg => ⟨fun e => h2 (e ▸ hg), h3 g hg⟩⟩
  have hinit : GroupsInvariant c (MissingCandidate c t.feature_list_.length G) missing [] :=
    ⟨fun grp hgrp => absurd hgrp (List.not_mem_nil grp), fun k hk => (hflag k).mp hk,
      fun k hk => Or.inl ((hflag k).mpr hk), fun grp hgrp => absurd hgrp (List.not_mem_nil grp),
      List.Pairwise.nil, fun grp hgrp => absurd hgrp (List.not_mem_nil grp),
      fun grp hgrp => absurd hgrp (List.not_mem_nil grp)⟩
  have hfinal := cluster_missing_components c c.length hcooc hsymm
    (MissingCandidate c t.feature_list_.length G) c.length missing [] groups m2 g1 hinit
  refine ⟨groups, ?_, hfinal.nonempty, hfinal.disjoint, ?_, hfinal.connected, ?_⟩
  · rw [get_missing_label_index_groups_eq t c G hc, m1]
    exact g1
  · intro l
    constructor
    · rintro ⟨grp, hgrp, hl⟩
      exact (hfinal.candidates grp hgrp l hl).1
    · intro hl
      rcases hfinal.covered l hl with h | h
      · exact absurd h (flag_replicate_false _ l)
      · exact h
  · intro grp1 h1 grp2 h2 hne a ha b hb hab
    have hPb : MissingCandidate c t.feature_list_.length G b :=
      (hfinal.candidates grp2 h2 b hb).1
    have hb1 : b ∈ grp1 := hfinal.closed grp1 h1 a ha b hab hPb
    have hsd : Symmetric (List.Disjoint : List Nat → List Nat → Prop) :=
      fun _ _ h => h.symm
    exact List.Pairwise.forall hsd hfinal.disjoint h1 h2 hne hb1 hb

theorem missing_groups_are_components_witness :
    demoCorpusFive.get_label_cooccurrences =
      some [[1, 2, 3, 4], [0, 2, 3], [0, 1, 3], [0, 1, 2], [0]] ∧
    (∀ g ∈ [0], g < demoCorpusFive.feature_list_.length) ∧
    demoCorpusFive.get_missing_label_index_groups [0] = some [[1, 2, 3], [4]] ∧
    ∃ groups, demoCorpusFive.get_missing_label_index_groups [0] = some groups ∧
      (∀ grp ∈ groups, grp ≠ []) ∧
      groups.Pairwise List.Disjoint ∧
      (∀ l : Nat, (∃ grp ∈ groups, l ∈ grp) ↔
        MissingCandidate [[1, 2, 3, 4], [0, 2, 3], [0, 1, 3], [0, 1, 2], [0]]
          demoCorpusFive.feature_list_.length [0] l) ∧
      (∀ grp ∈ groups, ∀ a ∈ grp, ∀ b ∈ grp,
        Joined [[1, 2, 3, 4], [0, 2, 3], [0, 1, 3], [0, 1, 2], [0]]
          (MissingCandidate [[1, 2, 3, 4], [0, 2, 3], [0, 1, 3], [0, 1, 2], [0]]
            demoCorpusFive.feature_list_.length [0]) a b) ∧
      ∀ g1 ∈ groups, ∀ g2 ∈ groups, g1 ≠ g2 → ∀ a ∈ g1, ∀ b ∈ g2,
        b ∉ [[1, 2, 3, 4], [0, 2, 3], [0, 1, 3], [0, 1, 2], [0]].getD a [] :=
  ⟨by decide, by decide, by decide,
    missing_groups_are_components demoCorpusFive
      [[1, 2, 3, 4], [0, 2, 3], [0, 1, 3], [0, 1, 2], [0]] [0] (by decide) (by decide)⟩

/-- C15 (the code at the failing input): on the corpus `demoCorpusValues` (one value
per feature; the two valid objects have `X1 = X2 = 1` and `X1 = X2 = -1`) the relation
stored for the pair `(0, 1)` has the slope `mean_A = -1000000000/1001002001` and gives
`mean_A·x1 + mean_b = -1000000000/1001002001` at `x1 = 1`, while the textbook
conditional mean `mean2 + Σ21·Σ11⁻¹·(x1 − mean1)` of the fitted joint Gaussian with
`Σ = cov + 1e-3·I` is `1000/1001` there. The slope of the conditional mean in terms
of the blocks of the precision matrix `L = Σ⁻¹`, which the code uses, is
`-L22⁻¹·L21 = 1000/1001`: the stored slope `regularized_inverse(L22)·L21` lacks the
minus sign (and, with the minus sign, would be `1000000000/1001002001`, the inner
inverse being regularized once more). -/
theorem cond_mean_differs_from_textbook :
    demoCorpusValues.cond_pair_rows 1 none 0 1 = [([1], [1]), ([-1], [-1])] ∧
    demoCorpusValues.cond_prediction 1 1 none 0 1 (fun _ => 1) 0 =
      some (-1000000000 / 1001002001) ∧
    textbook_conditional_mean 1 1
        (colwise_mean (concat_columns 1 1 (demoCorpusValues.cond_pair_rows 1 none 0 1)))
        (outer_product_covariance (concat_columns 1 1 (demoCorpusValues.cond_pair_rows 1 none 0 1))
            (colwise_mean (concat_columns 1 1 (demoCorpusValues.cond_pair_rows 1 none 0 1))) +
          (1 / 1000 : ℚ) • (1 : Matrix (Fin (1 + 1)) (Fin (1 + 1)) ℚ))
        (fun _ => 1) 0 = 1000 / 1001 ∧
    (-1000000000 / 1001002001 : ℚ) ≠ 1000 / 1001 ∧
    (1000000000 / 1001002001 : ℚ) ≠ 1000 / 1001 ∧
    (fit_cond_normal 1 1 (demoCorpusValues.cond_pair_rows 1 none 0 1)).mean_A_ 0 0 =
      -1000000000 / 1001002001 ∧
    (-(eigen_inverse (lower_right_block 1 1 (regularized_inverse (covariance (rowwise_sub
          (concat_columns 1 1 (demoCorpusValues.cond_pair_rows 1 none 0 1))
          (colwise_mean (concat_columns 1 1 (demoCorpusValues.cond_pair_rows 1 none 0 1))))))) *
        lower_left_block 1 1 (regularized_inverse (covariance (rowwise_sub
          (concat_columns 1 1 (demoCorpusValues.cond_pair_rows 1 none 0 1))
          (colwise_mean (concat_columns 1 1 (demoCorpusValues.cond_pair_rows 1 none 0 1)))))))) 0 0 =
      1000 / 1001 ∧
    (-(regularized_inverse (lower_right_block 1 1 (regularized_inverse (covariance (rowwise_sub
          (concat_columns 1 1 (demoCorpusValues.cond_pair_rows 1 none 0 1))
          (colwise_mean (concat_columns 1 1 (demoCorpusValues.cond_pair_rows 1 none 0 1))))))) *
        lower_left_block 1 1 (regularized_inverse (covariance (rowwise_sub
          (concat_columns 1 1 (demoCorpusValues.cond_pair_rows 1 none 0 1))
          (colwise_mean (concat_columns 1 1 (demoCorpusValues.cond_pair_rows 1 none 0 1)))))))) 0 0 =
      1000000000 / 1001002001 := by
  refine ⟨by decide!, by decide!, by decide!, by decide!, by decide!, by decide!, by decide!,
    by decide!⟩

/-- C16: for every corpus whose per-label feature and transformation lists are aligned
to the object list and every ignore list, `get_joint_normal_relations` and
`get_cond_normal_relations` each return (feature records and transformed features
having `k_num_features` values, and `k_num_global_feature_values ≤ k_num_features`),
and every matrix returned has `num_labels` rows of `num_labels` entries whose entry
`(i, j)` is null if and only if `i = j` or no object has both labels' feature
records NaN-free and a name outside the ignore list; the body of the pair loop does
not fail on a pair without such an object. -/
theorem relations_null_iff_no_valid_object (g k : Nat) (t : MeshCuboidTrainer)
    (ignored : Option (List String)) (hal : t.FullyAligned) :
    ((t.FeaturesSized k → t.TransformsSized k →
        ∃ M, t.get_joint_normal_relations k ignored = some M) ∧
      (∀ M, t.get_joint_normal_relations k ignored = some M →
        t.NullExactlyWithoutValidObject ignored M) ∧
      (∀ i j : Nat, i < t.feature_list_.length → j < t.feature_list_.length →
        ¬ t.HasValidObject ignored i j → t.joint_pair k ignored i j = some none)) ∧
    ((g ≤ k → t.FeaturesSized k → t.TransformsSized k →
        ∃ M, t.get_cond_normal_relations g k ignored = some M) ∧
      (∀ M, t.get_cond_normal_relations g k ignored = some M →
        t.NullExactlyWithoutValidObject ignored M) ∧
      (∀ i j : Nat, i < t.feature_list_.length → j < t.feature_list_.length →
        ¬ t.HasValidObject ignored i j → t.cond_pair g k ignored i j = some none)) :=
  ⟨⟨fun hfs hts => get_joint_normal_relations_some k t hal hfs hts ignored,
      fun M hM => joint_null_exactly k t hal ignored M hM,
      fun i j hi hj hno => joint_pair_of_no_valid_object k t hal ignored i j hi hj hno⟩,
    ⟨fun hg hfs hts => get_cond_normal_relations_some g k hg t hal hfs hts ignored,
      fun M hM => cond_null_exactly g k t hal ignored M hM,
      fun i j hi hj hno => cond_pair_of_no_valid_object g k t hal ignored i j hi hj hno⟩⟩

theorem relations_null_iff_no_valid_object_witness :
    demoCorpusValues.FullyAligned ∧ demoCorpusValues.FeaturesSized 1 ∧
    demoCorpusValues.TransformsSized 1 ∧
    ((demoCorpusValues.FeaturesSized 1 → demoCorpusValues.TransformsSized 1 →
        ∃ M, demoCorpusValues.get_joint_normal_relations 1 (some ["chair1"]) = some M) ∧
      (∀ M, demoCorpusValues.get_joint_normal_relations 1 (some ["chair1"]) = some M →
        demoCorpusValues.NullExactlyWithoutValidObject (some ["chair1"]) M) ∧
      (∀ i j : Nat, i < demoCorpusValues.feature_list_.length →
        j < demoCorpusValues.feature_list_.length →
        ¬ demoCorpusValues.HasValidObject (some ["chair1"]) i j →
        demoCorpusValues.joint_pair 1 (some ["chair1"]) i j = some none)) ∧
    (((1 : Nat) ≤ 1 → demoCorpusValues.FeaturesSized 1 → demoCorpusValues.TransformsSized 1 →
        ∃ M, demoCorpusValues.get_cond_normal_relations 1 1 (some ["chair1"]) = some M) ∧
      (∀ M, demoCorpusValues.get_cond_normal_relations 1 1 (some ["chair1"]) = some M →
        demoCorpusValues.NullExactlyWithoutValidObject (some ["chair1"]) M) ∧
      (∀ i j : Nat, i < demoCorpusValues.feature_list_.length →
        j < demoCorpusValues.feature_list_.length →
        ¬ demoCorpusValues.HasValidObject (some ["chair1"]) i j →
        demoCorpusValues.cond_pair 1 1 (some ["chair1"]) i j = some none)) :=
  ⟨by decide, by decide, demoCorpusValues_transformsSized,
    relations_null_iff_no_valid_object 1 1 demoCorpusValues (some ["chair1"]) (by decide)⟩

/-- C17: for every aligned corpus and every ignore list `L`, the relations returned by
`get_joint_normal_relations` with `L` equal those returned without an ignore list
on the corpus obtained by deleting, from the object list and from every per-label
feature and transformation list, the positions whose object name is in `L`; the
same holds of `get_cond_normal_relations`; and both calls with `L` return when the
feature records and transformed features have `k_num_features` values. -/
theorem ignore_list_equals_deletion (g k : Nat) (t : MeshCuboidTrainer) (L : List String)
    (hal : t.FullyAligned) :
    t.get_joint_normal_relations k (some L) =
      (t.delete_ignored L).get_joint_normal_relations k none ∧
    t.get_cond_normal_relations g k (some L) =
      (t.delete_ignored L).get_cond_normal_relations g k none ∧
    (g ≤ k → t.FeaturesSized k → t.TransformsSized k →
      (t.get_joint_normal_relations k (some L)).isSome = true ∧
      (t.get_cond_normal_relations g k (some L)).isSome = true) := by
  refine ⟨get_joint_normal_relations_delete k t L hal,
    get_cond_normal_relations_delete g k t L hal, fun hg hfs hts => ?_⟩
  obtain ⟨M1, h1⟩ := get_joint_normal_relations_some k t hal hfs hts (some L)
  obtain ⟨M2, h2⟩ := get_cond_normal_relations_some g k hg t hal hfs hts (some L)
  rw [h1, h2]
  exact ⟨rfl, rfl⟩

theorem ignore_list_equals_deletion_witness :
    demoCorpusValues.FullyAligned ∧
    (demoCorpusValues.delete_ignored ["chair1"]).object_list_ = ["chair2", "chair3"] ∧
    (demoCorpusValues.delete_ignored ["chair1"]).feature_list_ =
      [[single (-1), single 5], [single (-1), { features_ := [none] }]] ∧
    demoCorpusValues.FeaturesSized 1 ∧ demoCorpusValues.TransformsSized 1 ∧
    (demoCorpusValues.get_joint_normal_relations 1 (some ["chair1"]) =
      (demoCorpusValues.delete_ignored ["chair1"]).get_joint_normal_relations 1 none ∧
    demoCorpusValues.get_cond_normal_relations 1 1 (some ["chair1"]) =
      (demoCorpusValues.delete_ignored ["chair1"]).get_cond_normal_relations 1 1 none ∧
    ((1 : Nat) ≤ 1 → demoCorpusValues.FeaturesSized 1 → demoCorpusValues.TransformsSized 1 →
      (demoCorpusValues.get_joint_normal_relations 1 (some ["chair1"])).isSome = true ∧
      (demoCorpusValues.get_cond_normal_relations 1 1 (some ["chair1"])).isSome = true)) :=
  ⟨by decide, by decide, by decide, by decide, demoCorpusValues_transformsSized,
    ignore_list_equals_deletion 1 1 demoCorpusValues ["chair1"] (by decide)⟩

/-- C28: `scale(s)` fails for every `s ≤ 0`, its assertion being violated with the
structure exactly as it was before the call (no sample point and neither the
composed scale nor the composed translation modified), and succeeds for every
`s > 0`, returning with every point and the composed translation multiplied by `s`
and the composed scale multiplied by `s`; this for every rounding `fl` of the
arithmetic, the products being exact when `fl = id`. -/
theorem scale_fails_iff_not_positive (fl : ℚ → ℚ) (st : MeshCuboidStructure) (s : ℚ) :
    (s ≤ 0 → st.scale fl s = none ∧ st.scale_state fl s = (st, false)) ∧
    (0 < s → (st.scale_state fl s).2 = true ∧
      st.scale fl s = some (st.scale_state fl s).1 ∧
      (st.scale_state fl s).1 = { st with
        sample_points_ :=
          st.sample_points_.map fun sp => { sp with point_ := (sp.point_.mul s).map fl }
        scale_ := fl (st.scale_ * s)
        translation_ := (st.translation_.mul s).map fl } ∧
      (st.scale_state id s).1 = { st with
        sample_points_ := st.sample_points_.map fun sp => { sp with point_ := sp.point_.mul s }
        scale_ := st.scale_ * s
        translation_ := st.translation_.mul s }) := by
  constructor
  · intro hs
    have hn : ¬ 0 < s := not_lt.mpr hs
    exact ⟨by rw [scale, if_neg hn], by rw [scale_state, if_neg hn]⟩
  · intro hs
    refine ⟨by rw [scale_state, if_pos hs], ?_, by rw [scale_state, if_pos hs],
      by rw [scale_state, if_pos hs]; rfl⟩
    rw [scale_of_scale_state, scale_state, if_pos hs]
    rfl

theorem scale_fails_iff_not_positive_witness :
    (demoIdentity.scale round_double 0 = none ∧
      demoIdentity.scale_state round_double 0 = (demoIdentity, false)) ∧
    (demoIdentity.scale id (-3) = none ∧
      demoIdentity.scale_state id (-3) = (demoIdentity, false)) ∧
    ((demoIdentity.scale_state id 2).2 = true ∧
      demoIdentity.scale id 2 = some (demoIdentity.scale_state id 2).1 ∧
      (demoIdentity.scale_state id 2).1 = { demoIdentity with
        sample_points_ :=
          demoIdentity.sample_points_.map fun sp =>
            { sp with point_ := (sp.point_.mul 2).map id }
        scale_ := id (demoIdentity.scale_ * 2)
        translation_ := (demoIdentity.translation_.mul 2).map id } ∧
      (demoIdentity.scale_state id 2).1 = { demoIdentity with
        sample_points_ :=
          demoIdentity.sample_points_.map fun sp => { sp with point_ := sp.point_.mul 2 }
        scale_ := demoIdentity.scale_ * 2
        translation_ := demoIdentity.translation_.mul 2 }) :=
  ⟨(scale_fails_iff_not_positive round_double demoIdentity 0).1 (le_refl 0),
    (scale_fails_iff_not_positive id demoIdentity (-3)).1 (by decide!),
    (scale_fails_iff_not_positive id demoIdentity 2).2 (by decide!)⟩

/-- C21: for every mesh, every collection of visible face indices that are all below
the face count of the mesh and every structure whose sample points have source
face indices below the face count, `remove_occluded_sample_points` returns and
leaves exactly the sample points whose source face index is in the collection, in
their original order and each unchanged; nothing else in the structure changes. -/
theorem remove_occluded_sample_points_keeps_visible (mesh : MyMesh) (st : MeshCuboidStructure)
    (visible_face_indices : List Nat)
    (hvisible : ∀ fid ∈ visible_face_indices, fid < mesh.n_faces)
    (hpoints : ∀ sp ∈ st.sample_points_, sp.corr_fid_ < mesh.n_faces) :
    st.remove_occluded_sample_points mesh visible_face_indices =
      some { st with
        sample_points_ :=
          st.sample_points_.filter fun sp => decide (sp.corr_fid_ ∈ visible_face_indices) } := by
  obtain ⟨v1, h1, h2, h3⟩ := mark_face_visible_spec visible_face_indices
    (List.replicate mesh.n_faces false) (by simpa using hvisible)
  have hv : ∀ k : Nat, k < v1.length →
      (v1.getD k false = true ↔ k ∈ visible_face_indices) := by
    intro k _
    rw [h3 k]
    constructor
    · rintro (h | h)
      · exact absurd h (flag_replicate_false _ _)
      · exact h
    · exact Or.inr
  have hlen : v1.length = mesh.n_faces := by rw [h2, List.length_replicate]
  rw [remove_occluded_sample_points, h1, Option.some_bind,
    erase_occluded_spec v1 (fun k => k ∈ visible_face_indices) hv st.sample_points_
      (by rw [hlen]; exact hpoints)]
  rfl

theorem remove_occluded_sample_points_keeps_visible_witness :
    (∀ fid ∈ [1, 4], fid < demoMesh.n_faces) ∧
    (∀ sp ∈ demoFacePoints.sample_points_, sp.corr_fid_ < demoMesh.n_faces) ∧
    (demoFacePoints.sample_points_.filter fun sp => decide (sp.corr_fid_ ∈ [1, 4])).map
      (fun sp => sp.corr_fid_) = [4, 1, 1] ∧
    demoFacePoints.remove_occluded_sample_points demoMesh [1, 4] =
      some { demoFacePoints with
        sample_points_ :=
          demoFacePoints.sample_points_.filter fun sp => decide (sp.corr_fid_ ∈ [1, 4]) } :=
  ⟨by decide, by decide, by decide,
    remove_occluded_sample_points_keeps_visible demoMesh demoFacePoints [1, 4]
      (by decide) (by decide)⟩

/-- C22: `apply_mesh_face_labels_to_sample_points` returns when the source face of
every sample point carries a mesh label that is a label of the structure, and
after every call that returns, each sample point is unchanged but for its
confidence vector, which has length `num_labels` with 1 at the index of the label
of its source face (the first index holding that label) and 0 everywhere else; so
`get_sample_point_label_indices` returns that index for the point. The largest
finite number `real_max` is not negative. -/
theorem apply_mesh_face_labels_one_hot (mesh : MyMesh) (st : MeshCuboidStructure)
    (real_max : ℚ) (hreal : 0 ≤ real_max) :
    ((∀ sp ∈ st.sample_points_, ∃ label : Nat,
        mesh.face_label_[sp.corr_fid_]? = some label ∧ label ∈ st.labels_) →
      ∃ st1, st.apply_mesh_face_labels_to_sample_points mesh = some st1) ∧
    ∀ st1, st.apply_mesh_face_labels_to_sample_points mesh = some st1 →
      st1.num_labels = st.num_labels ∧
      st1.sample_points_.length = st.sample_points_.length ∧
      ∃ r, st1.get_sample_point_label_indices real_max = some r ∧
        ∀ (p : Nat) (sp : MeshSamplePoint), st.sample_points_[p]? = some sp →
          ∃ (label idx : Nat) (sp1 : MeshSamplePoint),
            mesh.face_label_[sp.corr_fid_]? = some label ∧
            st.labels_[idx]? = some label ∧ (∀ k : Nat, k < idx → st.labels_[k]? ≠ some label) ∧
            st1.sample_points_[p]? = some sp1 ∧
            sp1 = { sp with label_index_confidence_ := sp1.label_index_confidence_ } ∧
            sp1.label_index_confidence_.length = st.num_labels ∧
            sp1.label_index_confidence_.getD idx 0 = 1 ∧
            (∀ k : Nat, k ≠ idx → sp1.label_index_confidence_.getD k 0 = 0) ∧
            r[p]? = some idx := by
  constructor
  · intro hvalid
    obtain ⟨out, hout⟩ := apply_mesh_face_labels_loop_some mesh st st.sample_points_
      fun sp hsp => by
        obtain ⟨label, hface, hmem⟩ := hvalid sp hsp
        exact apply_mesh_face_label_of_mem mesh st sp label hface hmem
    exact ⟨_, by rw [apply_mesh_face_labels_to_sample_points, hout]; rfl⟩
  · intro st1 h
    simp only [apply_mesh_face_labels_to_sample_points, Option.map_eq_some'] at h
    obtain ⟨out, hloop, rfl⟩ := h
    obtain ⟨h1, h2, h3⟩ := apply_mesh_face_labels_loop_spec mesh st _ out hloop
    refine ⟨rfl, h1, ?_⟩
    have hsized : ∀ sp1 ∈ out, sp1.label_index_confidence_.length = st.num_labels := by
      intro sp1 hsp1
      obtain ⟨sp, _, happ⟩ := h3 sp1 hsp1
      obtain ⟨_, idx, _, _, _, rfl⟩ := apply_mesh_face_label_some mesh st sp sp1 happ
      exact one_hot_length _ _
    have hrange : ∀ sp1 ∈ out, ∀ c ∈ sp1.label_index_confidence_, -real_max ≤ c := by
      intro sp1 hsp1 c hc
      obtain ⟨sp, _, happ⟩ := h3 sp1 hsp1
      obtain ⟨_, idx, _, _, _, rfl⟩ := apply_mesh_face_label_some mesh st sp sp1 happ
      rcases one_hot_mem _ _ c hc with e | e <;> rw [e] <;> linarith
    have hpoint : ∀ (p : Nat) (sp : MeshSamplePoint), st.sample_points_[p]? = some sp →
        ∃ (label idx : Nat) (sp1 : MeshSamplePoint),
          mesh.face_label_[sp.corr_fid_]? = some label ∧
          st.labels_[idx]? = some label ∧ (∀ k : Nat, k < idx → st.labels_[k]? ≠ some label) ∧
          out[p]? = some sp1 ∧
          sp1 = { sp with label_index_confidence_ := sp1.label_index_confidence_ } ∧
          sp1.label_index_confidence_.length = st.num_labels ∧
          sp1.label_index_confidence_.getD idx 0 = 1 ∧
          (∀ k : Nat, k ≠ idx → sp1.label_index_confidence_.getD k 0 = 0) ∧
          idx < st.num_labels := by
      intro p sp hp
      obtain ⟨sp1, hout, happ⟩ := h2 p sp hp
      obtain ⟨label, idx, hface, hexist, hlt, rfl⟩ := apply_mesh_face_label_some mesh st sp sp1 happ
      obtain ⟨_, _, hat, hfirst⟩ := exist_label_loop_some _ _ _ _ _ hexist
      exact ⟨label, idx, _, hface, hat, fun k hk => hfirst k (Nat.zero_le _) hk, hout, rfl,
        one_hot_length _ _, one_hot_at _ _ hlt, fun k hk => one_hot_off _ _ _ hk, hlt⟩
    by_cases hn : 1 ≤ st.num_labels
    · obtain ⟨r, hr, _, hspec⟩ :=
        sample_point_label_indices_of_spec real_max st.num_labels hn out hsized hrange
      refine ⟨r, hr, fun p sp hp => ?_⟩
      obtain ⟨label, idx, sp1, g1, g2, g3, g4, g5, g6, g7, g8, g9⟩ := hpoint p sp hp
      obtain ⟨L, hrL, _, hmax, _⟩ := hspec p sp1 g4
      have hL : L = idx := by
        by_contra hne
        have h0 := g8 L hne
        have hle := hmax idx g9
        rw [g7, h0] at hle
        exact absurd hle (by decide!)
      exact ⟨label, idx, sp1, g1, g2, g3, g4, g5, g6, g7, g8, by rw [hrL, hL]⟩
    · have hnil : st.sample_points_ = [] := by
        cases hpts : st.sample_points_ with
        | nil => rfl
        | cons sp0 rest =>
          obtain ⟨_, _, _, _, _, _, _, _, _, _, _, g9⟩ := hpoint 0 sp0 (by rw [hpts]; simp)
          omega
      have hout : out = [] := List.length_eq_zero.1 (by rw [h1, hnil]; rfl)
      refine ⟨[], by rw [get_sample_point_label_indices, hout]; rfl, fun p sp hp => ?_⟩
      rw [hnil] at hp
      simp at hp

theorem apply_mesh_face_labels_one_hot_witness :
    (∀ sp ∈ demoFacePoints.sample_points_, ∃ label : Nat,
      demoMesh.face_label_[sp.corr_fid_]? = some label ∧ label ∈ demoFacePoints.labels_) ∧
    (demoFacePoints.apply_mesh_face_labels_to_sample_points demoMesh).map
      (fun st => st.sample_points_.map fun sp => sp.label_index_confidence_) =
      some [[0, 0, 1], [1, 0, 0], [0, 1, 0], [1, 0, 0], [1, 0, 0]] ∧
    ((demoFacePoints.apply_mesh_face_labels_to_sample_points demoMesh).bind
      fun st => st.get_sample_point_label_indices 1000) = some [2, 0, 1, 0, 0] ∧
    ∃ st1, demoFacePoints.apply_mesh_face_labels_to_sample_points demoMesh = some st1 :=
  ⟨by decide, by decide!, by decide!,
    (apply_mesh_face_labels_one_hot demoMesh demoFacePoints 1000 (by decide!)).1 (by decide)⟩

/-- C23, counterexample: on two sample points that are fully confident for both of
two labels, `compute_label_cuboids` (tolerance 1/2, a fit that keeps the points it
is given) leaves one cuboid per label and both cuboids hold the sample points 0
and 1; and whatever the tolerance is, a point whose two confidences equal the
tolerance is selected for label 0 and for label 1. -/
theorem compute_label_cuboids_point_in_two_labels :
    (demoOverlap.compute_label_cuboids demoFitting).map
      (fun st => st.label_cuboids_.map fun l => l.map fun c => (c.label_index_, c.sample_points_)) =
      some [[(0, [0, 1])], [(1, [0, 1])]] ∧
    ∀ tol : ℚ,
      label_sample_points tol 0 [demoTwoLabelPoint tol] 0 = some [0] ∧
      label_sample_points tol 1 [demoTwoLabelPoint tol] 0 = some [0] := by
  refine ⟨by decide!, fun tol => ?_⟩
  simp [label_sample_points, demoTwoLabelPoint]

/-- C23, amended: in every structure whose sample points have one confidence value
per label, the fitting step of `compute_label_cuboids` returns, label `i`'s cuboid
is fitted to the points whose confidence for label `i` is at least the tolerance,
and when every sample point has at most one label with confidence at least the
tolerance, no sample point is selected into the point sets of two different
labels. -/
theorem selected_points_of_two_labels_disjoint (fit : CuboidFitting)
    (st : MeshCuboidStructure) (hsize : st.ConfidencesSized)
    (hone : st.SingleConfidentLabel fit.param_confidence_tol) :
    ∃ st1, st.fit_label_cuboids fit = some st1 ∧
      (∀ i : Nat, i < st.num_labels →
        st1.label_cuboids_.getD i [] =
          (fit.compute_bbox st.sample_points_
            { label_index_ := i,
              sample_points_ := st.confident_points fit.param_confidence_tol i }).toList) ∧
      ∀ i j p : Nat, i < st.num_labels → j < st.num_labels → i ≠ j →
        p ∈ st.confident_points fit.param_confidence_tol i →
        p ∉ st.confident_points fit.param_confidence_tol j := by
  obtain ⟨out, h1, _, _, h4⟩ := fit_label_cuboids_loop_spec fit st.sample_points_
    st.num_labels hsize st.num_labels 0 (List.replicate st.num_labels []) (by omega) (by simp)
    (fun L _ => by
      simp only [List.getD_eq_getElem?_getD, List.getElem?_replicate]
      split <;> rfl)
  refine ⟨{ st with label_cuboids_ := out }, by simp [fit_label_cuboids, h1],
    fun i hi => h4 i (Nat.zero_le _) hi, ?_⟩
  intro i j p hi hj hij hpi hpj
  have gi := (selected_positions_spec fit.param_confidence_tol i st.sample_points_ 0).2 p
  have gj := (selected_positions_spec fit.param_confidence_tol j st.sample_points_ 0).2 p
  simp only [Nat.zero_le, Nat.sub_zero, true_and] at gi gj
  obtain ⟨sp, hsp, hci⟩ := gi.1 hpi
  obtain ⟨sp1, hsp1, hcj⟩ := gj.1 hpj
  rw [hsp] at hsp1
  cases hsp1
  exact hone sp (List.getElem?_mem hsp) i hi j hj hij hci hcj

theorem selected_points_of_two_labels_disjoint_witness :
    demoSeatLeg.ConfidencesSized ∧
    demoSeatLeg.SingleConfidentLabel demoFitting.param_confidence_tol ∧
    ∃ st1, demoSeatLeg.fit_label_cuboids demoFitting = some st1 ∧
      (∀ i : Nat, i < demoSeatLeg.num_labels →
        st1.label_cuboids_.getD i [] =
          (demoFitting.compute_bbox demoSeatLeg.sample_points_
            { label_index_ := i,
              sample_points_ :=
                demoSeatLeg.confident_points demoFitting.param_confidence_tol i }).toList) ∧
      ∀ i j p : Nat, i < demoSeatLeg.num_labels → j < demoSeatLeg.num_labels → i ≠ j →
        p ∈ demoSeatLeg.confident_points demoFitting.param_confidence_tol i →
        p ∉ demoSeatLeg.confident_points demoFitting.param_confidence_tol j :=
  ⟨by decide, by decide!,
    selected_points_of_two_labels_disjoint demoFitting demoSeatLeg (by decide) (by decide!)⟩

/-- C26, counterexample: on the labels file with the lines `seat pnts 1`, `leg`,
`back pnts 1`, whose second line has a format error, `load_labels` returns failure
and `num_labels()` is 1 afterwards: the label `seat` of the first line stays. -/
theorem load_labels_format_error_keeps_labels :
    LabelLineWellFormed "seat pnts 1" ∧ LabelFormatError "leg" ∧
    (demoCandidates.load_labels (some demoBrokenLabels)).1 = false ∧
    (demoCandidates.load_labels (some demoBrokenLabels)).2.num_labels = 1 ∧
    (demoCandidates.load_labels (some demoBrokenLabels)).2.label_names_ = ["seat"] := by
  decide

/-- C26, amended: when `load_labels` hits a format error (a non-empty line with fewer
than three space-separated tokens, or whose second and third tokens are not `pnts`
and `1`) after well-formed lines, it returns failure and leaves the labels of the
well-formed lines that preceded the bad one, numbered in file order, with empty
symmetry lists, no cuboids and query label index 0: `num_labels()` is the number
of those lines. -/
theorem load_labels_format_error_leaves_read_labels (st : MeshCuboidStructure)
    (good : List String) (bad : String) (rest : List String)
    (hgood : ∀ buffer ∈ good, LabelLineWellFormed buffer) (hbad : LabelFormatError bad) :
    st.load_labels (some (good ++ bad :: rest)) =
      (false, { st with
        labels_ := List.range good.length
        label_names_ := good.map label_line_name
        label_symmetries_ := List.replicate good.length []
        label_cuboids_ := []
        query_label_index_ := 0 }) ∧
    (st.load_labels (some (good ++ bad :: rest))).2.num_labels = good.length := by
  have h := load_labels_loop_abort good bad rest hbad 0 st.clear_cuboids.clear_labels hgood
  have heq : st.load_labels (some (good ++ bad :: rest)) =
      (false, { st with
        labels_ := List.range good.length
        label_names_ := good.map label_line_name
        label_symmetries_ := List.replicate good.length []
        label_cuboids_ := []
        query_label_index_ := 0 }) := by
    simp only [load_labels, h]
    simp [clear_labels, clear_cuboids, List.range_eq_range']
  refine ⟨heq, ?_⟩
  rw [heq]
  simp [num_labels]

theorem load_labels_format_error_leaves_read_labels_witness :
    (∀ buffer ∈ ["seat pnts 1"], LabelLineWellFormed buffer) ∧ LabelFormatError "leg" ∧
    (demoCandidates.load_labels (some (["seat pnts 1"] ++ "leg" :: ["back pnts 1", ""])) =
      (false, { demoCandidates with
        labels_ := List.range ["seat pnts 1"].length
        label_names_ := ["seat pnts 1"].map label_line_name
        label_symmetries_ := List.replicate ["seat pnts 1"].length []
        label_cuboids_ := []
        query_label_index_ := 0 }) ∧
    (demoCandidates.load_labels
      (some (["seat pnts 1"] ++ "leg" :: ["back pnts 1", ""]))).2.num_labels =
        ["seat pnts 1"].length) :=
  ⟨by decide, by decide,
    load_labels_format_error_leaves_read_labels demoCandidates ["seat pnts 1"] "leg"
      ["back pnts 1", ""] (by decide) (by decide)⟩

/-- C27: `load_sample_point_labels` returns failure whenever no labels are loaded or
no sample points are loaded, whatever the file is, and the structure (labels,
sample points and their confidence vectors, cuboids, query label index) is then
exactly as it was. -/
theorem load_sample_point_labels_precondition (conv : NumberConversions)
    (st : MeshCuboidStructure) (file : Option (List String))
    (h : st.labels_ = [] ∨ st.sample_points_ = []) :
    st.load_sample_point_labels conv file = some (false, st) := by
  unfold load_sample_point_labels
  rcases h with h | h
  · rw [h]
    rfl
  · rw [h]
    cases st.labels_.isEmpty <;> rfl

theorem load_sample_point_labels_precondition_witness :
    (demoIdentity.labels_ = [] ∨ demoIdentity.sample_points_ = []) ∧
    (demoNoPoints.labels_ = [] ∨ demoNoPoints.sample_points_ = []) ∧
    demoIdentity.load_sample_point_labels demoConversions (some demoPointLabelsFile) =
      some (false, demoIdentity) ∧
    demoNoPoints.load_sample_point_labels demoConversions (some demoPointLabelsFile) =
      some (false, demoNoPoints) :=
  ⟨by decide, by decide,
    load_sample_point_labels_precondition demoConversions demoIdentity _ (by decide),
    load_sample_point_labels_precondition demoConversions demoNoPoints _ (by decide)⟩

/-- C30, counterexample: `load_sample_points` on the file with the single line `5`,
which holds only a face index, succeeds and leaves no sample point; and on the
file with the lines `3 1 0 0 7 8 9`, `5`, `4 0 1 0 1 2 3` it succeeds and leaves
the two sample points of the faces 3 and 4, none of the face 5 (in binary64
arithmetic, and in exact arithmetic alike). -/
theorem load_sample_points_drops_face_id_only_line :
    only_face_id "5" = true ∧
    (demoSeatLeg.load_sample_points round_double demoConversions demoMesh (some ["5"])).map
      (fun r => (r.1, r.2.sample_points_)) = some (true, []) ∧
    (demoSeatLeg.load_sample_points round_double demoConversions demoMesh
      (some demoSamplePointsFile)).map
      (fun r => (r.1, r.2.sample_points_.map fun sp => sp.corr_fid_)) = some (true, [3, 4]) ∧
    (demoSeatLeg.load_sample_points id demoConversions demoMesh (some ["5"])).map
      (fun r => (r.1, r.2.sample_points_)) = some (true, []) ∧
    (demoSeatLeg.load_sample_points id demoConversions demoMesh
      (some demoSamplePointsFile)).map
      (fun r => (r.1, r.2.sample_points_.map fun sp => sp.corr_fid_)) = some (true, [3, 4]) := by
  refine ⟨by decide, by decide!, by decide!, by decide!, by decide!⟩

/-- C30, amended: `load_sample_points` accepts a line that contains only a face index
(a line without a space): the load succeeds and that line contributes no sample
point. For every file whose face indices are not negative and every mesh with a
positive scale, the sample points left are those of the lines in which the face
index is followed by a space, one per line and in file order, each with the face
index of its line and with its position under the transformation of the mesh; this
for every rounding `fl` of the arithmetic, and with the exact position
`p·scale + translation` when the arithmetic is exact. -/
theorem load_sample_points_skips_face_id_only_lines (fl : ℚ → ℚ) (conv : NumberConversions)
    (mesh : MyMesh) (st : MeshCuboidStructure) (lines : List String)
    (hscale : 0 < mesh.scale_)
    (hfid : ∀ buffer ∈ lines, 0 ≤ conv.atoi (face_id_token buffer)) :
    (∀ buffer : String, only_face_id buffer = true ↔ ' ' ∉ buffer.data) ∧
    (∃ st1, st.load_sample_points fl conv mesh (some lines) = some (true, st1) ∧
      st1.sample_points_ =
        ((lines.filter fun buffer => !only_face_id buffer).map
          (sample_point_of_line conv)).map (fun sp =>
            { sp with
              point_ :=
                (((sp.point_.mul mesh.scale_).map fl).add mesh.translation_).map fl }) ∧
      st1.sample_points_.map (fun sp => sp.corr_fid_) =
        (lines.filter fun buffer => !only_face_id buffer).map
          (fun buffer => (conv.atoi (face_id_token buffer)).toNat)) ∧
    ∃ st1, st.load_sample_points id conv mesh (some lines) = some (true, st1) ∧
      st1.sample_points_ =
        ((lines.filter fun buffer => !only_face_id buffer).map
          (sample_point_of_line conv)).map (fun sp =>
            { sp with point_ := (sp.point_.mul mesh.scale_).add mesh.translation_ }) ∧
      st1.sample_points_.map (fun sp => sp.corr_fid_) =
        (lines.filter fun buffer => !only_face_id buffer).map
          (fun buffer => (conv.atoi (face_id_token buffer)).toNat) := by
  have hfids : ∀ g : MeshSamplePoint → MeshSamplePoint, (∀ sp, (g sp).corr_fid_ = sp.corr_fid_) →
      ((((lines.filter fun buffer => !only_face_id buffer).map
          (sample_point_of_line conv)).map g).map (fun sp => sp.corr_fid_)) =
        (lines.filter fun buffer => !only_face_id buffer).map
          (fun buffer => (conv.atoi (face_id_token buffer)).toNat) := by
    intro g hg
    simp only [List.map_map]
    apply List.map_congr_left
    intro buffer _
    simp only [Function.comp, hg]
    rfl
  refine ⟨fun buffer => getline_eof_iff ' ' buffer.data,
    ⟨_, load_sample_points_eq fl conv mesh st lines hscale hfid, rfl, hfids _ (fun _ => rfl)⟩,
    ⟨_, load_sample_points_eq id conv mesh st lines hscale hfid, rfl, hfids _ (fun _ => rfl)⟩⟩

theorem load_sample_points_skips_face_id_only_lines_witness :
    0 < demoMesh.scale_ ∧
    (∀ buffer ∈ demoSamplePointsFile, 0 ≤ demoConversions.atoi (face_id_token buffer)) ∧
    (demoSamplePointsFile.filter fun buffer => !only_face_id buffer) =
      ["3 1 0 0 7 8 9", "4 0 1 0 1 2 3"] ∧
    ((∀ buffer : String, only_face_id buffer = true ↔ ' ' ∉ buffer.data) ∧
    (∃ st1, demoSeatLeg.load_sample_points round_double demoConversions demoMesh
        (some demoSamplePointsFile) = some (true, st1) ∧
      st1.sample_points_ =
        ((demoSamplePointsFile.filter fun buffer => !only_face_id buffer).map
          (sample_point_of_line demoConversions)).map (fun sp =>
            { sp with
              point_ :=
                (((sp.point_.mul demoMesh.scale_).map round_double).add
                  demoMesh.translation_).map round_double }) ∧
      st1.sample_points_.map (fun sp => sp.corr_fid_) =
        (demoSamplePointsFile.filter fun buffer => !only_face_id buffer).map
          (fun buffer => (demoConversions.atoi (face_id_token buffer)).toNat)) ∧
    ∃ st1, demoSeatLeg.load_sample_points id demoConversions demoMesh
        (some demoSamplePointsFile) = some (true, st1) ∧
      st1.sample_points_ =
        ((demoSamplePointsFile.filter fun buffer => !only_face_id buffer).map
          (sample_point_of_line demoConversions)).map (fun sp =>
            { sp with point_ := (sp.point_.mul demoMesh.scale_).add demoMesh.translation_ }) ∧
      st1.sample_points_.map (fun sp => sp.corr_fid_) =
        (demoSamplePointsFile.filter fun buffer => !only_face_id buffer).map
          (fun buffer => (demoConversions.atoi (face_id_token buffer)).toNat)) :=
  ⟨by decide!, by decide, by decide,
    load_sample_points_skips_face_id_only_lines round_double demoConversions demoMesh
      demoSeatLeg demoSamplePointsFile (by decide!) (by decide)⟩

/-- C24, counterexample: `clear_labels()` on a structure with three labels and four
cuboids removes the labels and leaves every cuboid in the per-label cuboid lists;
and `load_cuboids` on a file that cannot be opened returns failure with the
structure, its cuboids included, as it was. -/
theorem clear_labels_keeps_cuboids :
    demoCandidates.clear_labels.num_labels = 0 ∧
    demoCandidates.clear_labels.label_cuboids_ = demoCandidates.label_cuboids_ ∧
    (demoCandidates.clear_labels.label_cuboids_.map fun l => l.length) = [3, 0, 1] ∧
    demoCandidates.load_cuboids demoConversions id none = some (false, demoCandidates) := by
  decide!

/-- C24, amended: `clear()`, `load_labels` once the file is opened and `load_cuboids`
once the file is opened discard all existing cuboids: after `clear()` and after
`load_labels` (successful or not) the per-label cuboid lists are empty, and the
result of `load_cuboids` is the one it has on the structure without its cuboids.
`clear_labels()` removes the labels and leaves the per-label cuboid lists as they
were. -/
theorem label_removal_discards_cuboids (conv : NumberConversions)
    (cuboidize : MeshCuboid → MeshCuboid) (st : MeshCuboidStructure) (lines : List String) :
    (st.clear.label_cuboids_ = [] ∧ st.clear.num_labels = 0) ∧
    (st.load_labels (some lines)).2.label_cuboids_ = [] ∧
    st.load_cuboids conv cuboidize (some lines) =
      ({ st with label_cuboids_ := [] }).load_cuboids conv cuboidize (some lines) ∧
    (st.clear_labels.label_cuboids_ = st.label_cuboids_ ∧ st.clear_labels.num_labels = 0) :=
  ⟨⟨rfl, rfl⟩, load_labels_cuboids st lines, rfl, ⟨rfl, rfl⟩⟩

/-- C25, counterexample: after the successful `load_labels` of a file with three
labels the per-label cuboid lists have 0 entries, not 3; and after the successful
`load_cuboids` of a file with two cuboids the label names and the symmetry lists
have 0 entries, not 2. -/
theorem per_label_collections_not_all_sized :
    (MeshCuboidStructure.load_labels {} (some demoLabels)).1 = true ∧
    (MeshCuboidStructure.load_labels {} (some demoLabels)).2.num_labels = 3 ∧
    (MeshCuboidStructure.load_labels {} (some demoLabels)).2.label_cuboids_.length = 0 ∧
    (demoCandidates.load_cuboids demoConversions id (some demoCuboidsFile)).map
      (fun r => (r.1, r.2.num_labels, r.2.label_names_.length, r.2.label_symmetries_.length,
        r.2.label_cuboids_.length)) = some (true, 2, 0, 0, 2) := by
  refine ⟨by decide, by decide, by decide, by decide!⟩

/-- C25, amended: after every successful `load_labels` the label names and the
symmetry lists have exactly `num_labels` entries and the per-label cuboid lists are
empty; after every successful `load_label_symmetries` the symmetry lists have
exactly `num_labels` entries, labels, names and cuboid lists being as before; after
every successful `load_cuboids` the per-label cuboid lists have exactly
`num_labels` entries and the label names and symmetry lists are empty; after every
`compute_label_cuboids` and `apply_mesh_face_labels_to_cuboids` that returns, the
per-label cuboid lists have exactly `num_labels` entries. -/
theorem rebuilt_collections_sized :
    (∀ (st st1 : MeshCuboidStructure) (lines : List String),
      st.load_labels (some lines) = (true, st1) →
      st1.label_names_.length = st1.num_labels ∧
      st1.label_symmetries_.length = st1.num_labels ∧ st1.label_cuboids_ = []) ∧
    (∀ (st st1 : MeshCuboidStructure) (file : Option (List String)),
      st.load_label_symmetries file = some (true, st1) →
      st1.label_symmetries_.length = st1.num_labels ∧ st1.labels_ = st.labels_ ∧
      st1.label_names_ = st.label_names_ ∧ st1.label_cuboids_ = st.label_cuboids_) ∧
    (∀ (conv : NumberConversions) (cuboidize : MeshCuboid → MeshCuboid)
      (st st1 : MeshCuboidStructure) (file : Option (List String)),
      st.load_cuboids conv cuboidize file = some (true, st1) →
      st1.label_cuboids_.length = st1.num_labels ∧ st1.label_names_ = [] ∧
      st1.label_symmetries_ = []) ∧
    (∀ (fit : CuboidFitting) (st st1 : MeshCuboidStructure),
      st.compute_label_cuboids fit = some st1 →
      st1.label_cuboids_.length = st1.num_labels ∧ st1.labels_ = st.labels_) ∧
    (∀ (mesh : MyMesh) (update_label : List MeshSamplePoint → MeshCuboid → MeshCuboid)
      (st st1 : MeshCuboidStructure),
      st.apply_mesh_face_labels_to_cuboids mesh update_label = some st1 →
      st1.label_cuboids_.length = st1.num_labels ∧ st1.labels_ = st.labels_) := by
  refine ⟨?_, ?_, ?_, ?_, ?_⟩
  · intro st st1 lines h
    obtain ⟨h1, h2, h3, h4⟩ := load_labels_true st st1 lines h
    exact ⟨by simp [num_labels, h1, h2], by simp [num_labels, h1, h3], h4⟩
  · intro st st1 file h
    cases file with
    | none => simp [load_label_symmetries] at h
    | some lines =>
      simp only [load_label_symmetries, Option.map_eq_some', Prod.mk.injEq, true_and] at h
      obtain ⟨st2, hloop, rfl⟩ := h
      obtain ⟨h1, h2, h3, h4⟩ := load_label_symmetries_loop_sizes lines _ _ hloop
      simp only [List.length_replicate] at h1
      exact ⟨by rw [h1, num_labels, num_labels, h2], h2, h3, h4⟩
  · intro conv cuboidize st st1 file h
    exact load_cuboids_sizes conv cuboidize st st1 file h
  · intro fit st st1 h
    simp only [compute_label_cuboids, Option.map_eq_some', Option.bind_eq_some] at h
    obtain ⟨st3, ⟨st2, hfit, hsplit⟩, rfl⟩ := h
    simp only [fit_label_cuboids, Option.map_eq_some'] at hfit
    obtain ⟨out, _, rfl⟩ := hfit
    unfold split_label_cuboids at hsplit
    split at hsplit
    · rename_i hlen
      cases hsplit
      exact ⟨by simpa [num_labels] using hlen, rfl⟩
    · cases hsplit
  · intro mesh update_label st st1 h
    simp only [apply_mesh_face_labels_to_cuboids, Option.bind_eq_some, Option.map_eq_some'] at h
    obtain ⟨st2, hpoints, lc, hdist, rfl⟩ := h
    simp only [apply_mesh_face_labels_to_sample_points, Option.map_eq_some'] at hpoints
    obtain ⟨pts, _, rfl⟩ := hpoints
    have hlen := distribute_cuboids_length _ _ _ hdist
    exact ⟨by simpa [num_labels] using hlen, rfl⟩

theorem rebuilt_collections_sized_witness :
    (((MeshCuboidStructure.load_labels {} (some demoLabels)).2.label_names_.length = 3 ∧
      (MeshCuboidStructure.load_labels {} (some demoLabels)).2.num_labels = 3) ∧
      (MeshCuboidStructure.load_labels {} (some demoLabels)).2.label_names_.length =
        (MeshCuboidStructure.load_labels {} (some demoLabels)).2.num_labels ∧
      (MeshCuboidStructure.load_labels {} (some demoLabels)).2.label_symmetries_.length =
        (MeshCuboidStructure.load_labels {} (some demoLabels)).2.num_labels ∧
      (MeshCuboidStructure.load_labels {} (some demoLabels)).2.label_cuboids_ = []) ∧
    (({ demoFourLabels with
        label_symmetries_ := [[1, 2], [0, 2], [0, 1], []] } : MeshCuboidStructure).label_symmetries_.length
      = ({ demoFourLabels with
        label_symmetries_ := [[1, 2], [0, 2], [0, 1], []] } : MeshCuboidStructure).num_labels) ∧
    (((demoCandidates.load_cuboids demoConversions id (some demoCuboidsFile)).getD
        (false, demoCandidates)).2.label_cuboids_.length =
      ((demoCandidates.load_cuboids demoConversions id (some demoCuboidsFile)).getD
        (false, demoCandidates)).2.num_labels) ∧
    (((demoSeatLeg.compute_label_cuboids demoFitting).getD demoSeatLeg).label_cuboids_.length =
      ((demoSeatLeg.compute_label_cuboids demoFitting).getD demoSeatLeg).num_labels) ∧
    (((demoFaceCuboids.apply_mesh_face_labels_to_cuboids demoMesh fun _ c => c).getD
        demoFaceCuboids).label_cuboids_.map (fun l => l.map fun c => c.label_index_) =
        [[0], [], [2]] ∧
      ((demoFaceCuboids.apply_mesh_face_labels_to_cuboids demoMesh fun _ c => c).getD
        demoFaceCuboids).label_cuboids_.length =
      ((demoFaceCuboids.apply_mesh_face_labels_to_cuboids demoMesh fun _ c => c).getD
        demoFaceCuboids).num_labels) :=
  ⟨⟨by decide, rebuilt_collections_sized.1 {} _ demoLabels (by decide)⟩,
    (rebuilt_collections_sized.2.1 demoFourLabels _ (some demoSymmetryFile) (by decide)).1,
    (rebuilt_collections_sized.2.2.1 demoConversions id demoCandidates _ (some demoCuboidsFile)
      (by decide!)).1,
    (rebuilt_collections_sized.2.2.2.1 demoFitting demoSeatLeg _ (by decide!)).1,
    ⟨by decide!,
      (rebuilt_collections_sized.2.2.2.2 demoMesh (fun _ c => c) demoFaceCuboids _
        (by decide!)).1⟩⟩

/-- C29, the failing input: on the cuboids file with an empty first line and a cuboid
on its second line, `load_cuboids` succeeds; the cuboid read from line 1 has label
index 1 and is stored in slot 0 of the per-label cuboid lists, `labels_[0]` is 1
and `labels_` has no entry 1. On the file with cuboids on its lines 0 and 1 the
cuboids have the label indices 0 and 1 in the slots 0 and 1, and `labels_` is
`[0, 1]`. -/
theorem load_cuboids_blank_line_shifts_labels :
    (demoCandidates.load_cuboids demoConversions id (some demoCuboidsFileBlank)).map
      (fun r => (r.1, r.2.labels_,
        r.2.label_cuboids_.map fun l => l.map fun c => c.label_index_)) =
      some (true, [1], [[1]]) ∧
    (demoCandidates.load_cuboids demoConversions id (some demoCuboidsFile)).map
      (fun r => (r.1, r.2.labels_,
        r.2.label_cuboids_.map fun l => l.map fun c => c.label_index_)) =
      some (true, [0, 1], [[0], [1]]) := by
  refine ⟨by decide!, by decide!⟩

/-- C36: after a successful `load_cuboids` the number of labels is the number of
cuboid lines (the non-empty lines) of the file. With at least one cuboid line the
structure holds exactly 900 sample points, whatever sample points it held before;
all of them are assigned to the first cuboid, `label_cuboids_[0][0]`, and each has
one confidence value per label, 1 for label 0 and 0 for every other label. With
no cuboid line the structure holds no sample points. -/
theorem load_cuboids_grid_sample_points (conv : NumberConversions)
    (cuboidize : MeshCuboid → MeshCuboid) (st st1 : MeshCuboidStructure)
    (lines : List String)
    (h : st.load_cuboids conv cuboidize (some lines) = some (true, st1)) :
    st1.num_labels = (lines.filter fun buffer => decide (buffer ≠ "")).length ∧
    (1 ≤ (lines.filter fun buffer => decide (buffer ≠ "")).length →
      st1.sample_points_.length = 900 ∧
      (∃ first : MeshCuboid, (st1.label_cuboids_.getD 0 [])[0]? = some first ∧
        ∀ p : Nat, p < 900 → p ∈ first.sample_points_) ∧
      ∀ sp ∈ st1.sample_points_,
        sp.label_index_confidence_.length = st1.num_labels ∧
        sp.label_index_confidence_.getD 0 0 = 1 ∧
        ∀ k : Nat, k ≠ 0 → sp.label_index_confidence_.getD k 0 = 0) ∧
    ((lines.filter fun buffer => decide (buffer ≠ "")).length = 0 →
      st1.sample_points_ = []) := by
  simp only [load_cuboids, Option.bind_eq_some, Option.map_eq_some', Prod.mk.injEq,
    true_and] at h
  obtain ⟨st2, hloop, st3, hgrid, rfl⟩ := h
  have hlabels := load_cuboids_loop_labels conv cuboidize lines 0 _ _ hloop
  obtain ⟨_, _, _, hpoints⟩ := load_cuboids_loop_sizes conv cuboidize lines 0 _ _ hloop
  simp only [clear, clear_labels, clear_cuboids, clear_sample_points, List.length_nil,
    Nat.zero_add] at hlabels hpoints
  unfold add_grid_sample_points at hgrid
  by_cases hn : 0 < st2.num_labels
  · rw [if_pos hn] at hgrid
    split at hgrid
    · cases hgrid
    · rename_i first hfirst
      cases hgrid
      have hslot : 0 < st2.label_cuboids_.length := by
        by_contra hlt
        rw [List.getD_eq_default _ _ (by omega)] at hfirst
        cases hfirst
      have hzero : 0 < (st2.label_cuboids_.getD 0 []).length := by
        by_contra hlt
        rw [List.getElem?_eq_none (by omega)] at hfirst
        cases hfirst
      refine ⟨hlabels, fun _ => ⟨?_, ?_, ?_⟩, fun h0 => ?_⟩
      · show (st2.sample_points_ ++ grid_sample_points st2.num_labels first).length = 900
        rw [hpoints, List.nil_append, grid_sample_points_length]
      · refine ⟨{ first with
          sample_points_ := first.sample_points_ ++
            List.range' st2.sample_points_.length
              (grid_sample_points st2.num_labels first).length }, ?_, fun p hp => ?_⟩
        · show ((st2.label_cuboids_.set 0 ((st2.label_cuboids_.getD 0 []).set 0
            { first with
              sample_points_ := first.sample_points_ ++
                List.range' st2.sample_points_.length
                  (grid_sample_points st2.num_labels first).length })).getD 0 [])[0]? = some _
          rw [getD_set_eq _ _ _ _ hslot, List.getElem?_set_self hzero]
        · show p ∈ first.sample_points_ ++
            List.range' st2.sample_points_.length (grid_sample_points st2.num_labels first).length
          rw [hpoints, grid_sample_points_length]
          exact List.mem_append_right _ (List.mem_range'_1.2 ⟨Nat.zero_le _, by simpa using hp⟩)
      · intro sp hsp
        have hsp1 : sp ∈ st2.sample_points_ ++ grid_sample_points st2.num_labels first := hsp
        rw [hpoints, List.nil_append] at hsp1
        obtain ⟨hconf, _⟩ := grid_sample_points_confidence _ _ sp hsp1
        rw [hconf]
        exact ⟨one_hot_length _ _, one_hot_at _ _ hn, fun k hk => one_hot_off _ _ k hk⟩
      · have : st2.num_labels = 0 := by rw [num_labels, hlabels, h0]
        omega
  · rw [if_neg hn] at hgrid
    cases hgrid
    have hzero : st2.labels_.length = 0 := by
      have : st2.num_labels = st2.labels_.length := rfl
      omega
    refine ⟨hlabels, fun h1 => ?_, fun _ => hpoints⟩
    omega

theorem load_cuboids_grid_sample_points_witness :
    demoSeatLeg.sample_points_.length = 4 ∧
    (1 ≤ (demoCuboidsFile.filter fun buffer => decide (buffer ≠ "")).length ∧
      (demoCuboidsFile.filter fun buffer => decide (buffer ≠ "")).length = 2) ∧
    ((demoSeatLeg.load_cuboids demoConversions id (some demoCuboidsFile)).getD
        (false, demoSeatLeg)).2.num_labels = 2 ∧
    ((demoSeatLeg.load_cuboids demoConversions id (some demoCuboidsFile)).getD
        (false, demoSeatLeg)).2.sample_points_.length = 900 ∧
    ((demoSeatLeg.load_cuboids demoConversions id (some [""])).getD
        (true, demoSeatLeg)).2.sample_points_ = [] :=
  ⟨by decide, by decide,
    (load_cuboids_grid_sample_points demoConversions id demoSeatLeg _ demoCuboidsFile
      (by decide!)).1,
    ((load_cuboids_grid_sample_points demoConversions id demoSeatLeg _ demoCuboidsFile
      (by decide!)).2.1 (by decide)).1,
    (load_cuboids_grid_sample_points demoConversions id demoSeatLeg _ [""]
      (by decide!)).2.2 (by decide)⟩

/-- C35: for every corpus whose per-label feature and transformation lists all have
the object list's length, and with no ignore list, entry `(i, j)` of every matrix
returned by `get_joint_normal_relations`, and of every matrix returned by
`get_cond_normal_relations`, is non-null if and only if `j` is in `i`'s list
returned by `get_label_cooccurrences`; `get_label_cooccurrences` returns on such a
corpus, and so do the two relation methods when feature records and transformed
features have `k_num_features` values. -/
theorem relations_nonnull_iff_cooccurring (g k : Nat) (t : MeshCuboidTrainer)
    (hal : t.FullyAligned) :
    ∃ c, t.get_label_cooccurrences = some c ∧
      (∀ M, t.get_joint_normal_relations k none = some M →
        ∀ i j : Nat, i < t.feature_list_.length → j < t.feature_list_.length →
          (relation_at M i j ≠ none ↔ j ∈ c.getD i [])) ∧
      (∀ M, t.get_cond_normal_relations g k none = some M →
        ∀ i j : Nat, i < t.feature_list_.length → j < t.feature_list_.length →
          (relation_at M i j ≠ none ↔ j ∈ c.getD i [])) ∧
      (g ≤ k → t.FeaturesSized k → t.TransformsSized k →
        (t.get_joint_normal_relations k none).isSome = true ∧
        (t.get_cond_normal_relations g k none).isSome = true) := by
  obtain ⟨c, hc⟩ := get_label_cooccurrences_some t (fullyAligned_aligned t hal)
  refine ⟨c, hc, ?_, ?_, ?_⟩
  · intro M hM i j hi hj
    exact nonnull_iff_cooccurring t hal M c (joint_null_exactly k t hal none M hM) hc i j hi hj
  · intro M hM i j hi hj
    exact nonnull_iff_cooccurring t hal M c (cond_null_exactly g k t hal none M hM) hc i j hi hj
  · intro hg hfs hts
    obtain ⟨M1, h1⟩ := get_joint_normal_relations_some k t hal hfs hts none
    obtain ⟨M2, h2⟩ := get_cond_normal_relations_some g k hg t hal hfs hts none
    rw [h1, h2]
    exact ⟨rfl, rfl⟩

theorem relations_nonnull_iff_cooccurring_witness :
    demoCorpusValues.FullyAligned ∧
    demoCorpusValues.get_label_cooccurrences = some [[1], [0]] ∧
    (demoCorpusValues.get_joint_normal_relations 1 none).map
      (fun M => M.map fun row => row.map fun e => e.isSome) =
      some [[false, true], [true, false]] ∧
    (demoCorpusValues.get_cond_normal_relations 1 1 none).map
      (fun M => M.map fun row => row.map fun e => e.isSome) =
      some [[false, true], [true, false]] ∧
    ∃ c, demoCorpusValues.get_label_cooccurrences = some c ∧
      (∀ M, demoCorpusValues.get_joint_normal_relations 1 none = some M →
        ∀ i j : Nat, i < demoCorpusValues.feature_list_.length →
          j < demoCorpusValues.feature_list_.length →
          (relation_at M i j ≠ none ↔ j ∈ c.getD i [])) ∧
      (∀ M, demoCorpusValues.get_cond_normal_relations 1 1 none = some M →
        ∀ i j : Nat, i < demoCorpusValues.feature_list_.length →
          j < demoCorpusValues.feature_list_.length →
          (relation_at M i j ≠ none ↔ j ∈ c.getD i [])) ∧
      ((1 : Nat) ≤ 1 → demoCorpusValues.FeaturesSized 1 → demoCorpusValues.TransformsSized 1 →
        (demoCorpusValues.get_joint_normal_relations 1 none).isSome = true ∧
        (demoCorpusValues.get_cond_normal_relations 1 1 none).isSome = true) :=
  ⟨by decide, by decide, by decide!, by decide!,
    relations_nonnull_iff_cooccurring 1 1 demoCorpusValues (by decide)⟩

/-- C33: whenever `get_cond_normal_relations` returns, for every ordered pair `(i, j)`,
`i ≠ j`, with at least one valid object, the `inv_cov` stored is the lower-right
block of the regularized joint precision and is exactly the conditional precision
of `X2` given `X1`: with `Σ = cov + 1e-3·I` partitioned into the blocks `Σ11`,
`Σ12`, `Σ21`, `Σ22`, `inv_cov·(Σ22 − Σ21·Σ11⁻¹·Σ12) = I`, in exact arithmetic. -/
theorem cond_inv_cov_is_conditional_precision (g k : Nat) (t : MeshCuboidTrainer)
    (ignored : Option (List String))
    (rels : List (List (Option (MeshCuboidCondNormalRelations g k))))
    (hret : t.get_cond_normal_relations g k ignored = some rels) (i j : Nat)
    (hi : i < t.feature_list_.length) (hj : j < t.feature_list_.length) (hij : i ≠ j)
    (hvalid : 1 ≤ (t.cond_valid_objects ignored i j).length) :
    ∃ rel : MeshCuboidCondNormalRelations g k,
      relation_at rels i j = some rel ∧
      rel.inv_cov_ = lower_right_block g k (regularized_inverse
        (outer_product_covariance (concat_columns g k (t.cond_pair_rows g ignored i j))
          (colwise_mean (concat_columns g k (t.cond_pair_rows g ignored i j))))) ∧
      rel.inv_cov_ * conditional_covariance g k
        (outer_product_covariance (concat_columns g k (t.cond_pair_rows g ignored i j))
            (colwise_mean (concat_columns g k (t.cond_pair_rows g ignored i j))) +
          (1 / 1000 : ℚ) • (1 : Matrix (Fin (g + k)) (Fin (g + k)) ℚ)) = 1 := by
  obtain ⟨_, _, h3⟩ := get_cond_normal_relations_entry g k t ignored rels hret i j hi hj hij
  obtain ⟨rows, hrows, hrel⟩ := h3 (by omega)
  have hrows_eq : rows = t.cond_pair_rows g ignored i j := cond_rows_eq g k _ rows hrows
  subst hrows_eq
  refine ⟨fit_cond_normal g k (t.cond_pair_rows g ignored i j), hrel, ?_, ?_⟩
  · rw [← covariance_rowwise_sub]
    rfl
  · rw [← covariance_rowwise_sub]
    exact conditional_precision_covariance g k _

theorem cond_inv_cov_is_conditional_precision_witness :
    (demoCorpusValues.get_cond_normal_relations 1 1 none).isSome = true ∧
    1 ≤ (demoCorpusValues.cond_valid_objects none 0 1).length ∧
    conditional_covariance 1 1
      (outer_product_covariance (concat_columns 1 1 (demoCorpusValues.cond_pair_rows 1 none 0 1))
          (colwise_mean (concat_columns 1 1 (demoCorpusValues.cond_pair_rows 1 none 0 1))) +
        (1 / 1000 : ℚ) • (1 : Matrix (Fin (1 + 1)) (Fin (1 + 1)) ℚ)) 0 0 = 2001 / 1001000 ∧
    ∀ rels, demoCorpusValues.get_cond_normal_relations 1 1 none = some rels →
      ∃ rel : MeshCuboidCondNormalRelations 1 1,
        relation_at rels 0 1 = some rel ∧
        rel.inv_cov_ = lower_right_block 1 1 (regularized_inverse
          (outer_product_covariance
            (concat_columns 1 1 (demoCorpusValues.cond_pair_rows 1 none 0 1))
            (colwise_mean (concat_columns 1 1 (demoCorpusValues.cond_pair_rows 1 none 0 1))))) ∧
        rel.inv_cov_ * conditional_covariance 1 1
          (outer_product_covariance
              (concat_columns 1 1 (demoCorpusValues.cond_pair_rows 1 none 0 1))
              (colwise_mean (concat_columns 1 1 (demoCorpusValues.cond_pair_rows 1 none 0 1))) +
            (1 / 1000 : ℚ) • (1 : Matrix (Fin (1 + 1)) (Fin (1 + 1)) ℚ)) = 1 :=
  ⟨by decide!, by decide, by decide!, fun rels h =>
    cond_inv_cov_is_conditional_precision 1 1 demoCorpusValues none rels h 0 1
      (by decide) (by decide) (by decide) (by decide)⟩

/-- C37: `get_missing_label_index_groups` returns on every corpus whose size
assertions hold and for every given-label list with entries below `num_labels`:
the `num_labels` passes given to each of its loops suffice. Every pass of the outer
loop clears at least one missing flag, and the group it collects has no label
twice and exactly as many labels as flags were cleared; so for every corpus and
every given-label list the groups returned are non-empty, contain no label twice,
and contain at most `num_labels` labels together. -/
theorem missing_groups_terminate (t : MeshCuboidTrainer) (G : List Nat) :
    (t.Aligned → (∀ g ∈ G, g < t.feature_list_.length) →
      ∃ groups, t.get_missing_label_index_groups G = some groups) ∧
    (∀ groups, t.get_missing_label_index_groups G = some groups →
      groups.flatten.Nodup ∧ groups.flatten.length ≤ t.feature_list_.length ∧
      ∀ grp ∈ groups, grp ≠ []) ∧
    ∀ (cooc : List (List Nat)) (fuel : Nat) (m : List Bool) (seed : Nat) (g1 : List Nat)
      (m1 : List Bool), m.getD seed false = true →
      collect_group cooc t.feature_list_.length fuel [seed] (m.set seed false) [] =
        some (g1, m1) →
      m1.count true < m.count true ∧ g1.Nodup ∧
      g1.length + m1.count true = m.count true := by
  refine ⟨?_, get_missing_label_index_groups_result t G, ?_⟩
  · intro hal hG
    obtain ⟨c, hc⟩ := get_label_cooccurrences_some t hal
    obtain ⟨hlen, hmem⟩ := get_label_cooccurrences_result t c hc
    have hcooc : ∀ L x : Nat, x ∈ c.getD L [] → x < c.length := by
      intro L x hx
      rw [hlen]
      exact ((hmem L x).mp hx).2.1
    obtain ⟨missing, m1, m2, _⟩ := consider_given_labels_spec c c.length hcooc G
      (List.replicate c.length true) (by simp) (fun g hg => by rw [hlen]; exact hG g hg)
    obtain ⟨groups, g1, _⟩ := cluster_missing_spec c c.length hcooc c.length missing []
      (by rw [← m2]; exact List.count_le_length _ _) m2
    refine ⟨groups, ?_⟩
    rw [get_missing_label_index_groups_eq t c G hc, m1]
    exact g1
  · intro cooc fuel m seed g1 m1 hseed hcollect
    obtain ⟨p1, _, _, p4, _, p6, _, _⟩ :=
      collect_group_pass cooc t.feature_list_.length fuel m seed g1 m1 hseed hcollect
    exact ⟨p6, p1, p4⟩

theorem missing_groups_terminate_witness :
    demoCorpusFive.Aligned ∧ (∀ g ∈ [0], g < demoCorpusFive.feature_list_.length) ∧
    demoCorpusFive.get_missing_label_index_groups [0] = some [[1, 2, 3], [4]] ∧
    (∃ groups, demoCorpusFive.get_missing_label_index_groups [0] = some groups) ∧
    ([[1, 2, 3], [4]].flatten.Nodup ∧
      [[1, 2, 3], [4]].flatten.length ≤ demoCorpusFive.feature_list_.length ∧
      ∀ grp ∈ [[1, 2, 3], [4]], grp ≠ []) :=
  ⟨by decide, by decide, by decide,
    (missing_groups_terminate demoCorpusFive [0]).1 (by decide) (by decide),
    (missing_groups_terminate demoCorpusFive [0]).2.1 _ (by decide)⟩

/-- C31 (the code at the failing input): with the prefix `rel_` and the pair `(0, 1)`,
`load_joint_normal_relations` looks up the file `rel_0_1.csv`, and
`load_cond_normal_relations` looks up the file `0_1.csv`: for every prefix its file name
is the one of the empty prefix, and on a file system that holds both files it stores the
relation read from `0_1.csv` where the joint loader stores the one read from
`rel_0_1.csv`. -/
theorem load_cond_normal_relations_ignores_prefix :
    (∀ (P : String) (i j : Nat),
      cond_relation_filename P i j = joint_relation_filename "" i j) ∧
    joint_relation_filename "rel_" 0 1 = "rel_0_1.csv" ∧
    cond_relation_filename "rel_" 0 1 = "0_1.csv" ∧
    load_joint_normal_relations demoBothRelationFiles 2 "rel_" [] [] =
      some ([[none, some "rel_0_1.csv"], [none, none]], []) ∧
    load_cond_normal_relations demoBothRelationFiles 2 "rel_" [] [] =
      some ([[none, some "0_1.csv"], [none, none]], []) := by
  refine ⟨fun _ _ _ => rfl, ?_, ?_, ?_, ?_⟩ <;> decide

/-- C32 (the code at the failing input): every matrix either loader returns is
`n × n` with a null diagonal, does not depend on the relations held before the call,
and its entry `(i, j)`, `i ≠ j`, is null exactly when the file the loader names for the
pair does not exist; both loaders return when every file that exists parses. For
`load_joint_normal_relations` that file is the pair's relation file. For
`load_cond_normal_relations` it is not: with the prefix `rel_` on a file system that
holds `rel_0_1.csv`, the relation file of the pair `(0, 1)` exists and the entry
`(0, 1)` is null, where the joint loader sets it. -/
theorem load_cond_normal_relations_null_although_file_exists :
    (∀ (R : Type) (files : RelationFiles R) (n : Nat) (P : String)
      (before out : List (List (Option R))) (con con1 : List Char),
      (load_joint_normal_relations files n P before con =
        load_joint_normal_relations files n P [] con) ∧
      (load_cond_normal_relations files n P before con =
        load_cond_normal_relations files n P [] con) ∧
      ((∀ i j : Nat, files.file_exists (joint_relation_filename P i j) = true →
          (files.load_csv (joint_relation_filename P i j)).2 = true) →
        ∃ res, load_joint_normal_relations files n P before con = some (res, con)) ∧
      ((∀ i j : Nat, files.file_exists (cond_relation_filename P i j) = true →
          (files.load_csv (cond_relation_filename P i j)).2 = true) →
        ∃ res, load_cond_normal_relations files n P before con = some (res, con)) ∧
      (load_joint_normal_relations files n P before con = some (out, con1) →
        out.length = n ∧ ∀ i : Nat, i < n →
          (out.getD i []).length = n ∧ relation_at out i i = none ∧
          ∀ j : Nat, j < n → j ≠ i →
            (relation_at out i j = none ↔
              files.file_exists (joint_relation_filename P i j) = false)) ∧
      (load_cond_normal_relations files n P before con = some (out, con1) →
        out.length = n ∧ ∀ i : Nat, i < n →
          (out.getD i []).length = n ∧ relation_at out i i = none ∧
          ∀ j : Nat, j < n → j ≠ i →
            (relation_at out i j = none ↔
              files.file_exists (joint_relation_filename "" i j) = false))) ∧
    demoRelationFiles.file_exists (joint_relation_filename "rel_" 0 1) = true ∧
    load_joint_normal_relations demoRelationFiles 2 "rel_" [[some "old"]] [] =
      some ([[none, some "rel_0_1.csv"], [none, none]], []) ∧
    load_cond_normal_relations demoRelationFiles 2 "rel_" [[some "old"]] [] =
      some ([[none, none], [none, none]], []) ∧
    load_joint_normal_relations demoBrokenRelationFiles 2 "rel_" [] [] = none ∧
    load_joint_normal_relations demoBrokenRelationFiles 2 "rel_" [] ['x', '\n', 'y'] =
      some ([[none, some "rel_0_1.csv"], [none, none]], ['y']) := by
  have hshape : ∀ (R : Type) (files : RelationFiles R) (filename : Nat → Nat → String)
      (n : Nat) (before out : List (List (Option R))) (con con1 : List Char),
      load_relations files filename n before con = some (out, con1) →
      out.length = n ∧ ∀ i : Nat, i < n →
        (out.getD i []).length = n ∧ relation_at out i i = none ∧
        ∀ j : Nat, j < n → j ≠ i →
          (relation_at out i j = none ↔ files.file_exists (filename i j) = false) := by
    intro R files filename n before out con con1 h
    obtain ⟨h1, h2⟩ := load_relations_result files filename n before out con con1 h
    refine ⟨h1, fun i hi => ⟨(h2 i hi).1, ?_, fun j hj hji => ?_⟩⟩
    · rw [(h2 i hi).2 i, if_neg (fun hh => hh.2.1 rfl)]
    · rw [(h2 i hi).2 j]
      cases hex : files.file_exists (filename i j) with
      | false =>
        rw [if_neg (fun hh => Bool.false_ne_true hh.2.2)]
        exact ⟨fun _ => rfl, fun _ => rfl⟩
      | true =>
        rw [if_pos ⟨hj, hji, rfl⟩]
        exact ⟨fun hh => (by cases hh), fun hh => (by cases hh)⟩
  refine ⟨fun R files n P before out con con1 => ⟨?_, ?_, ?_, ?_, ?_, ?_⟩, by decide,
    by decide, by decide, by decide, by decide⟩
  · exact load_relations_discards files _ n before con
  · exact load_relations_discards files _ n before con
  · exact fun hparse => load_relations_returns files _ n before con hparse
  · exact fun hparse => load_relations_returns files _ n before con hparse
  · exact hshape R files _ n before out con con1
  · exact hshape R files (cond_relation_filename P) n before out con con1

end Claims

end CuboidPrediction
